import Mathlib

/-!
# Bank engine (src/HW2) and allocator (src/HW3): shallow embedding and checked properties

The C sources `account.c`, `bank.c` and `rwlock.c`, the functions of `main.c`
for the VIP queue and the trailing flags, and the single-threaded part of
`customAllocator.c` are translated function by function.

Modelling conventions
* A C `int` is a Lean `Int`.  Arithmetic on money (account balances, bank
  totals, exchange and commission amounts) goes through `wrap_int`, the
  32-bit two's-complement result; `is_int x` says that `x` is a value of type
  `int`.  Counters and indices bounded by an array size (`count`, `snap_head`,
  `snap_count`, loop indices) are computed exactly.
* A pointer to an `account_t` stored in `entries[i]` is the slot index `i`
  together with the account value read there; a write through the pointer is
  `List.set` on that slot.  `capacity` is `entries.length`.
* A bank operation is executed atomically (one thread at a time) and its locks
  are not represented, except in the two models of interleaved threads: the
  lock model of `rwlock.c` and the threads of `bank_deposit` on one account.
  `malloc`/`calloc`/`realloc` of the C library are taken to succeed.
* `log_line(fmt, ...)` appends a record holding the format string and the
  arguments.
-/

namespace Bank

/-! ## Machine integers -/

/-- Largest value of the C type `int`. -/
def INT_MAX : Int := 2147483647

/-- Smallest value of the C type `int`. -/
def INT_MIN : Int := -2147483648

/-- Result of `int` arithmetic whose exact value is `x`: reduction modulo 2^32
into the range `INT_MIN .. INT_MAX`. -/
def wrap_int (x : Int) : Int := (x + 2147483648) % 4294967296 - 2147483648

/-- The integer `x` is a value of the C type `int`. -/
def is_int (x : Int) : Prop := INT_MIN ≤ x ∧ x ≤ INT_MAX

instance (x : Int) : Decidable (is_int x) := by
  unfold is_int; infer_instance

/-! ## account.h / account.c -/

/-- The enum `currency_t`. -/
inductive currency_t where
  | CUR_ILS
  | CUR_USD
deriving DecidableEq, Repr

/-- The struct `account_t` without its lock. -/
structure account_t where
  id : Int
  password : Int
  balance_ils : Int
  balance_usd : Int
deriving DecidableEq, Repr

/-- The function `account_create`. -/
def account_create (id password init_ils init_usd : Int) : account_t :=
  { id := id, password := password, balance_ils := init_ils, balance_usd := init_usd }

/-- The function `account_check_password`. -/
def account_check_password (acc : account_t) (password : Int) : Bool :=
  decide (acc.password = password)

/-- The function `account_get_balance`. -/
def account_get_balance (acc : account_t) (cur : currency_t) : Int :=
  match cur with
  | .CUR_ILS => acc.balance_ils
  | .CUR_USD => acc.balance_usd

/-- The function `account_add`: no effect for `amount <= 0`, else `balance += amount`. -/
def account_add (acc : account_t) (cur : currency_t) (amount : Int) : account_t :=
  if amount ≤ 0 then acc
  else
    match cur with
    | .CUR_ILS => { acc with balance_ils := wrap_int (acc.balance_ils + amount) }
    | .CUR_USD => { acc with balance_usd := wrap_int (acc.balance_usd + amount) }

/-- Ghost predicate: the `+=` executed by `account_add` exceeds `INT_MAX`
(signed overflow in the source). -/
def account_add_overflows (acc : account_t) (cur : currency_t) (amount : Int) : Bool :=
  decide (0 < amount ∧ INT_MAX < account_get_balance acc cur + amount)

/-- The function `account_sub`: the returned pair is the return value
(`0` or `-1`) and the account afterwards. -/
def account_sub (acc : account_t) (cur : currency_t) (amount : Int) : Int × account_t :=
  if amount ≤ 0 then (0, acc)
  else
    match cur with
    | .CUR_ILS =>
      if acc.balance_ils ≥ amount then
        (0, { acc with balance_ils := wrap_int (acc.balance_ils - amount) })
      else (-1, acc)
    | .CUR_USD =>
      if acc.balance_usd ≥ amount then
        (0, { acc with balance_usd := wrap_int (acc.balance_usd - amount) })
      else (-1, acc)

/-! ## bank.h -/

/-- The enum `bank_rc_t`. -/
inductive bank_rc_t where
  | BANK_OK
  | BANK_ERR_ACCOUNT_EXISTS
  | BANK_ERR_ACCOUNT_NOT_FOUND
  | BANK_ERR_BAD_PASSWORD
  | BANK_ERR_INSUFFICIENT_FUNDS
  | BANK_ERR_ILLEGAL_AMOUNT
  | BANK_ERR_SAME_ACCOUNT
  | BANK_ERR_ATM_NOT_FOUND
  | BANK_ERR_ATM_ALREADY_CLOSED
  | BANK_ERR_ROLLBACK_NOT_POSSIBLE
deriving DecidableEq, Repr

/-- The struct `bank_acc_snapshot_t`. -/
structure bank_acc_snapshot_t where
  id : Int
  password : Int
  bal_ils : Int
  bal_usd : Int
deriving DecidableEq, Repr

/-- The struct `bank_snapshot_t`; `acc_count` is `accs.length`, and the
pointer `atm_closed` (always `NULL`) is left out. -/
structure bank_snapshot_t where
  bank_ils : Int
  bank_usd : Int
  accs : List bank_acc_snapshot_t
  atm_count : Int
deriving DecidableEq, Repr

/-- The struct `rollback_req`; the `next` pointer is the list order. -/
structure rollback_req where
  atm_id : Int
  iterations_back : Int
deriving DecidableEq, Repr

/-- The struct `acc_status_t`. -/
structure acc_status_t where
  id : Int
  password : Int
  ils : Int
  usd : Int
deriving DecidableEq, Repr

/-- The struct `bank_t` without its mutexes; `capacity` is `entries.length`
and the linked list `rb_head .. rb_tail` is `rb_queue`. -/
structure bank_t where
  entries : List (Option account_t)
  count : Int
  bank_ils : Int
  bank_usd : Int
  atm_count : Int
  atm_closed : List Int
  atm_close_req : List Int
  stop : Int
  snapshots : List bank_snapshot_t
  snap_capacity : Int
  snap_head : Int
  snap_count : Int
  rb_queue : List rollback_req
deriving DecidableEq, Repr

/-- Allocated slots of the entry array (`b->capacity`). -/
def bank_t.capacity (b : bank_t) : Nat := b.entries.length

/-! ## logger.c -/

/-- One variadic argument of a `log_line` call. -/
inductive log_arg where
  | d (v : Int)
  | s (v : String)
deriving DecidableEq, Repr

/-- One line handed to `log_line`: the format string and its arguments. -/
structure log_rec where
  fmt : String
  args : List log_arg
deriving DecidableEq, Repr

/-- The function `cur_str`. -/
def cur_str (cur : currency_t) : String :=
  if cur = currency_t.CUR_ILS then "ILS" else "USD"

/-- What a bank operation leaves behind: return code, bank afterwards, lines
handed to `log_line` in order, the values stored through `out_ils`/`out_usd`
(only `bank_balance` stores any), and the ghost flag `ovf` telling whether an
`account_add` of the call overflowed `int`. -/
structure op_result where
  rc : bank_rc_t
  b : bank_t
  log : List log_rec
  out : Option (Int × Int)
  ovf : Bool
deriving DecidableEq, Repr

/-- The function `log_line`: the record appended to the log. -/
def log_line (fmt : String) (args : List log_arg) : log_rec :=
  { fmt := fmt, args := args }

/-! ## bank.c: account lookup and insertion -/

/-- Scan `for (i = 0; i < capacity; ++i)` that stops (`break`) at the first
slot holding an account with the given id; `i` is the index of the head of
`es`.  Result: the slot index and the account found there. -/
def scan_first (es : List (Option account_t)) (id : Int) (i : Nat) :
    Option (Nat × account_t) :=
  match es with
  | [] => none
  | e :: rest =>
    match e with
    | some a => if a.id = id then some (i, a) else scan_first rest id (i + 1)
    | none => scan_first rest id (i + 1)

/-- Scan of `bank_transfer`, which has no `break`: every matching slot
overwrites the pointer found so far. -/
def scan_all (es : List (Option account_t)) (id : Int) (i : Nat)
    (found : Option (Nat × account_t)) : Option (Nat × account_t) :=
  match es with
  | [] => found
  | e :: rest =>
    match e with
    | some a => if a.id = id then scan_all rest id (i + 1) (some (i, a))
                else scan_all rest id (i + 1) found
    | none => scan_all rest id (i + 1) found

/-- Index of the first slot with `entries[i].acc == NULL`. -/
def first_free (es : List (Option account_t)) (i : Nat) : Option Nat :=
  match es with
  | [] => none
  | e :: rest =>
    match e with
    | none => some i
    | some _ => first_free rest (i + 1)

/-- The function `bank_lock_account`: `none` is `BANK_ERR_ACCOUNT_NOT_FOUND`,
otherwise the account pointer (slot and contents). -/
def bank_lock_account (b : bank_t) (acc_id : Int) : Option (Nat × account_t) :=
  scan_first b.entries acc_id 0

/-- Write through an account pointer: the account in slot `i` becomes `acc`. -/
def bank_t.store (b : bank_t) (i : Nat) (acc : account_t) : bank_t :=
  { b with entries := b.entries.set i (some acc) }

/-- The function `bank_insert_account`: return value (`0` or `-1`) and the
bank afterwards. -/
def bank_insert_account (b : bank_t) (acc : account_t) : Int × bank_t :=
  match scan_first b.entries acc.id 0 with
  | some _ => (-1, b)
  | none =>
    match first_free b.entries 0 with
    | some i =>
      (0, { b with entries := b.entries.set i (some acc), count := b.count + 1 })
    | none =>
      let old_cap := b.entries.length
      let new_cap := old_cap * 2
      let new_entries := b.entries ++ List.replicate (new_cap - old_cap) none
      (0, { b with entries := new_entries.set old_cap (some acc), count := b.count + 1 })

/-! ## bank.c: account operations -/

/-- The function `bank_open`. -/
def bank_open (b : bank_t) (atm_id acc_id password init_ils init_usd : Int) : op_result :=
  if init_usd < 0 ∨ init_ils < 0 then
    { rc := .BANK_ERR_ILLEGAL_AMOUNT, b := b, log := [], out := none, ovf := false }
  else
    let acc := account_create acc_id password init_ils init_usd
    let r := bank_insert_account b acc
    if r.1 = -1 then
      { rc := .BANK_ERR_ACCOUNT_EXISTS, b := r.2,
        log := [log_line "Error %d: Your transaction failed – account with the same id exists"
                  [.d atm_id]],
        out := none, ovf := false }
    else
      { rc := .BANK_OK, b := r.2,
        log := [log_line
                  "%d: New account id is %d with password %d and initial balance %d ILS and %d USD"
                  [.d atm_id, .d acc_id, .d password, .d init_ils, .d init_usd]],
        out := none, ovf := false }

/-- The log line for a missing account. -/
def log_not_found (atm_id acc_id : Int) : log_rec :=
  log_line "Error %d: Your transaction failed – account id %d does not exist"
    [.d atm_id, .d acc_id]

/-- The log line for a wrong password. -/
def log_bad_password (atm_id acc_id : Int) : log_rec :=
  log_line "Error %d: Your transaction failed – password for account id %d is incorrect"
    [.d atm_id, .d acc_id]

/-- The function `bank_deposit`. -/
def bank_deposit (b : bank_t) (atm_id acc_id password : Int) (cur : currency_t)
    (amount : Int) : op_result :=
  if amount ≤ 0 then
    { rc := .BANK_ERR_ILLEGAL_AMOUNT, b := b, log := [], out := none, ovf := false }
  else
    match bank_lock_account b acc_id with
    | none =>
      { rc := .BANK_ERR_ACCOUNT_NOT_FOUND, b := b, log := [log_not_found atm_id acc_id],
        out := none, ovf := false }
    | some (i, acc) =>
      if acc.password ≠ password then
        { rc := .BANK_ERR_BAD_PASSWORD, b := b, log := [log_bad_password atm_id acc_id],
          out := none, ovf := false }
      else
        let acc1 := account_add acc cur amount
        let bal_ils := account_get_balance acc1 .CUR_ILS
        let bal_usd := account_get_balance acc1 .CUR_USD
        { rc := .BANK_OK, b := b.store i acc1,
          log := [log_line
                    "%d: Account %d new balance is %d ILS and %d USD after %d %s was deposited"
                    [.d atm_id, .d acc_id, .d bal_ils, .d bal_usd, .d amount, .s (cur_str cur)]],
          out := none, ovf := account_add_overflows acc cur amount }

/-- The function `bank_withdraw`. -/
def bank_withdraw (b : bank_t) (atm_id acc_id password : Int) (cur : currency_t)
    (amount : Int) : op_result :=
  if amount ≤ 0 then
    { rc := .BANK_ERR_ILLEGAL_AMOUNT, b := b, log := [], out := none, ovf := false }
  else
    match bank_lock_account b acc_id with
    | none =>
      { rc := .BANK_ERR_ACCOUNT_NOT_FOUND, b := b, log := [log_not_found atm_id acc_id],
        out := none, ovf := false }
    | some (i, acc) =>
      if acc.password ≠ password then
        { rc := .BANK_ERR_BAD_PASSWORD, b := b, log := [log_bad_password atm_id acc_id],
          out := none, ovf := false }
      else
        let check := account_sub acc cur amount
        let bal_ils := account_get_balance check.2 .CUR_ILS
        let bal_usd := account_get_balance check.2 .CUR_USD
        if check.1 = -1 then
          { rc := .BANK_ERR_INSUFFICIENT_FUNDS, b := b.store i check.2,
            log := [log_line
              "Error %d: Your transaction failed – account id %d balance is %d ILS and %d USD is lower than %d %s"
              [.d atm_id, .d acc_id, .d bal_ils, .d bal_usd, .d amount, .s (cur_str cur)]],
            out := none, ovf := false }
        else
          { rc := .BANK_OK, b := b.store i check.2,
            log := [log_line
              "%d: Account %d new balance is %d ILS and %d USD after %d %s was withdrawn"
              [.d atm_id, .d acc_id, .d bal_ils, .d bal_usd, .d amount, .s (cur_str cur)]],
            out := none, ovf := false }

/-- The function `bank_balance`; both out pointers are non-NULL, as in every
caller. -/
def bank_balance (b : bank_t) (atm_id acc_id password : Int) : op_result :=
  match bank_lock_account b acc_id with
  | none =>
    { rc := .BANK_ERR_ACCOUNT_NOT_FOUND, b := b, log := [log_not_found atm_id acc_id],
      out := none, ovf := false }
  | some (_, acc) =>
    if acc.password ≠ password then
      { rc := .BANK_ERR_BAD_PASSWORD, b := b, log := [log_bad_password atm_id acc_id],
        out := none, ovf := false }
    else
      let bal_ils := account_get_balance acc .CUR_ILS
      let bal_usd := account_get_balance acc .CUR_USD
      { rc := .BANK_OK, b := b,
        log := [log_line "%d: Account %d balance is %d ILS and %d USD"
                  [.d atm_id, .d acc_id, .d bal_ils, .d bal_usd]],
        out := some (bal_ils, bal_usd), ovf := false }

/-- The function `bank_close`. -/
def bank_close (b : bank_t) (atm_id acc_id password : Int) : op_result :=
  match scan_first b.entries acc_id 0 with
  | none =>
    { rc := .BANK_ERR_ACCOUNT_NOT_FOUND, b := b, log := [log_not_found atm_id acc_id],
      out := none, ovf := false }
  | some (idx, acc) =>
    if acc.password ≠ password then
      { rc := .BANK_ERR_BAD_PASSWORD, b := b, log := [log_bad_password atm_id acc_id],
        out := none, ovf := false }
    else
      let bal_ils := account_get_balance acc .CUR_ILS
      let bal_usd := account_get_balance acc .CUR_USD
      { rc := .BANK_OK,
        b := { b with entries := b.entries.set idx none, count := b.count - 1 },
        log := [log_line "%d: Account %d is now closed. Balance was %d ILS and %d USD"
                  [.d atm_id, .d acc_id, .d bal_ils, .d bal_usd]],
        out := none, ovf := false }

/-- The function `bank_transfer`.  `src` and `dst` point to different slots
(their ids differ), so the debit of `src` does not change what `dst` points to. -/
def bank_transfer (b : bank_t) (atm_id src_id password dst_id : Int) (cur : currency_t)
    (amount : Int) : op_result :=
  if amount ≤ 0 then
    { rc := .BANK_ERR_ILLEGAL_AMOUNT, b := b, log := [], out := none, ovf := false }
  else if src_id = dst_id then
    { rc := .BANK_ERR_SAME_ACCOUNT, b := b, log := [], out := none, ovf := false }
  else
    match scan_all b.entries src_id 0 none with
    | none =>
      { rc := .BANK_ERR_ACCOUNT_NOT_FOUND, b := b, log := [log_not_found atm_id src_id],
        out := none, ovf := false }
    | some (i, src) =>
      match scan_all b.entries dst_id 0 none with
      | none =>
        { rc := .BANK_ERR_ACCOUNT_NOT_FOUND, b := b, log := [log_not_found atm_id dst_id],
          out := none, ovf := false }
      | some (j, dst) =>
        if src.password ≠ password then
          { rc := .BANK_ERR_BAD_PASSWORD, b := b, log := [log_bad_password atm_id src_id],
            out := none, ovf := false }
        else
          let sub := account_sub src cur amount
          if sub.1 = -1 then
            { rc := .BANK_ERR_INSUFFICIENT_FUNDS, b := b.store i sub.2,
              log := [log_line
                "Error %d: Your transaction failed – balance of account id %d is lower than %d %s"
                [.d atm_id, .d src_id, .d amount, .s (cur_str cur)]],
              out := none, ovf := false }
          else
            let src1 := sub.2
            let dst1 := account_add dst cur amount
            { rc := .BANK_OK, b := (b.store i src1).store j dst1,
              log := [log_line
                "%d: Transfer %d %s from account %d to account %d new account balance is %d ILS and %d USD new target account balance is %d ILS and %d USD"
                [.d atm_id, .d amount, .s (cur_str cur), .d src_id, .d dst_id,
                 .d (account_get_balance src1 .CUR_ILS), .d (account_get_balance src1 .CUR_USD),
                 .d (account_get_balance dst1 .CUR_ILS), .d (account_get_balance dst1 .CUR_USD)]],
              out := none, ovf := account_add_overflows dst cur amount }

/-- The function `bank_exchange`. -/
def bank_exchange (b : bank_t) (atm_id acc_id password : Int) (from_cur to_cur : currency_t)
    (amount_from : Int) : op_result :=
  if amount_from ≤ 0 then
    { rc := .BANK_ERR_ILLEGAL_AMOUNT, b := b, log := [], out := none, ovf := false }
  else if from_cur = to_cur then
    { rc := .BANK_OK, b := b, log := [], out := none, ovf := false }
  else
    match bank_lock_account b acc_id with
    | none =>
      { rc := .BANK_ERR_ACCOUNT_NOT_FOUND, b := b, log := [log_not_found atm_id acc_id],
        out := none, ovf := false }
    | some (i, acc) =>
      if acc.password ≠ password then
        { rc := .BANK_ERR_BAD_PASSWORD, b := b, log := [log_bad_password atm_id acc_id],
          out := none, ovf := false }
      else
        let bal_ils := account_get_balance acc .CUR_ILS
        let bal_usd := account_get_balance acc .CUR_USD
        let sub := account_sub acc from_cur amount_from
        if sub.1 = -1 then
          { rc := .BANK_ERR_INSUFFICIENT_FUNDS, b := b.store i sub.2,
            log := [log_line
              "Error %d: Your transaction failed – account id %d balance is %d ILS and %d USD is lower than %d %s"
              [.d atm_id, .d acc_id, .d bal_ils, .d bal_usd, .d amount_from,
               .s (cur_str from_cur)]],
            out := none, ovf := false }
        else
          let amount_to :=
            if from_cur = .CUR_USD ∧ to_cur = .CUR_ILS then wrap_int (amount_from * 5)
            else if from_cur = .CUR_ILS ∧ to_cur = .CUR_USD then Int.tdiv amount_from 5
            else amount_from
          let acc2 := account_add sub.2 to_cur amount_to
          { rc := .BANK_OK, b := b.store i acc2,
            log := [log_line
              "%d: Account %d new balance is %d ILS and %d USD after %d %s was exchanged"
              [.d atm_id, .d acc_id, .d (account_get_balance acc2 .CUR_ILS),
               .d (account_get_balance acc2 .CUR_USD), .d amount_from, .s (cur_str from_cur)]],
            out := none, ovf := account_add_overflows sub.2 to_cur amount_to }

/-! ## bank.c: agent closing and rollback requests -/

/-- Read `arr[i]` of an `int` array for an `int` index. -/
def arr_get (arr : List Int) (i : Int) : Int := arr.getD i.toNat 0

/-- Write `arr[i] = v` of an `int` array for an `int` index. -/
def arr_set (arr : List Int) (i : Int) (v : Int) : List Int := arr.set i.toNat v

/-- The function `bank_close_atm_request`. -/
def bank_close_atm_request (b : bank_t) (atm_id_src atm_id_target : Int) : op_result :=
  if atm_id_target < 1 ∨ atm_id_target > b.atm_count then
    { rc := .BANK_ERR_ATM_NOT_FOUND, b := b,
      log := [log_line "Error %d: Your transaction failed – ATM ID %d does not exist"
                [.d atm_id_src, .d atm_id_target]],
      out := none, ovf := false }
  else if arr_get b.atm_closed atm_id_target ≠ 0 ∨ arr_get b.atm_close_req atm_id_target ≠ 0 then
    { rc := .BANK_ERR_ATM_ALREADY_CLOSED, b := b,
      log := [log_line
        "Error %d: Your close operation failed – ATM ID %d is already in a closed state"
        [.d atm_id_src, .d atm_id_target]],
      out := none, ovf := false }
  else
    { rc := .BANK_OK,
      b := { b with atm_close_req := arr_set b.atm_close_req atm_id_target atm_id_src },
      log := [], out := none, ovf := false }

/-- The function `bank_is_atm_closed`. -/
def bank_is_atm_closed (b : bank_t) (atm_id : Int) : Int :=
  if atm_id < 1 ∨ atm_id > b.atm_count then 1 else arr_get b.atm_closed atm_id

/-- The function `bank_rollback`. -/
def bank_rollback (b : bank_t) (atm_id iterations_back : Int) : op_result :=
  if iterations_back ≤ 0 ∨ iterations_back > 120 then
    { rc := .BANK_ERR_ROLLBACK_NOT_POSSIBLE, b := b, log := [], out := none, ovf := false }
  else
    { rc := .BANK_OK,
      b := { b with rb_queue := b.rb_queue ++
               [{ atm_id := atm_id, iterations_back := iterations_back }] },
      log := [], out := none, ovf := false }

/-! ## bank.c: investment

`bank_invest` debits, sleeps without holding a lock, and credits.  The two
locked sections are separate functions; `bank_invest` takes what the other
threads do to the bank during the sleep as the argument `during`.  The value
`(int)floor((double)amount * pow(1.03, steps))` is floating point and enters
as the argument `final_raw`. -/

/-- First locked section of `bank_invest`: argument checks, password, debit. -/
def bank_invest_debit (b : bank_t) (acc_id password amount : Int) (cur : currency_t)
    (time_msec : Int) : op_result :=
  if amount ≤ 0 ∨ time_msec ≤ 0 then
    { rc := .BANK_ERR_ILLEGAL_AMOUNT, b := b, log := [], out := none, ovf := false }
  else if Int.tmod time_msec 10 ≠ 0 then
    { rc := .BANK_ERR_ILLEGAL_AMOUNT, b := b, log := [], out := none, ovf := false }
  else
    match bank_lock_account b acc_id with
    | none =>
      { rc := .BANK_ERR_ACCOUNT_NOT_FOUND, b := b, log := [], out := none, ovf := false }
    | some (i, acc) =>
      if acc.password ≠ password then
        { rc := .BANK_ERR_BAD_PASSWORD, b := b, log := [], out := none, ovf := false }
      else
        let sub := account_sub acc cur amount
        if sub.1 = -1 then
          { rc := .BANK_ERR_INSUFFICIENT_FUNDS, b := b.store i sub.2, log := [],
            out := none, ovf := false }
        else
          { rc := .BANK_OK, b := b.store i sub.2, log := [], out := none, ovf := false }

/-- Second locked section of `bank_invest`: clamp of `final_amount` and credit
when the account is still found; the return code is `BANK_OK` either way. -/
def bank_invest_credit (b : bank_t) (acc_id : Int) (cur : currency_t) (final_raw : Int) :
    op_result :=
  let final_amount := if final_raw < 0 then 0 else final_raw
  match bank_lock_account b acc_id with
  | some (i, acc2) =>
    { rc := .BANK_OK, b := b.store i (account_add acc2 cur final_amount), log := [],
      out := none, ovf := account_add_overflows acc2 cur final_amount }
  | none =>
    { rc := .BANK_OK, b := b, log := [], out := none, ovf := false }

/-- The function `bank_invest`. -/
def bank_invest (b : bank_t) (_atm_id acc_id password amount : Int) (cur : currency_t)
    (time_msec : Int) (final_raw : Int) (during : bank_t → bank_t) : op_result :=
  let r := bank_invest_debit b acc_id password amount cur time_msec
  if r.rc ≠ .BANK_OK then r
  else bank_invest_credit (during r.b) acc_id cur final_raw

/-! ## bank.c: snapshots and rollback application -/

/-- A zero-filled `bank_snapshot_t`, as `calloc` and `memset` leave it. -/
def snapshot_zero : bank_snapshot_t :=
  { bank_ils := 0, bank_usd := 0, accs := [], atm_count := 0 }

/-- The function `snapshot_capture`, given the sorted status array. -/
def snapshot_capture (b : bank_t) (arr : List acc_status_t) : bank_t :=
  let snap : bank_snapshot_t :=
    { bank_ils := b.bank_ils, bank_usd := b.bank_usd,
      accs := arr.map (fun e =>
        { id := e.id, password := e.password, bal_ils := e.ils, bal_usd := e.usd }),
      atm_count := b.atm_count }
  let idx := b.snap_head
  { b with
    snapshots := b.snapshots.set idx.toNat snap,
    snap_head := Int.tmod (b.snap_head + 1) b.snap_capacity,
    snap_count := if b.snap_count < b.snap_capacity then b.snap_count + 1 else b.snap_count }

/-- The loop `while (new_cap < snap->acc_count) new_cap *= 2;` of
`snapshot_apply`.  For `new_cap >= 1` it ends within `n` rounds, the fuel
given by the caller; the capacity is never 0 (`bank_init` sets 128 and it is
only ever doubled). -/
def grow_cap (new_cap n : Nat) (fuel : Nat) : Nat :=
  match fuel with
  | 0 => new_cap
  | fuel + 1 => if new_cap < n then grow_cap (new_cap * 2) n fuel else new_cap

/-- The re-insertion loop of `snapshot_apply` over the snapshot entries not
yet visited; the result is the entry array and `count`. -/
def apply_loop (accs : List bank_acc_snapshot_t) (es : List (Option account_t))
    (count : Int) (inserted : Nat) : List (Option account_t) × Int :=
  match accs with
  | [] => (es, count)
  | s :: rest =>
    if inserted ≥ es.length then (es, count)
    else
      let acc := account_create s.id s.password s.bal_ils s.bal_usd
      match first_free es 0 with
      | some j => apply_loop rest (es.set j (some acc)) (count + 1) (inserted + 1)
      | none => apply_loop rest es count inserted

/-- The function `snapshot_apply`. -/
def snapshot_apply (b : bank_t) (snap : bank_snapshot_t) : bank_t :=
  let cleared : List (Option account_t) := List.replicate b.entries.length none
  let acc_count := snap.accs.length
  let new_cap :=
    if acc_count > b.entries.length then grow_cap b.entries.length acc_count acc_count
    else b.entries.length
  let grown := cleared ++ List.replicate (new_cap - b.entries.length) none
  let r := apply_loop snap.accs grown 0 0
  { b with entries := r.1, count := r.2, bank_ils := snap.bank_ils, bank_usd := snap.bank_usd }

/-- The log line of an applied rollback. -/
def log_rollback (req : rollback_req) : log_rec :=
  log_line "%d: Rollback to %d bank iterations ago was completed successfully"
    [.d req.atm_id, .d req.iterations_back]

/-- The ring slot read for a request: `(snap_head - 1 - iterations_back) %
snap_capacity`, plus `snap_capacity` when negative (`%` truncates toward 0). -/
def rollback_idx (b : bank_t) (iterations_back : Int) : Int :=
  let idx := Int.tmod (b.snap_head - 1 - iterations_back) b.snap_capacity
  if idx < 0 then idx + b.snap_capacity else idx

/-- The loop of `bank_process_rollbacks` over the requests still queued. -/
def process_rollbacks_loop (reqs : List rollback_req) (b : bank_t) : bank_t × List log_rec :=
  match reqs with
  | [] => (b, [])
  | req :: rest =>
    if req.iterations_back ≤ 0 ∨ req.iterations_back ≥ b.snap_count then
      process_rollbacks_loop rest b
    else
      let src := b.snapshots.getD (rollback_idx b req.iterations_back).toNat snapshot_zero
      let copy : bank_snapshot_t :=
        { bank_ils := src.bank_ils, bank_usd := src.bank_usd, accs := src.accs, atm_count := 0 }
      let r := process_rollbacks_loop rest (snapshot_apply b copy)
      (r.1, log_rollback req :: r.2)

/-- The function `bank_process_rollbacks`: the queue is emptied front to back. -/
def bank_process_rollbacks (b : bank_t) : bank_t × List log_rec :=
  process_rollbacks_loop b.rb_queue { b with rb_queue := [] }

/-! ## bank.c: status thread -/

/-- The function `cmp_acc_status_by_id`: the `int` difference of the ids. -/
def cmp_acc_status_by_id (x y : acc_status_t) : Int := wrap_int (x.id - y.id)

/-- The collection loop of `bank_status_thread`:
`for (i = 0; i < capacity && k < expected; i++)`. -/
def collect_status (es : List (Option account_t)) (k expected : Int) : List acc_status_t :=
  match es with
  | [] => []
  | e :: rest =>
    if k < expected then
      match e with
      | none => collect_status rest k expected
      | some acc =>
        { id := acc.id, password := acc.password,
          ils := account_get_balance acc .CUR_ILS,
          usd := account_get_balance acc .CUR_USD } :: collect_status rest (k + 1) expected
    else []

/-- Model of the C library function `qsort` (standard library, not repository
code): a stable insertion sort that puts `x` before `y` when the comparator
returns a value `<= 0`.  The C standard leaves the algorithm open.  For a
comparator that orders the elements consistently, and for an array of two
elements, this is the result of the library; for an inconsistent comparator on
three or more elements the order that the library stores depends on its
algorithm and is not claimed here. -/
def qsort (arr : List acc_status_t) (cmp : acc_status_t → acc_status_t → Int) :
    List acc_status_t :=
  List.insertionSort (fun x y => cmp x y ≤ 0) arr

/-- The loop over `target = 1 .. atm_count` of `bank_status_thread` that turns
pending close requests into closed agents. -/
def close_loop (targets : List Nat) (b : bank_t) : bank_t × List log_rec :=
  match targets with
  | [] => (b, [])
  | t :: rest =>
    let target : Int := t
    let src := arr_get b.atm_close_req target
    if src ≠ 0 ∧ arr_get b.atm_closed target = 0 then
      let b1 := { b with atm_closed := arr_set b.atm_closed target 1,
                         atm_close_req := arr_set b.atm_close_req target 0 }
      let r := close_loop rest b1
      (r.1, log_line "Bank: ATM %d closed %d successfully" [.d src, .d target] :: r.2)
    else close_loop rest b

/-- One iteration of the loop of `bank_status_thread` after the sleep:
collect, sort, capture, apply close requests, process rollbacks.  The
rendering to stdout is left out. -/
def bank_status_iteration (b : bank_t) : bank_t × List log_rec :=
  let expected := b.count
  let arr := collect_status b.entries 0 expected
  let sorted := if arr.length > 1 then qsort arr cmp_acc_status_by_id else arr
  let b1 := snapshot_capture b sorted
  let r2 := close_loop (List.range' 1 b1.atm_count.toNat) b1
  let r3 := bank_process_rollbacks r2.1
  (r3.1, r2.2 ++ r3.2)

/-! ## bank.c: commission thread -/

/-- The function `xorshift32` on a 32-bit `unsigned int`: the new state, which
is also the return value. -/
def xorshift32 (state : Nat) : Nat :=
  let x := state
  let x := x ^^^ ((x <<< 13) % 4294967296)
  let x := x ^^^ (x >>> 17)
  let x := x ^^^ ((x <<< 5) % 4294967296)
  x

/-- State carried through the account loop of `bank_commission_thread`. -/
structure commission_state where
  entries : List (Option account_t)
  seed : Nat
  bank_ils : Int
  bank_usd : Int
  log : List log_rec
deriving DecidableEq, Repr

/-- The body of the account loop of `bank_commission_thread` for one live
account: the account afterwards, the two commissions and the log line. -/
def commission_charge (acc : account_t) (percent : Int) : account_t × Int × Int × log_rec :=
  let bal_ils := account_get_balance acc .CUR_ILS
  let bal_usd := account_get_balance acc .CUR_USD
  let com_ils := Int.tdiv (wrap_int (bal_ils * percent)) 100
  let com_usd := Int.tdiv (wrap_int (bal_usd * percent)) 100
  let acc1 := if com_ils > 0 then (account_sub acc .CUR_ILS com_ils).2 else acc
  let acc2 := if com_usd > 0 then (account_sub acc1 .CUR_USD com_usd).2 else acc1
  (acc2, com_ils, com_usd,
   log_line
     "Bank: commissions of %d %% were charged, bank gained %d ILS and %d USD from account %d"
     [.d percent, .d com_ils, .d com_usd, .d acc2.id])

/-- The account loop of `bank_commission_thread` over the slots not yet
visited. -/
def commission_loop (es : List (Option account_t)) (seed : Nat) (bank_ils bank_usd : Int) :
    commission_state :=
  match es with
  | [] => { entries := [], seed := seed, bank_ils := bank_ils, bank_usd := bank_usd, log := [] }
  | none :: rest =>
    let r := commission_loop rest seed bank_ils bank_usd
    { r with entries := none :: r.entries }
  | some acc :: rest =>
    let seed1 := xorshift32 seed
    let percent : Int := ((seed1 % 5 : Nat) : Int) + 1
    let c := commission_charge acc percent
    let r := commission_loop rest seed1 (wrap_int (bank_ils + c.2.1)) (wrap_int (bank_usd + c.2.2.1))
    { r with entries := some c.1 :: r.entries, log := c.2.2.2 :: r.log }

/-- One iteration of the loop of `bank_commission_thread` after the sleep:
the bank afterwards, the new PRNG state and the log lines. -/
def bank_commission_iteration (b : bank_t) (seed : Nat) : bank_t × Nat × List log_rec :=
  let r := commission_loop b.entries seed b.bank_ils b.bank_usd
  ({ b with entries := r.entries, bank_ils := r.bank_ils, bank_usd := r.bank_usd },
   r.seed, r.log)

/-! ## bank.c: initialisation -/

/-- The bank that a successful `bank_init` leaves behind. -/
def bank_init_state (atm_count : Int) : bank_t :=
  { entries := List.replicate 128 none,
    count := 0,
    bank_ils := 0,
    bank_usd := 0,
    atm_count := atm_count,
    atm_closed := List.replicate (atm_count.toNat + 1) 0,
    atm_close_req := List.replicate (atm_count.toNat + 1) 0,
    stop := 0,
    snapshots := List.replicate 120 snapshot_zero,
    snap_capacity := 120,
    snap_head := 0,
    snap_count := 0,
    rb_queue := [] }

/-- The function `bank_init`: `none` is the error return for `atm_count <= 0`. -/
def bank_init (atm_count : Int) : Option bank_t :=
  if atm_count ≤ 0 then none else some (bank_init_state atm_count)

/-! ## Engine steps

One step of the engine is one atomic section of one thread: a bank operation
of an agent, one of the two locked sections of an investment, or one iteration
of a background thread. -/

/-- The atomic steps of the engine with their arguments. -/
inductive engine_op where
  | open_account (atm_id acc_id password init_ils init_usd : Int)
  | close_account (atm_id acc_id password : Int)
  | deposit (atm_id acc_id password : Int) (cur : currency_t) (amount : Int)
  | withdraw (atm_id acc_id password : Int) (cur : currency_t) (amount : Int)
  | balance (atm_id acc_id password : Int)
  | transfer (atm_id src_id password dst_id : Int) (cur : currency_t) (amount : Int)
  | exchange (atm_id acc_id password : Int) (from_cur to_cur : currency_t) (amount_from : Int)
  | invest_debit (acc_id password amount : Int) (cur : currency_t) (time_msec : Int)
  | invest_credit (acc_id : Int) (cur : currency_t) (final_raw : Int)
  | close_atm (atm_id_src atm_id_target : Int)
  | rollback (atm_id iterations_back : Int)
  | status_tick
  | commission_tick (seed : Nat)
deriving DecidableEq, Repr

/-- Every `int` argument of the step is a value of type `int`. -/
def engine_op.typed (op : engine_op) : Prop :=
  match op with
  | .open_account a i p x y => is_int a ∧ is_int i ∧ is_int p ∧ is_int x ∧ is_int y
  | .close_account a i p => is_int a ∧ is_int i ∧ is_int p
  | .deposit a i p _ m => is_int a ∧ is_int i ∧ is_int p ∧ is_int m
  | .withdraw a i p _ m => is_int a ∧ is_int i ∧ is_int p ∧ is_int m
  | .balance a i p => is_int a ∧ is_int i ∧ is_int p
  | .transfer a i p j _ m => is_int a ∧ is_int i ∧ is_int p ∧ is_int j ∧ is_int m
  | .exchange a i p _ _ m => is_int a ∧ is_int i ∧ is_int p ∧ is_int m
  | .invest_debit i p m _ t => is_int i ∧ is_int p ∧ is_int m ∧ is_int t
  | .invest_credit i _ f => is_int i ∧ is_int f
  | .close_atm s t => is_int s ∧ is_int t
  | .rollback a k => is_int a ∧ is_int k
  | .status_tick => True
  | .commission_tick seed => seed < 4294967296

/-- The effect of one engine step. -/
def engine_step (b : bank_t) (op : engine_op) : op_result :=
  match op with
  | .open_account a i p x y => bank_open b a i p x y
  | .close_account a i p => bank_close b a i p
  | .deposit a i p c m => bank_deposit b a i p c m
  | .withdraw a i p c m => bank_withdraw b a i p c m
  | .balance a i p => bank_balance b a i p
  | .transfer a i p j c m => bank_transfer b a i p j c m
  | .exchange a i p f t m => bank_exchange b a i p f t m
  | .invest_debit i p m c t => bank_invest_debit b i p m c t
  | .invest_credit i c f => bank_invest_credit b i c f
  | .close_atm s t => bank_close_atm_request b s t
  | .rollback a k => bank_rollback b a k
  | .status_tick =>
    let r := bank_status_iteration b
    { rc := .BANK_OK, b := r.1, log := r.2, out := none, ovf := false }
  | .commission_tick seed =>
    let r := bank_commission_iteration b seed
    { rc := .BANK_OK, b := r.1, log := r.2.2, out := none, ovf := false }

/-- The bank after a sequence of engine steps, and whether any `account_add`
on the way overflowed `int`. -/
def engine_run (b : bank_t) (ops : List engine_op) : bank_t × Bool :=
  match ops with
  | [] => (b, false)
  | op :: rest =>
    let r := engine_step b op
    let t := engine_run r.b rest
    (t.1, r.ovf || t.2)

/-- The live accounts of a bank: the contents of the non-NULL slots. -/
def bank_t.accounts (b : bank_t) : List account_t :=
  b.entries.filterMap id

/-- Every balance stored in the bank is a value of type `int`. -/
def bank_t.ints_ok (b : bank_t) : Prop :=
  ∀ a ∈ b.accounts, is_int a.balance_ils ∧ is_int a.balance_usd

instance (b : bank_t) : Decidable b.ints_ok := by
  unfold bank_t.ints_ok; infer_instance

instance (op : engine_op) : Decidable op.typed := by
  cases op <;> (unfold engine_op.typed; infer_instance)

/-! ## bank.c: the thread-local log mode -/

/-- The enum `bank_log_mode_t`. -/
inductive bank_log_mode_t where
  | BANK_LOG_ALL
  | BANK_LOG_SUCCESS_ONLY
  | BANK_LOG_NONE
deriving DecidableEq, Repr

/-- The function `bank_set_thread_log_mode`: the value of the thread-local
variable `g_tls_log_mode` after the call. -/
def bank_set_thread_log_mode (_g_tls_log_mode mode : bank_log_mode_t) : bank_log_mode_t :=
  mode

/-- A bank operation called by a thread whose `g_tls_log_mode` has the value
`_g_tls_log_mode`.  The variable is written by `bank_set_thread_log_mode` and
read by no function of `bank.c` or `logger.c`; `log_line` writes every line it
is handed.  The call is therefore the operation itself. -/
def bank_call (_g_tls_log_mode : bank_log_mode_t) (b : bank_t) (op : engine_op) : op_result :=
  engine_step b op

/-- The first attempt of `execute_tokens` at a bank command: the log mode is
set from the `persistent` flag, the operation is called, and the mode is
restored to `BANK_LOG_ALL`.  Result: the mode afterwards and the outcome of the
operation. -/
def first_attempt (g_tls_log_mode : bank_log_mode_t) (persistent : Bool) (b : bank_t)
    (op : engine_op) : bank_log_mode_t × op_result :=
  let m1 := bank_set_thread_log_mode g_tls_log_mode
    (if persistent then .BANK_LOG_SUCCESS_ONLY else .BANK_LOG_ALL)
  let r := bank_call m1 b op
  (bank_set_thread_log_mode m1 .BANK_LOG_ALL, r)

/-- Agent invariant of the bank: both agent arrays have `atm_count + 1` cells,
every closed flag is 0 or 1, and an agent with a pending close request is not
closed. -/
def agent_inv (b : bank_t) : Prop :=
  b.atm_closed.length = b.atm_count.toNat + 1 ∧
  b.atm_close_req.length = b.atm_count.toNat + 1 ∧
  ∀ i : Nat, (arr_get b.atm_closed i = 0 ∨ arr_get b.atm_closed i = 1) ∧
    (arr_get b.atm_close_req i ≠ 0 → arr_get b.atm_closed i = 0)

/-- The log line of a close request turned into a closed agent. -/
def log_atm_closed (src : Int) (target : Nat) : log_rec :=
  log_line "Bank: ATM %d closed %d successfully" [.d src, .d target]

/-- Four agents; agent 1 asks to close agents 3 and 2, agent 3 is closed by a
status iteration, then agent 2 asks to close agent 4 and agent 4 to close the
closed agent 3. -/
def ops_close_agents : List engine_op :=
  [.close_atm 1 3, .status_tick, .close_atm 1 2, .close_atm 2 4, .close_atm 4 3]

/-! ## Invariants -/

/-- Both balances of the account lie in `0 .. INT_MAX`. -/
def acc_ok (a : account_t) : Prop :=
  (0 ≤ a.balance_ils ∧ a.balance_ils ≤ INT_MAX) ∧ (0 ≤ a.balance_usd ∧ a.balance_usd ≤ INT_MAX)

/-- Both balances of the snapshot entry lie in `0 .. INT_MAX`. -/
def snap_acc_ok (e : bank_acc_snapshot_t) : Prop :=
  (0 ≤ e.bal_ils ∧ e.bal_ils ≤ INT_MAX) ∧ (0 ≤ e.bal_usd ∧ e.bal_usd ≤ INT_MAX)

/-- Both balances of the status record lie in `0 .. INT_MAX`. -/
def status_ok (e : acc_status_t) : Prop :=
  (0 ≤ e.ils ∧ e.ils ≤ INT_MAX) ∧ (0 ≤ e.usd ∧ e.usd ≤ INT_MAX)

/-- Every account of the entry array satisfies `acc_ok`. -/
def entries_ok (es : List (Option account_t)) : Prop :=
  ∀ a, some a ∈ es → acc_ok a

/-- Balance invariant of the bank: live accounts and all entries of all ring
snapshots have balances in `0 .. INT_MAX`. -/
def bank_inv (b : bank_t) : Prop :=
  entries_ok b.entries ∧ ∀ s ∈ b.snapshots, ∀ e ∈ s.accs, snap_acc_ok e

/-! ## Concrete banks used to instantiate the theorems -/

/-- The bank after `bank_init` for one agent and the given steps. -/
def bank_after (ops : List engine_op) : bank_t :=
  (engine_run (bank_init_state 1) ops).1

/-- Accounts 10 (100 ILS) and 20 (0 ILS) opened on a fresh bank. -/
def bank_two_accounts : bank_t :=
  bank_after [.open_account 1 10 7777 100 0, .open_account 1 20 8888 0 0]

/-- Accounts 10 (100 ILS) and 20 (`INT_MAX` ILS) opened on a fresh bank. -/
def bank_rich_target : bank_t :=
  bank_after [.open_account 1 10 7777 100 0, .open_account 1 20 8888 2147483647 0]

/-- One account opened with `INT_MAX` ILS, then a deposit of 1 ILS. -/
def ops_deposit_overflow : List engine_op :=
  [.open_account 1 1 0 2147483647 0, .deposit 1 1 0 .CUR_ILS 1]

/-- A run through every kind of engine step that stays within `int`. -/
def ops_sample : List engine_op :=
  [.open_account 1 10 7777 100 50, .open_account 1 20 8888 0 0,
   .deposit 1 10 7777 .CUR_ILS 100, .status_tick,
   .transfer 1 10 7777 20 .CUR_ILS 60, .exchange 1 10 7777 .CUR_USD .CUR_ILS 10,
   .withdraw 1 20 8888 .CUR_ILS 5, .invest_debit 10 7777 20 .CUR_ILS 100,
   .commission_tick 12345, .invest_credit 10 .CUR_ILS 26, .status_tick,
   .rollback 1 1, .status_tick, .balance 1 10 7777, .close_atm 1 1,
   .close_account 1 20 8888]

/-- Scenario 1 of the spec after `O 10 7777 100 50`. -/
def bank_scenario1 : bank_t :=
  bank_after [.open_account 1 10 7777 100 50]

/-- Scenario 2 of the spec before its transfer: `O 10 7777 0 0`,
`O 20 8888 0 0`, `D 10 7777 100 ILS`. -/
def bank_scenario2 : bank_t :=
  bank_after [.open_account 1 10 7777 0 0, .open_account 1 20 8888 0 0,
    .deposit 1 10 7777 .CUR_ILS 100]

/-- Scenario 2 of the spec without the OPEN of account 20. -/
def bank_scenario2_no_dst : bank_t :=
  bank_after [.open_account 1 10 7777 0 0, .deposit 1 10 7777 .CUR_ILS 100]

/-- One account 10 holding 0 ILS and 500000000 USD. -/
def bank_usd_rich : bank_t :=
  bank_after [.open_account 1 10 7777 0 500000000]

/-- One account 10 holding 100 ILS and 0 USD. -/
def bank_ils_only : bank_t :=
  bank_after [.open_account 1 10 7777 100 0]

/-- One account 1 holding `INT_MAX` ILS. -/
def bank_int_max : bank_t :=
  bank_after [.open_account 1 1 0 2147483647 0]

/-- The sorted status array that one iteration of `bank_status_thread` hands
to `snapshot_capture`. -/
def status_array (b : bank_t) : List acc_status_t :=
  let arr := collect_status b.entries 0 b.count
  if arr.length > 1 then qsort arr cmp_acc_status_by_id else arr

/-- The account that `snapshot_apply` creates from a snapshot entry. -/
def account_of_entry (e : bank_acc_snapshot_t) : account_t :=
  account_create e.id e.password e.bal_ils e.bal_usd

/-- The bank `b2` has the agent count, the closed flags and the snapshot ring
of `b`. -/
def same_ring (b b2 : bank_t) : Prop :=
  b2.atm_count = b.atm_count ∧ b2.atm_closed = b.atm_closed ∧
  b2.snapshots = b.snapshots ∧ b2.snap_capacity = b.snap_capacity ∧
  b2.snap_head = b.snap_head ∧ b2.snap_count = b.snap_count

/-- The snapshot that `snapshot_capture` writes into the ring. -/
def captured_snapshot (b : bank_t) (arr : List acc_status_t) : bank_snapshot_t :=
  { bank_ils := b.bank_ils, bank_usd := b.bank_usd,
    accs := arr.map (fun e =>
      { id := e.id, password := e.password, bal_ils := e.ils, bal_usd := e.usd }),
    atm_count := b.atm_count }

/-- The ring of `b` holds the pushed snapshots `hist`, most recently pushed
first: 120 slots, `snap_head` a slot index, `snap_count` the number of pushes
capped at 120, and for every `j < snap_count` the slot `j + 1` places before
`snap_head` (cyclically) holds `hist[j]`. -/
def ring_holds (b : bank_t) (hist : List bank_snapshot_t) : Prop :=
  b.snap_capacity = 120 ∧ b.snapshots.length = 120 ∧
  0 ≤ b.snap_head ∧ b.snap_head < 120 ∧
  b.snap_count = min (hist.length : Int) 120 ∧
  ∀ j : Nat, (j : Int) < b.snap_count →
    b.snapshots[((b.snap_head - 1 - (j : Int)) % 120).toNat]? = hist[j]?

/-- The snapshots pushed during a run of engine steps, most recent first,
in front of the earlier history `hist`. -/
def run_history (b : bank_t) (ops : List engine_op) (hist : List bank_snapshot_t) :
    List bank_snapshot_t :=
  match ops with
  | [] => hist
  | op :: rest =>
    match op with
    | .status_tick =>
      run_history (engine_step b op).b rest (captured_snapshot b (status_array b) :: hist)
    | _ => run_history (engine_step b op).b rest hist

/-- Three status iterations, with account 10 at 100, 200 and 300 ILS. -/
def ops_three_ticks : List engine_op :=
  [.open_account 1 10 7777 100 0, .status_tick, .deposit 1 10 7777 .CUR_ILS 100,
   .status_tick, .deposit 1 10 7777 .CUR_ILS 100, .status_tick]

/-- The same run with a request to roll back 1 iteration queued before the
third status iteration. -/
def ops_rollback_one : List engine_op :=
  [.open_account 1 10 7777 100 0, .status_tick, .deposit 1 10 7777 .CUR_ILS 100,
   .status_tick, .deposit 1 10 7777 .CUR_ILS 100, .rollback 1 1, .status_tick]

/-- The copy of the selected ring snapshot that `bank_process_rollbacks` hands
to `snapshot_apply` for a request with `iterations_back = k`. -/
def rollback_copy (b : bank_t) (k : Int) : bank_snapshot_t :=
  { bank_ils := (b.snapshots.getD (rollback_idx b k).toNat snapshot_zero).bank_ils,
    bank_usd := (b.snapshots.getD (rollback_idx b k).toNat snapshot_zero).bank_usd,
    accs := (b.snapshots.getD (rollback_idx b k).toNat snapshot_zero).accs,
    atm_count := 0 }

/-- The request passes the range test of `bank_process_rollbacks` in bank `b`. -/
def rollback_valid (b : bank_t) (req : rollback_req) : Bool :=
  decide (1 ≤ req.iterations_back ∧ req.iterations_back ≤ b.snap_count - 1)

/-- The run `ops_three_ticks` with three requests queued before the third
status iteration: `k = 0` (refused by `bank_rollback`), `k = 5` (accepted, out
of range when processed) and `k = 2`. -/
def ops_rollback_mixed : List engine_op :=
  [.open_account 1 10 7777 100 0, .status_tick, .deposit 1 10 7777 .CUR_ILS 100,
   .status_tick, .deposit 1 10 7777 .CUR_ILS 100, .rollback 1 0, .rollback 2 5,
   .rollback 3 2]

/-- A bank for two agents in which agent 2 asked to close agent 1 and one
status iteration has run. -/
def bank_agent_closed : bank_t :=
  (engine_run (bank_init_state 2) [.close_atm 2 1, .status_tick]).1

/-- A bank for two agents in which agent 2 asked to close agent 1 and no
status iteration has run yet. -/
def bank_close_pending : bank_t :=
  (engine_run (bank_init_state 2) [.close_atm 2 1]).1

/-! ## main.c: the VIP priority queue

`size` is `heap.length`; the slots of the C array beyond `size` are not
represented.  `seq` and `next_seq` are `long long`, wrapped by `wrap_ll`.  The
two sift loops take a fuel argument; the callers pass a bound on the number of
rounds (`i` for `vipq_sift_up`, the heap size for `vipq_sift_down`). -/

/-- Result of `long long` arithmetic whose exact value is `x`. -/
def wrap_ll (x : Int) : Int :=
  (x + 9223372036854775808) % 18446744073709551616 - 9223372036854775808

/-- The struct `vip_task_t`; `line` is the copied command line. -/
structure vip_task_t where
  priority : Int
  seq : Int
  atm_id : Int
  line : String
deriving DecidableEq, Repr

/-- The struct `vip_queue_t` without its mutex and condition variable. -/
structure vip_queue_t where
  heap : List vip_task_t
  cap : Nat
  next_seq : Int
  closed : Int
deriving DecidableEq, Repr

/-- The function `vipq_init`. -/
def vipq_init : vip_queue_t :=
  { heap := [], cap := 64, next_seq := 1, closed := 0 }

/-- The function `vip_task_higher`. -/
def vip_task_higher (a b : vip_task_t) : Bool :=
  if a.priority ≠ b.priority then decide (a.priority > b.priority)
  else decide (a.seq < b.seq)

/-- The test `vip_task_higher(&heap[a], &heap[b])` on array cells. -/
def higher_at (heap : List vip_task_t) (a b : Nat) : Bool :=
  match heap[a]?, heap[b]? with
  | some x, some y => vip_task_higher x y
  | _, _ => false

/-- Exchange of the array cells `i` and `j` through `tmp`. -/
def heap_swap (heap : List vip_task_t) (i j : Nat) : List vip_task_t :=
  match heap[i]?, heap[j]? with
  | some x, some y => (heap.set i y).set j x
  | _, _ => heap

/-- The function `vipq_sift_up`. -/
def vipq_sift_up (heap : List vip_task_t) (i : Nat) (fuel : Nat) : List vip_task_t :=
  match fuel with
  | 0 => heap
  | fuel + 1 =>
    if i > 0 then
      let p := (i - 1) / 2
      if higher_at heap p i then heap
      else vipq_sift_up (heap_swap heap p i) p fuel
    else heap

/-- The function `vipq_sift_down`; `q->size` is `heap.length`. -/
def vipq_sift_down (heap : List vip_task_t) (i : Nat) (fuel : Nat) : List vip_task_t :=
  match fuel with
  | 0 => heap
  | fuel + 1 =>
    let l := 2 * i + 1
    let r := 2 * i + 2
    let best := i
    let best := if l < heap.length ∧ higher_at heap l best then l else best
    let best := if r < heap.length ∧ higher_at heap r best then r else best
    if best = i then heap
    else vipq_sift_down (heap_swap heap best i) best fuel

/-- The function `vipq_push`. -/
def vipq_push (q : vip_queue_t) (atm_id priority : Int) (line : String) : vip_queue_t :=
  if q.closed ≠ 0 then q
  else
    let cap := if q.heap.length = q.cap then q.cap * 2 else q.cap
    let t : vip_task_t :=
      { priority := priority, seq := q.next_seq, atm_id := atm_id, line := line }
    { heap := vipq_sift_up (q.heap ++ [t]) q.heap.length q.heap.length,
      cap := cap,
      next_seq := wrap_ll (q.next_seq + 1),
      closed := q.closed }

/-- What a call of `vipq_pop` does: it waits on the condition variable (queue
empty and not closed), returns 0 ("done"), or returns 1 with a task. -/
inductive vip_pop_result where
  | waits
  | done (q : vip_queue_t)
  | task (out : vip_task_t) (q : vip_queue_t)
deriving DecidableEq, Repr

/-- The function `vipq_pop`. -/
def vipq_pop (q : vip_queue_t) : vip_pop_result :=
  match q.heap with
  | [] => if q.closed = 0 then .waits else .done q
  | out :: rest =>
    let size := rest.length
    if size > 0 then
      let moved := (out :: rest).getLast?.getD out
      let heap := ((out :: rest).dropLast).set 0 moved
      .task out { q with heap := vipq_sift_down heap 0 heap.length }
    else .task out { q with heap := [] }

/-- The function `vipq_close`. -/
def vipq_close (q : vip_queue_t) : vip_queue_t :=
  { q with closed := 1 }

/-- One call on the queue. -/
inductive vip_op where
  | push (atm_id priority : Int) (line : String)
  | pop
  | close
deriving DecidableEq, Repr

/-- The queue after one call; a `vipq_pop` that waits or returns "done" leaves
it as it is. -/
def vipq_step (q : vip_queue_t) (op : vip_op) : vip_queue_t :=
  match op with
  | .push a p l => vipq_push q a p l
  | .pop =>
    match vipq_pop q with
    | .task _ q2 => q2
    | _ => q
  | .close => vipq_close q

/-- The queue after a sequence of calls. -/
def vipq_run (q : vip_queue_t) (ops : List vip_op) : vip_queue_t :=
  ops.foldl vipq_step q

/-- The tasks returned by repeated `vipq_pop` calls, at most `fuel` of them,
until a call returns no task. -/
def vipq_pop_all (q : vip_queue_t) (fuel : Nat) : List vip_task_t :=
  match fuel with
  | 0 => []
  | fuel + 1 =>
    match vipq_pop q with
    | .task out q2 => out :: vipq_pop_all q2 fuel
    | _ => []

/-- The tasks that `vipq_push` builds for a list of (agent, priority, line)
requests when the first one gets the sequence number `seq`. -/
def stamped (seq : Int) (reqs : List (Int × Int × String)) : List vip_task_t :=
  match reqs with
  | [] => []
  | r :: rest =>
    { priority := r.2.1, seq := seq, atm_id := r.1, line := r.2.2 } ::
      stamped (wrap_ll (seq + 1)) rest

/-- The queue after pushing a list of (agent, priority, line) requests. -/
def vipq_push_all (q : vip_queue_t) (reqs : List (Int × Int × String)) : vip_queue_t :=
  reqs.foldl (fun s r => vipq_push s r.1 r.2.1 r.2.2) q

/-- Task `a` may come out before task `b`: it has the higher priority, or the
same priority and a sequence number that is not larger. -/
def task_le (a b : vip_task_t) : Prop :=
  a.priority > b.priority ∨ (a.priority = b.priority ∧ a.seq ≤ b.seq)

instance (a b : vip_task_t) : Decidable (task_le a b) := by
  unfold task_le; infer_instance

/-- Heap order of the array: no cell is higher than its parent cell. -/
def is_heap (h : List vip_task_t) : Prop :=
  ∀ (j : Nat) (a c : vip_task_t), 0 < j → h[(j - 1) / 2]? = some a → h[j]? = some c →
    task_le a c

/-- Heap order everywhere except possibly between cell `i` and its parent,
where the parent of `i` still bounds the children of `i`. -/
def heap_up (h : List vip_task_t) (i : Nat) : Prop :=
  (∀ (j : Nat) (a c : vip_task_t), 0 < j → j ≠ i → h[(j - 1) / 2]? = some a →
    h[j]? = some c → task_le a c) ∧
  (∀ (j : Nat) (a c : vip_task_t), 0 < i → 0 < j → (j - 1) / 2 = i →
    h[(i - 1) / 2]? = some a → h[j]? = some c → task_le a c)

/-- Heap order everywhere except possibly between cell `i` and its children,
where the parent of `i` still bounds the children of `i`. -/
def heap_down (h : List vip_task_t) (i : Nat) : Prop :=
  (∀ (j : Nat) (a c : vip_task_t), 0 < j → (j - 1) / 2 ≠ i → h[(j - 1) / 2]? = some a →
    h[j]? = some c → task_le a c) ∧
  (∀ (j : Nat) (a c : vip_task_t), 0 < i → 0 < j → (j - 1) / 2 = i →
    h[(i - 1) / 2]? = some a → h[j]? = some c → task_le a c)

/-- Six requests with mixed priorities. -/
def vip_requests : List (Int × Int × String) :=
  [(1, 5, "B 10 7777 VIP=5"), (2, 100, "D 10 7777 5 ILS VIP=100"),
   (1, 5, "W 10 7777 5 ILS VIP=5"), (3, 1, "B 20 8888 VIP=1"),
   (2, 100, "Q 20 8888 VIP=100"), (3, 50, "B 10 7777 VIP=50")]

/-- A run of queue calls that mixes pushes and pops. -/
def vip_ops_mixed : List vip_op :=
  [.push 1 5 "B 10 7777 VIP=5", .push 1 7 "B 20 8888 VIP=7", .pop,
   .push 2 7 "Q 30 9999 VIP=7", .push 3 9 "B 30 9999 VIP=9", .push 2 7 "B 10 7777 VIP=7",
   .pop, .push 4 1 "B 20 8888 VIP=1"]

/-- A queue together with the ghost record of a run: the tasks built by the
accepted pushes and the tasks returned by the pops, each in call order. -/
structure vip_trace where
  q : vip_queue_t
  pushed : List vip_task_t
  popped : List vip_task_t
deriving DecidableEq, Repr

/-- One call on the queue, recorded: `vipq_push` builds the task
`{priority, seq = next_seq, atm_id, line}` when the queue is not closed, and a
`vipq_pop` that returns 1 hands out a task. -/
def vipq_step_trace (s : vip_trace) (op : vip_op) : vip_trace :=
  match op with
  | .push a p l =>
    if s.q.closed ≠ 0 then { s with q := vipq_push s.q a p l }
    else
      { q := vipq_push s.q a p l,
        pushed := s.pushed ++ [{ priority := p, seq := s.q.next_seq, atm_id := a, line := l }],
        popped := s.popped }
  | .pop =>
    match vipq_pop s.q with
    | .task t q2 => { q := q2, pushed := s.pushed, popped := s.popped ++ [t] }
    | _ => s
  | .close => { s with q := vipq_close s.q }

/-- A sequence of calls on the queue, recorded. -/
def vipq_run_trace (s : vip_trace) (ops : List vip_op) : vip_trace :=
  ops.foldl vipq_step_trace s

/-- The fresh queue with an empty record. -/
def vip_trace_init : vip_trace :=
  { q := vipq_init, pushed := [], popped := [] }

/-- Largest value of the C type `long long`. -/
def LLONG_MAX : Int := 9223372036854775807

/-- Invariant of a recorded run. -/
def vip_trace_inv (s : vip_trace) : Prop :=
  is_heap s.q.heap ∧
  s.q.next_seq = (s.pushed.length : Int) + 1 ∧
  (∀ (i : Nat) (t : vip_task_t), s.pushed[i]? = some t → t.seq = (i : Int) + 1) ∧
  s.pushed.Pairwise (fun x y => x.seq < y.seq) ∧
  s.popped.Pairwise (fun x y => x.priority = y.priority → x.seq < y.seq) ∧
  (∀ a ∈ s.q.heap, ∀ b ∈ s.popped, a.priority = b.priority → b.seq < a.seq) ∧
  (s.popped ++ s.q.heap).Perm s.pushed

/-- Calls with three tasks of priority 5 pushed around a task of priority 9. -/
def vip_ops_fifo : List vip_op :=
  [.push 1 5 "B 10 7777 VIP=5", .push 2 5 "B 20 8888 VIP=5", .pop,
   .push 3 9 "B 30 9999 VIP=9", .push 1 5 "Q 10 7777 VIP=5", .pop, .pop, .pop]

/-- Calls after which the queue holds three tasks and is closed, followed by a
rejected push. -/
def vip_ops_closed : List vip_op :=
  [.push 1 5 "B 10 7777 VIP=5", .push 2 80 "B 20 8888 VIP=80", .push 3 5 "Q 10 7777 VIP=5",
   .close, .push 4 100 "B 30 9999 VIP=100"]

/-- Account 10 opened with 1000 ILS on a fresh bank. -/
def bank_invest_start : bank_t :=
  bank_after [.open_account 1 10 7777 1000 0]

/-- What another agent does during the sleep of an investment: it closes
account 10. -/
def close_during_sleep (b : bank_t) : bank_t :=
  (bank_close b 2 10 7777).b

/-- Sum of the balances in `cur` of the accounts stored in the entry array. -/
def entries_total (es : List (Option account_t)) (cur : currency_t) : Int :=
  ((es.filterMap id).map (fun a => account_get_balance a cur)).sum

/-- Account 10 opened with 500000000 ILS on a fresh bank. -/
def bank_half_billion : bank_t :=
  bank_after [.open_account 1 10 7777 500000000 0]

/-- Accounts 10 (1000 ILS, 250 USD) and 20 (399 ILS, 40 USD) on a fresh bank. -/
def bank_commission_sample : bank_t :=
  bank_after [.open_account 1 10 7777 1000 250, .open_account 1 20 8888 399 40]

/-- Accounts -2000000000 and 2000000000 opened, in this order, on a fresh bank. -/
def bank_far_ids : bank_t :=
  bank_after [.open_account 1 (-2000000000) 1 0 0, .open_account 1 2000000000 2 0 0]

/-- Accounts 30, 10 and 20 opened, in this order, on a fresh bank. -/
def bank_three_ids : bank_t :=
  bank_after [.open_account 1 30 3 0 0, .open_account 1 10 1 0 0, .open_account 1 20 2 0 0]

/-- The ids of the accounts stored in the entry array, in slot order. -/
def entry_ids (es : List (Option account_t)) : List Int :=
  (es.filterMap id).map (fun a => a.id)

/-- Uniqueness invariant of the bank: the entry array has at least one slot,
the ids of the live accounts are pairwise distinct, and so are the ids of the
entries of every snapshot in the ring. -/
def ids_inv (b : bank_t) : Prop :=
  0 < b.entries.length ∧ (entry_ids b.entries).Nodup ∧
  ∀ s ∈ b.snapshots, (s.accs.map (fun e => e.id)).Nodup

/-- A run with re-opened ids, snapshots and a rollback. -/
def ops_reopen : List engine_op :=
  [.open_account 1 10 7777 100 0, .open_account 1 20 8888 5 5, .open_account 1 10 1 1 1,
   .status_tick, .close_account 1 10 7777, .open_account 1 10 2222 7 0, .status_tick,
   .transfer 1 10 2222 20 .CUR_ILS 3, .rollback 1 1, .status_tick, .open_account 1 20 1 0 0,
   .commission_tick 2]

/-! ## rwlock.c

Every function of `rwlock.c` runs while holding `l->mtx`; a thread blocked in
`pthread_cond_wait` has released it.  The lock is modelled as a state machine
whose steps are the atomic sections of the four functions, taken by threads
that each stand at one place: outside the lock, holding it as a reader,
waiting in `rwlock_wrlock`, or holding it as the writer.  The three counters
are `int`s bounded by the number of threads and are computed exactly. -/

/-- The struct `rwlock_t` without its mutex and condition variables. -/
structure rwlock_t where
  readers : Int
  writer_active : Int
  writers_waiting : Int
deriving DecidableEq, Repr

/-- The function `rwlock_init`. -/
def rwlock_init : rwlock_t :=
  { readers := 0, writer_active := 0, writers_waiting := 0 }

/-- Where a thread stands with respect to the lock. -/
inductive rw_pc where
  | idle
  | reading
  | waiting
  | writing
deriving DecidableEq, Repr

/-- The atomic sections: `rwlock_rdlock` past its wait loop, `rwlock_rdunlock`,
the increment of `writers_waiting` in `rwlock_wrlock`, `rwlock_wrlock` past
its wait loop, and `rwlock_wrunlock`. -/
inductive rw_act where
  | rdlock
  | rdunlock
  | wrlock_enqueue
  | wrlock_acquire
  | wrunlock
deriving DecidableEq, Repr

/-- The lock and the place of every thread. -/
structure rw_state where
  l : rwlock_t
  pcs : List rw_pc
deriving DecidableEq, Repr

/-- Thread `t` takes the atomic section `act`; `none` when the thread does not
stand where that section starts or when its wait loop does not let it pass. -/
def rw_step (s : rw_state) (t : Nat) (act : rw_act) : Option rw_state :=
  match s.pcs[t]?, act with
  | some .idle, .rdlock =>
    if s.l.writer_active ≠ 0 ∨ s.l.writers_waiting > 0 then none
    else some { l := { s.l with readers := s.l.readers + 1 }, pcs := s.pcs.set t .reading }
  | some .reading, .rdunlock =>
    some { l := { s.l with readers := s.l.readers - 1 }, pcs := s.pcs.set t .idle }
  | some .idle, .wrlock_enqueue =>
    some { l := { s.l with writers_waiting := s.l.writers_waiting + 1 },
           pcs := s.pcs.set t .waiting }
  | some .waiting, .wrlock_acquire =>
    if s.l.writer_active ≠ 0 ∨ s.l.readers > 0 then none
    else
      some { l := { s.l with writers_waiting := s.l.writers_waiting - 1, writer_active := 1 },
             pcs := s.pcs.set t .writing }
  | some .writing, .wrunlock =>
    some { l := { s.l with writer_active := 0 }, pcs := s.pcs.set t .idle }
  | _, _ => none

/-- A schedule: the threads try their sections in the given order; a section
that cannot be taken leaves the state as it is. -/
def rw_run (s : rw_state) (evs : List (Nat × rw_act)) : rw_state :=
  evs.foldl (fun st e => (rw_step st e.1 e.2).getD st) s

/-- The initialised lock with `n` threads outside it. -/
def rw_init (n : Nat) : rw_state :=
  { l := rwlock_init, pcs := List.replicate n .idle }

/-- The counters agree with the places of the threads, and a writer holds the
lock alone. -/
def rw_inv (s : rw_state) : Prop :=
  s.l.readers = (s.pcs.count .reading : Int) ∧
  s.l.writers_waiting = (s.pcs.count .waiting : Int) ∧
  s.l.writer_active = (s.pcs.count .writing : Int) ∧
  s.pcs.count .writing ≤ 1 ∧
  (s.pcs.count .writing = 1 → s.pcs.count .reading = 0)

/-- A schedule of three threads: two readers enter, a writer queues and must
wait, a third reader is held back, the readers leave and the writer enters. -/
def rw_schedule : List (Nat × rw_act) :=
  [(0, .rdlock), (1, .rdlock), (2, .wrlock_enqueue), (2, .wrlock_acquire), (0, .rdunlock),
   (0, .rdlock), (1, .rdunlock), (2, .wrlock_acquire), (0, .rdlock)]

/-- Count invariant of the bank: the entry array has at least one slot and the
field `count` is the number of occupied slots. -/
def count_inv (b : bank_t) : Prop :=
  0 < b.entries.length ∧ b.count = (b.accounts.length : Int)

/-! ## main.c: trailing flags of a command line -/

/-- The C library predicate `isspace` in the C locale. -/
def isspace (c : Char) : Bool :=
  c.toNat = 32 || (9 ≤ c.toNat && c.toNat ≤ 13)

/-- The C library predicate `isdigit`. -/
def isdigit (c : Char) : Bool := 48 ≤ c.toNat && c.toNat ≤ 57

/-- The digit loop of `strtol` in base 10: the value of the longest run of
digits at the start of the string, on top of `acc`. -/
def atoi_digits (acc : Nat) (s : List Char) : Nat :=
  match s with
  | [] => acc
  | c :: cs => if isdigit c then atoi_digits (acc * 10 + (c.toNat - 48)) cs else acc

/-- The C library function `atoi` as glibc implements it,
`(int) strtol(s, NULL, 10)`: white space is skipped, an optional sign is read,
then the digits; the `long` result saturates and the cast keeps the low 32
bits.  A string is the list of its characters before the terminating NUL. -/
def atoi (s : List Char) : Int :=
  let s1 := s.dropWhile isspace
  let v : Int :=
    match s1 with
    | [] => 0
    | c :: cs =>
      if c.toNat = 45 then -((atoi_digits 0 cs : Nat) : Int)
      else if c.toNat = 43 then ((atoi_digits 0 cs : Nat) : Int)
      else ((atoi_digits 0 s1 : Nat) : Int)
  let clamped : Int :=
    if v > 9223372036854775807 then 9223372036854775807
    else if v < -9223372036854775808 then -9223372036854775808 else v
  wrap_int clamped

/-- The string literal "PERSISTENT". -/
def str_PERSISTENT : List Char := ['P', 'E', 'R', 'S', 'I', 'S', 'T', 'E', 'N', 'T']

/-- The string literal "VIP=". -/
def str_VIP : List Char := ['V', 'I', 'P', '=']

/-- The test `strcmp(s, t) == 0` on strings without NUL. -/
def strcmp_eq (s t : List Char) : Bool := decide (s = t)

/-- The test `strncmp(s, t, n) == 0` on strings without NUL. -/
def strncmp_eq (s t : List Char) (n : Nat) : Bool := decide (s.take n = t.take n)

/-- The loop of `strip_flags` with `ntok`, `*persistent` and `*vip_prio` as
state; `none` is the exit through `die_illegal_arguments`.  The result is the
returned `ntok` with the final values of the two output parameters. -/
def strip_flags_loop (tok : List (List Char)) (ntok : Nat) (persistent vip_prio : Int) :
    Option (Nat × Int × Int) :=
  match ntok with
  | 0 => some (0, persistent, vip_prio)
  | n + 1 =>
    if strcmp_eq (tok.getD n []) str_PERSISTENT then strip_flags_loop tok n 1 vip_prio
    else if strncmp_eq (tok.getD n []) str_VIP 4 then
      let x := atoi ((tok.getD n []).drop 4)
      if x < 1 ∨ x > 100 then none
      else strip_flags_loop tok n persistent x
    else some (n + 1, persistent, vip_prio)

/-- The function `strip_flags` on the first `ntok` tokens of `tok`. -/
def strip_flags (tok : List (List Char)) (ntok : Nat) : Option (Nat × Int × Int) :=
  strip_flags_loop tok ntok 0 0

/-- The token "VIP=" followed by the string `s`. -/
def vip_token (s : List Char) : List Char := str_VIP ++ s

/-- The decimal numeral of `n`. -/
def decimal (n : Nat) : List Char := Nat.toDigits 10 n

/-! ## customAllocator.c: the single-threaded allocator

The heap is the list of blocks in the order of their `next` pointers, each
with the address of its header, together with the program break and the two
limits that the system puts on it.  Payload contents are not part of the
model, so `memcpy` and `memset` have no counterpart, and the messages printed
by `customFree` and `customRealloc` are left out.  Pointers are addresses, 0
is `NULL`; arithmetic on `size_t` and on pointers wraps modulo `2^64`.  The
headers of the blocks of a list are taken to be distinct objects in mapped
memory; the header that `customMalloc` writes at the old break is checked
against the pages that the break maps.  The allocator is the only code that
moves the break: allocations of the C library itself, such as a buffer of
`printf`, are left out. -/

/-- Number of values of the type `size_t`. -/
def SIZE_MOD : Nat := 18446744073709551616

/-- The value `sizeof(Block)`: a `size_t`, a pointer and a `bool`, padded. -/
def sizeof_Block : Nat := 24

/-- The struct `Block` at the address `addr`; the field `next` is the order of
the list that holds the block. -/
structure Block where
  addr : Nat
  size : Nat
  free : Bool
deriving DecidableEq, Repr

/-- The global `blockList`, the program break, and the limits of the system:
`brk_min` is the page-aligned start of the heap area, below which the kernel
does not move the break, and `brk_max` is the highest break that it grants. -/
structure heap_t where
  blockList : List Block
  brk : Nat
  brk_min : Nat
  brk_max : Nat
deriving DecidableEq, Repr

/-- Size of a page. -/
def PAGE_SIZE : Nat := 4096

/-- The end of the pages that a break maps: the break rounded up to a page. -/
def page_align (brk : Nat) : Nat := (brk + (PAGE_SIZE - 1)) / PAGE_SIZE * PAGE_SIZE

/-- The bytes of a `Block` from its start to the end of its last member:
`size` at offset 0, `next` at offset 8, `free` at offset 16. -/
def Block_members : Nat := 17

/-- Conversion of a `size_t` value to `intptr_t`. -/
def to_intptr (x : Nat) : Int :=
  if x % SIZE_MOD < 9223372036854775808 then ((x % SIZE_MOD : Nat) : Int)
  else ((x % SIZE_MOD : Nat) : Int) - (SIZE_MOD : Int)

/-- The C library function `sbrk` (glibc on Linux): the break afterwards, `none`
for the return value `(void*)-1`; on success the function returns the old
break.  A positive increment fails when the address wraps or the kernel does
not grant the new break.  A negative increment fails when it is larger than
the break; when the new break is below the start of the heap area the kernel
keeps the break and the call still reports success. -/
def sbrk (h : heap_t) (increment : Int) : Option Nat :=
  if increment = 0 then some h.brk
  else if increment > 0 then
    if (h.brk : Int) + increment ≥ (SIZE_MOD : Int) then none
    else if (h.brk : Int) + increment > (h.brk_max : Int) then none
    else some ((h.brk : Int) + increment).toNat
  else
    if (h.brk : Int) < -increment then none
    else if (h.brk : Int) + increment < (h.brk_min : Int) then some h.brk
    else some ((h.brk : Int) + increment).toNat

/-- The function `align4` with the macro `ALIGN_TO_MULT_OF_4` on `size_t`:
the two shifts clear the low two bits of `x - 1`, the addition of 4 wraps. -/
def align4 (x : Nat) : Nat :=
  if x = 0 then 0 else ((x - 1) / 4 * 4 + 4) % SIZE_MOD

/-- The function `block_to_payload`. -/
def block_to_payload (b : Block) : Nat := (b.addr + sizeof_Block) % SIZE_MOD

/-- The loop of `find_block_by_payload` from list position `i` on. -/
def find_block_by_payload_loop (blocks : List Block) (i : Nat) (payload : Nat) : Option Nat :=
  match blocks with
  | [] => none
  | it :: rest =>
    if block_to_payload it = payload then some i
    else find_block_by_payload_loop rest (i + 1) payload

/-- The function `find_block_by_payload`: the list position of the block found,
`none` for `NULL`. -/
def find_block_by_payload (blocks : List Block) (payload : Nat) : Option Nat :=
  find_block_by_payload_loop blocks 0 payload

/-- The loop of `find_best_fit` from list position `i` on, with the variable
`best` as the position and the contents of the block it points to. -/
def find_best_fit_loop (need : Nat) (blocks : List Block) (i : Nat)
    (best : Option (Nat × Block)) : Option (Nat × Block) :=
  match blocks with
  | [] => best
  | it :: rest =>
    if it.free = true ∧ it.size ≥ need then
      match best with
      | none => find_best_fit_loop need rest (i + 1) (some (i, it))
      | some bb =>
        if it.size < bb.2.size then find_best_fit_loop need rest (i + 1) (some (i, it))
        else find_best_fit_loop need rest (i + 1) best
    else find_best_fit_loop need rest (i + 1) best

/-- The function `find_best_fit`: the list position and the contents of the
block returned, `none` for `NULL`. -/
def find_best_fit (blocks : List Block) (need : Nat) : Option (Nat × Block) :=
  find_best_fit_loop need blocks 0 none

/-- The function `split_block_if_worth` for the block at list position `i`;
the sum and the difference are `size_t` arithmetic. -/
def split_block_if_worth (blocks : List Block) (i : Nat) (need : Nat) : List Block :=
  match blocks[i]? with
  | none => blocks
  | some b =>
    if b.size ≥ (need + (sizeof_Block + 4)) % SIZE_MOD then
      let newb : Block :=
        { addr := (b.addr + sizeof_Block + need) % SIZE_MOD,
          size := (((b.size : Int) - (need : Int) - (sizeof_Block : Int)) %
            (SIZE_MOD : Int)).toNat,
          free := true }
      blocks.take i ++ { b with size := need } :: newb :: blocks.drop (i + 1)
    else blocks

/-- The function `are_adjacent` for two blocks. -/
def are_adjacent (a b : Block) : Bool :=
  decide ((a.addr + sizeof_Block + a.size) % SIZE_MOD = b.addr)

/-- The loop `while (b->next && b->next->free && are_adjacent(b, b->next))` of
`coalesce_around`: the block `b` and the blocks after it. -/
def coalesce_next (b : Block) (after : List Block) : Block × List Block :=
  match after with
  | [] => (b, [])
  | nxt :: rest =>
    if nxt.free = true ∧ are_adjacent b nxt = true then
      coalesce_next { b with size := (b.size + (sizeof_Block + nxt.size)) % SIZE_MOD } rest
    else (b, nxt :: rest)

/-- The function `coalesce_around` for the block at list position `i`;
`find_prev` returns the block at position `i - 1`, or `NULL` for the head. -/
def coalesce_around (blocks : List Block) (i : Nat) : List Block :=
  match blocks[i]? with
  | none => blocks
  | some b =>
    let r := coalesce_next b (blocks.drop (i + 1))
    match (blocks.take i).getLast? with
    | none => blocks.take i ++ r.1 :: r.2
    | some prev =>
      if prev.free = true ∧ are_adjacent prev r.1 = true then
        let r2 := coalesce_next
          { prev with size := (prev.size + (sizeof_Block + r.1.size)) % SIZE_MOD } r.2
        (blocks.take i).dropLast ++ r2.1 :: r2.2
      else blocks.take i ++ r.1 :: r.2

/-- The loop of `try_shrink_heap` on the list read from its last block.  The
argument of `brk` is the address of a block of the list, an address between
the two limits of the break: the call is taken to set the break. -/
def try_shrink_heap_loop (rev_blocks : List Block) (brk : Nat) : List Block × Nat :=
  match rev_blocks with
  | [] => ([], brk)
  | last :: rest =>
    if last.free = false then (last :: rest, brk)
    else if (last.addr + sizeof_Block + last.size) % SIZE_MOD ≠ brk then (last :: rest, brk)
    else try_shrink_heap_loop rest last.addr

/-- The function `try_shrink_heap`. -/
def try_shrink_heap (h : heap_t) : heap_t :=
  let r := try_shrink_heap_loop h.blockList.reverse h.brk
  { h with blockList := r.1.reverse, brk := r.2 }

/-- The part of `customMalloc` from the call of `sbrk` on, for the payload size
`need_size`: the argument of `sbrk` is the `size_t` sum
`sizeof(Block) + need_size`, converted to `intptr_t`; the new block lies at the
old break.  The result `none` is the end of the process, by the exit after a
failed `sbrk` or by the fault of a store into the new header when the pages
that the break maps do not reach behind its members. -/
def malloc_from_sbrk (h : heap_t) (need_size : Nat) : Option (heap_t × Nat) :=
  match sbrk h (to_intptr (sizeof_Block + need_size)) with
  | none => none
  | some new_brk =>
    if h.brk + Block_members > page_align new_brk then none
    else
      some ({ h with
              blockList := h.blockList ++ [{ addr := h.brk, size := need_size, free := false }],
              brk := new_brk },
        block_to_payload { addr := h.brk, size := need_size, free := false })

/-- The function `customMalloc`: the heap afterwards and the pointer returned;
`none` is the end of the process. -/
def customMalloc (h : heap_t) (size : Nat) : Option (heap_t × Nat) :=
  if size = 0 then some (h, 0)
  else
    let need_size := align4 size
    match find_best_fit h.blockList need_size with
    | some allocate =>
      let marked := h.blockList.set allocate.1 { allocate.2 with free := false }
      some ({ h with blockList := split_block_if_worth marked allocate.1 need_size },
        block_to_payload allocate.2)
    | none => malloc_from_sbrk h need_size

/-- The function `customFree`. -/
def customFree (h : heap_t) (ptr : Nat) : heap_t :=
  if ptr = 0 then h
  else
    match find_block_by_payload h.blockList ptr with
    | none => h
    | some i =>
      match h.blockList[i]? with
      | none => h
      | some cur =>
        let marked := h.blockList.set i { cur with free := true }
        try_shrink_heap { h with blockList := coalesce_around marked i }

/-- The function `customRealloc`: the heap afterwards and the pointer returned;
`none` is the exit after a failed `sbrk` in `customMalloc`. -/
def customRealloc (h : heap_t) (ptr : Nat) (size : Nat) : Option (heap_t × Nat) :=
  if ptr = 0 then customMalloc h size
  else if size = 0 then some (customFree h ptr, 0)
  else
    match find_block_by_payload h.blockList ptr with
    | none => some (h, 0)
    | some i =>
      match h.blockList[i]? with
      | none => some (h, 0)
      | some new_block =>
        let new_size := align4 size
        let old := new_block.size
        if new_size ≤ old then
          if new_size = old then some (h, ptr)
          else
            let h1 := { h with blockList := split_block_if_worth h.blockList i new_size }
            if (h1.blockList.getD i new_block).size = new_size then
              some (h1, block_to_payload new_block)
            else
              match customMalloc h1 size with
              | none => none
              | some r => if r.2 = 0 then some (r.1, 0) else some (customFree r.1 ptr, r.2)
        else
          match customMalloc h size with
          | none => none
          | some r => if r.2 = 0 then some (r.1, 0) else some (customFree r.1 ptr, r.2)

/-- The calls of the allocator's interface. -/
inductive alloc_call where
  | malloc (size : Nat)
  | free (ptr : Nat)
  | realloc (ptr : Nat) (size : Nat)
deriving DecidableEq, Repr

/-- One call on a heap, the pointer it returns dropped; `none` is the exit. -/
def alloc_step (h : heap_t) (c : alloc_call) : Option heap_t :=
  match c with
  | .malloc size => (customMalloc h size).map (fun r => r.1)
  | .free ptr => some (customFree h ptr)
  | .realloc ptr size => (customRealloc h ptr size).map (fun r => r.1)

/-- A sequence of calls on a heap. -/
def alloc_run (h : heap_t) (cs : List alloc_call) : Option heap_t :=
  match cs with
  | [] => some h
  | c :: rest =>
    match alloc_step h c with
    | none => none
    | some h1 => alloc_run h1 rest

/-- The heap before the first call: no block, the break at `start`, where the
heap area begins. -/
def heap_empty (start brk_max : Nat) : heap_t :=
  { blockList := [], brk := start, brk_min := start, brk_max := brk_max }

/-- Two blocks that follow each other in the list are both free somewhere. -/
def has_adjacent_free (blocks : List Block) : Bool :=
  match blocks with
  | [] => false
  | [_] => false
  | a :: b :: rest => (a.free && b.free) || has_adjacent_free (b :: rest)

/-- The block `b` at list position `j` is the best fit for `need`: free, large
enough, no fitting free block is smaller, and none of the same size stands
earlier in the list. -/
def is_best_fit (blocks : List Block) (need : Nat) (j : Nat) (b : Block) : Prop :=
  blocks[j]? = some b ∧ b.free = true ∧ need ≤ b.size ∧
  ∀ (k : Nat) (c : Block), blocks[k]? = some c → c.free = true → need ≤ c.size →
    b.size ≤ c.size ∧ (c.size = b.size → j ≤ k)

/-- A heap with free blocks of sizes 200, 100 and 100 separated by used blocks
of size 8. -/
def heap_three_free : heap_t :=
  { blockList :=
      [⟨4096, 200, true⟩, ⟨4320, 8, false⟩, ⟨4352, 100, true⟩, ⟨4476, 8, false⟩,
       ⟨4508, 100, true⟩, ⟨4632, 8, false⟩],
    brk := 4664, brk_min := 4096, brk_max := 1000000 }

/-- Three allocations of 100 bytes, the release of the second, and the
reallocation of the first to 4 bytes. -/
def calls_realloc_shrink : List alloc_call :=
  [.malloc 100, .malloc 100, .malloc 100, .free 4244, .realloc 4120 4]

/-! ## Concurrent deposits: threads in `bank_deposit` on one account

Every thread repeats `bank_deposit` on the same account.  A step of a thread
is one atomic section: a section of a lock function that runs under the mutex
of the lock (as in the lock model above), the load of the balance in
`account_add`, or its store.  The scan of `bank_lock_account` is the test of
the account's id; the log line written after the unlock is left out. -/

/-- Where a thread stands in `bank_deposit`: before `rwlock_rdlock` on
`accounts_lock`; holding it as a reader; counted in `writers_waiting` of the
account's lock; holding the account's lock as the writer, with and without
the read lock on `accounts_lock`; between the load and the store of
`balance_ils += amount`; after the store. -/
inductive dep_pc where
  | start
  | map_read
  | acc_waiting
  | acc_write_map
  | locked
  | loaded
  | stored
deriving DecidableEq, Repr

/-- A thread: its place, the number of calls of `bank_deposit` it still has to
finish, and the balance it loaded. -/
structure dep_thread where
  pc : dep_pc
  todo : Nat
  reg : Int
deriving DecidableEq, Repr

/-- The shared state: `accounts_lock`, the lock of the account, the account,
and the threads. -/
structure dep_state where
  accounts_lock : rwlock_t
  acc_lock : rwlock_t
  acc : account_t
  threads : List dep_thread
deriving DecidableEq, Repr

/-- Thread `t` takes its next atomic section of
`bank_deposit(b, atm_id, acc_id, password, CUR_ILS, amount)`; `none` when the
thread has no call left or the wait loop of the lock function does not let it
pass. -/
def dep_step (acc_id password amount : Int) (s : dep_state) (t : Nat) : Option dep_state :=
  match s.threads[t]? with
  | none => none
  | some th =>
    match th.pc with
    | .start =>
      if th.todo = 0 then none
      else if amount ≤ 0 then
        some { s with threads := s.threads.set t { th with todo := th.todo - 1 } }
      else if s.accounts_lock.writer_active ≠ 0 ∨ s.accounts_lock.writers_waiting > 0 then none
      else
        some { s with
          accounts_lock := { s.accounts_lock with readers := s.accounts_lock.readers + 1 },
          threads := s.threads.set t { th with pc := .map_read } }
    | .map_read =>
      if s.acc.id ≠ acc_id then
        some { s with
          accounts_lock := { s.accounts_lock with readers := s.accounts_lock.readers - 1 },
          threads := s.threads.set t { th with pc := .start, todo := th.todo - 1 } }
      else
        some { s with
          acc_lock := { s.acc_lock with writers_waiting := s.acc_lock.writers_waiting + 1 },
          threads := s.threads.set t { th with pc := .acc_waiting } }
    | .acc_waiting =>
      if s.acc_lock.writer_active ≠ 0 ∨ s.acc_lock.readers > 0 then none
      else
        some { s with
          acc_lock := { s.acc_lock with
            writers_waiting := s.acc_lock.writers_waiting - 1, writer_active := 1 },
          threads := s.threads.set t { th with pc := .acc_write_map } }
    | .acc_write_map =>
      some { s with
        accounts_lock := { s.accounts_lock with readers := s.accounts_lock.readers - 1 },
        threads := s.threads.set t { th with pc := .locked } }
    | .locked =>
      if s.acc.password ≠ password then
        some { s with
          acc_lock := { s.acc_lock with writer_active := 0 },
          threads := s.threads.set t { th with pc := .start, todo := th.todo - 1 } }
      else
        some { s with
          threads := s.threads.set t { th with pc := .loaded, reg := s.acc.balance_ils } }
    | .loaded =>
      some { s with
        acc := { s.acc with balance_ils := wrap_int (th.reg + amount) },
        threads := s.threads.set t { th with pc := .stored } }
    | .stored =>
      some { s with
        acc_lock := { s.acc_lock with writer_active := 0 },
        threads := s.threads.set t { th with pc := .start, todo := th.todo - 1 } }

/-- An interleaving: the scheduler picks the threads in the given order; a
thread that is picked while it has to wait, or after its last call, leaves the
state as it is. -/
def dep_run (acc_id password amount : Int) (s : dep_state) (sched : List Nat) : dep_state :=
  match sched with
  | [] => s
  | t :: rest =>
    dep_run acc_id password amount ((dep_step acc_id password amount s t).getD s) rest

/-- The state before the threads start: both locks initialised, the account
with ILS balance 0, and `n` threads with `k` calls each. -/
def dep_init (n k : Nat) (acc_id password usd : Int) : dep_state :=
  { accounts_lock := rwlock_init, acc_lock := rwlock_init,
    acc := { id := acc_id, password := password, balance_ils := 0, balance_usd := usd },
    threads := List.replicate n { pc := .start, todo := k, reg := 0 } }

/-- Every thread has returned from its last call. -/
def dep_finished (s : dep_state) : Prop :=
  ∀ th ∈ s.threads, th.pc = .start ∧ th.todo = 0

instance (s : dep_state) : Decidable (dep_finished s) := by
  unfold dep_finished; infer_instance

/-- The thread holds the account's lock as the writer: 1, otherwise 0. -/
def dep_writer (th : dep_thread) : Nat :=
  match th.pc with
  | .acc_write_map => 1
  | .locked => 1
  | .loaded => 1
  | .stored => 1
  | _ => 0

/-- The number of stores to the balance that the thread has made, out of `k`
calls. -/
def dep_done (k : Nat) (th : dep_thread) : Nat :=
  k - th.todo + (if th.pc = .stored then 1 else 0)

/-- The atomic sections that the thread has passed in its current call. -/
def dep_progress (pc : dep_pc) : Nat :=
  match pc with
  | .start => 0
  | .map_read => 1
  | .acc_waiting => 2
  | .acc_write_map => 3
  | .locked => 4
  | .loaded => 5
  | .stored => 6

/-- The atomic sections that the thread still has to take. -/
def dep_left (th : dep_thread) : Nat := 7 * th.todo - dep_progress th.pc

/-- The sum of `f` over the threads. -/
def dep_sum (f : dep_thread → Nat) (l : List dep_thread) : Nat := (l.map f).sum

/-- Invariant of the interleavings: `accounts_lock` has no writer, the
account's lock has no reader and `writer_active` counts the threads that hold
it, at most one; the account keeps its id and password; the balance is the
`int` value of the number of stores made; every thread has at most `k` calls
left, at least one while it is inside a call, and a loaded balance is the
current balance. -/
def dep_inv (acc_id password : Int) (k : Nat) (s : dep_state) : Prop :=
  s.accounts_lock.writer_active = 0 ∧ s.accounts_lock.writers_waiting = 0 ∧
  s.acc_lock.readers = 0 ∧
  s.acc_lock.writer_active = (dep_sum dep_writer s.threads : Int) ∧
  dep_sum dep_writer s.threads ≤ 1 ∧
  s.acc.id = acc_id ∧ s.acc.password = password ∧
  s.acc.balance_ils = wrap_int (dep_sum (dep_done k) s.threads : Int) ∧
  ∀ th ∈ s.threads, th.todo ≤ k ∧ (th.pc ≠ .start → 0 < th.todo) ∧
    (th.pc = .loaded → th.reg = s.acc.balance_ils)

/-- An interleaving of two threads with one deposit each: both enter
`accounts_lock` and queue for the account's lock, thread 1 gets it, thread 0
is picked twice while it has to wait, and takes the lock after the unlock. -/
def dep_schedule : List Nat := [0, 1, 0, 1, 1, 0, 1, 1, 0, 1, 1, 0, 0, 0, 0, 0]

/-- The address right behind the payload of a block. -/
def block_end (b : Block) : Nat := b.addr + sizeof_Block + b.size

/-- Two blocks that follow each other in the list: the second starts where the
first ends, and they are not both free. -/
def block_link (a b : Block) : Prop :=
  block_end a = b.addr ∧ ¬ (a.free = true ∧ b.free = true)

/-- Well-formed heap: consecutive blocks are linked, the last block ends at
the break, every block ends at or before the highest break, and that is an
address below `2^63`. -/
def heap_wf (h : heap_t) : Prop :=
  List.Chain' block_link h.blockList ∧
  (∀ last, h.blockList.getLast? = some last → block_end last = h.brk) ∧
  (∀ b ∈ h.blockList, block_end b ≤ h.brk_max) ∧
  h.brk_max < 9223372036854775808

/-- The call is `customMalloc` or `customFree`. -/
def alloc_call.no_realloc (c : alloc_call) : Bool :=
  match c with
  | .malloc _ => true
  | .free _ => true
  | .realloc _ _ => false

/-- The call `customRealloc(ptr, size)` reaches `split_block_if_worth` with a
block that is larger than the request by a header and 4 bytes or more, so that
the block is split. -/
def realloc_splits (h : heap_t) (ptr size : Nat) : Bool :=
  if ptr = 0 then false
  else if size = 0 then false
  else
    match find_block_by_payload h.blockList ptr with
    | none => false
    | some i =>
      match h.blockList[i]? with
      | none => false
      | some b =>
        decide (align4 size < b.size ∧
          b.size ≥ (align4 size + (sizeof_Block + 4)) % SIZE_MOD)

/-- No call of the sequence, run from the heap `h`, is a `customRealloc` that
splits its block. -/
def run_without_split (h : heap_t) (cs : List alloc_call) : Prop :=
  match cs with
  | [] => True
  | c :: rest =>
    (match c with
     | .realloc ptr size => realloc_splits h ptr size = false
     | _ => True) ∧
    (match alloc_step h c with
     | none => True
     | some h1 => run_without_split h1 rest)

/-- A push followed by a pop, `LLONG_MAX - 1` times over. -/
def vip_ops_wrap : List vip_op :=
  (List.replicate 9223372036854775806 [.push 1 5 "B 10 7777 VIP=5", .pop]).flatten

/-- The call is a `vipq_push`. -/
def vip_op.is_push (op : vip_op) : Bool :=
  match op with
  | .push _ _ _ => true
  | _ => false

/-- The request of the call is for at most `2^62` bytes. -/
def alloc_call.sane (c : alloc_call) : Bool :=
  match c with
  | .malloc size => decide (size ≤ 4611686018427387904)
  | .free _ => true
  | .realloc _ size => decide (size ≤ 4611686018427387904)

/-! ## Auxiliary lemmas: machine integers, scans, account arithmetic -/

theorem wrap_int_eq {x : Int} (h : is_int x) : wrap_int x = x := by
  unfold is_int INT_MIN INT_MAX at h
  unfold wrap_int
  omega

theorem wrap_int_is_int (x : Int) : is_int (wrap_int x) := by
  unfold is_int INT_MIN INT_MAX wrap_int
  omega

theorem scan_first_spec (es : List (Option account_t)) (id : Int) :
    ∀ (k i : Nat) (a : account_t), scan_first es id k = some (i, a) →
      k ≤ i ∧ es[i - k]? = some (some a) ∧ a.id = id ∧
      ∀ j, j < i - k → ∀ a', es[j]? = some (some a') → a'.id ≠ id := by
  induction es with
  | nil => intro k i a h; simp [scan_first] at h
  | cons e rest ih =>
    intro k i a h
    have step : scan_first rest id (k + 1) = some (i, a) →
        k ≤ i ∧ (e :: rest)[i - k]? = some (some a) ∧ a.id = id ∧
        ∀ j, j < i - k → ∀ a', (e :: rest)[j]? = some (some a') →
          (∀ x, e = some x → x.id ≠ id) → a'.id ≠ id := by
      intro h'
      obtain ⟨h1, h2, h3, h4⟩ := ih (k + 1) i a h'
      have hik : i - k = (i - (k + 1)) + 1 := by omega
      refine ⟨by omega, ?_, h3, ?_⟩
      · rw [hik, List.getElem?_cons_succ]; exact h2
      · intro j hj a' ha' he
        cases j with
        | zero =>
          simp only [List.getElem?_cons_zero, Option.some.injEq] at ha'
          exact he a' ha'
        | succ j =>
          rw [List.getElem?_cons_succ] at ha'
          exact h4 j (by omega) a' ha'
    cases e with
    | none =>
      simp only [scan_first] at h
      obtain ⟨h1, h2, h3, h4⟩ := step h
      exact ⟨h1, h2, h3, fun j hj a' ha' => h4 j hj a' ha' (by simp)⟩
    | some x =>
      simp only [scan_first] at h
      by_cases hx : x.id = id
      · simp only [hx, if_true, Option.some.injEq, Prod.mk.injEq] at h
        obtain ⟨rfl, rfl⟩ := h
        simp [hx]
      · simp only [hx, if_false] at h
        obtain ⟨h1, h2, h3, h4⟩ := step h
        exact ⟨h1, h2, h3, fun j hj a' ha' => h4 j hj a' ha' (by
          intro y hy; simp only [Option.some.injEq] at hy; subst hy; exact hx)⟩

theorem scan_first_none (es : List (Option account_t)) (id : Int) :
    ∀ k, scan_first es id k = none ↔ ∀ a, some a ∈ es → a.id ≠ id := by
  induction es with
  | nil => intro k; simp [scan_first]
  | cons e rest ih =>
    intro k
    cases e with
    | none => simp [scan_first, ih (k + 1)]
    | some x =>
      by_cases hx : x.id = id
      · simp [scan_first, hx]
      · simp [scan_first, hx, ih (k + 1)]

theorem scan_all_spec (es : List (Option account_t)) (id : Int) :
    ∀ (k : Nat) (found : Option (Nat × account_t)) (i : Nat) (a : account_t),
      scan_all es id k found = some (i, a) →
      found = some (i, a) ∨ (k ≤ i ∧ es[i - k]? = some (some a) ∧ a.id = id) := by
  induction es with
  | nil => intro k found i a h; left; simpa [scan_all] using h
  | cons e rest ih =>
    intro k found i a h
    have lift : (k + 1 ≤ i ∧ rest[i - (k + 1)]? = some (some a) ∧ a.id = id) →
        (k ≤ i ∧ (e :: rest)[i - k]? = some (some a) ∧ a.id = id) := by
      rintro ⟨h1, h2, h3⟩
      have hik : i - k = (i - (k + 1)) + 1 := by omega
      exact ⟨by omega, by rw [hik, List.getElem?_cons_succ]; exact h2, h3⟩
    cases e with
    | none =>
      simp only [scan_all] at h
      rcases ih (k + 1) found i a h with h' | h'
      · exact Or.inl h'
      · exact Or.inr (lift h')
    | some x =>
      simp only [scan_all] at h
      by_cases hx : x.id = id
      · simp only [hx, if_true] at h
        rcases ih (k + 1) _ i a h with h' | h'
        · simp only [Option.some.injEq, Prod.mk.injEq] at h'
          obtain ⟨rfl, rfl⟩ := h'
          right; simp [hx]
        · exact Or.inr (lift h')
      · simp only [hx, if_false] at h
        rcases ih (k + 1) found i a h with h' | h'
        · exact Or.inl h'
        · exact Or.inr (lift h')

theorem scan_all_none (es : List (Option account_t)) (id : Int) :
    ∀ (k : Nat) (found : Option (Nat × account_t)),
      scan_all es id k found = none ↔ (found = none ∧ ∀ a, some a ∈ es → a.id ≠ id) := by
  induction es with
  | nil => intro k found; simp [scan_all]
  | cons e rest ih =>
    intro k found
    cases e with
    | none => simp [scan_all, ih (k + 1)]
    | some x =>
      by_cases hx : x.id = id
      · simp [scan_all, hx, ih (k + 1)]
      · simp [scan_all, hx, ih (k + 1)]

theorem scan_all_zero {es : List (Option account_t)} {id : Int} {i : Nat} {a : account_t}
    (h : scan_all es id 0 none = some (i, a)) : es[i]? = some (some a) ∧ a.id = id := by
  rcases scan_all_spec es id 0 none i a h with h' | ⟨_, h2, h3⟩
  · cases h'
  · exact ⟨by simpa using h2, h3⟩

theorem mem_accounts_iff (b : bank_t) (a : account_t) : a ∈ b.accounts ↔ some a ∈ b.entries := by
  simp [bank_t.accounts, List.mem_filterMap]

theorem account_sub_fails_iff (a : account_t) (cur : currency_t) (amount : Int)
    (hpos : 0 < amount) :
    (account_sub a cur amount).1 = -1 ↔ account_get_balance a cur < amount := by
  unfold account_sub account_get_balance
  have h0 : ¬ amount ≤ 0 := by omega
  cases cur <;> simp only [h0, if_false] <;> split <;> simp <;> omega

theorem account_sub_fail_snd (a : account_t) (cur : currency_t) (amount : Int)
    (h : (account_sub a cur amount).1 = -1) : (account_sub a cur amount).2 = a := by
  unfold account_sub at h ⊢
  by_cases h0 : amount ≤ 0
  · simp [h0]
  · cases cur <;> simp only [h0, if_false] at h ⊢ <;> split <;> simp_all

theorem account_sub_ok_snd (a : account_t) (cur : currency_t) (amount : Int)
    (hpos : 0 < amount) (hint : account_get_balance a cur ≤ INT_MAX)
    (h : (account_sub a cur amount).1 ≠ -1) :
    (account_sub a cur amount).2.id = a.id ∧
    (account_sub a cur amount).2.password = a.password ∧
    account_get_balance (account_sub a cur amount).2 cur = account_get_balance a cur - amount ∧
    ∀ c, c ≠ cur →
      account_get_balance (account_sub a cur amount).2 c = account_get_balance a c := by
  have hge : ¬ account_get_balance a cur < amount := by
    rw [← account_sub_fails_iff a cur amount hpos]; exact h
  have h0 : ¬ amount ≤ 0 := by omega
  unfold account_get_balance at hint hge
  unfold INT_MAX at hint
  cases cur
  · have hc : a.balance_ils ≥ amount := by simp only at hge; omega
    have hw : wrap_int (a.balance_ils - amount) = a.balance_ils - amount := by
      simp only at hint; unfold wrap_int; omega
    refine ⟨?_, ?_, ?_, ?_⟩ <;> simp only [account_sub, h0, hc, if_true, if_false, account_get_balance, hw]
    intro c hcne; cases c <;> simp_all
  · have hc : a.balance_usd ≥ amount := by simp only at hge; omega
    have hw : wrap_int (a.balance_usd - amount) = a.balance_usd - amount := by
      simp only at hint; unfold wrap_int; omega
    refine ⟨?_, ?_, ?_, ?_⟩ <;> simp only [account_sub, h0, hc, if_true, if_false, account_get_balance, hw]
    intro c hcne; cases c <;> simp_all

theorem account_add_fields (a : account_t) (cur : currency_t) (amount : Int) :
    (account_add a cur amount).id = a.id ∧
    (account_add a cur amount).password = a.password ∧
    ∀ c, c ≠ cur → account_get_balance (account_add a cur amount) c = account_get_balance a c := by
  unfold account_add
  by_cases h0 : amount ≤ 0
  · simp [h0]
  · cases cur <;> simp only [h0, if_false, account_get_balance, true_and] <;>
      intro c hc <;> cases c <;> simp_all

theorem account_add_exact (a : account_t) (cur : currency_t) (amount : Int)
    (hnn : 0 ≤ amount) (hlo : INT_MIN ≤ account_get_balance a cur)
    (hfit : account_get_balance a cur + amount ≤ INT_MAX) :
    account_get_balance (account_add a cur amount) cur = account_get_balance a cur + amount := by
  unfold account_add
  unfold account_get_balance INT_MAX INT_MIN at *
  by_cases h0 : amount ≤ 0
  · have : amount = 0 := by omega
    simp [h0, this]
  · cases cur <;> simp only [h0, if_false] <;> simp only at hlo hfit <;> unfold wrap_int <;> omega

/-! ## Auxiliary lemmas: the successful path of `bank_transfer` -/

theorem bank_transfer_ok_shape (b : bank_t) (atm_id src_id password dst_id : Int)
    (cur : currency_t) (amount : Int)
    (hok : (bank_transfer b atm_id src_id password dst_id cur amount).rc = .BANK_OK) :
    ∃ i s j d, 0 < amount ∧ src_id ≠ dst_id ∧
      scan_all b.entries src_id 0 none = some (i, s) ∧
      scan_all b.entries dst_id 0 none = some (j, d) ∧
      s.password = password ∧ (account_sub s cur amount).1 ≠ -1 ∧
      (bank_transfer b atm_id src_id password dst_id cur amount).b =
        (b.store i (account_sub s cur amount).2).store j (account_add d cur amount) ∧
      (bank_transfer b atm_id src_id password dst_id cur amount).ovf =
        account_add_overflows d cur amount := by
  unfold bank_transfer at hok ⊢
  by_cases h0 : amount ≤ 0
  · simp [h0] at hok
  by_cases hsd : src_id = dst_id
  · simp [h0, hsd] at hok
  simp only [h0, hsd, if_false] at hok ⊢
  cases hs : scan_all b.entries src_id 0 none with
  | none => simp [hs] at hok
  | some p =>
    obtain ⟨i, s⟩ := p
    cases hd : scan_all b.entries dst_id 0 none with
    | none => simp [hs, hd] at hok
    | some q =>
      obtain ⟨j, d⟩ := q
      simp only [hs, hd] at hok ⊢
      by_cases hp : s.password ≠ password
      · simp [hp] at hok
      simp only [hp, if_false] at hok ⊢
      by_cases hsub : (account_sub s cur amount).1 = -1
      · simp [hsub] at hok
      simp only [hsub, if_false] at hok ⊢
      exact ⟨i, s, j, d, by omega, hsd, rfl, rfl, by simpa using hp, hsub, rfl, rfl⟩

theorem ints_ok_get {b : bank_t} (h : b.ints_ok) {i : Nat} {a : account_t}
    (hi : b.entries[i]? = some (some a)) (cur : currency_t) :
    is_int (account_get_balance a cur) := by
  have hm : a ∈ b.accounts := by
    rw [mem_accounts_iff]
    exact List.getElem?_mem hi
  have := h a hm
  cases cur <;> simp [account_get_balance, this.1, this.2]

/-! ## C1: effect of a successful transfer -/

/-- C1 (amended): for every bank whose balances are `int` values and every
TRANSFER whose outcome is OK, there are two different slots holding the source
and the destination account; afterwards the source balance in `cur` is lower by
exactly `amount`, the destination balance in `cur` is higher by exactly
`amount` provided that sum does not exceed `INT_MAX`, ids, passwords and the
other-currency balances of both are unchanged, every other slot is unchanged,
and so is the rest of the bank. -/
theorem bank_transfer_ok_effect (b : bank_t) (atm_id src_id password dst_id : Int)
    (cur : currency_t) (amount : Int) (hint : b.ints_ok)
    (hok : (bank_transfer b atm_id src_id password dst_id cur amount).rc = .BANK_OK) :
    ∃ (i j : Nat) (s d s1 d1 : account_t), i ≠ j ∧
      b.entries[i]? = some (some s) ∧ s.id = src_id ∧
      b.entries[j]? = some (some d) ∧ d.id = dst_id ∧
      (bank_transfer b atm_id src_id password dst_id cur amount).b.entries[i]? = some (some s1) ∧
      (bank_transfer b atm_id src_id password dst_id cur amount).b.entries[j]? = some (some d1) ∧
      s1.id = s.id ∧ s1.password = s.password ∧ d1.id = d.id ∧ d1.password = d.password ∧
      account_get_balance s1 cur = account_get_balance s cur - amount ∧
      (account_get_balance d cur + amount ≤ INT_MAX →
        account_get_balance d1 cur = account_get_balance d cur + amount) ∧
      (∀ c, c ≠ cur → account_get_balance s1 c = account_get_balance s c ∧
        account_get_balance d1 c = account_get_balance d c) ∧
      (∀ k : Nat, k ≠ i → k ≠ j →
        (bank_transfer b atm_id src_id password dst_id cur amount).b.entries[k]? =
          b.entries[k]?) ∧
      { (bank_transfer b atm_id src_id password dst_id cur amount).b with
          entries := b.entries } = b := by
  obtain ⟨i, s, j, d, hpos, hsd, hs, hd, _, hsub, hb, _⟩ :=
    bank_transfer_ok_shape b atm_id src_id password dst_id cur amount hok
  obtain ⟨hsi, hsid⟩ := scan_all_zero hs
  obtain ⟨hdj, hdid⟩ := scan_all_zero hd
  have hij : i ≠ j := by
    rintro rfl
    rw [hsi] at hdj
    simp only [Option.some.injEq] at hdj
    subst hdj
    exact hsd (hsid.symm.trans hdid)
  have hil : i < b.entries.length := by
    by_contra hcon
    rw [List.getElem?_eq_none (by omega)] at hsi
    cases hsi
  have hjl : j < b.entries.length := by
    by_contra hcon
    rw [List.getElem?_eq_none (by omega)] at hdj
    cases hdj
  have hsint := ints_ok_get hint hsi cur
  have hdint := ints_ok_get hint hdj cur
  obtain ⟨s1id, s1pw, s1bal, s1oth⟩ :=
    account_sub_ok_snd s cur amount hpos hsint.2 hsub
  obtain ⟨d1id, d1pw, d1oth⟩ := account_add_fields d cur amount
  refine ⟨i, j, s, d, (account_sub s cur amount).2, account_add d cur amount, hij, hsi, hsid,
    hdj, hdid, ?_, ?_, s1id, s1pw, d1id, d1pw, s1bal, ?_, ?_, ?_, ?_⟩
  · rw [hb]
    simp [bank_t.store, List.getElem?_set, hij, hil, Ne.symm hij]
  · rw [hb]
    simp [bank_t.store, List.getElem?_set, hjl]
  · intro hfit
    exact account_add_exact d cur amount (by omega) hdint.1 hfit
  · intro c hc
    exact ⟨s1oth c hc, d1oth c hc⟩
  · intro k hki hkj
    rw [hb]
    simp [bank_t.store, List.getElem?_set, Ne.symm hki, Ne.symm hkj]
  · rw [hb]
    simp [bank_t.store]

/-- Witness for C1 on scenario 3 of the spec: accounts 10 (100, 0) and 20 (0, 0),
`T 10 7777 20 60 ILS`. -/
theorem bank_transfer_ok_effect_witness :
    bank_two_accounts.ints_ok ∧
    (bank_transfer bank_two_accounts 1 10 7777 20 .CUR_ILS 60).rc = .BANK_OK ∧
    (bank_transfer bank_two_accounts 1 10 7777 20 .CUR_ILS 60).b.accounts =
      [⟨10, 7777, 40, 0⟩, ⟨20, 8888, 60, 0⟩] ∧
    ∃ (i j : Nat) (s d s1 d1 : account_t), i ≠ j ∧
      bank_two_accounts.entries[i]? = some (some s) ∧ s.id = 10 ∧
      bank_two_accounts.entries[j]? = some (some d) ∧ d.id = 20 ∧
      (bank_transfer bank_two_accounts 1 10 7777 20 .CUR_ILS 60).b.entries[i]? =
        some (some s1) ∧
      (bank_transfer bank_two_accounts 1 10 7777 20 .CUR_ILS 60).b.entries[j]? =
        some (some d1) ∧
      s1.id = s.id ∧ s1.password = s.password ∧ d1.id = d.id ∧ d1.password = d.password ∧
      account_get_balance s1 .CUR_ILS = account_get_balance s .CUR_ILS - 60 ∧
      (account_get_balance d .CUR_ILS + 60 ≤ INT_MAX →
        account_get_balance d1 .CUR_ILS = account_get_balance d .CUR_ILS + 60) ∧
      (∀ c, c ≠ currency_t.CUR_ILS → account_get_balance s1 c = account_get_balance s c ∧
        account_get_balance d1 c = account_get_balance d c) ∧
      (∀ k : Nat, k ≠ i → k ≠ j →
        (bank_transfer bank_two_accounts 1 10 7777 20 .CUR_ILS 60).b.entries[k]? =
          bank_two_accounts.entries[k]?) ∧
      { (bank_transfer bank_two_accounts 1 10 7777 20 .CUR_ILS 60).b with
          entries := bank_two_accounts.entries } = bank_two_accounts :=
  ⟨by decide, by decide, by decide,
   bank_transfer_ok_effect bank_two_accounts 1 10 7777 20 .CUR_ILS 60 (by decide) (by decide)⟩

/-- Counterexample to C1 as stated: with the destination at `INT_MAX` ILS, the
transfer of 60 ILS returns OK and the destination balance becomes
`-2147483589`, not `2147483647 + 60`. -/
theorem bank_transfer_overflow_counterexample :
    bank_rich_target.accounts = [⟨10, 7777, 100, 0⟩, ⟨20, 8888, 2147483647, 0⟩] ∧
    (bank_transfer bank_rich_target 1 10 7777 20 .CUR_ILS 60).rc = .BANK_OK ∧
    (bank_transfer bank_rich_target 1 10 7777 20 .CUR_ILS 60).b.accounts =
      [⟨10, 7777, 40, 0⟩, ⟨20, 8888, -2147483589, 0⟩] ∧
    (-2147483589 : Int) ≠ 2147483647 + 60 := by
  decide

/-! ## C2: balances stay non-negative

The invariant `bank_inv` is shown to be kept by every engine step that does
not overflow in `account_add`, then by every run. -/

theorem entries_ok_set {es : List (Option account_t)} (h : entries_ok es) (i : Nat)
    {a : account_t} (ha : acc_ok a) : entries_ok (es.set i (some a)) := by
  intro x hx
  rcases List.mem_or_eq_of_mem_set hx with h1 | h1
  · exact h x h1
  · simp only [Option.some.injEq] at h1; subst h1; exact ha

theorem entries_ok_set_none {es : List (Option account_t)} (h : entries_ok es) (i : Nat) :
    entries_ok (es.set i none) := by
  intro x hx
  rcases List.mem_or_eq_of_mem_set hx with h1 | h1
  · exact h x h1
  · cases h1

theorem entries_ok_append_none {es : List (Option account_t)} (h : entries_ok es) (n : Nat) :
    entries_ok (es ++ List.replicate n none) := by
  intro x hx
  rcases List.mem_append.mp hx with h1 | h1
  · exact h x h1
  · have := (List.mem_replicate.mp h1).2
    cases this

theorem entries_ok_replicate_none (n : Nat) : entries_ok (List.replicate n none) := by
  intro x hx
  have := (List.mem_replicate.mp hx).2
  cases this

theorem entries_ok_get {es : List (Option account_t)} (h : entries_ok es) {i : Nat}
    {a : account_t} (hi : es[i]? = some (some a)) : acc_ok a :=
  h a (List.getElem?_mem hi)

theorem scan_first_get {es : List (Option account_t)} {id : Int} {i : Nat} {a : account_t}
    (h : scan_first es id 0 = some (i, a)) : es[i]? = some (some a) ∧ a.id = id := by
  obtain ⟨_, h2, h3, _⟩ := scan_first_spec es id 0 i a h
  exact ⟨by simpa using h2, h3⟩

theorem account_sub_acc_ok (a : account_t) (cur : currency_t) (amount : Int) (h : acc_ok a) :
    acc_ok (account_sub a cur amount).2 := by
  unfold account_sub
  unfold acc_ok INT_MAX at *
  by_cases h0 : amount ≤ 0
  · simpa [h0] using h
  · cases cur <;> simp only [h0, if_false] <;> split <;>
      first
      | exact h
      | (simp only; unfold wrap_int; omega)

theorem account_add_acc_ok (a : account_t) (cur : currency_t) (amount : Int) (h : acc_ok a)
    (hfit : account_add_overflows a cur amount = false) :
    acc_ok (account_add a cur amount) := by
  unfold account_add
  unfold account_add_overflows account_get_balance at hfit
  unfold acc_ok INT_MAX at *
  by_cases h0 : amount ≤ 0
  · simpa [h0] using h
  · have hpos : 0 < amount := by omega
    cases cur <;> simp only [h0, if_false] <;>
      simp only [hpos, true_and, decide_eq_false_iff_not, not_lt] at hfit <;>
      unfold wrap_int <;> omega

theorem store_inv {b : bank_t} (h : bank_inv b) (i : Nat) {a : account_t} (ha : acc_ok a) :
    bank_inv (b.store i a) :=
  ⟨entries_ok_set h.1 i ha, h.2⟩

theorem bank_open_inv (b : bank_t) (atm_id acc_id password init_ils init_usd : Int)
    (h : bank_inv b) (hx : is_int init_ils) (hy : is_int init_usd) :
    bank_inv (bank_open b atm_id acc_id password init_ils init_usd).b := by
  unfold bank_open
  by_cases hneg : init_usd < 0 ∨ init_ils < 0
  · simpa [hneg] using h
  · simp only [hneg, if_false]
    have hacc : acc_ok (account_create acc_id password init_ils init_usd) := by
      unfold acc_ok account_create
      unfold is_int at hx hy
      simp only
      omega
    have hins : bank_inv
        (bank_insert_account b (account_create acc_id password init_ils init_usd)).2 := by
      unfold bank_insert_account
      split
      · exact h
      · split
        · exact ⟨entries_ok_set h.1 _ hacc, h.2⟩
        · exact ⟨entries_ok_set (entries_ok_append_none h.1 _) _ hacc, h.2⟩
    split <;> exact hins

theorem bank_close_inv (b : bank_t) (atm_id acc_id password : Int) (h : bank_inv b) :
    bank_inv (bank_close b atm_id acc_id password).b := by
  unfold bank_close
  split
  · exact h
  · split
    · exact h
    · exact ⟨entries_ok_set_none h.1 _, h.2⟩

theorem bank_deposit_inv (b : bank_t) (atm_id acc_id password : Int) (cur : currency_t)
    (amount : Int) (h : bank_inv b)
    (hfit : (bank_deposit b atm_id acc_id password cur amount).ovf = false) :
    bank_inv (bank_deposit b atm_id acc_id password cur amount).b := by
  unfold bank_deposit at hfit ⊢
  by_cases h0 : amount ≤ 0
  · simpa [h0] using h
  · simp only [h0, if_false] at hfit ⊢
    cases hl : bank_lock_account b acc_id with
    | none => exact h
    | some p =>
      obtain ⟨i, acc⟩ := p
      simp only [hl] at hfit ⊢
      have hacc := entries_ok_get h.1 (scan_first_get hl).1
      split
      · exact h
      · rename_i hpw
        simp only [hpw, if_false] at hfit
        exact store_inv h i (account_add_acc_ok acc cur amount hacc hfit)

theorem bank_withdraw_inv (b : bank_t) (atm_id acc_id password : Int) (cur : currency_t)
    (amount : Int) (h : bank_inv b) :
    bank_inv (bank_withdraw b atm_id acc_id password cur amount).b := by
  unfold bank_withdraw
  split
  · exact h
  · cases hl : bank_lock_account b acc_id with
    | none => exact h
    | some p =>
      obtain ⟨i, acc⟩ := p
      have hacc := entries_ok_get h.1 (scan_first_get hl).1
      simp only
      split
      · exact h
      · split <;> exact store_inv h i (account_sub_acc_ok acc cur amount hacc)

theorem bank_balance_inv (b : bank_t) (atm_id acc_id password : Int) (h : bank_inv b) :
    bank_inv (bank_balance b atm_id acc_id password).b := by
  unfold bank_balance
  split
  · exact h
  · split <;> exact h

theorem bank_transfer_inv (b : bank_t) (atm_id src_id password dst_id : Int)
    (cur : currency_t) (amount : Int) (h : bank_inv b)
    (hfit : (bank_transfer b atm_id src_id password dst_id cur amount).ovf = false) :
    bank_inv (bank_transfer b atm_id src_id password dst_id cur amount).b := by
  unfold bank_transfer at hfit ⊢
  by_cases h0 : amount ≤ 0
  · simpa [h0] using h
  · by_cases hsd : src_id = dst_id
    · simpa [h0, hsd] using h
    · simp only [h0, hsd, if_false] at hfit ⊢
      cases hs : scan_all b.entries src_id 0 none with
      | none => exact h
      | some p =>
        obtain ⟨i, s⟩ := p
        cases hd : scan_all b.entries dst_id 0 none with
        | none => exact h
        | some q =>
          obtain ⟨j, d⟩ := q
          have hsok := entries_ok_get h.1 (scan_all_zero hs).1
          have hdok := entries_ok_get h.1 (scan_all_zero hd).1
          simp only [hs, hd] at hfit ⊢
          split
          · exact h
          · rename_i hpw
            simp only [hpw, if_false] at hfit
            split
            · exact store_inv h i (account_sub_acc_ok s cur amount hsok)
            · rename_i hsub
              simp only [hsub, if_false] at hfit
              exact store_inv (store_inv h i (account_sub_acc_ok s cur amount hsok)) j
                (account_add_acc_ok d cur amount hdok hfit)

theorem bank_exchange_inv (b : bank_t) (atm_id acc_id password : Int)
    (from_cur to_cur : currency_t) (amount_from : Int) (h : bank_inv b)
    (hfit : (bank_exchange b atm_id acc_id password from_cur to_cur amount_from).ovf = false) :
    bank_inv (bank_exchange b atm_id acc_id password from_cur to_cur amount_from).b := by
  unfold bank_exchange at hfit ⊢
  by_cases h0 : amount_from ≤ 0
  · simpa [h0] using h
  · by_cases hsd : from_cur = to_cur
    · simpa [h0, hsd] using h
    · simp only [h0, hsd, if_false] at hfit ⊢
      cases hl : bank_lock_account b acc_id with
      | none => exact h
      | some p =>
        obtain ⟨i, acc⟩ := p
        have hacc := entries_ok_get h.1 (scan_first_get hl).1
        simp only [hl] at hfit ⊢
        split
        · exact h
        · rename_i hpw
          simp only [hpw, if_false] at hfit
          split
          · exact store_inv h i (account_sub_acc_ok acc from_cur amount_from hacc)
          · rename_i hsub
            simp only [hsub, if_false] at hfit
            exact store_inv h i
              (account_add_acc_ok _ to_cur _ (account_sub_acc_ok acc from_cur amount_from hacc) hfit)

theorem bank_invest_debit_inv (b : bank_t) (acc_id password amount : Int) (cur : currency_t)
    (time_msec : Int) (h : bank_inv b) :
    bank_inv (bank_invest_debit b acc_id password amount cur time_msec).b := by
  unfold bank_invest_debit
  split
  · exact h
  · split
    · exact h
    · cases hl : bank_lock_account b acc_id with
      | none => exact h
      | some p =>
        obtain ⟨i, acc⟩ := p
        have hacc := entries_ok_get h.1 (scan_first_get hl).1
        simp only
        split
        · exact h
        · split <;> exact store_inv h i (account_sub_acc_ok acc cur amount hacc)

theorem bank_invest_credit_inv (b : bank_t) (acc_id : Int) (cur : currency_t)
    (final_raw : Int) (h : bank_inv b)
    (hfit : (bank_invest_credit b acc_id cur final_raw).ovf = false) :
    bank_inv (bank_invest_credit b acc_id cur final_raw).b := by
  unfold bank_invest_credit at hfit ⊢
  cases hl : bank_lock_account b acc_id with
  | none => exact h
  | some p =>
    obtain ⟨i, acc⟩ := p
    have hacc := entries_ok_get h.1 (scan_first_get hl).1
    simp only [hl] at hfit ⊢
    exact store_inv h i (account_add_acc_ok acc cur _ hacc hfit)

theorem bank_close_atm_request_inv (b : bank_t) (s t : Int) (h : bank_inv b) :
    bank_inv (bank_close_atm_request b s t).b := by
  unfold bank_close_atm_request
  split
  · exact h
  · split <;> exact h

theorem bank_rollback_inv (b : bank_t) (a k : Int) (h : bank_inv b) :
    bank_inv (bank_rollback b a k).b := by
  unfold bank_rollback
  split <;> exact h

theorem collect_status_ok (es : List (Option account_t)) :
    ∀ (k expected : Int), entries_ok es → ∀ e ∈ collect_status es k expected, status_ok e := by
  induction es with
  | nil => intro k expected _ e he; simp [collect_status] at he
  | cons x rest ih =>
    intro k expected hes e he
    have hrest : entries_ok rest := fun a ha => hes a (List.mem_cons_of_mem _ ha)
    unfold collect_status at he
    by_cases hk : k < expected
    · simp only [hk, if_true] at he
      cases x with
      | none => exact ih k expected hrest e he
      | some acc =>
        simp only [List.mem_cons] at he
        rcases he with rfl | he
        · exact hes acc (List.mem_cons_self _ _)
        · exact ih (k + 1) expected hrest e he
    · simp [hk] at he

theorem mem_qsort (arr : List acc_status_t) (cmp : acc_status_t → acc_status_t → Int)
    (e : acc_status_t) : e ∈ qsort arr cmp ↔ e ∈ arr := by
  unfold qsort
  exact (List.perm_insertionSort _ arr).mem_iff

theorem snapshot_capture_inv (b : bank_t) (arr : List acc_status_t) (h : bank_inv b)
    (harr : ∀ e ∈ arr, status_ok e) : bank_inv (snapshot_capture b arr) := by
  refine ⟨h.1, ?_⟩
  intro s hs e he
  simp only [snapshot_capture] at hs
  rcases List.mem_or_eq_of_mem_set hs with h1 | h1
  · exact h.2 s h1 e he
  · subst h1
    simp only [List.mem_map] at he
    obtain ⟨x, hx, rfl⟩ := he
    exact harr x hx

theorem close_loop_inv (targets : List Nat) :
    ∀ b : bank_t, bank_inv b → bank_inv (close_loop targets b).1 := by
  induction targets with
  | nil => intro b h; exact h
  | cons t rest ih =>
    intro b h
    unfold close_loop
    simp only
    split
    · exact ih _ ⟨h.1, h.2⟩
    · exact ih b h

theorem apply_loop_ok (accs : List bank_acc_snapshot_t) :
    ∀ (es : List (Option account_t)) (count : Int) (inserted : Nat),
      entries_ok es → (∀ e ∈ accs, snap_acc_ok e) →
      entries_ok (apply_loop accs es count inserted).1 := by
  induction accs with
  | nil => intro es count inserted hes _; exact hes
  | cons s rest ih =>
    intro es count inserted hes haccs
    have hrest : ∀ e ∈ rest, snap_acc_ok e := fun e he => haccs e (List.mem_cons_of_mem _ he)
    have hs : acc_ok (account_create s.id s.password s.bal_ils s.bal_usd) :=
      haccs s (List.mem_cons_self _ _)
    unfold apply_loop
    split
    · exact hes
    · simp only
      split
      · exact ih _ _ _ (entries_ok_set hes _ hs) hrest
      · exact ih _ _ _ hes hrest

theorem snapshot_apply_inv (b : bank_t) (snap : bank_snapshot_t) (h : bank_inv b)
    (hsnap : ∀ e ∈ snap.accs, snap_acc_ok e) : bank_inv (snapshot_apply b snap) := by
  refine ⟨?_, h.2⟩
  simp only [snapshot_apply]
  exact apply_loop_ok _ _ _ _ (entries_ok_append_none (entries_ok_replicate_none _) _) hsnap

theorem process_rollbacks_loop_inv (reqs : List rollback_req) :
    ∀ b : bank_t, bank_inv b → bank_inv (process_rollbacks_loop reqs b).1 := by
  induction reqs with
  | nil => intro b h; exact h
  | cons req rest ih =>
    intro b h
    unfold process_rollbacks_loop
    split
    · exact ih b h
    · simp only
      apply ih
      apply snapshot_apply_inv b _ h
      intro e he
      simp only at he
      rw [List.getD_eq_getElem?_getD] at he
      cases hg : b.snapshots[(rollback_idx b req.iterations_back).toNat]? with
      | none => simp [hg, snapshot_zero] at he
      | some s =>
        simp only [hg, Option.getD_some] at he
        exact h.2 s (List.getElem?_mem hg) e he

theorem bank_process_rollbacks_inv (b : bank_t) (h : bank_inv b) :
    bank_inv (bank_process_rollbacks b).1 := by
  unfold bank_process_rollbacks
  exact process_rollbacks_loop_inv _ _ ⟨h.1, h.2⟩

theorem bank_status_iteration_inv (b : bank_t) (h : bank_inv b) :
    bank_inv (bank_status_iteration b).1 := by
  unfold bank_status_iteration
  simp only
  apply bank_process_rollbacks_inv
  apply close_loop_inv
  apply snapshot_capture_inv b _ h
  intro e he
  split at he
  · exact collect_status_ok _ _ _ h.1 e ((mem_qsort _ _ e).mp he)
  · exact collect_status_ok _ _ _ h.1 e he

theorem commission_charge_ok (acc : account_t) (percent : Int) (h : acc_ok acc) :
    acc_ok (commission_charge acc percent).1 := by
  unfold commission_charge
  simp only
  have h1 : acc_ok (if Int.tdiv (wrap_int (account_get_balance acc .CUR_ILS * percent)) 100 > 0
      then (account_sub acc .CUR_ILS
        (Int.tdiv (wrap_int (account_get_balance acc .CUR_ILS * percent)) 100)).2 else acc) := by
    split
    · exact account_sub_acc_ok _ _ _ h
    · exact h
  split
  · exact account_sub_acc_ok _ _ _ h1
  · exact h1

theorem commission_loop_ok (es : List (Option account_t)) :
    ∀ (seed : Nat) (bank_ils bank_usd : Int), entries_ok es →
      entries_ok (commission_loop es seed bank_ils bank_usd).entries := by
  induction es with
  | nil => intro seed bi bu h; simpa [commission_loop] using h
  | cons x rest ih =>
    intro seed bi bu h
    have hrest : entries_ok rest := fun a ha => h a (List.mem_cons_of_mem _ ha)
    cases x with
    | none =>
      simp only [commission_loop]
      intro a ha
      simp only [List.mem_cons] at ha
      rcases ha with ha | ha
      · cases ha
      · exact ih seed bi bu hrest a ha
    | some acc =>
      simp only [commission_loop]
      intro a ha
      simp only [List.mem_cons, Option.some.injEq] at ha
      rcases ha with ha | ha
      · subst ha
        exact commission_charge_ok acc _ (h acc (List.mem_cons_self _ _))
      · exact ih _ _ _ hrest a ha

theorem bank_commission_iteration_inv (b : bank_t) (seed : Nat) (h : bank_inv b) :
    bank_inv (bank_commission_iteration b seed).1 := by
  unfold bank_commission_iteration
  exact ⟨commission_loop_ok _ _ _ _ h.1, h.2⟩

theorem bank_init_state_inv (atm_count : Int) : bank_inv (bank_init_state atm_count) := by
  refine ⟨entries_ok_replicate_none _, ?_⟩
  intro s hs e he
  simp only [bank_init_state] at hs
  have := (List.mem_replicate.mp hs).2
  subst this
  simp [snapshot_zero] at he

theorem engine_step_inv (b : bank_t) (op : engine_op) (h : bank_inv b) (ht : op.typed)
    (hfit : (engine_step b op).ovf = false) : bank_inv (engine_step b op).b := by
  cases op with
  | open_account a i p x y => exact bank_open_inv b a i p x y h ht.2.2.2.1 ht.2.2.2.2
  | close_account a i p => exact bank_close_inv b a i p h
  | deposit a i p c m => exact bank_deposit_inv b a i p c m h hfit
  | withdraw a i p c m => exact bank_withdraw_inv b a i p c m h
  | balance a i p => exact bank_balance_inv b a i p h
  | transfer a i p j c m => exact bank_transfer_inv b a i p j c m h hfit
  | exchange a i p f t m => exact bank_exchange_inv b a i p f t m h hfit
  | invest_debit i p m c t => exact bank_invest_debit_inv b i p m c t h
  | invest_credit i c f => exact bank_invest_credit_inv b i c f h hfit
  | close_atm s t => exact bank_close_atm_request_inv b s t h
  | rollback a k => exact bank_rollback_inv b a k h
  | status_tick => exact bank_status_iteration_inv b h
  | commission_tick seed => exact bank_commission_iteration_inv b seed h

theorem engine_run_inv (ops : List engine_op) :
    ∀ b : bank_t, bank_inv b → (∀ op ∈ ops, op.typed) → (engine_run b ops).2 = false →
      bank_inv (engine_run b ops).1 := by
  induction ops with
  | nil => intro b h _ _; exact h
  | cons op rest ih =>
    intro b h ht hfit
    simp only [engine_run, Bool.or_eq_false_iff] at hfit ⊢
    exact ih _ (engine_step_inv b op h (ht op (List.mem_cons_self _ _)) hfit.1)
      (fun o ho => ht o (List.mem_cons_of_mem _ ho)) hfit.2

/-- C2 (amended): starting from a freshly initialised bank, after any finite
sequence of engine steps (OPEN, CLOSE, DEPOSIT, WITHDRAW, BALANCE, TRANSFER,
EXCHANGE, the debit and the credit of INVEST, agent-close and rollback
requests, a status iteration with its rollback applications, a commission
iteration) whose arguments are `int` values and in which no `account_add`
exceeded `INT_MAX`, every live account has `balance_ils >= 0` and
`balance_usd >= 0`. -/
theorem balances_nonneg_without_overflow (atm_count : Int) (b0 : bank_t)
    (ops : List engine_op) (hinit : bank_init atm_count = some b0)
    (htyped : ∀ op ∈ ops, op.typed) (hfit : (engine_run b0 ops).2 = false) :
    ∀ a ∈ (engine_run b0 ops).1.accounts, 0 ≤ a.balance_ils ∧ 0 ≤ a.balance_usd := by
  have hb0 : bank_inv b0 := by
    unfold bank_init at hinit
    split at hinit
    · cases hinit
    · simp only [Option.some.injEq] at hinit
      subst hinit
      exact bank_init_state_inv atm_count
  intro a ha
  have hinv := engine_run_inv ops b0 hb0 htyped hfit
  have := hinv.1 a ((mem_accounts_iff _ a).mp ha)
  exact ⟨this.1.1, this.2.1⟩

set_option maxRecDepth 100000 in
/-- Witness for C2: a run through every kind of step. -/
theorem balances_nonneg_without_overflow_witness :
    bank_init 1 = some (bank_init_state 1) ∧
    (∀ op ∈ ops_sample, op.typed) ∧
    (engine_run (bank_init_state 1) ops_sample).2 = false ∧
    (engine_run (bank_init_state 1) ops_sample).1.accounts = [⟨10, 7777, 195, 40⟩] ∧
    ∀ a ∈ (engine_run (bank_init_state 1) ops_sample).1.accounts,
      0 ≤ a.balance_ils ∧ 0 ≤ a.balance_usd :=
  ⟨by decide, by decide, by decide, by decide,
   balances_nonneg_without_overflow 1 (bank_init_state 1) ops_sample (by decide) (by decide)
     (by decide)⟩

/-- Counterexample to C2 as stated: on a fresh bank, OPEN with `INT_MAX` ILS
followed by DEPOSIT of 1 ILS (all arguments are `int` values) leaves the live
account with the negative balance `INT_MIN`. -/
theorem balances_nonneg_counterexample :
    bank_init 1 = some (bank_init_state 1) ∧
    (∀ op ∈ ops_deposit_overflow, op.typed) ∧
    (engine_run (bank_init_state 1) ops_deposit_overflow).1.accounts =
      [⟨1, 0, -2147483648, 0⟩] ∧
    ¬ (∀ a ∈ (engine_run (bank_init_state 1) ops_deposit_overflow).1.accounts,
        0 ≤ a.balance_ils ∧ 0 ≤ a.balance_usd) := by
  decide

/-! ## C3: a wrong password changes nothing -/

theorem lock_password_ne {b : bank_t} {acc_id password : Int}
    (hpw : ∀ a ∈ b.accounts, a.id = acc_id → a.password ≠ password) {i : Nat} {a : account_t}
    (h : bank_lock_account b acc_id = some (i, a)) : a.password ≠ password := by
  obtain ⟨h1, h2⟩ := scan_first_get h
  exact hpw a ((mem_accounts_iff b a).mpr (List.getElem?_mem h1)) h2

theorem lock_some_of_exists {b : bank_t} {acc_id : Int}
    (hex : ∃ a ∈ b.accounts, a.id = acc_id) :
    ∃ i a, bank_lock_account b acc_id = some (i, a) := by
  obtain ⟨a, ha, hid⟩ := hex
  cases h : bank_lock_account b acc_id with
  | some p => exact ⟨p.1, p.2, rfl⟩
  | none =>
    exact absurd hid ((scan_first_none b.entries acc_id 0).mp h a ((mem_accounts_iff b a).mp ha))

theorem scan_all_some_of_exists {b : bank_t} {acc_id : Int}
    (hex : ∃ a ∈ b.accounts, a.id = acc_id) :
    ∃ i a, scan_all b.entries acc_id 0 none = some (i, a) := by
  obtain ⟨a, ha, hid⟩ := hex
  cases h : scan_all b.entries acc_id 0 none with
  | some p => exact ⟨p.1, p.2, rfl⟩
  | none =>
    exact absurd hid
      (((scan_all_none b.entries acc_id 0 none).mp h).2 a ((mem_accounts_iff b a).mp ha))

theorem scan_all_password_ne {b : bank_t} {acc_id password : Int}
    (hpw : ∀ a ∈ b.accounts, a.id = acc_id → a.password ≠ password) {i : Nat} {a : account_t}
    (h : scan_all b.entries acc_id 0 none = some (i, a)) : a.password ≠ password := by
  obtain ⟨h1, h2⟩ := scan_all_zero h
  exact hpw a ((mem_accounts_iff b a).mpr (List.getElem?_mem h1)) h2

theorem bank_deposit_bad_password (b : bank_t) (atm_id acc_id password : Int)
    (cur : currency_t) (amount : Int)
    (hpw : ∀ a ∈ b.accounts, a.id = acc_id → a.password ≠ password) :
    (bank_deposit b atm_id acc_id password cur amount).b = b ∧
    ((∃ a ∈ b.accounts, a.id = acc_id) → 0 < amount →
      (bank_deposit b atm_id acc_id password cur amount).rc = .BANK_ERR_BAD_PASSWORD) := by
  unfold bank_deposit
  by_cases h0 : amount ≤ 0
  · simp only [h0, if_true, true_and]
    intro _ hpos; omega
  · simp only [h0, if_false]
    cases hl : bank_lock_account b acc_id with
    | none =>
      refine ⟨rfl, fun hex _ => ?_⟩
      obtain ⟨i, a, h⟩ := lock_some_of_exists hex
      rw [hl] at h; cases h
    | some p =>
      obtain ⟨i, a⟩ := p
      simp [lock_password_ne hpw hl]

theorem bank_withdraw_bad_password (b : bank_t) (atm_id acc_id password : Int)
    (cur : currency_t) (amount : Int)
    (hpw : ∀ a ∈ b.accounts, a.id = acc_id → a.password ≠ password) :
    (bank_withdraw b atm_id acc_id password cur amount).b = b ∧
    ((∃ a ∈ b.accounts, a.id = acc_id) → 0 < amount →
      (bank_withdraw b atm_id acc_id password cur amount).rc = .BANK_ERR_BAD_PASSWORD) := by
  unfold bank_withdraw
  by_cases h0 : amount ≤ 0
  · simp only [h0, if_true, true_and]
    intro _ hpos; omega
  · simp only [h0, if_false]
    cases hl : bank_lock_account b acc_id with
    | none =>
      refine ⟨rfl, fun hex _ => ?_⟩
      obtain ⟨i, a, h⟩ := lock_some_of_exists hex
      rw [hl] at h; cases h
    | some p =>
      obtain ⟨i, a⟩ := p
      simp [lock_password_ne hpw hl]

theorem bank_balance_bad_password (b : bank_t) (atm_id acc_id password : Int)
    (hpw : ∀ a ∈ b.accounts, a.id = acc_id → a.password ≠ password) :
    (bank_balance b atm_id acc_id password).b = b ∧
    ((∃ a ∈ b.accounts, a.id = acc_id) →
      (bank_balance b atm_id acc_id password).rc = .BANK_ERR_BAD_PASSWORD) := by
  unfold bank_balance
  cases hl : bank_lock_account b acc_id with
  | none =>
    refine ⟨rfl, fun hex => ?_⟩
    obtain ⟨i, a, h⟩ := lock_some_of_exists hex
    rw [hl] at h; cases h
  | some p =>
    obtain ⟨i, a⟩ := p
    simp [lock_password_ne hpw hl]

theorem bank_close_bad_password (b : bank_t) (atm_id acc_id password : Int)
    (hpw : ∀ a ∈ b.accounts, a.id = acc_id → a.password ≠ password) :
    (bank_close b atm_id acc_id password).b = b ∧
    ((∃ a ∈ b.accounts, a.id = acc_id) →
      (bank_close b atm_id acc_id password).rc = .BANK_ERR_BAD_PASSWORD) := by
  unfold bank_close
  cases hl : scan_first b.entries acc_id 0 with
  | none =>
    refine ⟨rfl, fun hex => ?_⟩
    obtain ⟨i, a, h⟩ := lock_some_of_exists hex
    unfold bank_lock_account at h
    rw [hl] at h; cases h
  | some p =>
    obtain ⟨i, a⟩ := p
    have : a.password ≠ password := lock_password_ne hpw (i := i) hl
    simp [this]

theorem bank_transfer_bad_password (b : bank_t) (atm_id acc_id password dst_id : Int)
    (cur : currency_t) (amount : Int)
    (hpw : ∀ a ∈ b.accounts, a.id = acc_id → a.password ≠ password) :
    (bank_transfer b atm_id acc_id password dst_id cur amount).b = b ∧
    ((∃ a ∈ b.accounts, a.id = acc_id) → (∃ d ∈ b.accounts, d.id = dst_id) → 0 < amount →
      acc_id ≠ dst_id →
      (bank_transfer b atm_id acc_id password dst_id cur amount).rc = .BANK_ERR_BAD_PASSWORD) := by
  unfold bank_transfer
  by_cases h0 : amount ≤ 0
  · simp only [h0, if_true, true_and]
    intro _ _ hpos; omega
  by_cases hsd : acc_id = dst_id
  · simp only [h0, hsd, if_true, if_false, true_and]
    intro _ _ _ hne; exact absurd rfl hne
  simp only [h0, hsd, if_false]
  cases hs : scan_all b.entries acc_id 0 none with
  | none =>
    refine ⟨rfl, fun hex _ _ _ => ?_⟩
    obtain ⟨i, a, h⟩ := scan_all_some_of_exists hex
    rw [hs] at h; cases h
  | some p =>
    obtain ⟨i, s⟩ := p
    cases hd : scan_all b.entries dst_id 0 none with
    | none =>
      refine ⟨rfl, fun _ hex _ _ => ?_⟩
      obtain ⟨j, a, h⟩ := scan_all_some_of_exists hex
      rw [hd] at h; cases h
    | some q =>
      obtain ⟨j, d⟩ := q
      simp [scan_all_password_ne hpw hs]

theorem bank_exchange_bad_password (b : bank_t) (atm_id acc_id password : Int)
    (from_cur to_cur : currency_t) (amount : Int)
    (hpw : ∀ a ∈ b.accounts, a.id = acc_id → a.password ≠ password) :
    (bank_exchange b atm_id acc_id password from_cur to_cur amount).b = b ∧
    ((∃ a ∈ b.accounts, a.id = acc_id) → 0 < amount → from_cur ≠ to_cur →
      (bank_exchange b atm_id acc_id password from_cur to_cur amount).rc =
        .BANK_ERR_BAD_PASSWORD) := by
  unfold bank_exchange
  by_cases h0 : amount ≤ 0
  · simp only [h0, if_true, true_and]
    intro _ hpos; omega
  by_cases hsd : from_cur = to_cur
  · simp only [h0, hsd, if_true, if_false, true_and]
    intro _ _ hne; exact absurd rfl hne
  simp only [h0, hsd, if_false]
  cases hl : bank_lock_account b acc_id with
  | none =>
    refine ⟨rfl, fun hex _ _ => ?_⟩
    obtain ⟨i, a, h⟩ := lock_some_of_exists hex
    rw [hl] at h; cases h
  | some p =>
    obtain ⟨i, a⟩ := p
    simp [lock_password_ne hpw hl]

theorem bank_invest_bad_password (b : bank_t) (atm_id acc_id password amount : Int)
    (cur : currency_t) (time_msec final_raw : Int) (during : bank_t → bank_t)
    (hpw : ∀ a ∈ b.accounts, a.id = acc_id → a.password ≠ password) :
    (bank_invest b atm_id acc_id password amount cur time_msec final_raw during).b = b ∧
    ((∃ a ∈ b.accounts, a.id = acc_id) → 0 < amount → 0 < time_msec → 10 ∣ time_msec →
      (bank_invest b atm_id acc_id password amount cur time_msec final_raw during).rc =
        .BANK_ERR_BAD_PASSWORD) := by
  have key : (bank_invest_debit b acc_id password amount cur time_msec).b = b ∧
      (bank_invest_debit b acc_id password amount cur time_msec).rc ≠ .BANK_OK ∧
      ((∃ a ∈ b.accounts, a.id = acc_id) → 0 < amount → 0 < time_msec → 10 ∣ time_msec →
        (bank_invest_debit b acc_id password amount cur time_msec).rc =
          .BANK_ERR_BAD_PASSWORD) := by
    unfold bank_invest_debit
    by_cases h0 : amount ≤ 0 ∨ time_msec ≤ 0
    · simp only [h0, if_true, true_and]
      refine ⟨by simp, ?_⟩
      intro _ h1 h2; omega
    by_cases h1 : Int.tmod time_msec 10 ≠ 0
    · rw [if_neg h0, if_pos h1]
      refine ⟨rfl, by simp, ?_⟩
      intro _ _ _ hd
      exact absurd (Int.tmod_eq_zero_of_dvd hd) h1
    rw [if_neg h0, if_neg h1]
    cases hl : bank_lock_account b acc_id with
    | none =>
      refine ⟨rfl, by simp, fun hex _ _ _ => ?_⟩
      obtain ⟨i, a, h⟩ := lock_some_of_exists hex
      rw [hl] at h; cases h
    | some p =>
      obtain ⟨i, a⟩ := p
      simp [lock_password_ne hpw hl]
  unfold bank_invest
  simp only [key.2.1, ne_eq, not_false_eq_true, if_true]
  exact ⟨key.1, key.2.2⟩

/-- C3 (amended): let `password` differ from the password of every account
with id `acc_id`.  Then DEPOSIT, WITHDRAW, BALANCE, CLOSE, TRANSFER (with
`acc_id` as source), EXCHANGE and INVEST leave the whole bank unchanged; and
when an account with id `acc_id` exists the outcome is BAD_PASSWORD for BALANCE
and CLOSE, for DEPOSIT and WITHDRAW with `amount > 0`, for EXCHANGE with
`amount > 0` and two different currencies, for INVEST with `amount > 0` and a
positive duration that is a multiple of 10, and for TRANSFER with `amount > 0`,
an existing destination and, in addition to what the claim lists, a
destination id different from the source id. -/
theorem bad_password_no_effect (b : bank_t)
    (atm_id acc_id password dst_id amount time_msec final_raw : Int)
    (cur to_cur : currency_t) (during : bank_t → bank_t)
    (hpw : ∀ a ∈ b.accounts, a.id = acc_id → a.password ≠ password) :
    ((bank_deposit b atm_id acc_id password cur amount).b = b ∧
     (bank_withdraw b atm_id acc_id password cur amount).b = b ∧
     (bank_balance b atm_id acc_id password).b = b ∧
     (bank_close b atm_id acc_id password).b = b ∧
     (bank_transfer b atm_id acc_id password dst_id cur amount).b = b ∧
     (bank_exchange b atm_id acc_id password cur to_cur amount).b = b ∧
     (bank_invest b atm_id acc_id password amount cur time_msec final_raw during).b = b) ∧
    ((∃ a ∈ b.accounts, a.id = acc_id) →
      (bank_balance b atm_id acc_id password).rc = .BANK_ERR_BAD_PASSWORD ∧
      (bank_close b atm_id acc_id password).rc = .BANK_ERR_BAD_PASSWORD ∧
      (0 < amount →
        (bank_deposit b atm_id acc_id password cur amount).rc = .BANK_ERR_BAD_PASSWORD ∧
        (bank_withdraw b atm_id acc_id password cur amount).rc = .BANK_ERR_BAD_PASSWORD ∧
        (cur ≠ to_cur →
          (bank_exchange b atm_id acc_id password cur to_cur amount).rc =
            .BANK_ERR_BAD_PASSWORD) ∧
        (0 < time_msec → 10 ∣ time_msec →
          (bank_invest b atm_id acc_id password amount cur time_msec final_raw during).rc =
            .BANK_ERR_BAD_PASSWORD) ∧
        ((∃ d ∈ b.accounts, d.id = dst_id) → acc_id ≠ dst_id →
          (bank_transfer b atm_id acc_id password dst_id cur amount).rc =
            .BANK_ERR_BAD_PASSWORD))) := by
  have hd := bank_deposit_bad_password b atm_id acc_id password cur amount hpw
  have hw := bank_withdraw_bad_password b atm_id acc_id password cur amount hpw
  have hb := bank_balance_bad_password b atm_id acc_id password hpw
  have hc := bank_close_bad_password b atm_id acc_id password hpw
  have ht := bank_transfer_bad_password b atm_id acc_id password dst_id cur amount hpw
  have hx := bank_exchange_bad_password b atm_id acc_id password cur to_cur amount hpw
  have hi := bank_invest_bad_password b atm_id acc_id password amount cur time_msec final_raw
    during hpw
  refine ⟨⟨hd.1, hw.1, hb.1, hc.1, ht.1, hx.1, hi.1⟩, fun hex => ⟨hb.2 hex, hc.2 hex, ?_⟩⟩
  intro hpos
  exact ⟨hd.2 hex hpos, hw.2 hex hpos, fun hne => hx.2 hex hpos hne,
    fun h1 h2 => hi.2 hex hpos h1 h2, fun hdst hne => ht.2 hex hdst hpos hne⟩

/-- Witness for C3: account 10 has password 7777; the calls use 1111. -/
theorem bad_password_no_effect_witness :
    (∀ a ∈ bank_two_accounts.accounts, a.id = 10 → a.password ≠ 1111) ∧
    (∃ a ∈ bank_two_accounts.accounts, a.id = 10) ∧
    (bank_deposit bank_two_accounts 1 10 1111 .CUR_ILS 5).b = bank_two_accounts ∧
    (bank_deposit bank_two_accounts 1 10 1111 .CUR_ILS 5).rc = .BANK_ERR_BAD_PASSWORD ∧
    (bank_transfer bank_two_accounts 1 10 1111 20 .CUR_ILS 5).b = bank_two_accounts ∧
    (bank_transfer bank_two_accounts 1 10 1111 20 .CUR_ILS 5).rc = .BANK_ERR_BAD_PASSWORD ∧
    (bank_invest bank_two_accounts 1 10 1111 5 .CUR_ILS 100 5 id).b = bank_two_accounts ∧
    (bank_invest bank_two_accounts 1 10 1111 5 .CUR_ILS 100 5 id).rc =
      .BANK_ERR_BAD_PASSWORD :=
  have h := bad_password_no_effect bank_two_accounts 1 10 1111 20 5 100 5 .CUR_ILS .CUR_USD id
    (by decide)
  have hex : ∃ a ∈ bank_two_accounts.accounts, a.id = 10 := by decide
  have hr := (h.2 hex).2.2 (by decide)
  ⟨by decide, hex, h.1.1, hr.1, h.1.2.2.2.2.1, hr.2.2.2.2 (by decide) (by decide),
   h.1.2.2.2.2.2.2, hr.2.2.2.1 (by decide) (by decide)⟩

/-- Counterexample to C3 as stated: account 10 exists with password 7777 and
the amount 5 is valid, yet TRANSFER from 10 to 10 with the wrong password 1111
returns SAME_ACCOUNT, not BAD_PASSWORD. -/
theorem bad_password_same_account_counterexample :
    (∃ a ∈ bank_two_accounts.accounts, a.id = 10 ∧ a.password = 7777) ∧
    (bank_transfer bank_two_accounts 1 10 1111 10 .CUR_ILS 5).rc = .BANK_ERR_SAME_ACCOUNT ∧
    (bank_transfer bank_two_accounts 1 10 1111 10 .CUR_ILS 5).rc ≠ .BANK_ERR_BAD_PASSWORD := by
  decide

/-! ## C4: illegal amounts are rejected first -/

/-- C4: OPEN with a negative initial balance, DEPOSIT, WITHDRAW, TRANSFER and
EXCHANGE with `amount <= 0`, and INVEST with `amount <= 0`, `duration <= 0` or
a duration that is not a multiple of 10, return ILLEGAL_AMOUNT and leave the
whole bank (accounts and bank totals) unchanged, for every account id,
password and bank state. -/
theorem illegal_amount_no_effect (b : bank_t)
    (atm_id acc_id password dst_id init_ils init_usd amount time_msec final_raw : Int)
    (cur to_cur : currency_t) (during : bank_t → bank_t) :
    ((init_ils < 0 ∨ init_usd < 0) →
      (bank_open b atm_id acc_id password init_ils init_usd).rc = .BANK_ERR_ILLEGAL_AMOUNT ∧
      (bank_open b atm_id acc_id password init_ils init_usd).b = b) ∧
    (amount ≤ 0 →
      ((bank_deposit b atm_id acc_id password cur amount).rc = .BANK_ERR_ILLEGAL_AMOUNT ∧
       (bank_deposit b atm_id acc_id password cur amount).b = b) ∧
      ((bank_withdraw b atm_id acc_id password cur amount).rc = .BANK_ERR_ILLEGAL_AMOUNT ∧
       (bank_withdraw b atm_id acc_id password cur amount).b = b) ∧
      ((bank_transfer b atm_id acc_id password dst_id cur amount).rc =
          .BANK_ERR_ILLEGAL_AMOUNT ∧
       (bank_transfer b atm_id acc_id password dst_id cur amount).b = b) ∧
      ((bank_exchange b atm_id acc_id password cur to_cur amount).rc =
          .BANK_ERR_ILLEGAL_AMOUNT ∧
       (bank_exchange b atm_id acc_id password cur to_cur amount).b = b)) ∧
    ((amount ≤ 0 ∨ time_msec ≤ 0 ∨ ¬ (10 ∣ time_msec)) →
      (bank_invest b atm_id acc_id password amount cur time_msec final_raw during).rc =
        .BANK_ERR_ILLEGAL_AMOUNT ∧
      (bank_invest b atm_id acc_id password amount cur time_msec final_raw during).b = b) := by
  refine ⟨?_, ?_, ?_⟩
  · intro h
    have h' : init_usd < 0 ∨ init_ils < 0 := h.symm
    simp [bank_open, h']
  · intro h
    simp [bank_deposit, bank_withdraw, bank_transfer, bank_exchange, h]
  · intro h
    have key : (bank_invest_debit b acc_id password amount cur time_msec) =
        { rc := .BANK_ERR_ILLEGAL_AMOUNT, b := b, log := [], out := none, ovf := false } := by
      unfold bank_invest_debit
      by_cases h0 : amount ≤ 0 ∨ time_msec ≤ 0
      · rw [if_pos h0]
      · have h1 : Int.tmod time_msec 10 ≠ 0 := by
          rcases h with h | h | h
          · exact absurd (Or.inl h) h0
          · exact absurd (Or.inr h) h0
          · exact fun hz => h (Int.dvd_of_tmod_eq_zero hz)
        rw [if_neg h0, if_pos h1]
    simp [bank_invest, key]

/-- Witness for C4 on the bank with accounts 10 and 20. -/
theorem illegal_amount_no_effect_witness :
    (bank_open bank_two_accounts 1 30 1 (-1) 0).rc = .BANK_ERR_ILLEGAL_AMOUNT ∧
    (bank_open bank_two_accounts 1 30 1 (-1) 0).b = bank_two_accounts ∧
    (bank_deposit bank_two_accounts 1 10 7777 .CUR_ILS 0).rc = .BANK_ERR_ILLEGAL_AMOUNT ∧
    (bank_transfer bank_two_accounts 1 10 7777 10 .CUR_ILS 0).rc = .BANK_ERR_ILLEGAL_AMOUNT ∧
    (bank_invest bank_two_accounts 1 10 7777 5 .CUR_ILS 15 5 id).rc =
      .BANK_ERR_ILLEGAL_AMOUNT ∧
    (bank_invest bank_two_accounts 1 10 7777 5 .CUR_ILS 15 5 id).b = bank_two_accounts :=
  have h1 := (illegal_amount_no_effect bank_two_accounts 1 30 1 10 (-1) 0 0 15 5
    .CUR_ILS .CUR_USD id).1 (by decide)
  have h2 := (illegal_amount_no_effect bank_two_accounts 1 10 7777 10 (-1) 0 0 15 5
    .CUR_ILS .CUR_USD id).2.1 (by decide)
  have h3 := (illegal_amount_no_effect bank_two_accounts 1 10 7777 10 (-1) 0 5 15 5
    .CUR_ILS .CUR_USD id).2.2 (by decide)
  ⟨h1.1, h1.2, h2.1.1, h2.2.2.1.1, h3.1, h3.2⟩

/-! ## Auxiliary lemmas: writes through an account pointer -/

theorem store_same {b : bank_t} {i : Nat} {a : account_t}
    (h : b.entries[i]? = some (some a)) : b.store i a = b := by
  have : b.entries.set i (some a) = b.entries := by
    apply List.ext_getElem?
    intro n
    rw [List.getElem?_set]
    by_cases hn : i = n
    · subst hn
      have hil : i < b.entries.length := by
        by_contra hcon
        rw [List.getElem?_eq_none (by omega)] at h
        cases h
      simp [hil, h]
    · simp [hn]
  simp [bank_t.store, this]

theorem store_entries (b : bank_t) (i : Nat) (a : account_t)
    (hi : ∃ x, b.entries[i]? = some x) :
    (b.store i a).entries[i]? = some (some a) ∧
    (∀ k : Nat, k ≠ i → (b.store i a).entries[k]? = b.entries[k]?) ∧
    { b.store i a with entries := b.entries } = b := by
  obtain ⟨x, hx⟩ := hi
  have hil : i < b.entries.length := by
    by_contra hcon
    rw [List.getElem?_eq_none (by omega)] at hx
    cases hx
  refine ⟨by simp [bank_t.store, List.getElem?_set, hil], ?_, by simp [bank_t.store]⟩
  intro k hk
  simp [bank_t.store, List.getElem?_set, Ne.symm hk]

/-! ## C5: WITHDRAW -/

/-- C5: let `bank_lock_account` find account `a` in slot `i` for `acc_id`, let
the password be correct, `amount > 0`, and the balance of `a` in `cur` an
`int` value.  Then WITHDRAW returns INSUFFICIENT_FUNDS exactly when that
balance is below `amount`; in that case the bank is unchanged and the one log
line is the error line carrying the two current balances.  Otherwise it
returns OK, slot `i` holds the account with the balance in `cur` lowered by
exactly `amount` and id, password and the other currency unchanged, and
nothing else in the bank changes. -/
theorem bank_withdraw_effect (b : bank_t) (atm_id acc_id password : Int) (cur : currency_t)
    (amount : Int) (i : Nat) (a : account_t)
    (hfound : bank_lock_account b acc_id = some (i, a))
    (hpw : a.password = password) (hpos : 0 < amount)
    (hint : is_int (account_get_balance a cur)) :
    ((bank_withdraw b atm_id acc_id password cur amount).rc = .BANK_ERR_INSUFFICIENT_FUNDS ↔
      account_get_balance a cur < amount) ∧
    (account_get_balance a cur < amount →
      (bank_withdraw b atm_id acc_id password cur amount).b = b ∧
      (bank_withdraw b atm_id acc_id password cur amount).log =
        [log_line
          "Error %d: Your transaction failed – account id %d balance is %d ILS and %d USD is lower than %d %s"
          [.d atm_id, .d acc_id, .d a.balance_ils, .d a.balance_usd, .d amount,
           .s (cur_str cur)]]) ∧
    (¬ account_get_balance a cur < amount →
      (bank_withdraw b atm_id acc_id password cur amount).rc = .BANK_OK ∧
      ∃ a1 : account_t,
        (bank_withdraw b atm_id acc_id password cur amount).b.entries[i]? = some (some a1) ∧
        a1.id = a.id ∧ a1.password = a.password ∧
        account_get_balance a1 cur = account_get_balance a cur - amount ∧
        (∀ c, c ≠ cur → account_get_balance a1 c = account_get_balance a c) ∧
        (∀ k : Nat, k ≠ i →
          (bank_withdraw b atm_id acc_id password cur amount).b.entries[k]? = b.entries[k]?) ∧
        { (bank_withdraw b atm_id acc_id password cur amount).b with
            entries := b.entries } = b) := by
  have h0 : ¬ amount ≤ 0 := by omega
  have hp : ¬ a.password ≠ password := by simp [hpw]
  have hslot := (scan_first_get hfound).1
  have hfail := account_sub_fails_iff a cur amount hpos
  by_cases hlt : account_get_balance a cur < amount
  · have hsub : (account_sub a cur amount).1 = -1 := hfail.mpr hlt
    have hsnd := account_sub_fail_snd a cur amount hsub
    have hr : bank_withdraw b atm_id acc_id password cur amount =
        { rc := .BANK_ERR_INSUFFICIENT_FUNDS, b := b,
          log := [log_line
            "Error %d: Your transaction failed – account id %d balance is %d ILS and %d USD is lower than %d %s"
            [.d atm_id, .d acc_id, .d a.balance_ils, .d a.balance_usd, .d amount,
             .s (cur_str cur)]],
          out := none, ovf := false } := by
      unfold bank_withdraw
      rw [if_neg h0, hfound]
      simp only
      rw [if_neg hp, if_pos hsub, hsnd, store_same hslot]
      rfl
    rw [hr]
    exact ⟨by simp [hlt], fun _ => ⟨rfl, rfl⟩, fun h => absurd hlt h⟩
  · have hsub : ¬ (account_sub a cur amount).1 = -1 := fun h => hlt (hfail.mp h)
    obtain ⟨a1id, a1pw, a1bal, a1oth⟩ := account_sub_ok_snd a cur amount hpos hint.2 hsub
    obtain ⟨e1, e2, e3⟩ := store_entries b i (account_sub a cur amount).2 ⟨_, hslot⟩
    have hrc : (bank_withdraw b atm_id acc_id password cur amount).rc = .BANK_OK := by
      unfold bank_withdraw
      rw [if_neg h0, hfound]
      simp only
      rw [if_neg hp, if_neg hsub]
    have hb : (bank_withdraw b atm_id acc_id password cur amount).b =
        b.store i (account_sub a cur amount).2 := by
      unfold bank_withdraw
      rw [if_neg h0, hfound]
      simp only
      rw [if_neg hp, if_neg hsub]
    refine ⟨by simp [hrc, hlt], fun h => absurd h hlt, fun _ => ⟨hrc, ?_⟩⟩
    rw [hb]
    exact ⟨_, e1, a1id, a1pw, a1bal, a1oth, e2, e3⟩

set_option maxRecDepth 100000 in
/-- Witness for C5 on scenario 1 of the spec: from (100, 50), `W 10 7777 30 USD`
returns OK and leaves (100, 20). -/
theorem bank_withdraw_effect_witness :
    bank_lock_account bank_scenario1 10 = some (0, ⟨10, 7777, 100, 50⟩) ∧
    (bank_withdraw bank_scenario1 1 10 7777 .CUR_USD 30).rc = .BANK_OK ∧
    (bank_withdraw bank_scenario1 1 10 7777 .CUR_USD 30).b.accounts =
      [⟨10, 7777, 100, 20⟩] ∧
    ((bank_withdraw bank_scenario1 1 10 7777 .CUR_USD 60).rc =
        .BANK_ERR_INSUFFICIENT_FUNDS ↔ (50 : Int) < 60) ∧
    (bank_withdraw bank_scenario1 1 10 7777 .CUR_USD 60).b = bank_scenario1 :=
  have h := bank_withdraw_effect bank_scenario1 1 10 7777 .CUR_USD 30 0 ⟨10, 7777, 100, 50⟩
    (by decide) (by decide) (by decide) (by decide)
  have h2 := bank_withdraw_effect bank_scenario1 1 10 7777 .CUR_USD 60 0 ⟨10, 7777, 100, 50⟩
    (by decide) (by decide) (by decide) (by decide)
  ⟨by decide, (h.2.2 (by decide)).1, by decide, h2.1, (h2.2.1 (by decide)).1⟩

/-! ## C6: OPEN of an existing id -/

/-- C6: when the bank already holds an account with id `acc_id`, OPEN with that
id, any password and non-negative initial balances returns ACCOUNT_EXISTS and
leaves the whole bank unchanged (entries, their ids, passwords and balances,
and `count`). -/
theorem bank_open_existing (b : bank_t) (atm_id acc_id password init_ils init_usd : Int)
    (hex : ∃ a ∈ b.accounts, a.id = acc_id) (hils : 0 ≤ init_ils) (husd : 0 ≤ init_usd) :
    (bank_open b atm_id acc_id password init_ils init_usd).rc = .BANK_ERR_ACCOUNT_EXISTS ∧
    (bank_open b atm_id acc_id password init_ils init_usd).b = b := by
  obtain ⟨i, a, hl⟩ := lock_some_of_exists hex
  unfold bank_lock_account at hl
  have h0 : ¬ (init_usd < 0 ∨ init_ils < 0) := by omega
  have hins : bank_insert_account b (account_create acc_id password init_ils init_usd) =
      (-1, b) := by
    unfold bank_insert_account
    simp only [account_create, hl]
  unfold bank_open
  rw [if_neg h0]
  simp only [hins, if_true]
  exact ⟨trivial, trivial⟩

/-- Witness for C6: account 10 exists; `O 10 1 5 5` is refused. -/
theorem bank_open_existing_witness :
    (∃ a ∈ bank_two_accounts.accounts, a.id = 10) ∧
    (bank_open bank_two_accounts 1 10 1 5 5).rc = .BANK_ERR_ACCOUNT_EXISTS ∧
    (bank_open bank_two_accounts 1 10 1 5 5).b = bank_two_accounts :=
  ⟨by decide, bank_open_existing bank_two_accounts 1 10 1 5 5 (by decide) (by decide)
    (by decide)⟩

/-! ## C7: TRANSFER with a missing account -/

/-- C7: for TRANSFER with `amount > 0` and `src_id ≠ dst_id`, when no account
has id `src_id` or no account has id `dst_id`, the outcome is
ACCOUNT_NOT_FOUND and the whole bank is unchanged, for every password. -/
theorem bank_transfer_missing_account (b : bank_t) (atm_id src_id password dst_id : Int)
    (cur : currency_t) (amount : Int) (hpos : 0 < amount) (hne : src_id ≠ dst_id)
    (hmiss : (¬ ∃ a ∈ b.accounts, a.id = src_id) ∨ (¬ ∃ a ∈ b.accounts, a.id = dst_id)) :
    (bank_transfer b atm_id src_id password dst_id cur amount).rc =
      .BANK_ERR_ACCOUNT_NOT_FOUND ∧
    (bank_transfer b atm_id src_id password dst_id cur amount).b = b := by
  have h0 : ¬ amount ≤ 0 := by omega
  have none_of_missing : ∀ id, (¬ ∃ a ∈ b.accounts, a.id = id) →
      scan_all b.entries id 0 none = none := by
    intro id hno
    rw [scan_all_none]
    refine ⟨rfl, fun a ha hid => hno ⟨a, (mem_accounts_iff b a).mpr ha, hid⟩⟩
  unfold bank_transfer
  rw [if_neg h0, if_neg hne]
  cases hs : scan_all b.entries src_id 0 none with
  | none => exact ⟨rfl, rfl⟩
  | some p =>
    obtain ⟨i, s⟩ := p
    rcases hmiss with hm | hm
    · rw [none_of_missing src_id hm] at hs; cases hs
    · simp only [none_of_missing dst_id hm]
      exact ⟨trivial, trivial⟩

/-- Witness for C7: the bank holds account 10 only; the transfer to 20 with a
wrong password is refused with ACCOUNT_NOT_FOUND. -/
theorem bank_transfer_missing_account_witness :
    (¬ ∃ a ∈ bank_scenario2_no_dst.accounts, a.id = 20) ∧
    (bank_transfer bank_scenario2_no_dst 1 10 1111 20 .CUR_ILS 40).rc =
      .BANK_ERR_ACCOUNT_NOT_FOUND ∧
    (bank_transfer bank_scenario2_no_dst 1 10 1111 20 .CUR_ILS 40).b = bank_scenario2_no_dst :=
  ⟨by decide, bank_transfer_missing_account bank_scenario2_no_dst 1 10 1111 20 .CUR_ILS 40
    (by decide) (by decide) (Or.inr (by decide))⟩

/-! ## C8: scenario 2 of the spec -/

/-- C8 (amended): after `O 10 7777 0 0`, `O 20 8888 0 0`, `D 10 7777 100 ILS`
on a fresh bank, `T 10 7777 20 40 ILS` returns OK, logs the transfer line and
leaves account 10 at (60, 0) and account 20 at (40, 0).  When the OPEN of
account 20 is left out, the same transfer returns ACCOUNT_NOT_FOUND, logs that
account id 20 does not exist, and leaves the bank, with account 10 at
(100, 0), unchanged. -/
theorem scenario2_transfer :
    bank_scenario2.accounts = [⟨10, 7777, 100, 0⟩, ⟨20, 8888, 0, 0⟩] ∧
    (bank_transfer bank_scenario2 1 10 7777 20 .CUR_ILS 40).rc = .BANK_OK ∧
    (bank_transfer bank_scenario2 1 10 7777 20 .CUR_ILS 40).b.accounts =
      [⟨10, 7777, 60, 0⟩, ⟨20, 8888, 40, 0⟩] ∧
    (bank_transfer bank_scenario2 1 10 7777 20 .CUR_ILS 40).log =
      [log_line
        "%d: Transfer %d %s from account %d to account %d new account balance is %d ILS and %d USD new target account balance is %d ILS and %d USD"
        [.d 1, .d 40, .s "ILS", .d 10, .d 20, .d 60, .d 0, .d 40, .d 0]] ∧
    bank_scenario2_no_dst.accounts = [⟨10, 7777, 100, 0⟩] ∧
    (bank_transfer bank_scenario2_no_dst 1 10 7777 20 .CUR_ILS 40).rc =
      .BANK_ERR_ACCOUNT_NOT_FOUND ∧
    (bank_transfer bank_scenario2_no_dst 1 10 7777 20 .CUR_ILS 40).log =
      [log_line "Error %d: Your transaction failed – account id %d does not exist"
        [.d 1, .d 20]] ∧
    (bank_transfer bank_scenario2_no_dst 1 10 7777 20 .CUR_ILS 40).b = bank_scenario2_no_dst := by
  refine ⟨by decide, by decide, by decide, by rfl, by decide, by decide, by rfl, by decide⟩

/-- Counterexample to C8 as stated: after the three operations of scenario 2
account 20 exists, the transfer returns OK and not ACCOUNT_NOT_FOUND, and
account 10 ends at (60, 0), not (100, 0). -/
theorem scenario2_transfer_counterexample :
    (∃ a ∈ bank_scenario2.accounts, a.id = 20) ∧
    (bank_transfer bank_scenario2 1 10 7777 20 .CUR_ILS 40).rc ≠
      .BANK_ERR_ACCOUNT_NOT_FOUND ∧
    (bank_transfer bank_scenario2 1 10 7777 20 .CUR_ILS 40).log ≠ [log_not_found 1 20] ∧
    (⟨10, 7777, 100, 0⟩ : account_t) ∉
      (bank_transfer bank_scenario2 1 10 7777 20 .CUR_ILS 40).b.accounts := by
  refine ⟨by decide, by decide, ?_, by decide⟩
  intro h
  have h2 := congrArg (fun l => l.map (fun r => r.args.length)) h
  revert h2
  decide

/-! ## C9: EXCHANGE -/

theorem bank_exchange_unfold (b : bank_t) (atm_id acc_id password : Int)
    (from_cur to_cur : currency_t) (amount_from : Int) (i : Nat) (a : account_t)
    (hfound : bank_lock_account b acc_id = some (i, a)) (hpw : a.password = password)
    (hpos : 0 < amount_from) (hne : from_cur ≠ to_cur) :
    ((account_sub a from_cur amount_from).1 = -1 →
      (bank_exchange b atm_id acc_id password from_cur to_cur amount_from).rc =
        .BANK_ERR_INSUFFICIENT_FUNDS ∧
      (bank_exchange b atm_id acc_id password from_cur to_cur amount_from).b = b) ∧
    ((account_sub a from_cur amount_from).1 ≠ -1 →
      (bank_exchange b atm_id acc_id password from_cur to_cur amount_from).rc = .BANK_OK ∧
      (bank_exchange b atm_id acc_id password from_cur to_cur amount_from).b =
        b.store i (account_add (account_sub a from_cur amount_from).2 to_cur
          (if from_cur = .CUR_USD then wrap_int (amount_from * 5)
           else Int.tdiv amount_from 5))) := by
  have h0 : ¬ amount_from ≤ 0 := by omega
  have hp : ¬ a.password ≠ password := by simp [hpw]
  have hslot := (scan_first_get hfound).1
  unfold bank_exchange
  rw [if_neg h0, if_neg hne, hfound]
  simp only
  rw [if_neg hp]
  constructor
  · intro hsub
    rw [if_pos hsub, account_sub_fail_snd a from_cur amount_from hsub, store_same hslot]
    exact ⟨rfl, rfl⟩
  · intro hsub
    rw [if_neg hsub]
    refine ⟨rfl, ?_⟩
    cases from_cur <;> cases to_cur <;> simp_all

/-- C9 (amended): let `bank_lock_account` find account `a` in slot `i`, the
password be correct, `amount_from > 0`, the two currencies differ and both
balances of `a` be `int` values.  When the `from_cur` balance is below
`amount_from`, EXCHANGE returns INSUFFICIENT_FUNDS and the bank is unchanged.
Otherwise it returns OK, the `from_cur` balance of the account in slot `i`
is lower by exactly `amount_from`, id and password are unchanged, nothing else
in the bank changes, and the `to_cur` balance is higher by exactly
`amount_from * 5` (USD to ILS) or `amount_from / 5` truncated (ILS to USD)
provided that this amount and the resulting balance do not exceed `INT_MAX`. -/
theorem bank_exchange_effect (b : bank_t) (atm_id acc_id password : Int)
    (from_cur to_cur : currency_t) (amount_from : Int) (i : Nat) (a : account_t)
    (hfound : bank_lock_account b acc_id = some (i, a)) (hpw : a.password = password)
    (hpos : 0 < amount_from) (hne : from_cur ≠ to_cur)
    (hint : is_int a.balance_ils ∧ is_int a.balance_usd) :
    (account_get_balance a from_cur < amount_from →
      (bank_exchange b atm_id acc_id password from_cur to_cur amount_from).rc =
        .BANK_ERR_INSUFFICIENT_FUNDS ∧
      (bank_exchange b atm_id acc_id password from_cur to_cur amount_from).b = b) ∧
    (¬ account_get_balance a from_cur < amount_from →
      (bank_exchange b atm_id acc_id password from_cur to_cur amount_from).rc = .BANK_OK ∧
      ∃ a1 : account_t,
        (bank_exchange b atm_id acc_id password from_cur to_cur amount_from).b.entries[i]? =
          some (some a1) ∧
        a1.id = a.id ∧ a1.password = a.password ∧
        account_get_balance a1 from_cur = account_get_balance a from_cur - amount_from ∧
        ((if from_cur = .CUR_USD then amount_from * 5 else Int.tdiv amount_from 5) ≤ INT_MAX →
          account_get_balance a to_cur +
            (if from_cur = .CUR_USD then amount_from * 5 else Int.tdiv amount_from 5) ≤ INT_MAX →
          account_get_balance a1 to_cur = account_get_balance a to_cur +
            (if from_cur = .CUR_USD then amount_from * 5 else Int.tdiv amount_from 5)) ∧
        (∀ k : Nat, k ≠ i →
          (bank_exchange b atm_id acc_id password from_cur to_cur amount_from).b.entries[k]? =
            b.entries[k]?) ∧
        { (bank_exchange b atm_id acc_id password from_cur to_cur amount_from).b with
            entries := b.entries } = b) := by
  obtain ⟨hfailcase, hokcase⟩ :=
    bank_exchange_unfold b atm_id acc_id password from_cur to_cur amount_from i a hfound hpw
      hpos hne
  have hfail := account_sub_fails_iff a from_cur amount_from hpos
  have hslot := (scan_first_get hfound).1
  have hintf : is_int (account_get_balance a from_cur) := by
    cases from_cur <;> simp [account_get_balance, hint.1, hint.2]
  have hintt : is_int (account_get_balance a to_cur) := by
    cases to_cur <;> simp [account_get_balance, hint.1, hint.2]
  refine ⟨fun hlt => hfailcase (hfail.mpr hlt), fun hge => ?_⟩
  have hsub : (account_sub a from_cur amount_from).1 ≠ -1 := fun h => hge (hfail.mp h)
  obtain ⟨hrc, hb⟩ := hokcase hsub
  obtain ⟨s_id, s_pw, s_bal, s_oth⟩ := account_sub_ok_snd a from_cur amount_from hpos hintf.2 hsub
  obtain ⟨e1, e2, e3⟩ := store_entries b i
    (account_add (account_sub a from_cur amount_from).2 to_cur
      (if from_cur = .CUR_USD then wrap_int (amount_from * 5) else Int.tdiv amount_from 5))
    ⟨_, hslot⟩
  obtain ⟨t_id, t_pw, t_oth⟩ := account_add_fields (account_sub a from_cur amount_from).2 to_cur
    (if from_cur = .CUR_USD then wrap_int (amount_from * 5) else Int.tdiv amount_from 5)
  refine ⟨hrc, _, hb ▸ e1, t_id.trans s_id, t_pw.trans s_pw, ?_, ?_, hb ▸ e2, hb ▸ e3⟩
  · rw [t_oth from_cur hne, s_bal]
  · intro hamt hsum
    have hto : account_get_balance (account_sub a from_cur amount_from).2 to_cur =
        account_get_balance a to_cur := s_oth to_cur (Ne.symm hne)
    have hcode : (if from_cur = .CUR_USD then wrap_int (amount_from * 5)
        else Int.tdiv amount_from 5) =
        (if from_cur = .CUR_USD then amount_from * 5 else Int.tdiv amount_from 5) := by
      by_cases hf : from_cur = .CUR_USD
      · rw [if_pos hf, if_pos hf]
        rw [if_pos hf] at hamt
        apply wrap_int_eq
        unfold is_int INT_MIN
        exact ⟨by omega, hamt⟩
      · rw [if_neg hf, if_neg hf]
    have hnn : 0 ≤ (if from_cur = .CUR_USD then amount_from * 5 else Int.tdiv amount_from 5) := by
      by_cases hf : from_cur = .CUR_USD
      · rw [if_pos hf]; omega
      · rw [if_neg hf, Int.tdiv_eq_ediv (by omega) (by omega)]; omega
    rw [hcode, ← hto]
    exact account_add_exact _ to_cur _ hnn (by rw [hto]; exact hintt.1) (by rw [hto]; exact hsum)

set_option maxRecDepth 100000 in
/-- Witness for C9: from (100, 50), `X 10 7777 USD to ILS 10` gives (150, 40),
`X 10 7777 ILS to USD 12` gives (88, 52), and exchanging 60 USD is refused. -/
theorem bank_exchange_effect_witness :
    bank_lock_account bank_scenario1 10 = some (0, ⟨10, 7777, 100, 50⟩) ∧
    (bank_exchange bank_scenario1 1 10 7777 .CUR_USD .CUR_ILS 10).rc = .BANK_OK ∧
    (bank_exchange bank_scenario1 1 10 7777 .CUR_USD .CUR_ILS 10).b.accounts =
      [⟨10, 7777, 150, 40⟩] ∧
    (bank_exchange bank_scenario1 1 10 7777 .CUR_ILS .CUR_USD 12).b.accounts =
      [⟨10, 7777, 88, 52⟩] ∧
    (bank_exchange bank_scenario1 1 10 7777 .CUR_USD .CUR_ILS 60).rc =
      .BANK_ERR_INSUFFICIENT_FUNDS ∧
    (bank_exchange bank_scenario1 1 10 7777 .CUR_USD .CUR_ILS 60).b = bank_scenario1 :=
  have h1 := bank_exchange_effect bank_scenario1 1 10 7777 .CUR_USD .CUR_ILS 10 0
    ⟨10, 7777, 100, 50⟩ (by decide) (by decide) (by decide) (by decide) (by decide)
  have h2 := bank_exchange_effect bank_scenario1 1 10 7777 .CUR_USD .CUR_ILS 60 0
    ⟨10, 7777, 100, 50⟩ (by decide) (by decide) (by decide) (by decide) (by decide)
  ⟨by decide, (h1.2 (by decide)).1, by decide, by decide, (h2.1 (by decide)).1,
   (h2.1 (by decide)).2⟩

/-- Counterexample to C9 as stated: with (0 ILS, 500000000 USD), exchanging
500000000 USD to ILS returns OK, debits the USD, and the ILS balance stays 0
instead of rising by `500000000 * 5`. -/
theorem bank_exchange_overflow_counterexample :
    bank_usd_rich.accounts = [⟨10, 7777, 0, 500000000⟩] ∧
    (bank_exchange bank_usd_rich 1 10 7777 .CUR_USD .CUR_ILS 500000000).rc = .BANK_OK ∧
    (bank_exchange bank_usd_rich 1 10 7777 .CUR_USD .CUR_ILS 500000000).b.accounts =
      [⟨10, 7777, 0, 0⟩] ∧
    (0 : Int) ≠ 0 + 500000000 * 5 := by
  decide

/-! ## C10: EXCHANGE round trip -/

theorem scan_first_set (es : List (Option account_t)) (id : Int) (a1 : account_t)
    (h1 : a1.id = id) :
    ∀ (k i : Nat) (a : account_t), scan_first es id k = some (i, a) →
      scan_first (es.set (i - k) (some a1)) id k = some (i, a1) := by
  induction es with
  | nil => intro k i a h; simp [scan_first] at h
  | cons e rest ih =>
    intro k i a h
    have hki := (scan_first_spec (e :: rest) id k i a h).1
    have step : scan_first rest id (k + 1) = some (i, a) → (∀ x, e = some x → x.id ≠ id) →
        scan_first ((e :: rest).set (i - k) (some a1)) id k = some (i, a1) := by
      intro h' he
      have hk1 := (scan_first_spec rest id (k + 1) i a h').1
      have hik : i - k = (i - (k + 1)) + 1 := by omega
      rw [hik, List.set_cons_succ]
      have := ih (k + 1) i a h'
      cases e with
      | none => simpa [scan_first] using this
      | some x =>
        have hx : x.id ≠ id := he x rfl
        simpa [scan_first, hx] using this
    cases e with
    | none =>
      simp only [scan_first] at h
      exact step h (by simp)
    | some x =>
      simp only [scan_first] at h
      by_cases hx : x.id = id
      · simp only [hx, if_true, Option.some.injEq, Prod.mk.injEq] at h
        obtain ⟨rfl, rfl⟩ := h
        simp [scan_first, h1]
      · simp only [hx, if_false] at h
        exact step h (by
          intro y hy; simp only [Option.some.injEq] at hy; subst hy; exact hx)

theorem lock_after_store {b : bank_t} {acc_id : Int} {i : Nat} {a a1 : account_t}
    (h : bank_lock_account b acc_id = some (i, a)) (h1 : a1.id = a.id) :
    bank_lock_account (b.store i a1) acc_id = some (i, a1) := by
  unfold bank_lock_account at h ⊢
  have hid := (scan_first_get h).2
  have := scan_first_set b.entries acc_id a1 (h1.trans hid) 0 i a h
  simpa [bank_t.store] using this

theorem store_store (b : bank_t) (i : Nat) (a1 a2 : account_t) :
    (b.store i a1).store i a2 = b.store i a2 := by
  simp [bank_t.store, List.set_set]

/-- C10 (amended): let `bank_lock_account` find account `a`, the password be
correct and `0 <= x`.  If the USD balance of `a` is at least `x` and at most
`INT_MAX`, its ILS balance is at least 0 and its ILS balance plus `5 * x` is
at most `INT_MAX`, then EXCHANGE USD to ILS of `x` immediately followed by
EXCHANGE ILS to USD of `5 * x` leaves the bank exactly as it was; for `x > 0`
both calls return OK, for `x = 0` both return ILLEGAL_AMOUNT. -/
theorem bank_exchange_round_trip (b : bank_t) (atm_id acc_id password x : Int) (i : Nat)
    (a : account_t) (hfound : bank_lock_account b acc_id = some (i, a))
    (hpw : a.password = password) (hx : 0 ≤ x)
    (husd : x ≤ a.balance_usd ∧ a.balance_usd ≤ INT_MAX)
    (hils : 0 ≤ a.balance_ils ∧ a.balance_ils + 5 * x ≤ INT_MAX) :
    (bank_exchange (bank_exchange b atm_id acc_id password .CUR_USD .CUR_ILS x).b
      atm_id acc_id password .CUR_ILS .CUR_USD (5 * x)).b = b ∧
    (0 < x →
      (bank_exchange b atm_id acc_id password .CUR_USD .CUR_ILS x).rc = .BANK_OK ∧
      (bank_exchange (bank_exchange b atm_id acc_id password .CUR_USD .CUR_ILS x).b
        atm_id acc_id password .CUR_ILS .CUR_USD (5 * x)).rc = .BANK_OK) ∧
    (x = 0 →
      (bank_exchange b atm_id acc_id password .CUR_USD .CUR_ILS x).rc =
        .BANK_ERR_ILLEGAL_AMOUNT ∧
      (bank_exchange (bank_exchange b atm_id acc_id password .CUR_USD .CUR_ILS x).b
        atm_id acc_id password .CUR_ILS .CUR_USD (5 * x)).rc = .BANK_ERR_ILLEGAL_AMOUNT) := by
  unfold INT_MAX at husd hils
  by_cases hx0 : x = 0
  · subst hx0
    simp [bank_exchange]
  have hpos : 0 < x := by omega
  have hpos5 : 0 < 5 * x := by omega
  have hslot := (scan_first_get hfound).1
  -- first exchange
  obtain ⟨_, hok1⟩ := bank_exchange_unfold b atm_id acc_id password .CUR_USD .CUR_ILS x i a
    hfound hpw hpos (by decide)
  have hsub1 : (account_sub a .CUR_USD x).1 ≠ -1 := by
    rw [Ne, account_sub_fails_iff a .CUR_USD x hpos]
    simp only [account_get_balance]; omega
  obtain ⟨hrc1, hb1⟩ := hok1 hsub1
  obtain ⟨a1, ha1def⟩ : ∃ a1 : account_t, a1 =
      { a with balance_ils := a.balance_ils + 5 * x, balance_usd := a.balance_usd - x } :=
    ⟨_, rfl⟩
  have ha1 : account_add (account_sub a .CUR_USD x).2 .CUR_ILS
      (if currency_t.CUR_USD = .CUR_USD then wrap_int (x * 5) else Int.tdiv x 5) = a1 := by
    have hc : a.balance_usd ≥ x := husd.1
    have h0 : ¬ x ≤ 0 := by omega
    have hw1 : wrap_int (x * 5) = x * 5 := by unfold wrap_int; omega
    have h05 : ¬ x * 5 ≤ 0 := by omega
    have hw2 : wrap_int (a.balance_usd - x) = a.balance_usd - x := by unfold wrap_int; omega
    have hw3 : wrap_int (a.balance_ils + x * 5) = a.balance_ils + 5 * x := by
      unfold wrap_int; omega
    rw [ha1def]
    simp only [account_sub, account_add, h0, hc, if_true, if_false, hw1, h05, hw2, hw3]
  rw [ha1] at hb1
  -- second exchange
  have hfound2 : bank_lock_account
      (bank_exchange b atm_id acc_id password .CUR_USD .CUR_ILS x).b acc_id = some (i, a1) := by
    rw [hb1]
    exact lock_after_store hfound (by rw [ha1def])
  have hpw1 : a1.password = password := by rw [ha1def]; exact hpw
  obtain ⟨_, hok2⟩ := bank_exchange_unfold
    (bank_exchange b atm_id acc_id password .CUR_USD .CUR_ILS x).b atm_id acc_id password
    .CUR_ILS .CUR_USD (5 * x) i a1 hfound2 hpw1 hpos5 (by decide)
  have hsub2 : (account_sub a1 .CUR_ILS (5 * x)).1 ≠ -1 := by
    rw [Ne, account_sub_fails_iff _ .CUR_ILS (5 * x) hpos5]
    simp only [account_get_balance, ha1def]; omega
  obtain ⟨hrc2, hb2⟩ := hok2 hsub2
  have ha2 : account_add (account_sub a1 .CUR_ILS (5 * x)).2 .CUR_USD
      (if currency_t.CUR_ILS = .CUR_USD then wrap_int (5 * x * 5) else Int.tdiv (5 * x) 5) =
      a := by
    have hc : a.balance_ils + 5 * x ≥ 5 * x := by omega
    have h0 : ¬ 5 * x ≤ 0 := by omega
    have hdiv : Int.tdiv (5 * x) 5 = x := Int.mul_tdiv_cancel_left x (by decide)
    have hx0' : ¬ x ≤ 0 := by omega
    have hw2 : wrap_int (a.balance_ils + 5 * x - 5 * x) = a.balance_ils := by
      unfold wrap_int; omega
    have hw3 : wrap_int (a.balance_usd - x + x) = a.balance_usd := by
      unfold wrap_int; omega
    have hne : ¬ (currency_t.CUR_ILS = currency_t.CUR_USD) := by decide
    rw [ha1def]
    simp only [account_sub, account_add, h0, hc, if_true, if_false, hdiv, hx0', hw2, hw3, hne]
  have hback : (bank_exchange (bank_exchange b atm_id acc_id password .CUR_USD .CUR_ILS x).b
      atm_id acc_id password .CUR_ILS .CUR_USD (5 * x)).b = b := by
    rw [hb2, ha2, hb1, store_store, store_same hslot]
  exact ⟨hback, fun _ => ⟨hrc1, hrc2⟩, fun h => absurd h hx0⟩

set_option maxRecDepth 100000 in
/-- Witness for C10: from (100, 50), exchanging 10 USD to ILS and 50 ILS back. -/
theorem bank_exchange_round_trip_witness :
    bank_lock_account bank_scenario1 10 = some (0, ⟨10, 7777, 100, 50⟩) ∧
    (bank_exchange bank_scenario1 1 10 7777 .CUR_USD .CUR_ILS 10).b.accounts =
      [⟨10, 7777, 150, 40⟩] ∧
    (bank_exchange (bank_exchange bank_scenario1 1 10 7777 .CUR_USD .CUR_ILS 10).b
      1 10 7777 .CUR_ILS .CUR_USD (5 * 10)).b = bank_scenario1 :=
  ⟨by decide, by decide,
   (bank_exchange_round_trip bank_scenario1 1 10 7777 10 0 ⟨10, 7777, 100, 50⟩
     (by decide) (by decide) (by decide) (by decide) (by decide)).1⟩

/-- Counterexample to C10 as stated: with (100 ILS, 0 USD) and `x = 1`, the
exchange of 1 USD is refused for insufficient funds, the exchange of 5 ILS
back succeeds, and the account ends at (95, 1) instead of (100, 0). -/
theorem bank_exchange_round_trip_counterexample :
    bank_ils_only.accounts = [⟨10, 7777, 100, 0⟩] ∧
    (bank_exchange bank_ils_only 1 10 7777 .CUR_USD .CUR_ILS 1).rc =
      .BANK_ERR_INSUFFICIENT_FUNDS ∧
    (bank_exchange (bank_exchange bank_ils_only 1 10 7777 .CUR_USD .CUR_ILS 1).b
      1 10 7777 .CUR_ILS .CUR_USD (5 * 1)).rc = .BANK_OK ∧
    (bank_exchange (bank_exchange bank_ils_only 1 10 7777 .CUR_USD .CUR_ILS 1).b
      1 10 7777 .CUR_ILS .CUR_USD (5 * 1)).b.accounts = [⟨10, 7777, 95, 1⟩] := by
  decide

/-! ## C11: DEPOSIT followed by WITHDRAW -/

theorem bank_deposit_unfold (b : bank_t) (atm_id acc_id password : Int) (cur : currency_t)
    (amount : Int) (i : Nat) (a : account_t)
    (hfound : bank_lock_account b acc_id = some (i, a)) (hpw : a.password = password)
    (hpos : 0 < amount) :
    (bank_deposit b atm_id acc_id password cur amount).rc = .BANK_OK ∧
    (bank_deposit b atm_id acc_id password cur amount).b = b.store i (account_add a cur amount) := by
  have h0 : ¬ amount ≤ 0 := by omega
  have hp : ¬ a.password ≠ password := by simp [hpw]
  unfold bank_deposit
  rw [if_neg h0, hfound]
  simp only
  rw [if_neg hp]
  exact ⟨rfl, rfl⟩

theorem bank_withdraw_unfold (b : bank_t) (atm_id acc_id password : Int) (cur : currency_t)
    (amount : Int) (i : Nat) (a : account_t)
    (hfound : bank_lock_account b acc_id = some (i, a)) (hpw : a.password = password)
    (hpos : 0 < amount) :
    ((account_sub a cur amount).1 = -1 →
      (bank_withdraw b atm_id acc_id password cur amount).rc = .BANK_ERR_INSUFFICIENT_FUNDS ∧
      (bank_withdraw b atm_id acc_id password cur amount).b = b) ∧
    ((account_sub a cur amount).1 ≠ -1 →
      (bank_withdraw b atm_id acc_id password cur amount).rc = .BANK_OK ∧
      (bank_withdraw b atm_id acc_id password cur amount).b =
        b.store i (account_sub a cur amount).2) := by
  have h0 : ¬ amount ≤ 0 := by omega
  have hp : ¬ a.password ≠ password := by simp [hpw]
  have hslot := (scan_first_get hfound).1
  unfold bank_withdraw
  rw [if_neg h0, hfound]
  simp only
  rw [if_neg hp]
  constructor
  · intro hsub
    rw [if_pos hsub, account_sub_fail_snd a cur amount hsub, store_same hslot]
    exact ⟨rfl, rfl⟩
  · intro hsub
    rw [if_neg hsub]
    exact ⟨rfl, rfl⟩

theorem account_add_sub_cancel (a : account_t) (cur : currency_t) (amount : Int)
    (hpos : 0 < amount) (hnn : 0 ≤ account_get_balance a cur)
    (hfit : account_get_balance a cur + amount ≤ INT_MAX) :
    (account_sub (account_add a cur amount) cur amount).1 ≠ -1 ∧
    (account_sub (account_add a cur amount) cur amount).2 = a := by
  have h0 : ¬ amount ≤ 0 := by omega
  unfold INT_MAX at hfit
  unfold account_get_balance at hnn hfit
  cases cur
  · simp only at hnn hfit
    have hw1 : wrap_int (a.balance_ils + amount) = a.balance_ils + amount := by
      unfold wrap_int; omega
    have hc : a.balance_ils + amount ≥ amount := by omega
    have hw2 : wrap_int a.balance_ils = a.balance_ils := by
      unfold wrap_int; omega
    simp [account_add, account_sub, h0, hw1, hc, hw2]
  · simp only at hnn hfit
    have hw1 : wrap_int (a.balance_usd + amount) = a.balance_usd + amount := by
      unfold wrap_int; omega
    have hc : a.balance_usd + amount ≥ amount := by omega
    have hw2 : wrap_int a.balance_usd = a.balance_usd := by
      unfold wrap_int; omega
    simp [account_add, account_sub, h0, hw1, hc, hw2]

/-- C11 (amended): let `bank_lock_account` find account `a` for `acc_id`, the
password be correct and `amount > 0`.  If the balance of `a` in `cur` is at
least 0 and that balance plus `amount` does not exceed `INT_MAX`, then
DEPOSIT(cur, amount) immediately followed by WITHDRAW(cur, amount) both return
OK and leave the whole bank, and so both balances of the account, exactly as
before the DEPOSIT. -/
theorem bank_deposit_withdraw_round_trip (b : bank_t) (atm_id acc_id password : Int)
    (cur : currency_t) (amount : Int) (i : Nat) (a : account_t)
    (hfound : bank_lock_account b acc_id = some (i, a)) (hpw : a.password = password)
    (hpos : 0 < amount) (hnn : 0 ≤ account_get_balance a cur)
    (hfit : account_get_balance a cur + amount ≤ INT_MAX) :
    (bank_deposit b atm_id acc_id password cur amount).rc = .BANK_OK ∧
    (bank_withdraw (bank_deposit b atm_id acc_id password cur amount).b
      atm_id acc_id password cur amount).rc = .BANK_OK ∧
    (bank_withdraw (bank_deposit b atm_id acc_id password cur amount).b
      atm_id acc_id password cur amount).b = b := by
  obtain ⟨hrc1, hb1⟩ := bank_deposit_unfold b atm_id acc_id password cur amount i a hfound hpw hpos
  have hslot := (scan_first_get hfound).1
  have hid : (account_add a cur amount).id = a.id := (account_add_fields a cur amount).1
  have hpw1 : (account_add a cur amount).password = password :=
    (account_add_fields a cur amount).2.1.trans hpw
  have hfound1 : bank_lock_account (bank_deposit b atm_id acc_id password cur amount).b acc_id =
      some (i, account_add a cur amount) := by
    rw [hb1]; exact lock_after_store hfound hid
  obtain ⟨hsub, hback⟩ := account_add_sub_cancel a cur amount hpos hnn hfit
  obtain ⟨hrc2, hb2⟩ := (bank_withdraw_unfold _ atm_id acc_id password cur amount i _
    hfound1 hpw1 hpos).2 hsub
  refine ⟨hrc1, hrc2, ?_⟩
  rw [hb2, hback, hb1, store_store, store_same hslot]

set_option maxRecDepth 100000 in
/-- Witness for C11: from (100, 50), `D 10 7777 30 USD` then `W 10 7777 30 USD`. -/
theorem bank_deposit_withdraw_round_trip_witness :
    bank_lock_account bank_scenario1 10 = some (0, ⟨10, 7777, 100, 50⟩) ∧
    (bank_deposit bank_scenario1 1 10 7777 .CUR_USD 30).b.accounts = [⟨10, 7777, 100, 80⟩] ∧
    (bank_withdraw (bank_deposit bank_scenario1 1 10 7777 .CUR_USD 30).b
      1 10 7777 .CUR_USD 30).rc = .BANK_OK ∧
    (bank_withdraw (bank_deposit bank_scenario1 1 10 7777 .CUR_USD 30).b
      1 10 7777 .CUR_USD 30).b = bank_scenario1 :=
  have h := bank_deposit_withdraw_round_trip bank_scenario1 1 10 7777 .CUR_USD 30 0
    ⟨10, 7777, 100, 50⟩ (by decide) (by decide) (by decide) (by decide) (by decide)
  ⟨by decide, by decide, h.2.1, h.2.2⟩

/-- Counterexample to C11 as stated: the account holds `INT_MAX` ILS; DEPOSIT
of 1 ILS returns OK and wraps the balance to `INT_MIN`, the following WITHDRAW
of 1 ILS returns INSUFFICIENT_FUNDS, and the balance stays `INT_MIN`. -/
theorem bank_deposit_withdraw_counterexample :
    bank_int_max.accounts = [⟨1, 0, 2147483647, 0⟩] ∧
    (bank_deposit bank_int_max 1 1 0 .CUR_ILS 1).rc = .BANK_OK ∧
    (bank_withdraw (bank_deposit bank_int_max 1 1 0 .CUR_ILS 1).b 1 1 0 .CUR_ILS 1).rc =
      .BANK_ERR_INSUFFICIENT_FUNDS ∧
    (bank_withdraw (bank_deposit bank_int_max 1 1 0 .CUR_ILS 1).b 1 1 0 .CUR_ILS 1).b.accounts =
      [⟨1, 0, -2147483648, 0⟩] := by
  decide

/-! ## C12: OPEN followed by BALANCE -/

theorem first_free_spec (es : List (Option account_t)) :
    ∀ (k j : Nat), first_free es k = some j → k ≤ j ∧ es[j - k]? = some none := by
  induction es with
  | nil => intro k j h; simp [first_free] at h
  | cons e rest ih =>
    intro k j h
    cases e with
    | none =>
      simp only [first_free, Option.some.injEq] at h
      subst h
      simp
    | some x =>
      simp only [first_free] at h
      obtain ⟨h1, h2⟩ := ih (k + 1) j h
      have hjk : j - k = (j - (k + 1)) + 1 := by omega
      exact ⟨by omega, by rw [hjk, List.getElem?_cons_succ]; exact h2⟩

theorem scan_first_set_none (es : List (Option account_t)) (aid : Int) :
    ∀ (k i : Nat) (a : account_t), scan_first es aid k = some (i, a) →
      List.countP (fun x => decide (x.id = aid)) (es.filterMap id) = 1 →
      scan_first (es.set (i - k) none) aid k = none := by
  induction es with
  | nil => intro k i a h; simp [scan_first] at h
  | cons e rest ih =>
    intro k i a h hcount
    cases e with
    | none =>
      simp only [scan_first] at h
      have hk1 := (scan_first_spec rest aid (k + 1) i a h).1
      have hik : i - k = (i - (k + 1)) + 1 := by omega
      rw [hik, List.set_cons_succ]
      simp only [scan_first]
      exact ih (k + 1) i a h (by simpa using hcount)
    | some x =>
      simp only [scan_first] at h
      by_cases hx : x.id = aid
      · simp only [hx, if_true, Option.some.injEq, Prod.mk.injEq] at h
        obtain ⟨rfl, rfl⟩ := h
        simp only [Nat.sub_self, List.set_cons_zero, scan_first]
        rw [scan_first_none]
        simp [List.filterMap_cons, List.countP_cons, hx] at hcount
        intro y hy
        exact hcount y hy
      · simp only [hx, if_false] at h
        have hk1 := (scan_first_spec rest aid (k + 1) i a h).1
        have hik : i - k = (i - (k + 1)) + 1 := by omega
        rw [hik, List.set_cons_succ]
        simp only [scan_first, hx, if_false]
        exact ih (k + 1) i a h (by simpa [hx] using hcount)


theorem bank_close_unfold (b : bank_t) (atm_id acc_id password : Int) (i : Nat) (a : account_t)
    (hfound : bank_lock_account b acc_id = some (i, a)) (hpw : a.password = password) :
    bank_close b atm_id acc_id password =
      { rc := .BANK_OK,
        b := { b with entries := b.entries.set i none, count := b.count - 1 },
        log := [log_line "%d: Account %d is now closed. Balance was %d ILS and %d USD"
                  [.d atm_id, .d acc_id, .d a.balance_ils, .d a.balance_usd]],
        out := none, ovf := false } := by
  have hp : ¬ a.password ≠ password := by simp [hpw]
  unfold bank_lock_account at hfound
  unfold bank_close
  rw [hfound]
  simp only
  rw [if_neg hp]
  rfl

theorem not_found_after (b : bank_t) (acc_id : Int) (h : bank_lock_account b acc_id = none) :
    (∀ atm_id password, (bank_balance b atm_id acc_id password).rc =
      .BANK_ERR_ACCOUNT_NOT_FOUND) ∧
    (∀ atm_id password cur amount, 0 < amount →
      (bank_deposit b atm_id acc_id password cur amount).rc = .BANK_ERR_ACCOUNT_NOT_FOUND ∧
      (bank_withdraw b atm_id acc_id password cur amount).rc = .BANK_ERR_ACCOUNT_NOT_FOUND) ∧
    (∀ atm_id password init_ils init_usd, 0 ≤ init_ils → 0 ≤ init_usd →
      (bank_open b atm_id acc_id password init_ils init_usd).rc = .BANK_OK) := by
  refine ⟨?_, ?_, ?_⟩
  · intro atm_id password
    unfold bank_balance
    rw [h]
  · intro atm_id password cur amount hpos
    have h0 : ¬ amount ≤ 0 := by omega
    unfold bank_deposit bank_withdraw
    rw [if_neg h0, if_neg h0, h]
    exact ⟨rfl, rfl⟩
  · intro atm_id password init_ils init_usd hils husd
    have h0 : ¬ (init_usd < 0 ∨ init_ils < 0) := by omega
    have hins : (bank_insert_account b (account_create acc_id password init_ils init_usd)).1 =
        0 := by
      unfold bank_lock_account at h
      unfold bank_insert_account
      simp only [account_create, h]
      split <;> rfl
    have hne : ¬ (bank_insert_account b
        (account_create acc_id password init_ils init_usd)).1 = -1 := by
      rw [hins]; decide
    unfold bank_open
    rw [if_neg h0]
    simp only
    rw [if_neg hne]

/-- C13 (amended): let `bank_lock_account` find account `a` in slot `i` for
`acc_id`, let `a` be the only live account with that id and the password be
correct.  Then CLOSE returns OK, empties slot `i`, leaves every other slot and
everything else in the bank unchanged except `count`, which drops by one, and
logs the balances `a` had.  Afterwards, on that id, BALANCE returns
ACCOUNT_NOT_FOUND, DEPOSIT and WITHDRAW with `amount > 0` return
ACCOUNT_NOT_FOUND, and OPEN with non-negative initial balances returns OK.
CLOSE on an id that no live account has returns ACCOUNT_NOT_FOUND and leaves
the bank unchanged. -/
theorem bank_close_effect (b : bank_t) (atm_id acc_id password : Int) :
    (∀ (i : Nat) (a : account_t), bank_lock_account b acc_id = some (i, a) →
      a.password = password →
      List.countP (fun x => decide (x.id = acc_id)) b.accounts = 1 →
      (bank_close b atm_id acc_id password).rc = .BANK_OK ∧
      (bank_close b atm_id acc_id password).b.entries[i]? = some none ∧
      (∀ k : Nat, k ≠ i →
        (bank_close b atm_id acc_id password).b.entries[k]? = b.entries[k]?) ∧
      (bank_close b atm_id acc_id password).b.count = b.count - 1 ∧
      { (bank_close b atm_id acc_id password).b with
          entries := b.entries, count := b.count } = b ∧
      (bank_close b atm_id acc_id password).log =
        [log_line "%d: Account %d is now closed. Balance was %d ILS and %d USD"
          [.d atm_id, .d acc_id, .d a.balance_ils, .d a.balance_usd]] ∧
      (∀ atm2 pw2, (bank_balance (bank_close b atm_id acc_id password).b atm2 acc_id pw2).rc =
        .BANK_ERR_ACCOUNT_NOT_FOUND) ∧
      (∀ atm2 pw2 cur amount, 0 < amount →
        (bank_deposit (bank_close b atm_id acc_id password).b atm2 acc_id pw2 cur amount).rc =
          .BANK_ERR_ACCOUNT_NOT_FOUND ∧
        (bank_withdraw (bank_close b atm_id acc_id password).b atm2 acc_id pw2 cur amount).rc =
          .BANK_ERR_ACCOUNT_NOT_FOUND) ∧
      (∀ atm2 pw2 init_ils init_usd, 0 ≤ init_ils → 0 ≤ init_usd →
        (bank_open (bank_close b atm_id acc_id password).b atm2 acc_id pw2
          init_ils init_usd).rc = .BANK_OK)) ∧
    ((¬ ∃ x ∈ b.accounts, x.id = acc_id) →
      (bank_close b atm_id acc_id password).rc = .BANK_ERR_ACCOUNT_NOT_FOUND ∧
      (bank_close b atm_id acc_id password).b = b) := by
  constructor
  · intro i a hfound hpw huniq
    have hslot := (scan_first_get hfound).1
    have hil : i < b.entries.length := by
      by_contra hcon
      rw [List.getElem?_eq_none (by omega)] at hslot
      cases hslot
    have hgone : bank_lock_account (bank_close b atm_id acc_id password).b acc_id = none := by
      rw [bank_close_unfold b atm_id acc_id password i a hfound hpw]
      unfold bank_lock_account at hfound ⊢
      have := scan_first_set_none b.entries acc_id 0 i a hfound huniq
      simpa using this
    obtain ⟨hbal, hdw, hopen⟩ := not_found_after _ acc_id hgone
    rw [bank_close_unfold b atm_id acc_id password i a hfound hpw] at hbal hdw hopen ⊢
    refine ⟨rfl, by simp [List.getElem?_set, hil], ?_, rfl, rfl, rfl, hbal, hdw, hopen⟩
    intro k hk
    simp [List.getElem?_set, Ne.symm hk]
  · intro hno
    have hscan : scan_first b.entries acc_id 0 = none := by
      rw [scan_first_none]
      intro x hx hid
      exact hno ⟨x, (mem_accounts_iff b x).mpr hx, hid⟩
    unfold bank_close
    rw [hscan]
    exact ⟨rfl, rfl⟩

set_option maxRecDepth 100000 in
/-- Witness for C13: `Q 10 7777` on the bank holding accounts 10 (100, 0) and
20 (0, 0), and `Q 30 1` for an id that is not there. -/
theorem bank_close_effect_witness :
    bank_lock_account bank_two_accounts 10 = some (0, ⟨10, 7777, 100, 0⟩) ∧
    (bank_close bank_two_accounts 1 10 7777).rc = .BANK_OK ∧
    (bank_close bank_two_accounts 1 10 7777).b.accounts = [⟨20, 8888, 0, 0⟩] ∧
    (bank_close bank_two_accounts 1 10 7777).b.count = bank_two_accounts.count - 1 ∧
    (bank_deposit (bank_close bank_two_accounts 1 10 7777).b 1 10 7777 .CUR_ILS 5).rc =
      .BANK_ERR_ACCOUNT_NOT_FOUND ∧
    (bank_open (bank_close bank_two_accounts 1 10 7777).b 1 10 1 2 3).rc = .BANK_OK ∧
    (bank_close bank_two_accounts 1 30 1).rc = .BANK_ERR_ACCOUNT_NOT_FOUND ∧
    (bank_close bank_two_accounts 1 30 1).b = bank_two_accounts :=
  have h := (bank_close_effect bank_two_accounts 1 10 7777).1 0 ⟨10, 7777, 100, 0⟩
    (by decide) (by decide) (by decide)
  have h2 := (bank_close_effect bank_two_accounts 1 30 1).2 (by decide)
  ⟨by decide, h.1, by decide, h.2.2.2.1, (h.2.2.2.2.2.2.2.1 1 7777 .CUR_ILS 5 (by decide)).1,
   h.2.2.2.2.2.2.2.2 1 1 2 3 (by decide) (by decide), h2.1, h2.2⟩

/-- Counterexample to C13 as stated: after `Q 10 7777` has closed account 10,
DEPOSIT and WITHDRAW of amount 0 on id 10 return ILLEGAL_AMOUNT, not
ACCOUNT_NOT_FOUND, and OPEN of id 10 with a negative initial balance does not
succeed. -/
theorem bank_close_followup_counterexample :
    (bank_close bank_two_accounts 1 10 7777).rc = .BANK_OK ∧
    (bank_deposit (bank_close bank_two_accounts 1 10 7777).b 1 10 7777 .CUR_ILS 0).rc =
      .BANK_ERR_ILLEGAL_AMOUNT ∧
    (bank_withdraw (bank_close bank_two_accounts 1 10 7777).b 1 10 7777 .CUR_ILS 0).rc =
      .BANK_ERR_ILLEGAL_AMOUNT ∧
    (bank_open (bank_close bank_two_accounts 1 10 7777).b 1 10 7777 (-1) 0).rc =
      .BANK_ERR_ILLEGAL_AMOUNT := by
  decide

/-! ## C14: applying a snapshot -/

theorem grow_cap_ge (n : Nat) :
    ∀ (fuel cap : Nat), 1 ≤ cap → n ≤ cap * 2 ^ fuel →
      cap ≤ grow_cap cap n fuel ∧ n ≤ grow_cap cap n fuel := by
  intro fuel
  induction fuel with
  | zero => intro cap _ h; simpa [grow_cap] using h
  | succ f ih =>
    intro cap hcap h
    unfold grow_cap
    by_cases hlt : cap < n
    · rw [if_pos hlt]
      have h2 : n ≤ cap * 2 * 2 ^ f := by
        rw [Nat.pow_succ] at h
        calc n ≤ cap * (2 ^ f * 2) := h
          _ = cap * 2 * 2 ^ f := by ring
      obtain ⟨h3, h4⟩ := ih (cap * 2) (by omega) h2
      exact ⟨by omega, h4⟩
    · rw [if_neg hlt]
      exact ⟨le_refl _, by omega⟩

theorem first_free_filled (xs : List account_t) (r : Nat) :
    ∀ k : Nat, first_free (xs.map some ++ List.replicate (r + 1) none) k = some (k + xs.length) := by
  induction xs with
  | nil => intro k; simp [first_free, List.replicate_succ]
  | cons x rest ih =>
    intro k
    have h := ih (k + 1)
    simp only [List.map_cons, List.cons_append, first_free, List.length_cons]
    rw [show k + (rest.length + 1) = k + 1 + rest.length by omega]
    exact h

theorem set_after_filled (xs : List account_t) (r : Nat) (a : account_t) :
    (xs.map some ++ List.replicate (r + 1) none).set xs.length (some a) =
      (xs ++ [a]).map some ++ List.replicate r none := by
  induction xs with
  | nil => simp [List.replicate_succ]
  | cons x rest ih => simp [ih]

theorem apply_loop_fill (accs : List bank_acc_snapshot_t) :
    ∀ (done : List account_t) (r : Nat) (count : Int), accs.length ≤ r →
      apply_loop accs (done.map some ++ List.replicate r none) count done.length =
        ((done ++ accs.map account_of_entry).map some ++ List.replicate (r - accs.length) none,
         count + accs.length) := by
  induction accs with
  | nil => intro done r count _; simp [apply_loop]
  | cons s rest ih =>
    intro done r count hr
    simp only [List.length_cons] at hr
    obtain ⟨r', rfl⟩ : ∃ r', r = r' + 1 := ⟨r - 1, by omega⟩
    have hnot : ¬ done.length ≥ (done.map some ++ List.replicate (r' + 1) none).length := by
      simp
    unfold apply_loop
    rw [if_neg hnot]
    simp only
    have hff := first_free_filled done r' 0
    simp only [Nat.zero_add] at hff
    rw [hff]
    simp only
    rw [set_after_filled done r']
    have hlen : done.length + 1 = (done ++ [account_create s.id s.password s.bal_ils s.bal_usd]).length := by
      simp
    rw [hlen, ih _ r' (count + 1) (by omega)]
    simp only [List.length_cons, List.map_cons, List.append_assoc, List.singleton_append,
      account_of_entry, Nat.add_sub_add_right, Prod.mk.injEq, true_and]
    push_cast
    ring

theorem accounts_of_filled (xs : List account_t) (r : Nat) :
    (xs.map some ++ List.replicate r none).filterMap id = xs := by
  induction xs with
  | nil =>
    induction r with
    | zero => rfl
    | succ r ih => simp [List.replicate_succ]
  | cons x rest ih => simp [ih]

theorem snapshot_apply_result (b : bank_t) (s : bank_snapshot_t) (hcap : 0 < b.entries.length) :
    (snapshot_apply b s).accounts = s.accs.map account_of_entry ∧
    (snapshot_apply b s).count = s.accs.length ∧
    (snapshot_apply b s).bank_ils = s.bank_ils ∧
    (snapshot_apply b s).bank_usd = s.bank_usd := by
  have hcapge : s.accs.length ≤
      (if s.accs.length > b.entries.length
        then grow_cap b.entries.length s.accs.length s.accs.length
        else b.entries.length) ∧
      b.entries.length ≤
      (if s.accs.length > b.entries.length
        then grow_cap b.entries.length s.accs.length s.accs.length
        else b.entries.length) := by
    by_cases hgt : s.accs.length > b.entries.length
    · rw [if_pos hgt]
      have hpow : s.accs.length ≤ b.entries.length * 2 ^ s.accs.length := by
        have h1 : s.accs.length < 2 ^ s.accs.length := Nat.lt_two_pow s.accs.length
        calc s.accs.length ≤ 1 * 2 ^ s.accs.length := by omega
          _ ≤ b.entries.length * 2 ^ s.accs.length := Nat.mul_le_mul_right _ hcap
      obtain ⟨h1, h2⟩ := grow_cap_ge s.accs.length s.accs.length b.entries.length hcap hpow
      exact ⟨h2, h1⟩
    · rw [if_neg hgt]
      exact ⟨by omega, le_refl _⟩
  have hfill := apply_loop_fill s.accs [] 
    (if s.accs.length > b.entries.length
      then grow_cap b.entries.length s.accs.length s.accs.length
      else b.entries.length) 0 hcapge.1
  have hgrown : List.replicate b.entries.length (none : Option account_t) ++
      List.replicate ((if s.accs.length > b.entries.length
        then grow_cap b.entries.length s.accs.length s.accs.length
        else b.entries.length) - b.entries.length) none =
      ([] : List account_t).map some ++ List.replicate (if s.accs.length > b.entries.length
        then grow_cap b.entries.length s.accs.length s.accs.length
        else b.entries.length) none := by
    rw [List.map_nil, List.nil_append, ← List.replicate_add]
    congr 1
    omega
  simp only [snapshot_apply, bank_t.accounts]
  rw [hgrown]
  simp only [List.length_nil] at hfill
  rw [hfill]
  simp only [List.nil_append, accounts_of_filled, zero_add, and_self]


theorem collect_status_all (es : List (Option account_t)) :
    ∀ (k expected : Int), k + ((es.filterMap id).length : Int) ≤ expected →
      collect_status es k expected =
        (es.filterMap id).map (fun a =>
          { id := a.id, password := a.password, ils := a.balance_ils, usd := a.balance_usd }) := by
  induction es with
  | nil => intro k expected _; simp [collect_status]
  | cons e rest ih =>
    intro k expected h
    cases e with
    | none =>
      have h' : k + ((rest.filterMap id).length : Int) ≤ expected := by simpa using h
      unfold collect_status
      by_cases hk : k < expected
      · rw [if_pos hk]
        simpa using ih k expected h'
      · rw [if_neg hk]
        have hz : (rest.filterMap id).length = 0 := by omega
        have hnil : rest.filterMap id = [] := List.length_eq_zero.mp hz
        simp [hnil]
    | some a =>
      have h' : (k + 1) + ((rest.filterMap id).length : Int) ≤ expected := by
        simp only [List.filterMap_cons, id_eq, List.length_cons] at h
        push_cast at h
        omega
      have hk : k < expected := by omega
      unfold collect_status
      rw [if_pos hk]
      simp only [List.filterMap_cons, id_eq, List.map_cons, account_get_balance]
      rw [ih (k + 1) expected h']

theorem status_array_perm (b : bank_t) (hcount : (b.accounts.length : Int) ≤ b.count) :
    (status_array b).Perm (b.accounts.map (fun a =>
      { id := a.id, password := a.password, ils := a.balance_ils, usd := a.balance_usd })) := by
  have hall := collect_status_all b.entries 0 b.count (by simpa [bank_t.accounts] using hcount)
  unfold status_array
  simp only
  rw [hall]
  split
  · exact List.perm_insertionSort _ _
  · exact List.Perm.refl _

theorem bank_status_iteration_eq (b : bank_t) :
    bank_status_iteration b =
      (((bank_process_rollbacks
          (close_loop (List.range' 1 b.atm_count.toNat)
            (snapshot_capture b (status_array b))).1).1),
       (close_loop (List.range' 1 b.atm_count.toNat)
            (snapshot_capture b (status_array b))).2 ++
        (bank_process_rollbacks
          (close_loop (List.range' 1 b.atm_count.toNat)
            (snapshot_capture b (status_array b))).1).2) := by
  rfl

theorem same_ring_refl (b : bank_t) : same_ring b b := ⟨rfl, rfl, rfl, rfl, rfl, rfl⟩

theorem same_ring_trans {b b1 b2 : bank_t} (h1 : same_ring b b1) (h2 : same_ring b1 b2) :
    same_ring b b2 := by
  obtain ⟨a1, a2, a3, a4, a5, a6⟩ := h1
  obtain ⟨c1, c2, c3, c4, c5, c6⟩ := h2
  exact ⟨c1.trans a1, c2.trans a2, c3.trans a3, c4.trans a4, c5.trans a5, c6.trans a6⟩

theorem bank_insert_account_frame (b : bank_t) (acc : account_t) :
    same_ring b (bank_insert_account b acc).2 ∧
    (bank_insert_account b acc).2.atm_close_req = b.atm_close_req ∧
    (bank_insert_account b acc).2.rb_queue = b.rb_queue := by
  unfold bank_insert_account
  repeat' split
  all_goals exact ⟨⟨rfl, rfl, rfl, rfl, rfl, rfl⟩, rfl, rfl⟩

theorem bank_open_frame (b : bank_t) (atm_id acc_id password init_ils init_usd : Int) :
    same_ring b (bank_open b atm_id acc_id password init_ils init_usd).b ∧
    (bank_open b atm_id acc_id password init_ils init_usd).b.atm_close_req = b.atm_close_req ∧
    (bank_open b atm_id acc_id password init_ils init_usd).b.rb_queue = b.rb_queue := by
  unfold bank_open
  split
  · exact ⟨⟨rfl, rfl, rfl, rfl, rfl, rfl⟩, rfl, rfl⟩
  · simp only
    split <;> exact bank_insert_account_frame b _

theorem bank_close_frame (b : bank_t) (atm_id acc_id password : Int) :
    same_ring b (bank_close b atm_id acc_id password).b ∧
    (bank_close b atm_id acc_id password).b.atm_close_req = b.atm_close_req ∧
    (bank_close b atm_id acc_id password).b.rb_queue = b.rb_queue := by
  unfold bank_close
  repeat' split
  all_goals exact ⟨⟨rfl, rfl, rfl, rfl, rfl, rfl⟩, rfl, rfl⟩

theorem bank_deposit_frame (b : bank_t) (atm_id acc_id password : Int) (cur : currency_t)
    (amount : Int) :
    same_ring b (bank_deposit b atm_id acc_id password cur amount).b ∧
    (bank_deposit b atm_id acc_id password cur amount).b.atm_close_req = b.atm_close_req ∧
    (bank_deposit b atm_id acc_id password cur amount).b.rb_queue = b.rb_queue := by
  unfold bank_deposit
  repeat' split
  all_goals exact ⟨⟨rfl, rfl, rfl, rfl, rfl, rfl⟩, rfl, rfl⟩

theorem bank_withdraw_frame (b : bank_t) (atm_id acc_id password : Int) (cur : currency_t)
    (amount : Int) :
    same_ring b (bank_withdraw b atm_id acc_id password cur amount).b ∧
    (bank_withdraw b atm_id acc_id password cur amount).b.atm_close_req = b.atm_close_req ∧
    (bank_withdraw b atm_id acc_id password cur amount).b.rb_queue = b.rb_queue := by
  unfold bank_withdraw
  repeat' split
  all_goals first
    | exact ⟨⟨rfl, rfl, rfl, rfl, rfl, rfl⟩, rfl, rfl⟩
    | (simp only; split <;> exact ⟨⟨rfl, rfl, rfl, rfl, rfl, rfl⟩, rfl, rfl⟩)

theorem bank_balance_frame (b : bank_t) (atm_id acc_id password : Int) :
    same_ring b (bank_balance b atm_id acc_id password).b ∧
    (bank_balance b atm_id acc_id password).b.atm_close_req = b.atm_close_req ∧
    (bank_balance b atm_id acc_id password).b.rb_queue = b.rb_queue := by
  unfold bank_balance
  repeat' split
  all_goals exact ⟨⟨rfl, rfl, rfl, rfl, rfl, rfl⟩, rfl, rfl⟩

theorem bank_transfer_frame (b : bank_t) (atm_id src_id password dst_id : Int)
    (cur : currency_t) (amount : Int) :
    same_ring b (bank_transfer b atm_id src_id password dst_id cur amount).b ∧
    (bank_transfer b atm_id src_id password dst_id cur amount).b.atm_close_req =
      b.atm_close_req ∧
    (bank_transfer b atm_id src_id password dst_id cur amount).b.rb_queue = b.rb_queue := by
  unfold bank_transfer
  repeat' split
  all_goals first
    | exact ⟨⟨rfl, rfl, rfl, rfl, rfl, rfl⟩, rfl, rfl⟩
    | (simp only; split <;> exact ⟨⟨rfl, rfl, rfl, rfl, rfl, rfl⟩, rfl, rfl⟩)

theorem bank_exchange_frame (b : bank_t) (atm_id acc_id password : Int)
    (from_cur to_cur : currency_t) (amount_from : Int) :
    same_ring b (bank_exchange b atm_id acc_id password from_cur to_cur amount_from).b ∧
    (bank_exchange b atm_id acc_id password from_cur to_cur amount_from).b.atm_close_req =
      b.atm_close_req ∧
    (bank_exchange b atm_id acc_id password from_cur to_cur amount_from).b.rb_queue =
      b.rb_queue := by
  unfold bank_exchange
  repeat' split
  all_goals first
    | exact ⟨⟨rfl, rfl, rfl, rfl, rfl, rfl⟩, rfl, rfl⟩
    | (simp only; split <;> exact ⟨⟨rfl, rfl, rfl, rfl, rfl, rfl⟩, rfl, rfl⟩)

theorem bank_invest_debit_frame (b : bank_t) (acc_id password amount : Int) (cur : currency_t)
    (time_msec : Int) :
    same_ring b (bank_invest_debit b acc_id password amount cur time_msec).b ∧
    (bank_invest_debit b acc_id password amount cur time_msec).b.atm_close_req =
      b.atm_close_req ∧
    (bank_invest_debit b acc_id password amount cur time_msec).b.rb_queue = b.rb_queue := by
  unfold bank_invest_debit
  repeat' split
  all_goals first
    | exact ⟨⟨rfl, rfl, rfl, rfl, rfl, rfl⟩, rfl, rfl⟩
    | (simp only; split <;> exact ⟨⟨rfl, rfl, rfl, rfl, rfl, rfl⟩, rfl, rfl⟩)

theorem bank_invest_credit_frame (b : bank_t) (acc_id : Int) (cur : currency_t)
    (final_raw : Int) :
    same_ring b (bank_invest_credit b acc_id cur final_raw).b ∧
    (bank_invest_credit b acc_id cur final_raw).b.atm_close_req = b.atm_close_req ∧
    (bank_invest_credit b acc_id cur final_raw).b.rb_queue = b.rb_queue := by
  unfold bank_invest_credit
  simp only
  repeat' split
  all_goals exact ⟨⟨rfl, rfl, rfl, rfl, rfl, rfl⟩, rfl, rfl⟩

theorem bank_close_atm_request_frame (b : bank_t) (s t : Int) :
    same_ring b (bank_close_atm_request b s t).b ∧
    (bank_close_atm_request b s t).b.rb_queue = b.rb_queue := by
  unfold bank_close_atm_request
  repeat' split
  all_goals exact ⟨⟨rfl, rfl, rfl, rfl, rfl, rfl⟩, rfl⟩

theorem bank_rollback_frame (b : bank_t) (a k : Int) :
    same_ring b (bank_rollback b a k).b ∧
    (bank_rollback b a k).b.atm_close_req = b.atm_close_req := by
  unfold bank_rollback
  repeat' split
  all_goals exact ⟨⟨rfl, rfl, rfl, rfl, rfl, rfl⟩, rfl⟩

theorem bank_commission_iteration_frame (b : bank_t) (seed : Nat) :
    same_ring b (bank_commission_iteration b seed).1 ∧
    (bank_commission_iteration b seed).1.atm_close_req = b.atm_close_req ∧
    (bank_commission_iteration b seed).1.rb_queue = b.rb_queue :=
  ⟨⟨rfl, rfl, rfl, rfl, rfl, rfl⟩, rfl, rfl⟩

theorem snapshot_apply_frame (b : bank_t) (s : bank_snapshot_t) :
    same_ring b (snapshot_apply b s) ∧
    (snapshot_apply b s).atm_close_req = b.atm_close_req ∧
    (snapshot_apply b s).rb_queue = b.rb_queue :=
  ⟨⟨rfl, rfl, rfl, rfl, rfl, rfl⟩, rfl, rfl⟩

theorem process_rollbacks_loop_frame (reqs : List rollback_req) :
    ∀ b : bank_t, same_ring b (process_rollbacks_loop reqs b).1 ∧
      (process_rollbacks_loop reqs b).1.atm_close_req = b.atm_close_req ∧
      (process_rollbacks_loop reqs b).1.rb_queue = b.rb_queue := by
  induction reqs with
  | nil => intro b; exact ⟨same_ring_refl b, rfl, rfl⟩
  | cons req rest ih =>
    intro b
    unfold process_rollbacks_loop
    split
    · exact ih b
    · simp only
      obtain ⟨h1, h2, h3⟩ := ih (snapshot_apply b
        { bank_ils := (b.snapshots.getD (rollback_idx b req.iterations_back).toNat
            snapshot_zero).bank_ils,
          bank_usd := (b.snapshots.getD (rollback_idx b req.iterations_back).toNat
            snapshot_zero).bank_usd,
          accs := (b.snapshots.getD (rollback_idx b req.iterations_back).toNat
            snapshot_zero).accs,
          atm_count := 0 })
      exact ⟨same_ring_trans (snapshot_apply_frame b _).1 h1, h2, h3⟩

/-! ## C15: which snapshot a rollback request selects -/

theorem close_loop_ring (targets : List Nat) :
    ∀ b : bank_t, (close_loop targets b).1.snapshots = b.snapshots ∧
      (close_loop targets b).1.snap_capacity = b.snap_capacity ∧
      (close_loop targets b).1.snap_head = b.snap_head ∧
      (close_loop targets b).1.snap_count = b.snap_count ∧
      (close_loop targets b).1.atm_count = b.atm_count ∧
      (close_loop targets b).1.rb_queue = b.rb_queue ∧
      (close_loop targets b).1.entries = b.entries ∧
      (close_loop targets b).1.bank_ils = b.bank_ils ∧
      (close_loop targets b).1.bank_usd = b.bank_usd ∧
      (close_loop targets b).1.count = b.count := by
  induction targets with
  | nil => intro b; exact ⟨rfl, rfl, rfl, rfl, rfl, rfl, rfl, rfl, rfl, rfl⟩
  | cons t rest ih =>
    intro b
    unfold close_loop
    simp only
    split
    · exact ih _
    · exact ih b

theorem ring_holds_congr {b b2 : bank_t} {hist : List bank_snapshot_t}
    (h1 : b2.snapshots = b.snapshots) (h2 : b2.snap_capacity = b.snap_capacity)
    (h3 : b2.snap_head = b.snap_head) (h4 : b2.snap_count = b.snap_count)
    (h : ring_holds b hist) : ring_holds b2 hist := by
  unfold ring_holds at h ⊢
  rw [h1, h2, h3, h4]
  exact h

theorem ring_holds_init (atm_count : Int) : ring_holds (bank_init_state atm_count) [] := by
  refine ⟨rfl, by simp [bank_init_state], by simp [bank_init_state],
    by simp [bank_init_state], by simp [bank_init_state], ?_⟩
  intro j hj
  simp [bank_init_state] at hj
  omega

theorem ring_holds_capture (b : bank_t) (arr : List acc_status_t) (hist : List bank_snapshot_t)
    (h : ring_holds b hist) :
    ring_holds (snapshot_capture b arr) (captured_snapshot b arr :: hist) := by
  obtain ⟨hcap, hlen, h0, h120, hcount, hslots⟩ := h
  have hhead : Int.tmod (b.snap_head + 1) b.snap_capacity = (b.snap_head + 1) % 120 := by
    rw [hcap, Int.tmod_eq_emod (by omega) (by omega)]
  have hcnt : (if b.snap_count < b.snap_capacity then b.snap_count + 1 else b.snap_count) =
      min (((captured_snapshot b arr :: hist).length : Nat) : Int) 120 := by
    rw [hcap, hcount]
    simp only [List.length_cons]
    push_cast
    split <;> omega
  refine ⟨hcap, by simp [snapshot_capture, hlen], ?_, ?_, ?_, ?_⟩
  · simp only [snapshot_capture]; rw [hhead]; omega
  · simp only [snapshot_capture]; rw [hhead]; omega
  · simp only [snapshot_capture]; exact hcnt
  · intro j hj
    simp only [snapshot_capture] at hj ⊢
    rw [hcnt] at hj
    rw [hhead]
    have hj120 : (j : Int) < 120 := by
      have := min_le_right (((captured_snapshot b arr :: hist).length : Nat) : Int) 120
      omega
    cases j with
    | zero =>
      have hidx : (((b.snap_head + 1) % 120 - 1 - ((0 : Nat) : Int)) % 120).toNat =
          b.snap_head.toNat := by
        congr 1
        push_cast
        omega
      rw [hidx]
      have hlt : b.snap_head.toNat < b.snapshots.length := by omega
      simp [List.getElem?_set, hlt, captured_snapshot]
    | succ j =>
      have hidx : ((b.snap_head + 1) % 120 - 1 - ((j + 1 : Nat) : Int)) % 120 =
          (b.snap_head - 1 - (j : Int)) % 120 := by
        push_cast
        omega
      rw [hidx]
      have hne : b.snap_head.toNat ≠ ((b.snap_head - 1 - (j : Int)) % 120).toNat := by
        push_cast at hj120
        omega
      rw [List.getElem?_set, if_neg hne]
      simp only [List.getElem?_cons_succ]
      apply hslots j
      rw [hcount]
      simp only [List.length_cons] at hj
      push_cast at hj hj120 ⊢
      omega

theorem rollback_idx_eq (b : bank_t) (k : Int) (hcap : b.snap_capacity = 120) :
    rollback_idx b k = (b.snap_head - 1 - k) % 120 := by
  unfold rollback_idx
  rw [hcap]
  simp only
  by_cases hnn : 0 ≤ b.snap_head - 1 - k
  · rw [Int.tmod_eq_emod hnn (by omega)]
    have : ¬ (b.snap_head - 1 - k) % 120 < 0 := by omega
    rw [if_neg this]
  · have hneg : b.snap_head - 1 - k = -(k + 1 - b.snap_head) := by omega
    have htm : Int.tmod (b.snap_head - 1 - k) 120 = -((k + 1 - b.snap_head) % 120) := by
      rw [hneg, Int.tmod_def, Int.neg_tdiv,
        Int.tdiv_eq_ediv (by omega : (0 : Int) ≤ k + 1 - b.snap_head) (by omega)]
      omega
    rw [htm]
    split <;> omega

theorem ring_holds_select (b : bank_t) (hist : List bank_snapshot_t) (k : Int)
    (h : ring_holds b hist) (h1 : 1 ≤ k) (hk : k < b.snap_count) :
    ∃ s, hist[k.toNat]? = some s ∧
      b.snapshots.getD (rollback_idx b k).toNat snapshot_zero = s := by
  obtain ⟨hcap, hlen, h0, h120, hcount, hslots⟩ := h
  have hkn : ((k.toNat : Nat) : Int) = k := Int.toNat_of_nonneg (by omega)
  have hslot := hslots k.toNat (by rw [hkn]; exact hk)
  rw [hkn] at hslot
  have hlt : k.toNat < hist.length := by
    have : k < (hist.length : Int) := by
      have := min_le_left (hist.length : Int) 120
      omega
    omega
  refine ⟨hist[k.toNat], List.getElem?_eq_getElem hlt, ?_⟩
  rw [rollback_idx_eq b k hcap, List.getD_eq_getElem?_getD, hslot, List.getElem?_eq_getElem hlt]
  rfl

theorem bank_status_iteration_ring (b : bank_t) (hist : List bank_snapshot_t)
    (h : ring_holds b hist) :
    ring_holds (bank_status_iteration b).1 (captured_snapshot b (status_array b) :: hist) := by
  have hcap := ring_holds_capture b (status_array b) hist h
  rw [bank_status_iteration_eq]
  simp only
  obtain ⟨c1, c2, c3, c4, _⟩ := close_loop_ring (List.range' 1 b.atm_count.toNat)
    (snapshot_capture b (status_array b))
  unfold bank_process_rollbacks
  obtain ⟨⟨_, _, p1, p2, p3, p4⟩, _⟩ := process_rollbacks_loop_frame
    (close_loop (List.range' 1 b.atm_count.toNat)
      (snapshot_capture b (status_array b))).1.rb_queue
    { (close_loop (List.range' 1 b.atm_count.toNat)
      (snapshot_capture b (status_array b))).1 with rb_queue := [] }
  exact ring_holds_congr (p1.trans c1) (p2.trans c2) (p3.trans c3) (p4.trans c4) hcap

theorem engine_step_same_ring (b : bank_t) (op : engine_op) (hop : op ≠ .status_tick) :
    same_ring b (engine_step b op).b := by
  cases op with
  | open_account a i p x y => exact (bank_open_frame b a i p x y).1
  | close_account a i p => exact (bank_close_frame b a i p).1
  | deposit a i p c m => exact (bank_deposit_frame b a i p c m).1
  | withdraw a i p c m => exact (bank_withdraw_frame b a i p c m).1
  | balance a i p => exact (bank_balance_frame b a i p).1
  | transfer a i p j c m => exact (bank_transfer_frame b a i p j c m).1
  | exchange a i p f t m => exact (bank_exchange_frame b a i p f t m).1
  | invest_debit i p m c t => exact (bank_invest_debit_frame b i p m c t).1
  | invest_credit i c f => exact (bank_invest_credit_frame b i c f).1
  | close_atm s t => exact (bank_close_atm_request_frame b s t).1
  | rollback a k => exact (bank_rollback_frame b a k).1
  | status_tick => exact absurd rfl hop
  | commission_tick seed => exact (bank_commission_iteration_frame b seed).1

theorem engine_run_ring (ops : List engine_op) :
    ∀ (b : bank_t) (hist : List bank_snapshot_t), ring_holds b hist →
      ring_holds (engine_run b ops).1 (run_history b ops hist) := by
  induction ops with
  | nil => intro b hist h; exact h
  | cons op rest ih =>
    intro b hist h
    by_cases hop : op = .status_tick
    · subst hop
      simp only [engine_run, run_history]
      exact ih _ _ (bank_status_iteration_ring b hist h)
    · have hs := engine_step_same_ring b op hop
      have hh : ring_holds (engine_step b op).b hist :=
        ring_holds_congr hs.2.2.1 hs.2.2.2.1 hs.2.2.2.2.1 hs.2.2.2.2.2 h
      have hrun : run_history b (op :: rest) hist = run_history (engine_step b op).b rest hist := by
        cases op <;> first | rfl | exact absurd rfl hop
      simp only [engine_run]
      rw [hrun]
      exact ih _ _ hh

/-- C15 (amended): in every state reached from a freshly initialised bank the
ring holds the snapshots pushed so far (`ring_holds`, history most recent
first); and whenever the ring holds the history `hist` and `k` is valid
(`1 <= k < snap_count`), the snapshot read for a rollback request with
`iterations_back = k` is `hist[k]`, counting from 0: the `(k+1)`-th most
recently pushed snapshot.  The most recently pushed snapshot, the one captured
in the same status iteration, is `hist[0]` and is selected by no valid `k`. -/
theorem rollback_selects_snapshot :
    (∀ (atm_count : Int) (ops : List engine_op),
      ring_holds (engine_run (bank_init_state atm_count) ops).1
        (run_history (bank_init_state atm_count) ops [])) ∧
    (∀ (b : bank_t) (hist : List bank_snapshot_t) (k : Int), ring_holds b hist →
      1 ≤ k → k < b.snap_count →
      ∃ s, hist[k.toNat]? = some s ∧
        b.snapshots.getD (rollback_idx b k).toNat snapshot_zero = s) := by
  refine ⟨fun atm_count ops => engine_run_ring ops _ [] (ring_holds_init atm_count), ?_⟩
  intro b hist k h h1 hk
  exact ring_holds_select b hist k h h1 hk

set_option maxRecDepth 1000000 in
/-- Witness for C15: after three status iterations with account 10 at 100, 200
and 300 ILS, the request `k = 1` reads the snapshot with 200 ILS and `k = 2`
the one with 100 ILS. -/
theorem rollback_selects_snapshot_witness :
    run_history (bank_init_state 1) ops_three_ticks [] =
      [⟨0, 0, [⟨10, 7777, 300, 0⟩], 1⟩, ⟨0, 0, [⟨10, 7777, 200, 0⟩], 1⟩,
       ⟨0, 0, [⟨10, 7777, 100, 0⟩], 1⟩] ∧
    (engine_run (bank_init_state 1) ops_three_ticks).1.snap_count = 3 ∧
    (engine_run (bank_init_state 1) ops_three_ticks).1.snapshots.getD
      (rollback_idx (engine_run (bank_init_state 1) ops_three_ticks).1 1).toNat snapshot_zero =
      ⟨0, 0, [⟨10, 7777, 200, 0⟩], 1⟩ ∧
    (engine_run (bank_init_state 1) ops_three_ticks).1.snapshots.getD
      (rollback_idx (engine_run (bank_init_state 1) ops_three_ticks).1 2).toNat snapshot_zero =
      ⟨0, 0, [⟨10, 7777, 100, 0⟩], 1⟩ := by
  have hist : run_history (bank_init_state 1) ops_three_ticks [] =
      [⟨0, 0, [⟨10, 7777, 300, 0⟩], 1⟩, ⟨0, 0, [⟨10, 7777, 200, 0⟩], 1⟩,
       ⟨0, 0, [⟨10, 7777, 100, 0⟩], 1⟩] := by decide
  have hring := rollback_selects_snapshot.1 1 ops_three_ticks
  obtain ⟨s1, hs1, hsel1⟩ := rollback_selects_snapshot.2 _ _ 1 hring (by decide) (by decide)
  obtain ⟨s2, hs2, hsel2⟩ := rollback_selects_snapshot.2 _ _ 2 hring (by decide) (by decide)
  rw [hist] at hs1 hs2
  simp only [Int.toNat_one, List.getElem?_cons_succ, List.getElem?_cons_zero,
    Option.some.injEq] at hs1
  have hs2' : s2 = ⟨0, 0, [⟨10, 7777, 100, 0⟩], 1⟩ := by
    have : (2 : Int).toNat = 2 := rfl
    rw [this] at hs2
    simpa using hs2.symm
  subst hs1
  subst hs2'
  exact ⟨hist, by decide, hsel1, hsel2⟩

set_option maxRecDepth 1000000 in
/-- Counterexample to C15 as stated: three snapshots were pushed, the most
recent one showing account 10 at 300 ILS.  The request `k = 1` reads the
snapshot showing 200 ILS, which is the second most recently pushed; and when
that request is queued before the third status iteration, the iteration
restores account 10 to 200 ILS. -/
theorem rollback_selects_snapshot_counterexample :
    (bank_after ops_three_ticks).snap_head = 3 ∧
    (bank_after ops_three_ticks).snap_count = 3 ∧
    (bank_after ops_three_ticks).snapshots.take 3 =
      [⟨0, 0, [⟨10, 7777, 100, 0⟩], 1⟩, ⟨0, 0, [⟨10, 7777, 200, 0⟩], 1⟩,
       ⟨0, 0, [⟨10, 7777, 300, 0⟩], 1⟩] ∧
    (bank_after ops_three_ticks).snapshots.getD
      (rollback_idx (bank_after ops_three_ticks) 1).toNat snapshot_zero =
      ⟨0, 0, [⟨10, 7777, 200, 0⟩], 1⟩ ∧
    (bank_after ops_rollback_one).accounts = [⟨10, 7777, 200, 0⟩] := by
  decide

/-! ## C16: processing one rollback request -/

theorem process_rollbacks_loop_cons (b : bank_t) (req : rollback_req)
    (rest : List rollback_req) :
    ((1 ≤ req.iterations_back ∧ req.iterations_back ≤ b.snap_count - 1) →
      process_rollbacks_loop (req :: rest) b =
        ((process_rollbacks_loop rest
            (snapshot_apply b (rollback_copy b req.iterations_back))).1,
         log_rollback req ::
          (process_rollbacks_loop rest
            (snapshot_apply b (rollback_copy b req.iterations_back))).2)) ∧
    ((req.iterations_back ≤ 0 ∨ req.iterations_back ≥ b.snap_count) →
      process_rollbacks_loop (req :: rest) b = process_rollbacks_loop rest b) := by
  constructor
  · intro hv
    have hc : ¬ (req.iterations_back ≤ 0 ∨ req.iterations_back ≥ b.snap_count) := by omega
    rw [process_rollbacks_loop, if_neg hc]
    rfl
  · intro hc
    rw [process_rollbacks_loop, if_pos hc]

/-- C16: when `bank_process_rollbacks` reaches a queued request with
`iterations_back = k` in a bank whose ring holds `snap_count` snapshots: if
`1 <= k <= snap_count - 1` the selected snapshot is applied, the success line
is logged, and processing continues with the next request on the restored
bank; if `k <= 0` or `k >= snap_count` the request is dropped silently, that
is, the outcome (bank and log) is that of processing the remaining requests
alone.  For a single request: the success line is logged if and only if
`1 <= k <= snap_count - 1`, and otherwise the bank is unchanged and the log
empty. -/
theorem rollback_request_processing (b : bank_t) (req : rollback_req)
    (rest : List rollback_req) :
    ((1 ≤ req.iterations_back ∧ req.iterations_back ≤ b.snap_count - 1) →
      process_rollbacks_loop (req :: rest) b =
        ((process_rollbacks_loop rest
            (snapshot_apply b (rollback_copy b req.iterations_back))).1,
         log_rollback req ::
          (process_rollbacks_loop rest
            (snapshot_apply b (rollback_copy b req.iterations_back))).2)) ∧
    ((req.iterations_back ≤ 0 ∨ req.iterations_back ≥ b.snap_count) →
      process_rollbacks_loop (req :: rest) b = process_rollbacks_loop rest b) ∧
    ((process_rollbacks_loop [req] b).2 = [log_rollback req] ↔
      (1 ≤ req.iterations_back ∧ req.iterations_back ≤ b.snap_count - 1)) ∧
    ((1 ≤ req.iterations_back ∧ req.iterations_back ≤ b.snap_count - 1) →
      (process_rollbacks_loop [req] b).1 =
        snapshot_apply b (rollback_copy b req.iterations_back)) ∧
    ((req.iterations_back ≤ 0 ∨ req.iterations_back ≥ b.snap_count) →
      process_rollbacks_loop [req] b = (b, [])) := by
  obtain ⟨hv, hd⟩ := process_rollbacks_loop_cons b req rest
  obtain ⟨hv1, hd1⟩ := process_rollbacks_loop_cons b req []
  refine ⟨hv, hd, ?_, ?_, ?_⟩
  · constructor
    · intro hlog
      by_contra hnot
      have hc : req.iterations_back ≤ 0 ∨ req.iterations_back ≥ b.snap_count := by omega
      rw [hd1 hc] at hlog
      simp [process_rollbacks_loop] at hlog
    · intro hvalid
      rw [hv1 hvalid]
      simp [process_rollbacks_loop]
  · intro hvalid
    rw [hv1 hvalid]
    simp [process_rollbacks_loop]
  · intro hc
    rw [hd1 hc]
    simp [process_rollbacks_loop]

set_option maxRecDepth 1000000 in
/-- Witness for C16 on the ring with three snapshots (account 10 at 100, 200,
300 ILS): `k = 2` is applied and logged, `k = 3` and `k = 0` are dropped. -/
theorem rollback_request_processing_witness :
    (bank_after ops_three_ticks).snap_count = 3 ∧
    (process_rollbacks_loop [⟨1, 2⟩] (bank_after ops_three_ticks)).2 = [log_rollback ⟨1, 2⟩] ∧
    (process_rollbacks_loop [⟨1, 2⟩] (bank_after ops_three_ticks)).1.accounts =
      [⟨10, 7777, 100, 0⟩] ∧
    process_rollbacks_loop [⟨1, 3⟩] (bank_after ops_three_ticks) =
      (bank_after ops_three_ticks, []) ∧
    process_rollbacks_loop [⟨1, 0⟩, ⟨1, 2⟩] (bank_after ops_three_ticks) =
      process_rollbacks_loop [⟨1, 2⟩] (bank_after ops_three_ticks) :=
  have h2 := rollback_request_processing (bank_after ops_three_ticks) ⟨1, 2⟩ []
  have h3 := rollback_request_processing (bank_after ops_three_ticks) ⟨1, 3⟩ []
  have h0 := rollback_request_processing (bank_after ops_three_ticks) ⟨1, 0⟩ [⟨1, 2⟩]
  ⟨by decide, h2.2.2.1.mpr (by decide), by rw [h2.2.2.2.1 (by decide)]; decide,
   h3.2.2.2.2 (by decide), h0.2.1 (by decide)⟩

/-! ## C17: closed agents stay closed -/

theorem arr_get_set (arr : List Int) (t i v : Int) :
    arr_get (arr_set arr t v) i =
      if t.toNat = i.toNat ∧ t.toNat < arr.length then v else arr_get arr i := by
  unfold arr_get arr_set
  rw [List.getD_eq_getElem?_getD, List.getD_eq_getElem?_getD, List.getElem?_set]
  by_cases h1 : t.toNat = i.toNat
  · by_cases h2 : t.toNat < arr.length
    · rw [if_pos h1, if_pos h2, if_pos ⟨h1, h2⟩]
      rfl
    · rw [if_pos h1, if_neg h2, if_neg (fun h => h2 h.2)]
      rw [List.getElem?_eq_none (by omega)]
  · rw [if_neg h1, if_neg (fun h => h1 h.1)]

theorem close_loop_closed (targets : List Nat) :
    ∀ (b : bank_t) (id : Int), arr_get b.atm_closed id = 1 →
      arr_get (close_loop targets b).1.atm_closed id = 1 := by
  induction targets with
  | nil => intro b id h; exact h
  | cons t rest ih =>
    intro b id h
    unfold close_loop
    simp only
    split
    · apply ih
      simp only
      rw [arr_get_set]
      split
      · rfl
      · exact h
    · exact ih b id h

theorem bank_status_iteration_closed (b : bank_t) (id : Int)
    (h : arr_get b.atm_closed id = 1) :
    arr_get (bank_status_iteration b).1.atm_closed id = 1 := by
  rw [bank_status_iteration_eq]
  simp only
  unfold bank_process_rollbacks
  have hframe := (process_rollbacks_loop_frame
    (close_loop (List.range' 1 b.atm_count.toNat)
      (snapshot_capture b (status_array b))).1.rb_queue
    { (close_loop (List.range' 1 b.atm_count.toNat)
      (snapshot_capture b (status_array b))).1 with rb_queue := [] }).1.2.1
  rw [hframe]
  exact close_loop_closed _ (snapshot_capture b (status_array b)) id h

theorem engine_step_closed (b : bank_t) (op : engine_op) (id : Int)
    (h : arr_get b.atm_closed id = 1) : arr_get (engine_step b op).b.atm_closed id = 1 := by
  by_cases hop : op = .status_tick
  · subst hop
    exact bank_status_iteration_closed b id h
  · rw [(engine_step_same_ring b op hop).2.1]
    exact h

theorem engine_run_closed (ops : List engine_op) :
    ∀ (b : bank_t) (id : Int), arr_get b.atm_closed id = 1 →
      arr_get (engine_run b ops).1.atm_closed id = 1 := by
  induction ops with
  | nil => intro b id h; exact h
  | cons op rest ih =>
    intro b id h
    simp only [engine_run]
    exact ih _ id (engine_step_closed b op id h)

/-- C17: for every agent id, if `atm_closed[id] = 1` then it is still 1 after
any single engine step (account operations, the two halves of INVEST, agent
close requests, rollback requests, a status iteration with its close handling
and rollback applications, a commission iteration) and after any finite run
of such steps; and `snapshot_apply` leaves both `atm_closed` and
`atm_close_req` unchanged. -/
theorem closed_agents_stay_closed :
    (∀ (b : bank_t) (op : engine_op) (id : Int), arr_get b.atm_closed id = 1 →
      arr_get (engine_step b op).b.atm_closed id = 1) ∧
    (∀ (b : bank_t) (ops : List engine_op) (id : Int), arr_get b.atm_closed id = 1 →
      arr_get (engine_run b ops).1.atm_closed id = 1) ∧
    (∀ (b : bank_t) (s : bank_snapshot_t),
      (snapshot_apply b s).atm_closed = b.atm_closed ∧
      (snapshot_apply b s).atm_close_req = b.atm_close_req) :=
  ⟨engine_step_closed, fun b ops id h => engine_run_closed ops b id h,
   fun _ _ => ⟨rfl, rfl⟩⟩

set_option maxRecDepth 1000000 in
/-- Witness for C17: agent 1 is closed; it is still closed after a run with
account operations, status iterations and an applied rollback. -/
theorem closed_agents_stay_closed_witness :
    arr_get bank_agent_closed.atm_closed 1 = 1 ∧
    (engine_run bank_agent_closed ops_rollback_one).1.accounts = [⟨10, 7777, 200, 0⟩] ∧
    arr_get (engine_run bank_agent_closed ops_rollback_one).1.atm_closed 1 = 1 :=
  ⟨by decide, by decide,
   closed_agents_stay_closed.2.1 bank_agent_closed ops_rollback_one 1 (by decide)⟩

/-! ## C18: CLOSE_AGENT -/

/-- C18: let `atm_closed[target]` be 0 or 1 and `atm_close_req` have its
`atm_count + 1` cells.  CLOSE_AGENT(requestor, target) returns ATM_NOT_FOUND
if and only if `target` is outside `1..atm_count`; for a target inside that
range it returns ATM_ALREADY_CLOSED if and only if `atm_closed[target] = 1` or
`atm_close_req[target] != 0`, and otherwise it returns OK, stores the
requestor in `atm_close_req[target]` and leaves the other cells of
`atm_close_req` as they were.  In every case `atm_closed` is unchanged, and
on the two error outcomes the whole bank is unchanged. -/
theorem bank_close_atm_request_effect (b : bank_t) (atm_id_src atm_id_target : Int)
    (hflag : arr_get b.atm_closed atm_id_target = 0 ∨ arr_get b.atm_closed atm_id_target = 1)
    (hlen : b.atm_close_req.length = b.atm_count.toNat + 1) :
    ((bank_close_atm_request b atm_id_src atm_id_target).rc = .BANK_ERR_ATM_NOT_FOUND ↔
      (atm_id_target < 1 ∨ atm_id_target > b.atm_count)) ∧
    ((1 ≤ atm_id_target ∧ atm_id_target ≤ b.atm_count) →
      ((bank_close_atm_request b atm_id_src atm_id_target).rc =
          .BANK_ERR_ATM_ALREADY_CLOSED ↔
        (arr_get b.atm_closed atm_id_target = 1 ∨
          arr_get b.atm_close_req atm_id_target ≠ 0))) ∧
    ((1 ≤ atm_id_target ∧ atm_id_target ≤ b.atm_count) →
      ¬ (arr_get b.atm_closed atm_id_target = 1 ∨
          arr_get b.atm_close_req atm_id_target ≠ 0) →
      (bank_close_atm_request b atm_id_src atm_id_target).rc = .BANK_OK ∧
      arr_get (bank_close_atm_request b atm_id_src atm_id_target).b.atm_close_req
        atm_id_target = atm_id_src ∧
      (∀ t : Int, 1 ≤ t → t ≠ atm_id_target →
        arr_get (bank_close_atm_request b atm_id_src atm_id_target).b.atm_close_req t =
          arr_get b.atm_close_req t) ∧
      { (bank_close_atm_request b atm_id_src atm_id_target).b with
          atm_close_req := b.atm_close_req } = b) ∧
    (bank_close_atm_request b atm_id_src atm_id_target).b.atm_closed = b.atm_closed ∧
    ((bank_close_atm_request b atm_id_src atm_id_target).rc ≠ .BANK_OK →
      (bank_close_atm_request b atm_id_src atm_id_target).b = b) := by
  have hclosed : arr_get b.atm_closed atm_id_target ≠ 0 ↔
      arr_get b.atm_closed atm_id_target = 1 := by
    rcases hflag with h | h <;> simp [h]
  unfold bank_close_atm_request
  by_cases hout : atm_id_target < 1 ∨ atm_id_target > b.atm_count
  · rw [if_pos hout]
    refine ⟨by simp [hout], fun hin => ?_, fun hin => ?_, rfl, fun _ => rfl⟩ <;> omega
  · rw [if_neg hout]
    by_cases hbusy : arr_get b.atm_closed atm_id_target ≠ 0 ∨
        arr_get b.atm_close_req atm_id_target ≠ 0
    · rw [if_pos hbusy]
      have hbusy' : arr_get b.atm_closed atm_id_target = 1 ∨
          arr_get b.atm_close_req atm_id_target ≠ 0 := by
        rcases hbusy with h | h
        · exact Or.inl (hclosed.mp h)
        · exact Or.inr h
      refine ⟨by simp [hout], fun _ => by simp [hbusy'], fun _ hn => absurd hbusy' hn, rfl,
        fun _ => rfl⟩
    · rw [if_neg hbusy]
      have hfree : ¬ (arr_get b.atm_closed atm_id_target = 1 ∨
          arr_get b.atm_close_req atm_id_target ≠ 0) := by
        rintro (h | h)
        · exact hbusy (Or.inl (hclosed.mpr h))
        · exact hbusy (Or.inr h)
      refine ⟨by simp [hout], fun _ => by simp [hfree], fun _ _ => ⟨rfl, ?_, ?_, rfl⟩, rfl,
        fun h => absurd rfl h⟩
      · simp only
        rw [arr_get_set, if_pos ⟨rfl, by omega⟩]
      · intro t ht hne
        simp only
        rw [arr_get_set]
        have : ¬ (atm_id_target.toNat = t.toNat ∧ atm_id_target.toNat < b.atm_close_req.length) := by
          omega
        rw [if_neg this]

/-- Witness for C18 on banks for two agents: target 3 does not exist, target 1
with a pending close is refused, target 2 is accepted. -/
theorem bank_close_atm_request_effect_witness :
    (bank_close_atm_request bank_close_pending 1 3).rc = .BANK_ERR_ATM_NOT_FOUND ∧
    (bank_close_atm_request bank_close_pending 1 1).rc = .BANK_ERR_ATM_ALREADY_CLOSED ∧
    (bank_close_atm_request bank_agent_closed 2 1).rc = .BANK_ERR_ATM_ALREADY_CLOSED ∧
    (bank_close_atm_request bank_close_pending 1 2).rc = .BANK_OK ∧
    arr_get (bank_close_atm_request bank_close_pending 1 2).b.atm_close_req 2 = 1 ∧
    arr_get (bank_close_atm_request bank_close_pending 1 2).b.atm_close_req 1 = 2 :=
  have h3 := bank_close_atm_request_effect bank_close_pending 1 3 (by decide) (by decide)
  have h1 := bank_close_atm_request_effect bank_close_pending 1 1 (by decide) (by decide)
  have hc := bank_close_atm_request_effect bank_agent_closed 2 1 (by decide) (by decide)
  have h2 := bank_close_atm_request_effect bank_close_pending 1 2 (by decide) (by decide)
  ⟨h3.1.mpr (by decide), (h1.2.1 (by decide)).mpr (by decide),
   (hc.2.1 (by decide)).mpr (by decide), (h2.2.2.1 (by decide) (by decide)).1,
   (h2.2.2.1 (by decide) (by decide)).2.1, by decide⟩

/-! ## C19: ROLLBACK requests and their processing order -/

theorem process_rollbacks_loop_fifo (reqs : List rollback_req) :
    ∀ b : bank_t,
      (process_rollbacks_loop reqs b).2 = (reqs.filter (rollback_valid b)).map log_rollback ∧
      (process_rollbacks_loop reqs b).1 =
        (reqs.filter (rollback_valid b)).foldl
          (fun s r => snapshot_apply s (rollback_copy s r.iterations_back)) b := by
  induction reqs with
  | nil => intro b; exact ⟨rfl, rfl⟩
  | cons req rest ih =>
    intro b
    obtain ⟨hv, hd⟩ := process_rollbacks_loop_cons b req rest
    by_cases hvalid : 1 ≤ req.iterations_back ∧ req.iterations_back ≤ b.snap_count - 1
    · have hf : rollback_valid b req = true := by simp [rollback_valid, hvalid]
      have hsame : rollback_valid (snapshot_apply b (rollback_copy b req.iterations_back)) =
          rollback_valid b := rfl
      obtain ⟨i1, i2⟩ := ih (snapshot_apply b (rollback_copy b req.iterations_back))
      rw [hv hvalid, List.filter_cons_of_pos hf]
      simp only [List.map_cons, List.foldl_cons]
      rw [i1, i2, hsame]
      exact ⟨rfl, rfl⟩
    · have hf : ¬ rollback_valid b req = true := by simp [rollback_valid, hvalid]
      have hc : req.iterations_back ≤ 0 ∨ req.iterations_back ≥ b.snap_count := by omega
      rw [hd hc, List.filter_cons_of_neg hf]
      exact ih b

/-- C19: ROLLBACK(agent, k) returns OK if and only if `1 <= k <= 120`, and
then the bank afterwards differs from the bank before only in the queue,
which has the request `{agent, k}` appended at its tail; otherwise it returns
ROLLBACK_NOT_POSSIBLE and leaves the whole bank, the queue included,
unchanged.  Accounts, `count` and the bank totals are never changed.
`bank_process_rollbacks` empties the queue and handles the requests in queue
order: its log lines are the success lines of the requests in range, in the
order they were enqueued, and the bank afterwards is the result of applying
their snapshots in that order. -/
theorem bank_rollback_effect (b : bank_t) (atm_id iterations_back : Int) :
    ((bank_rollback b atm_id iterations_back).rc = .BANK_OK ↔
      (1 ≤ iterations_back ∧ iterations_back ≤ 120)) ∧
    ((1 ≤ iterations_back ∧ iterations_back ≤ 120) →
      (bank_rollback b atm_id iterations_back).b.rb_queue =
        b.rb_queue ++ [{ atm_id := atm_id, iterations_back := iterations_back }] ∧
      { (bank_rollback b atm_id iterations_back).b with rb_queue := b.rb_queue } = b) ∧
    (¬ (1 ≤ iterations_back ∧ iterations_back ≤ 120) →
      (bank_rollback b atm_id iterations_back).rc = .BANK_ERR_ROLLBACK_NOT_POSSIBLE ∧
      (bank_rollback b atm_id iterations_back).b = b) ∧
    ((bank_rollback b atm_id iterations_back).b.entries = b.entries ∧
     (bank_rollback b atm_id iterations_back).b.count = b.count ∧
     (bank_rollback b atm_id iterations_back).b.bank_ils = b.bank_ils ∧
     (bank_rollback b atm_id iterations_back).b.bank_usd = b.bank_usd) ∧
    ((bank_process_rollbacks b).1.rb_queue = [] ∧
     (bank_process_rollbacks b).2 =
       (b.rb_queue.filter (rollback_valid b)).map log_rollback ∧
     (bank_process_rollbacks b).1 =
       (b.rb_queue.filter (rollback_valid b)).foldl
         (fun s r => snapshot_apply s (rollback_copy s r.iterations_back))
         { b with rb_queue := [] }) := by
  have hfifo := process_rollbacks_loop_fifo b.rb_queue { b with rb_queue := [] }
  have hq := (process_rollbacks_loop_frame b.rb_queue { b with rb_queue := [] }).2.2
  have hproc : (bank_process_rollbacks b).1.rb_queue = [] ∧
      (bank_process_rollbacks b).2 =
        (b.rb_queue.filter (rollback_valid b)).map log_rollback ∧
      (bank_process_rollbacks b).1 =
        (b.rb_queue.filter (rollback_valid b)).foldl
          (fun s r => snapshot_apply s (rollback_copy s r.iterations_back))
          { b with rb_queue := [] } := by
    unfold bank_process_rollbacks
    exact ⟨hq, hfifo.1, hfifo.2⟩
  unfold bank_rollback
  by_cases hbad : iterations_back ≤ 0 ∨ iterations_back > 120
  · have hnot : ¬ (1 ≤ iterations_back ∧ iterations_back ≤ 120) := by omega
    rw [if_pos hbad]
    exact ⟨by simp [hnot], fun h => absurd h hnot, fun _ => ⟨rfl, rfl⟩,
      ⟨rfl, rfl, rfl, rfl⟩, hproc⟩
  · have hin : 1 ≤ iterations_back ∧ iterations_back ≤ 120 := by omega
    rw [if_neg hbad]
    exact ⟨by simp [hin], fun _ => ⟨rfl, rfl⟩, fun h => absurd hin h,
      ⟨rfl, rfl, rfl, rfl⟩, hproc⟩

set_option maxRecDepth 1000000 in
/-- Witness for C19: on a bank whose ring holds two snapshots, `R 0` is
refused, `R 5` and `R 2` are enqueued in that order; the next status
iteration pushes the third snapshot, drops `k = 5` and applies `k = 2`. -/
theorem bank_rollback_effect_witness :
    (bank_rollback (bank_after ops_three_ticks) 1 0).rc = .BANK_ERR_ROLLBACK_NOT_POSSIBLE ∧
    (bank_rollback (bank_after ops_three_ticks) 1 120).rc = .BANK_OK ∧
    (bank_after ops_rollback_mixed).rb_queue = [⟨2, 5⟩, ⟨3, 2⟩] ∧
    (bank_status_iteration (bank_after ops_rollback_mixed)).2 = [log_rollback ⟨3, 2⟩] ∧
    (bank_status_iteration (bank_after ops_rollback_mixed)).1.rb_queue = [] ∧
    (bank_status_iteration (bank_after ops_rollback_mixed)).1.accounts =
      [⟨10, 7777, 100, 0⟩] :=
  have h0 := bank_rollback_effect (bank_after ops_three_ticks) 1 0
  have h120 := bank_rollback_effect (bank_after ops_three_ticks) 1 120
  ⟨(h0.2.2.1 (by decide)).1, h120.1.mpr (by decide), by decide, by decide, by decide,
   by decide⟩

/-! ## C20: the VIP priority queue -/

/-! ### Order lemmas -/

theorem higher_iff (a b : vip_task_t) :
    vip_task_higher a b = true ↔
      (a.priority > b.priority ∨ (a.priority = b.priority ∧ a.seq < b.seq)) := by
  unfold vip_task_higher
  by_cases h : a.priority ≠ b.priority
  · rw [if_pos h]
    simp only [decide_eq_true_eq]
    constructor
    · intro h1; exact Or.inl h1
    · rintro (h1 | ⟨h1, _⟩)
      · exact h1
      · exact absurd h1 h
  · rw [if_neg h]
    simp only [decide_eq_true_eq]
    have h' : a.priority = b.priority := by simpa using h
    constructor
    · intro h1; exact Or.inr ⟨h', h1⟩
    · rintro (h1 | ⟨_, h1⟩)
      · omega
      · exact h1

theorem not_higher_iff (a b : vip_task_t) : vip_task_higher b a = false ↔ task_le a b := by
  rw [← Bool.not_eq_true, higher_iff]
  unfold task_le
  constructor
  · intro h
    by_contra hcon
    apply h
    omega
  · intro h hcon
    omega

theorem task_le_of_higher {a b : vip_task_t} (h : vip_task_higher a b = true) : task_le a b := by
  rw [higher_iff] at h
  unfold task_le
  omega

theorem task_le_trans {a b c : vip_task_t} (h1 : task_le a b) (h2 : task_le b c) :
    task_le a c := by
  unfold task_le at *
  omega

theorem task_le_refl (a : vip_task_t) : task_le a a := by
  unfold task_le
  omega

/-! ### Array cells after an exchange -/

theorem get_lt_length {h : List vip_task_t} {i : Nat} {x : vip_task_t} (hi : h[i]? = some x) :
    i < h.length := by
  by_contra hcon
  rw [List.getElem?_eq_none (by omega)] at hi
  cases hi

theorem heap_swap_get (h : List vip_task_t) (i j : Nat) (x y : vip_task_t)
    (hi : h[i]? = some x) (hj : h[j]? = some y) (k : Nat) :
    (heap_swap h i j)[k]? = if k = j then some x else if k = i then some y else h[k]? := by
  have hil := get_lt_length hi
  have hjl := get_lt_length hj
  unfold heap_swap
  rw [hi, hj]
  simp only
  rw [List.getElem?_set, List.getElem?_set]
  by_cases hkj : k = j
  · subst hkj
    simp [hjl]
  · by_cases hki : k = i
    · subst hki
      simp [hkj, Ne.symm hkj, hil]
    · simp [hkj, hki, Ne.symm hkj, Ne.symm hki]

theorem heap_swap_length (h : List vip_task_t) (i j : Nat) :
    (heap_swap h i j).length = h.length := by
  unfold heap_swap
  split <;> simp

theorem higher_at_eq {h : List vip_task_t} {a b : Nat} {x y : vip_task_t}
    (ha : h[a]? = some x) (hb : h[b]? = some y) : higher_at h a b = vip_task_higher x y := by
  unfold higher_at
  rw [ha, hb]

theorem get_some_of_lt (h : List vip_task_t) (i : Nat) (hi : i < h.length) :
    ∃ x, h[i]? = some x := ⟨h[i], List.getElem?_eq_getElem hi⟩

/-! ### `vipq_sift_up` restores the heap order -/

theorem is_heap_of_heap_up_zero {h : List vip_task_t} (hu : heap_up h 0) : is_heap h := by
  intro j a c hj ha hc
  exact hu.1 j a c hj (by omega) ha hc

theorem vipq_sift_up_heap (fuel : Nat) :
    ∀ (h : List vip_task_t) (i : Nat), heap_up h i → i < h.length → i ≤ fuel →
      is_heap (vipq_sift_up h i fuel) := by
  induction fuel with
  | zero =>
    intro h i hu _ hf
    have : i = 0 := by omega
    subst this
    exact is_heap_of_heap_up_zero hu
  | succ fuel ih =>
    intro h i hu hil hf
    unfold vipq_sift_up
    by_cases hi0 : i > 0
    · rw [if_pos hi0]
      simp only
      have hpl : (i - 1) / 2 < h.length := by omega
      have hpi : (i - 1) / 2 < i := by omega
      obtain ⟨hp, hhp⟩ := get_some_of_lt h _ hpl
      obtain ⟨hi, hhi⟩ := get_some_of_lt h i hil
      rw [higher_at_eq hhp hhi]
      by_cases hhigh : vip_task_higher hp hi = true
      · rw [if_pos hhigh]
        intro j a c hj ha hc
        by_cases hji : j = i
        · subst hji
          rw [hhp] at ha
          rw [hhi] at hc
          cases ha
          cases hc
          exact task_le_of_higher hhigh
        · exact hu.1 j a c hj hji ha hc
      · rw [if_neg hhigh]
        have hle : task_le hi hp := by
          rw [← not_higher_iff]
          simpa using hhigh
        have hget := heap_swap_get h ((i - 1) / 2) i hp hi hhp hhi
        apply ih _ _ _ (by rw [heap_swap_length]; exact hpl) (by omega)
        constructor
        · intro j a c hj hjp ha hc
          rw [hget] at ha hc
          by_cases hji : j = i
          · subst hji
            have hne : (j - 1) / 2 ≠ j := by omega
            rw [if_neg hne, if_pos rfl] at ha
            rw [if_pos rfl] at hc
            cases ha
            cases hc
            exact hle
          · rw [if_neg hji, if_neg hjp] at hc
            by_cases hpar_i : (j - 1) / 2 = i
            · rw [if_pos hpar_i] at ha
              cases ha
              exact hu.2 j hp c hi0 hj hpar_i hhp hc
            · rw [if_neg hpar_i] at ha
              by_cases hpar_p : (j - 1) / 2 = (i - 1) / 2
              · rw [if_pos hpar_p] at ha
                cases ha
                have h1 : task_le hp c := hu.1 j hp c hj hji (by rw [hpar_p]; exact hhp) hc
                exact task_le_trans hle h1
              · rw [if_neg hpar_p] at ha
                exact hu.1 j a c hj hji ha hc
        · intro j a c hp0 hj hpar ha hc
          rw [hget] at ha hc
          have hpp : ((i - 1) / 2 - 1) / 2 < (i - 1) / 2 := by omega
          rw [if_neg (by omega), if_neg (by omega)] at ha
          have hgp : task_le a hp := hu.1 ((i - 1) / 2) a hp hp0 (by omega) ha hhp
          by_cases hji : j = i
          · rw [if_pos hji] at hc
            cases hc
            exact hgp
          · rw [if_neg hji, if_neg (by omega)] at hc
            have h1 : task_le hp c := hu.1 j hp c hj hji (by rw [hpar]; exact hhp) hc
            exact task_le_trans hgp h1
    · rw [if_neg hi0]
      have : i = 0 := by omega
      subst this
      exact is_heap_of_heap_up_zero hu

/-! ### `vipq_sift_down` restores the heap order -/

theorem is_heap_of_heap_down {h : List vip_task_t} {i : Nat} (hd : heap_down h i)
    (hch : ∀ (j : Nat) (x c : vip_task_t), 0 < j → (j - 1) / 2 = i → h[i]? = some x →
      h[j]? = some c → task_le x c) : is_heap h := by
  intro j a c hj ha hc
  by_cases hpar : (j - 1) / 2 = i
  · exact hch j a c hj hpar (by rw [← hpar]; exact ha) hc
  · exact hd.1 j a c hj hpar ha hc

theorem heap_down_swap {h : List vip_task_t} {i c : Nat} {hi hc : vip_task_t}
    (hd : heap_down h i) (hhi : h[i]? = some hi) (hhc : h[c]? = some hc)
    (hpar : (c - 1) / 2 = i) (hc0 : 0 < c) (hle : task_le hc hi)
    (hsib : ∀ (j : Nat) (x : vip_task_t), 0 < j → (j - 1) / 2 = i → j ≠ c → h[j]? = some x →
      task_le hc x) :
    heap_down (heap_swap h c i) c := by
  have hget := heap_swap_get h c i hc hi hhc hhi
  have hic : i < c := by omega
  constructor
  · intro j a x hj hjc ha hx
    rw [hget] at ha hx
    by_cases hpi : (j - 1) / 2 = i
    · rw [if_pos hpi] at ha
      cases ha
      by_cases hjc' : j = c
      · rw [if_neg (by omega), if_pos hjc'] at hx
        cases hx
        exact hle
      · rw [if_neg (by omega), if_neg hjc'] at hx
        exact hsib j x hj hpi hjc' hx
    · rw [if_neg hpi, if_neg hjc] at ha
      by_cases hji : j = i
      · rw [if_pos hji] at hx
        cases hx
        subst hji
        exact hd.2 c a hc hj hc0 hpar ha hhc
      · rw [if_neg hji, if_neg (by omega)] at hx
        exact hd.1 j a x hj hpi ha hx
  · intro j a x _ hj hjc ha hx
    rw [hget] at ha hx
    rw [if_pos hpar] at ha
    cases ha
    rw [if_neg (by omega), if_neg (by omega)] at hx
    exact hd.1 j hc x hj (by omega) (by rw [hjc]; exact hhc) hx

theorem vipq_sift_down_heap (fuel : Nat) :
    ∀ (h : List vip_task_t) (i : Nat), heap_down h i → h.length ≤ fuel + i →
      is_heap (vipq_sift_down h i fuel) := by
  induction fuel with
  | zero =>
    intro h i hd hf
    apply is_heap_of_heap_down hd
    intro j x c hj hpar _ hc
    have := get_lt_length hc
    omega
  | succ fuel ih =>
    intro h i hd hf
    by_cases hil : i < h.length
    swap
    · have hnochild : ∀ (j : Nat) (x c : vip_task_t), 0 < j → (j - 1) / 2 = i →
          h[i]? = some x → h[j]? = some c → task_le x c := by
        intro j x c hj hpar _ hc
        have := get_lt_length hc
        omega
      have h1 : ¬ (2 * i + 1 < h.length ∧ higher_at h (2 * i + 1) i = true) := by omega
      have h2 : ¬ (2 * i + 2 < h.length ∧ higher_at h (2 * i + 2) i = true) := by omega
      unfold vipq_sift_down
      simp only [h1, if_false, h2, if_true]
      exact is_heap_of_heap_down hd hnochild
    obtain ⟨hi, hhi⟩ := get_some_of_lt h i hil
    unfold vipq_sift_down
    simp only
    by_cases c1 : 2 * i + 1 < h.length ∧ higher_at h (2 * i + 1) i = true
    · rw [if_pos c1]
      obtain ⟨hl, hhl⟩ := get_some_of_lt h _ c1.1
      have hlhi : vip_task_higher hl hi = true := by
        rw [← higher_at_eq hhl hhi]; exact c1.2
      by_cases c2 : 2 * i + 2 < h.length ∧ higher_at h (2 * i + 2) (2 * i + 1) = true
      · rw [if_pos c2, if_neg (by omega)]
        obtain ⟨hr, hhr⟩ := get_some_of_lt h _ c2.1
        have hrhl : vip_task_higher hr hl = true := by
          rw [← higher_at_eq hhr hhl]; exact c2.2
        apply ih _ _ _ (by rw [heap_swap_length]; omega)
        apply heap_down_swap hd hhi hhr (by omega) (by omega)
          (task_le_trans (task_le_of_higher hrhl) (task_le_of_higher hlhi))
        intro j x hj hpar hjc hx
        have hjl : j = 2 * i + 1 := by omega
        subst hjl
        rw [hhl] at hx
        cases hx
        exact task_le_of_higher hrhl
      · rw [if_neg c2, if_neg (by omega)]
        apply ih _ _ _ (by rw [heap_swap_length]; omega)
        apply heap_down_swap hd hhi hhl (by omega) (by omega) (task_le_of_higher hlhi)
        intro j x hj hpar hjc hx
        have hjr : j = 2 * i + 2 := by omega
        subst hjr
        have hrl := get_lt_length hx
        rw [← not_higher_iff]
        have : higher_at h (2 * i + 2) (2 * i + 1) = vip_task_higher x hl :=
          higher_at_eq hx hhl
        rw [← this]
        by_contra hcon
        exact c2 ⟨hrl, by simpa using hcon⟩
    · rw [if_neg c1]
      by_cases c2 : 2 * i + 2 < h.length ∧ higher_at h (2 * i + 2) i = true
      · rw [if_pos c2, if_neg (by omega)]
        obtain ⟨hr, hhr⟩ := get_some_of_lt h _ c2.1
        have hrhi : vip_task_higher hr hi = true := by
          rw [← higher_at_eq hhr hhi]; exact c2.2
        apply ih _ _ _ (by rw [heap_swap_length]; omega)
        apply heap_down_swap hd hhi hhr (by omega) (by omega) (task_le_of_higher hrhi)
        intro j x hj hpar hjc hx
        have hjl : j = 2 * i + 1 := by omega
        subst hjl
        have hll := get_lt_length hx
        have hnot : ¬ higher_at h (2 * i + 1) i = true := fun hcon => c1 ⟨hll, hcon⟩
        rw [higher_at_eq hx hhi] at hnot
        have hix : task_le hi x := by
          rw [← not_higher_iff]; simpa using hnot
        exact task_le_trans (task_le_of_higher hrhi) hix
      · rw [if_neg c2, if_pos rfl]
        apply is_heap_of_heap_down hd
        intro j x c hj hpar hx hc
        rw [hhi] at hx
        cases hx
        have hjl := get_lt_length hc
        rw [← not_higher_iff]
        have hjcase : j = 2 * i + 1 ∨ j = 2 * i + 2 := by omega
        rcases hjcase with rfl | rfl
        · have hnot : ¬ higher_at h (2 * i + 1) i = true := fun hcon => c1 ⟨hjl, hcon⟩
          rw [higher_at_eq hc hhi] at hnot
          simpa using hnot
        · have hnot : ¬ higher_at h (2 * i + 2) i = true := fun hcon => c2 ⟨hjl, hcon⟩
          rw [higher_at_eq hc hhi] at hnot
          simpa using hnot

/-! ### The heap operations permute the stored tasks -/

theorem count_set_add (x a : vip_task_t) :
    ∀ (l : List vip_task_t) (n : Nat) (b : vip_task_t), l[n]? = some b →
      List.count x (l.set n a) + (if b == x then 1 else 0) =
        List.count x l + (if a == x then 1 else 0) := by
  intro l
  induction l with
  | nil => intro n b hb; simp at hb
  | cons c rest ih =>
    intro n b hb
    cases n with
    | zero =>
      simp only [List.getElem?_cons_zero, Option.some.injEq] at hb
      subst hb
      simp only [List.set_cons_zero, List.count_cons]
      omega
    | succ n =>
      simp only [List.getElem?_cons_succ] at hb
      have := ih n b hb
      simp only [List.set_cons_succ, List.count_cons]
      omega

theorem heap_swap_perm (h : List vip_task_t) (i j : Nat) : (heap_swap h i j).Perm h := by
  unfold heap_swap
  cases hx : h[i]? with
  | none => exact List.Perm.refl _
  | some x =>
    cases hy : h[j]? with
    | none => exact List.Perm.refl _
    | some y =>
      simp only
      rw [List.perm_iff_count]
      intro a
      have h1 := count_set_add a y h i x hx
      have hy1 : (h.set i y)[j]? = some y := by
        rw [List.getElem?_set]
        split
        · rw [if_pos (get_lt_length hx)]
        · exact hy
      have h2 := count_set_add a x (h.set i y) j y hy1
      omega

theorem vipq_sift_up_perm (fuel : Nat) :
    ∀ (h : List vip_task_t) (i : Nat), (vipq_sift_up h i fuel).Perm h := by
  induction fuel with
  | zero => intro h i; exact List.Perm.refl _
  | succ fuel ih =>
    intro h i
    unfold vipq_sift_up
    split
    · simp only
      split
      · exact List.Perm.refl _
      · exact (ih _ _).trans (heap_swap_perm _ _ _)
    · exact List.Perm.refl _

theorem vipq_sift_down_perm (fuel : Nat) :
    ∀ (h : List vip_task_t) (i : Nat), (vipq_sift_down h i fuel).Perm h := by
  induction fuel with
  | zero => intro h i; exact List.Perm.refl _
  | succ fuel ih =>
    intro h i
    have key : ∀ best : Nat,
        (if best = i then h else vipq_sift_down (heap_swap h best i) best fuel).Perm h := by
      intro best
      split
      · exact List.Perm.refl _
      · exact (ih _ _).trans (heap_swap_perm _ _ _)
    unfold vipq_sift_down
    exact key _

/-! ### The root of a heap is a best task -/

theorem is_heap_root (h : List vip_task_t) (hh : is_heap h) (a : vip_task_t)
    (ha : h[0]? = some a) :
    ∀ (j : Nat) (c : vip_task_t), h[j]? = some c → task_le a c := by
  intro j
  induction j using Nat.strong_induction_on with
  | _ j ih =>
    intro c hc
    by_cases hj : j = 0
    · subst hj
      rw [ha] at hc
      cases hc
      exact task_le_refl a
    · have hjl := get_lt_length hc
      obtain ⟨p, hp⟩ := get_some_of_lt h ((j - 1) / 2) (by omega)
      exact task_le_trans (ih ((j - 1) / 2) (by omega) p hp) (hh j p c (by omega) hp hc)

theorem is_heap_root_mem (h : List vip_task_t) (hh : is_heap h) (a : vip_task_t)
    (ha : h[0]? = some a) : ∀ u ∈ h, task_le a u := by
  intro u hu
  obtain ⟨n, hn, hget⟩ := List.getElem_of_mem hu
  exact is_heap_root h hh a ha n u (by rw [List.getElem?_eq_getElem hn, hget])

/-! ### `vipq_push` and `vipq_pop` keep the heap order -/

theorem is_heap_nil : is_heap [] := by
  intro j a c _ ha _
  simp at ha

theorem vipq_push_open (q : vip_queue_t) (a p : Int) (l : String) (hc : q.closed = 0) :
    (vipq_push q a p l).heap =
        vipq_sift_up (q.heap ++ [{ priority := p, seq := q.next_seq, atm_id := a, line := l }])
          q.heap.length q.heap.length ∧
      (vipq_push q a p l).next_seq = wrap_ll (q.next_seq + 1) ∧
      (vipq_push q a p l).closed = 0 := by
  unfold vipq_push
  rw [if_neg (by simp [hc])]
  exact ⟨rfl, rfl, hc⟩

theorem vipq_push_closed (q : vip_queue_t) (a p : Int) (l : String) (hc : q.closed ≠ 0) :
    vipq_push q a p l = q := by
  unfold vipq_push
  rw [if_pos hc]

theorem heap_up_append (h : List vip_task_t) (t : vip_task_t) (hh : is_heap h) :
    heap_up (h ++ [t]) h.length := by
  constructor
  · intro j a c hj hne ha hc
    have hjl := get_lt_length hc
    rw [List.length_append, List.length_singleton] at hjl
    have hj2 : j < h.length := by omega
    rw [List.getElem?_append_left (by omega)] at ha
    rw [List.getElem?_append_left hj2] at hc
    exact hh j a c hj ha hc
  · intro j a c _ hj hpar _ hc
    have hjl := get_lt_length hc
    rw [List.length_append, List.length_singleton] at hjl
    omega

theorem vipq_push_heap (q : vip_queue_t) (a p : Int) (l : String) (hh : is_heap q.heap) :
    is_heap (vipq_push q a p l).heap := by
  by_cases hc : q.closed = 0
  · rw [(vipq_push_open q a p l hc).1]
    apply vipq_sift_up_heap _ _ _ (heap_up_append _ _ hh)
    · rw [List.length_append, List.length_singleton]; omega
    · exact Nat.le_refl _
  · rw [vipq_push_closed q a p l hc]
    exact hh

theorem vipq_push_perm (q : vip_queue_t) (a p : Int) (l : String) (hc : q.closed = 0) :
    (vipq_push q a p l).heap.Perm
      (q.heap ++ [{ priority := p, seq := q.next_seq, atm_id := a, line := l }]) := by
  rw [(vipq_push_open q a p l hc).1]
  exact vipq_sift_up_perm _ _ _

theorem heap_down_moved (out moved : vip_task_t) (rest : List vip_task_t)
    (hh : is_heap (out :: rest)) : heap_down (moved :: rest.dropLast) 0 := by
  constructor
  · intro j a c hj hpar ha hc
    have hlift : ∀ (k : Nat) (x : vip_task_t), 0 < k →
        (moved :: rest.dropLast)[k]? = some x → (out :: rest)[k]? = some x := by
      intro k x hk hx
      obtain ⟨k1, rfl⟩ : ∃ k1, k = k1 + 1 := ⟨k - 1, by omega⟩
      rw [List.getElem?_cons_succ] at hx ⊢
      rw [List.getElem?_dropLast] at hx
      split at hx
      · exact hx
      · cases hx
    exact hh j a c hj (hlift _ a (by omega) ha) (hlift _ c hj hc)
  · intro j a c h0 _ _ _ _
    omega

theorem vipq_pop_spec (q q2 : vip_queue_t) (t : vip_task_t) (hh : is_heap q.heap)
    (hpop : vipq_pop q = .task t q2) :
    q.heap[0]? = some t ∧ q.heap.Perm (t :: q2.heap) ∧ is_heap q2.heap ∧
      q2.closed = q.closed ∧ q2.next_seq = q.next_seq := by
  unfold vipq_pop at hpop
  cases hq : q.heap with
  | nil =>
    rw [hq] at hpop
    simp only at hpop
    split at hpop <;> cases hpop
  | cons out rest =>
    rw [hq] at hpop hh
    simp only at hpop
    split at hpop
    · rename_i hsize
      have hne : rest ≠ [] := by
        intro h0; rw [h0] at hsize; simp at hsize
      have hmoved : (out :: rest).getLast?.getD out = rest.getLast hne := by
        rw [List.getLast?_cons, List.getLast?_eq_getLast rest hne]
        rfl
      have hdrop : (out :: rest).dropLast = out :: rest.dropLast :=
        List.dropLast_cons_of_ne_nil hne
      rw [hmoved, hdrop, List.set_cons_zero] at hpop
      injection hpop with h1 h2
      subst h1
      subst h2
      refine ⟨List.getElem?_cons_zero, ?_, ?_, rfl, rfl⟩
      · apply List.Perm.cons
        refine List.Perm.symm ((vipq_sift_down_perm _ _ _).trans ?_)
        have : rest.dropLast ++ [rest.getLast hne] = rest := List.dropLast_append_getLast hne
        conv => rhs; rw [← this]
        exact (List.perm_append_singleton _ _).symm
      · exact vipq_sift_down_heap _ _ _ (heap_down_moved _ _ _ hh) (by omega)
    · rename_i hsize
      have hnil : rest = [] := by
        cases rest with
        | nil => rfl
        | cons x xs => simp at hsize
      injection hpop with h1 h2
      subst h1
      subst h2
      subst hnil
      exact ⟨List.getElem?_cons_zero, List.Perm.refl _, is_heap_nil, rfl, rfl⟩

theorem vipq_pop_empty (q : vip_queue_t) (hq : q.heap = []) :
    ∀ (t : vip_task_t) (q2 : vip_queue_t), vipq_pop q ≠ .task t q2 := by
  intro t q2 hpop
  unfold vipq_pop at hpop
  rw [hq] at hpop
  simp only at hpop
  split at hpop <;> cases hpop

theorem vipq_pop_nonempty (q : vip_queue_t) (hq : q.heap ≠ []) :
    ∃ (t : vip_task_t) (q2 : vip_queue_t), vipq_pop q = .task t q2 := by
  unfold vipq_pop
  cases hq2 : q.heap with
  | nil => exact absurd hq2 hq
  | cons out rest =>
    simp only
    split
    · exact ⟨_, _, rfl⟩
    · exact ⟨_, _, rfl⟩

theorem vipq_step_heap (q : vip_queue_t) (op : vip_op) (hh : is_heap q.heap) :
    is_heap (vipq_step q op).heap := by
  cases op with
  | push a p l => exact vipq_push_heap q a p l hh
  | pop =>
    unfold vipq_step
    simp only
    cases hpop : vipq_pop q with
    | waits => exact hh
    | done q1 => exact hh
    | task t q2 => exact (vipq_pop_spec q q2 t hh hpop).2.2.1
  | close => exact hh

theorem vipq_run_heap (ops : List vip_op) :
    ∀ q : vip_queue_t, is_heap q.heap → is_heap (vipq_run q ops).heap := by
  induction ops with
  | nil => intro q hh; exact hh
  | cons op rest ih =>
    intro q hh
    unfold vipq_run
    rw [List.foldl_cons]
    exact ih _ (vipq_step_heap q op hh)

theorem vipq_push_all_spec (reqs : List (Int × Int × String)) :
    ∀ q : vip_queue_t, q.closed = 0 → is_heap q.heap →
      is_heap (vipq_push_all q reqs).heap ∧
        (vipq_push_all q reqs).heap.Perm (q.heap ++ stamped q.next_seq reqs) := by
  induction reqs with
  | nil =>
    intro q _ hh
    refine ⟨hh, ?_⟩
    unfold vipq_push_all stamped
    rw [List.foldl_nil, List.append_nil]
  | cons r rest ih =>
    intro q hc hh
    have hopen := vipq_push_open q r.1 r.2.1 r.2.2 hc
    have hstep := ih (vipq_push q r.1 r.2.1 r.2.2) hopen.2.2 (vipq_push_heap q _ _ _ hh)
    have hunf : vipq_push_all q (r :: rest) = vipq_push_all (vipq_push q r.1 r.2.1 r.2.2) rest := by
      unfold vipq_push_all
      rw [List.foldl_cons]
    rw [hunf]
    refine ⟨hstep.1, hstep.2.trans ?_⟩
    rw [hopen.2.1]
    have hst : stamped q.next_seq (r :: rest) =
        { priority := r.2.1, seq := q.next_seq, atm_id := r.1, line := r.2.2 } ::
          stamped (wrap_ll (q.next_seq + 1)) rest := by
      conv => lhs; unfold stamped
    rw [hst]
    have hp := vipq_push_perm q r.1 r.2.1 r.2.2 hc
    refine (List.Perm.append_right _ hp).trans ?_
    rw [List.append_assoc, List.singleton_append]

theorem vipq_pop_all_spec (fuel : Nat) :
    ∀ q : vip_queue_t, is_heap q.heap → q.heap.length ≤ fuel →
      (vipq_pop_all q fuel).Pairwise task_le ∧ (vipq_pop_all q fuel).Perm q.heap := by
  induction fuel with
  | zero =>
    intro q _ hlen
    have hnil : q.heap = [] := List.eq_nil_of_length_eq_zero (by omega)
    unfold vipq_pop_all
    rw [hnil]
    exact ⟨List.Pairwise.nil, List.Perm.refl _⟩
  | succ fuel ih =>
    intro q hh hlen
    unfold vipq_pop_all
    cases hpop : vipq_pop q with
    | waits =>
      simp only
      by_cases hq : q.heap = []
      · rw [hq]; exact ⟨List.Pairwise.nil, List.Perm.refl _⟩
      · obtain ⟨t, q2, ht⟩ := vipq_pop_nonempty q hq
        rw [hpop] at ht; cases ht
    | done q1 =>
      simp only
      by_cases hq : q.heap = []
      · rw [hq]; exact ⟨List.Pairwise.nil, List.Perm.refl _⟩
      · obtain ⟨t, q2, ht⟩ := vipq_pop_nonempty q hq
        rw [hpop] at ht; cases ht
    | task t q2 =>
      simp only
      obtain ⟨h0, hperm, hh2, _, _⟩ := vipq_pop_spec q q2 t hh hpop
      have hl := hperm.length_eq
      rw [List.length_cons] at hl
      obtain ⟨hpw, hp2⟩ := ih q2 hh2 (by omega)
      refine ⟨List.Pairwise.cons ?_ hpw, (List.Perm.cons t hp2).trans hperm.symm⟩
      intro u hu
      have hu2 : u ∈ q.heap := hperm.symm.subset (List.mem_cons_of_mem t (hp2.subset hu))
      exact is_heap_root_mem q.heap hh t h0 u hu2

theorem stamped_length (reqs : List (Int × Int × String)) :
    ∀ seq : Int, (stamped seq reqs).length = reqs.length := by
  induction reqs with
  | nil => intro seq; rfl
  | cons r rest ih =>
    intro seq
    unfold stamped
    rw [List.length_cons, List.length_cons, ih]

/-! ### The fuel given to the sift loops is enough

`vipq_push` runs `vipq_sift_up` from cell `i` with `i` units of fuel and
`vipq_pop` runs `vipq_sift_down` from cell 0 with one unit per cell; more fuel
does not change the result, so the loops have terminated. -/

theorem vipq_sift_up_fuel (fuel : Nat) :
    ∀ (h : List vip_task_t) (i k : Nat), i ≤ fuel →
      vipq_sift_up h i (fuel + k) = vipq_sift_up h i fuel := by
  induction fuel with
  | zero =>
    intro h i k hi
    have hi0 : i = 0 := by omega
    subst hi0
    cases k with
    | zero => rfl
    | succ k =>
      rw [Nat.zero_add]
      unfold vipq_sift_up
      rw [if_neg (by omega)]
  | succ fuel ih =>
    intro h i k hi
    rw [show fuel + 1 + k = (fuel + k) + 1 by omega]
    unfold vipq_sift_up
    split
    · simp only
      split
      · rfl
      · exact ih _ _ _ (by omega)
    · rfl

theorem sift_down_best (h : List vip_task_t) (i : Nat) :
    let best := if 2 * i + 1 < h.length ∧ higher_at h (2 * i + 1) i then 2 * i + 1 else i
    let best := if 2 * i + 2 < h.length ∧ higher_at h (2 * i + 2) best then 2 * i + 2 else best
    best = i ∨ (i < best ∧ best < h.length) := by
  simp only
  split <;> split <;> omega

theorem vipq_sift_down_fuel (fuel : Nat) :
    ∀ (h : List vip_task_t) (i k : Nat), h.length ≤ fuel + i →
      vipq_sift_down h i (fuel + k) = vipq_sift_down h i fuel := by
  induction fuel with
  | zero =>
    intro h i k hi
    cases k with
    | zero => rfl
    | succ k =>
      rw [Nat.zero_add]
      have key : ∀ best : Nat, (best = i ∨ (i < best ∧ best < h.length)) →
          (if best = i then h else vipq_sift_down (heap_swap h best i) best k) = h := by
        intro best hb
        rw [if_pos (by omega)]
      unfold vipq_sift_down
      exact key _ (sift_down_best h i)
  | succ fuel ih =>
    intro h i k hi
    rw [show fuel + 1 + k = (fuel + k) + 1 by omega]
    have key : ∀ best : Nat, (best = i ∨ (i < best ∧ best < h.length)) →
        (if best = i then h else vipq_sift_down (heap_swap h best i) best (fuel + k)) =
          (if best = i then h else vipq_sift_down (heap_swap h best i) best fuel) := by
      intro best hb
      split
      · rfl
      · exact ih _ _ _ (by rw [heap_swap_length]; omega)
    unfold vipq_sift_down
    exact key _ (sift_down_best h i)

/-! ### C20: pops come out in the order (priority descending, seq ascending) -/

theorem task_le_iff_lex (a b : vip_task_t) :
    task_le a b ↔ toLex (-a.priority, a.seq) ≤ toLex (-b.priority, b.seq) := by
  rw [Prod.Lex.le_iff]
  unfold task_le
  simp only [gt_iff_lt, neg_lt_neg_iff, neg_inj]

/-- C20: for every sequence of `vipq_push`, `vipq_pop` and `vipq_close` calls
on a fresh queue, a pop returns a task exactly when tasks are stored, and the
task it returns is one of the stored tasks, no stored task has a higher
priority, no stored task of the same priority has a smaller `seq`, and the
tasks left in the queue are the stored ones without the returned one; pushing
any list of requests and then popping until no task is returned (any number of
pops that is at least the number of requests) yields the pushed tasks, each
once, in lexicographic order of `(-priority, seq)`. -/
theorem vip_queue_pops_in_priority_order :
    (∀ (ops : List vip_op),
      ((vipq_run vipq_init ops).heap ≠ [] →
        ∃ (t : vip_task_t) (q2 : vip_queue_t), vipq_pop (vipq_run vipq_init ops) = .task t q2) ∧
      ∀ (t : vip_task_t) (q2 : vip_queue_t),
        vipq_pop (vipq_run vipq_init ops) = .task t q2 →
          t ∈ (vipq_run vipq_init ops).heap ∧
          (∀ u ∈ (vipq_run vipq_init ops).heap,
            u.priority ≤ t.priority ∧ (u.priority = t.priority → t.seq ≤ u.seq)) ∧
          (vipq_run vipq_init ops).heap.Perm (t :: q2.heap)) ∧
    (∀ (reqs : List (Int × Int × String)) (fuel : Nat), reqs.length ≤ fuel →
      (vipq_pop_all (vipq_push_all vipq_init reqs) fuel).Pairwise
          (fun a b => toLex (-a.priority, a.seq) ≤ toLex (-b.priority, b.seq)) ∧
        (vipq_pop_all (vipq_push_all vipq_init reqs) fuel).Perm (stamped 1 reqs)) := by
  constructor
  · intro ops
    refine ⟨vipq_pop_nonempty _, ?_⟩
    intro t q2 hpop
    have hh : is_heap (vipq_run vipq_init ops).heap := vipq_run_heap ops vipq_init is_heap_nil
    obtain ⟨h0, hperm, _, _, _⟩ := vipq_pop_spec _ q2 t hh hpop
    refine ⟨hperm.symm.subset (List.mem_cons_self _ _), ?_, hperm⟩
    intro u hu
    have hle := is_heap_root_mem _ hh t h0 u hu
    unfold task_le at hle
    constructor
    · omega
    · intro he; omega
  · intro reqs fuel hfuel
    obtain ⟨hh, hperm⟩ := vipq_push_all_spec reqs vipq_init rfl is_heap_nil
    have hperm2 : (vipq_push_all vipq_init reqs).heap.Perm (stamped 1 reqs) := by
      have : vipq_init.heap ++ stamped vipq_init.next_seq reqs = stamped 1 reqs := rfl
      rw [← this]; exact hperm
    have hlen : (vipq_push_all vipq_init reqs).heap.length ≤ fuel := by
      rw [hperm2.length_eq, stamped_length]; exact hfuel
    obtain ⟨hpw, hp⟩ := vipq_pop_all_spec fuel _ hh hlen
    refine ⟨hpw.imp ?_, hp.trans hperm2⟩
    intro a b hab
    exact (task_le_iff_lex a b).mp hab

set_option maxRecDepth 100000 in
theorem vip_queue_pops_in_priority_order_witness :
    (∃ (t : vip_task_t) (q2 : vip_queue_t),
      vipq_pop (vipq_run vipq_init vip_ops_mixed) = .task t q2 ∧
        (t.priority, t.seq) = (7, 3) ∧
        (∀ u ∈ (vipq_run vipq_init vip_ops_mixed).heap,
          u.priority ≤ t.priority ∧ (u.priority = t.priority → t.seq ≤ u.seq))) ∧
    (vipq_pop_all (vipq_push_all vipq_init vip_requests) 6).map
        (fun t => (t.priority, t.seq)) =
      [(100, 2), (100, 5), (50, 6), (5, 1), (5, 3), (1, 4)] ∧
    (vipq_pop_all (vipq_push_all vipq_init vip_requests) 6).Perm (stamped 1 vip_requests) := by
  obtain ⟨t, q2, hpop⟩ :=
    (vip_queue_pops_in_priority_order.1 vip_ops_mixed).1 (by decide)
  have hspec := (vip_queue_pops_in_priority_order.1 vip_ops_mixed).2 t q2 hpop
  refine ⟨⟨t, q2, hpop, ?_, hspec.2.1⟩, by decide,
    (vip_queue_pops_in_priority_order.2 vip_requests 6 (by decide)).2⟩
  have hval : vipq_pop (vipq_run vipq_init vip_ops_mixed) =
      .task { priority := 7, seq := 3, atm_id := 2, line := "Q 30 9999 VIP=7" }
        { heap := [{ priority := 7, seq := 5, atm_id := 2, line := "B 10 7777 VIP=7" },
                   { priority := 1, seq := 6, atm_id := 4, line := "B 20 8888 VIP=1" },
                   { priority := 5, seq := 1, atm_id := 1, line := "B 10 7777 VIP=5" }],
          cap := 64, next_seq := 7, closed := 0 } := by decide
  rw [hval] at hpop
  cases hpop
  rfl

/-! ## C21: sequence numbers and first-in first-out among equal priorities -/

theorem wrap_ll_eq (x : Int) (h1 : -9223372036854775808 ≤ x) (h2 : x ≤ LLONG_MAX) :
    wrap_ll x = x := by
  unfold wrap_ll
  unfold LLONG_MAX at h2
  omega

theorem vipq_run_trace_q (ops : List vip_op) :
    ∀ s : vip_trace, (vipq_run_trace s ops).q = vipq_run s.q ops := by
  induction ops with
  | nil => intro s; rfl
  | cons op rest ih =>
    intro s
    unfold vipq_run_trace vipq_run
    rw [List.foldl_cons, List.foldl_cons]
    have hstep : (vipq_step_trace s op).q = vipq_step s.q op := by
      cases op with
      | push a p l =>
        unfold vipq_step_trace vipq_step
        simp only
        split <;> rfl
      | pop =>
        unfold vipq_step_trace vipq_step
        simp only
        cases vipq_pop s.q <;> rfl
      | close => rfl
    have := ih (vipq_step_trace s op)
    unfold vipq_run_trace vipq_run at this
    rw [this, hstep]

theorem vip_trace_inv_init : vip_trace_inv vip_trace_init := by
  refine ⟨is_heap_nil, rfl, ?_, List.Pairwise.nil, List.Pairwise.nil, ?_, List.Perm.refl _⟩
  · intro i t ht
    simp [vip_trace_init] at ht
  · intro a ha
    simp [vip_trace_init, vipq_init] at ha

theorem pushed_seq_le {l : List vip_task_t}
    (h : ∀ (i : Nat) (t : vip_task_t), l[i]? = some t → t.seq = (i : Int) + 1) :
    ∀ b ∈ l, b.seq ≤ (l.length : Int) := by
  intro b hb
  obtain ⟨n, hn, hget⟩ := List.getElem_of_mem hb
  have := h n b (by rw [List.getElem?_eq_getElem hn, hget])
  omega

theorem vip_trace_inv_push (s : vip_trace) (a p : Int) (l : String) (hi : vip_trace_inv s)
    (hlen : (s.pushed.length : Int) + 1 < LLONG_MAX) :
    vip_trace_inv (vipq_step_trace s (.push a p l)) := by
  obtain ⟨hheap, hnext, hidx, hpw, hpop, hsep, hperm⟩ := hi
  unfold vipq_step_trace
  simp only
  by_cases hc : s.q.closed = 0
  · rw [if_neg (by simp [hc])]
    have hopen := vipq_push_open s.q a p l hc
    have hpp := vipq_push_perm s.q a p l hc
    have hmem_pushed : ∀ b ∈ s.popped, b ∈ s.pushed := fun b hb =>
      hperm.subset (List.mem_append_left _ hb)
    refine ⟨vipq_push_heap _ _ _ _ hheap, ?_, ?_, ?_, hpop, ?_, ?_⟩
    · simp only
      rw [hopen.2.1, hnext, List.length_append, List.length_singleton]
      rw [wrap_ll_eq _ (by omega) (by omega)]
      push_cast
      ring
    · intro i t ht
      simp only at ht
      by_cases hil : i < s.pushed.length
      · rw [List.getElem?_append_left hil] at ht
        exact hidx i t ht
      · rw [List.getElem?_append_right (by omega)] at ht
        have hi0 : i - s.pushed.length = 0 := by
          by_contra hne
          rw [List.getElem?_eq_none (by simp; omega)] at ht
          cases ht
        rw [hi0] at ht
        simp only [List.getElem?_cons_zero, Option.some.injEq] at ht
        subst ht
        simp only
        rw [hnext]
        have : i = s.pushed.length := by omega
        rw [this]
    · simp only
      rw [List.pairwise_append]
      refine ⟨hpw, List.pairwise_singleton _ _, ?_⟩
      intro x hx y hy
      rw [List.mem_singleton] at hy
      subst hy
      simp only
      have := pushed_seq_le hidx x hx
      rw [hnext]
      omega
    · intro x hx b hb _
      simp only at hx hb
      have hx2 := hpp.subset hx
      rw [List.mem_append, List.mem_singleton] at hx2
      rcases hx2 with hx2 | hx2
      · exact hsep x hx2 b hb ‹_›
      · subst hx2
        simp only
        have := pushed_seq_le hidx b (hmem_pushed b hb)
        rw [hnext]
        omega
    · simp only
      refine ((List.Perm.append_left _ hpp).trans ?_)
      rw [← List.append_assoc]
      exact List.Perm.append_right _ hperm
  · rw [if_pos hc]
    rw [vipq_push_closed s.q a p l hc]
    exact ⟨hheap, hnext, hidx, hpw, hpop, hsep, hperm⟩

theorem vip_trace_inv_pop (s : vip_trace) (hi : vip_trace_inv s) :
    vip_trace_inv (vipq_step_trace s .pop) := by
  obtain ⟨hheap, hnext, hidx, hpw, hpop, hsep, hperm⟩ := hi
  unfold vipq_step_trace
  simp only
  cases hres : vipq_pop s.q with
  | waits => exact ⟨hheap, hnext, hidx, hpw, hpop, hsep, hperm⟩
  | done q1 => exact ⟨hheap, hnext, hidx, hpw, hpop, hsep, hperm⟩
  | task t q2 =>
    simp only
    obtain ⟨h0, hp, hheap2, _, hnext2⟩ := vipq_pop_spec s.q q2 t hheap hres
    have htmem : t ∈ s.q.heap := hp.symm.subset (List.mem_cons_self _ _)
    have hnodup : ((t :: q2.heap).map (fun x => x.seq)).Nodup := by
      have h1 : (s.pushed.map (fun x => x.seq)).Nodup := by
        rw [List.Nodup, List.pairwise_map]
        exact hpw.imp (fun h => ne_of_lt h)
      have h2 : ((s.popped ++ s.q.heap).map (fun x => x.seq)).Nodup :=
        (hperm.map _).nodup_iff.mpr h1
      rw [List.map_append] at h2
      exact ((hp.map _).nodup_iff).mp h2.of_append_right
    rw [List.map_cons, List.nodup_cons] at hnodup
    refine ⟨hheap2, by rw [hnext2]; exact hnext, hidx, hpw, ?_, ?_, ?_⟩
    · rw [List.pairwise_append]
      refine ⟨hpop, List.pairwise_singleton _ _, ?_⟩
      intro b hb y hy hprio
      rw [List.mem_singleton] at hy
      subst hy
      exact hsep y htmem b hb hprio.symm
    · intro x hx b hb hprio
      have hxheap : x ∈ s.q.heap := hp.symm.subset (List.mem_cons_of_mem _ hx)
      rw [List.mem_append, List.mem_singleton] at hb
      rcases hb with hb | hb
      · exact hsep x hxheap b hb hprio
      · subst hb
        have hle := is_heap_root_mem s.q.heap hheap b h0 x hxheap
        unfold task_le at hle
        have hne : x.seq ≠ b.seq := by
          intro he
          exact hnodup.1 (List.mem_map.mpr ⟨x, hx, he⟩)
        rcases hle with hgt | ⟨_, hle⟩
        · omega
        · omega
    · rw [List.append_assoc, List.singleton_append]
      exact (List.Perm.append_left _ hp.symm).trans hperm

theorem vip_trace_inv_close (s : vip_trace) (hi : vip_trace_inv s) :
    vip_trace_inv (vipq_step_trace s .close) := hi

theorem vipq_step_trace_pushed_length (s : vip_trace) (op : vip_op) :
    (vipq_step_trace s op).pushed.length ≤ s.pushed.length + 1 := by
  cases op with
  | push a p l =>
    unfold vipq_step_trace
    simp only
    split
    · simp
    · simp
  | pop =>
    unfold vipq_step_trace
    simp only
    cases vipq_pop s.q <;> simp
  | close => simp [vipq_step_trace]

theorem vipq_step_trace_pushed_same (s : vip_trace) (op : vip_op)
    (hop : op.is_push = false) : (vipq_step_trace s op).pushed = s.pushed := by
  cases op with
  | push a p l => cases hop
  | pop =>
    unfold vipq_step_trace
    simp only
    cases vipq_pop s.q <;> rfl
  | close => rfl

theorem vipq_run_trace_inv (ops : List vip_op) :
    ∀ s : vip_trace, vip_trace_inv s →
      ((s.pushed.length + ops.countP vip_op.is_push : Nat) : Int) < LLONG_MAX →
      vip_trace_inv (vipq_run_trace s ops) := by
  induction ops with
  | nil => intro s hi _; exact hi
  | cons op rest ih =>
    intro s hi hlen
    unfold vipq_run_trace
    rw [List.foldl_cons]
    cases op with
    | push a p l =>
      have hl := vipq_step_trace_pushed_length s (.push a p l)
      rw [List.countP_cons_of_pos _ _ (by rfl)] at hlen
      apply ih
      · exact vip_trace_inv_push s a p l hi (by push_cast at hlen; omega)
      · push_cast at hlen ⊢
        omega
    | pop =>
      rw [List.countP_cons_of_neg _ _ (by simp [vip_op.is_push])] at hlen
      apply ih
      · exact vip_trace_inv_pop s hi
      · rw [vipq_step_trace_pushed_same s .pop rfl]
        exact hlen
    | close =>
      rw [List.countP_cons_of_neg _ _ (by simp [vip_op.is_push])] at hlen
      apply ih
      · exact vip_trace_inv_close s hi
      · rw [vipq_step_trace_pushed_same s .close rfl]
        exact hlen

/-- C21 (amended): in every run on a fresh queue with fewer than `LLONG_MAX`
calls of `vipq_push`, the i-th accepted push (counting from 0) builds its task
with `seq = i + 1`, so the sequence numbers are 1, 2, 3, ... in push order,
strictly increasing and never reused, whatever pops come in between; the tasks returned by the pops are
stored tasks that were pushed, each leaving the queue once; and of two
returned tasks of equal priority the one returned first has the smaller
`seq`, that is, was pushed first, while every task of that priority still
stored was pushed after all those already returned. -/
theorem vip_seq_fifo (ops : List vip_op)
    (hlen : ((ops.countP vip_op.is_push : Nat) : Int) < LLONG_MAX) :
    (vipq_run_trace vip_trace_init ops).q = vipq_run vipq_init ops ∧
    (∀ (i : Nat) (t : vip_task_t),
      (vipq_run_trace vip_trace_init ops).pushed[i]? = some t → t.seq = (i : Int) + 1) ∧
    (vipq_run_trace vip_trace_init ops).pushed.Pairwise (fun x y => x.seq < y.seq) ∧
    (vipq_run vipq_init ops).next_seq =
      ((vipq_run_trace vip_trace_init ops).pushed.length : Int) + 1 ∧
    ((vipq_run_trace vip_trace_init ops).popped ++ (vipq_run vipq_init ops).heap).Perm
      (vipq_run_trace vip_trace_init ops).pushed ∧
    (vipq_run_trace vip_trace_init ops).popped.Pairwise
      (fun x y => x.priority = y.priority → x.seq < y.seq) ∧
    (∀ a ∈ (vipq_run vipq_init ops).heap, ∀ b ∈ (vipq_run_trace vip_trace_init ops).popped,
      a.priority = b.priority → b.seq < a.seq) := by
  have hq := vipq_run_trace_q ops vip_trace_init
  have hinv := vipq_run_trace_inv ops vip_trace_init vip_trace_inv_init
    (by simpa [vip_trace_init] using hlen)
  obtain ⟨_, hnext, hidx, hpw, hpop, hsep, hperm⟩ := hinv
  rw [hq] at hnext hsep hperm
  exact ⟨hq, hidx, hpw, hnext, hperm, hpop, hsep⟩

set_option maxRecDepth 100000 in
theorem vip_seq_fifo_witness :
    (vipq_run_trace vip_trace_init vip_ops_fifo).pushed.map (fun t => (t.priority, t.seq)) =
      [(5, 1), (5, 2), (9, 3), (5, 4)] ∧
    (vipq_run_trace vip_trace_init vip_ops_fifo).popped.map (fun t => (t.priority, t.seq)) =
      [(5, 1), (9, 3), (5, 2), (5, 4)] ∧
    (vipq_run_trace vip_trace_init vip_ops_fifo).popped.Pairwise
      (fun x y => x.priority = y.priority → x.seq < y.seq) :=
  ⟨by decide, by decide, (vip_seq_fifo vip_ops_fifo (by decide)).2.2.2.2.2.1⟩

/-! ## C22: the closed queue -/

theorem vipq_pop_done_iff (q : vip_queue_t) :
    (∃ q1, vipq_pop q = .done q1) ↔ (q.heap = [] ∧ q.closed ≠ 0) := by
  unfold vipq_pop
  cases hq : q.heap with
  | nil =>
    simp only
    by_cases hc : q.closed = 0
    · rw [if_pos hc]
      constructor
      · rintro ⟨q1, h⟩; cases h
      · rintro ⟨_, h⟩; exact absurd hc h
    · rw [if_neg hc]
      exact ⟨fun _ => ⟨trivial, hc⟩, fun _ => ⟨q, rfl⟩⟩
  | cons out rest =>
    simp only
    constructor
    · rintro ⟨q1, h⟩
      split at h <;> cases h
    · rintro ⟨h, _⟩; cases h

theorem vipq_pop_done_eq (q q1 : vip_queue_t) (h : vipq_pop q = .done q1) : q1 = q := by
  unfold vipq_pop at h
  cases hq : q.heap with
  | nil =>
    rw [hq] at h
    simp only at h
    split at h
    · cases h
    · injection h with h; exact h.symm
  | cons out rest =>
    rw [hq] at h
    simp only at h
    split at h <;> cases h

theorem vipq_step_pop_spec (q : vip_queue_t) (hh : is_heap q.heap) :
    is_heap (vipq_step q .pop).heap ∧ (vipq_step q .pop).closed = q.closed ∧
      (vipq_step q .pop).heap.length = q.heap.length - 1 := by
  unfold vipq_step
  simp only
  cases hpop : vipq_pop q with
  | waits =>
    simp only
    refine ⟨hh, trivial, ?_⟩
    by_cases hq : q.heap = []
    · rw [hq]; rfl
    · obtain ⟨t, q2, ht⟩ := vipq_pop_nonempty q hq
      rw [hpop] at ht; cases ht
  | done q1 =>
    simp only
    refine ⟨hh, trivial, ?_⟩
    have := ((vipq_pop_done_iff q).mp ⟨q1, hpop⟩).1
    rw [this]; rfl
  | task t q2 =>
    simp only
    obtain ⟨_, hperm, hh2, hc, _⟩ := vipq_pop_spec q q2 t hh hpop
    refine ⟨hh2, hc, ?_⟩
    have := hperm.length_eq
    rw [List.length_cons] at this
    omega

theorem vipq_run_pops (k : Nat) :
    ∀ q : vip_queue_t, is_heap q.heap →
      is_heap (vipq_run q (List.replicate k .pop)).heap ∧
        (vipq_run q (List.replicate k .pop)).closed = q.closed ∧
        (vipq_run q (List.replicate k .pop)).heap.length = q.heap.length - k := by
  induction k with
  | zero => intro q hh; exact ⟨hh, rfl, rfl⟩
  | succ k ih =>
    intro q hh
    have hunf : vipq_run q (List.replicate (k + 1) .pop) =
        vipq_run (vipq_step q .pop) (List.replicate k .pop) := by
      unfold vipq_run
      rw [List.replicate_succ, List.foldl_cons]
    rw [hunf]
    obtain ⟨h1, h2, h3⟩ := vipq_step_pop_spec q hh
    obtain ⟨g1, g2, g3⟩ := ih _ h1
    exact ⟨g1, g2.trans h2, by rw [g3, h3]; omega⟩

theorem vipq_run_after_close (later : List vip_op) :
    ∀ q : vip_queue_t, q.closed = 1 → is_heap q.heap →
      vipq_run q later = vipq_run q (List.replicate (later.count .pop) .pop) := by
  induction later with
  | nil => intro q _ _; rfl
  | cons op rest ih =>
    intro q hc hh
    have hunf : vipq_run q (op :: rest) = vipq_run (vipq_step q op) rest := by
      unfold vipq_run
      rw [List.foldl_cons]
    rw [hunf]
    cases op with
    | push a p l =>
      have hstep : vipq_step q (.push a p l) = q :=
        vipq_push_closed q a p l (by rw [hc]; decide)
      rw [hstep, ih q hc hh]
      rw [List.count_cons_of_ne (by simp)]
    | pop =>
      obtain ⟨h1, h2, _⟩ := vipq_step_pop_spec q hh
      rw [ih _ (by rw [h2]; exact hc) h1]
      rw [List.count_cons_self, List.replicate_succ]
      unfold vipq_run
      rw [List.foldl_cons]
    | close =>
      have hstep : vipq_step q .close = q := by
        unfold vipq_step vipq_close
        simp only
        rw [← hc]
      rw [hstep, ih q hc hh]
      rw [List.count_cons_of_ne (by simp)]

/-- C22: a push on a closed queue returns the queue as it was (stored tasks,
size, capacity and `next_seq`); a pop returns "done" if and only if the queue
is empty and closed, and then leaves the queue as it was.  When a queue
reached by any run of calls, holding `n` tasks, is closed, then whatever calls
follow, the pushes and closes among them change nothing; the first `n` pops
each return a task, these tasks are exactly the `n` stored ones, each once, in
the order (priority descending, `seq` ascending), and only the pop after them
returns "done". -/
theorem vipq_closed_queue_drains (ops : List vip_op) :
    (∀ (q : vip_queue_t) (a p : Int) (l : String), q.closed ≠ 0 → vipq_push q a p l = q) ∧
    (∀ q : vip_queue_t, (∃ q1, vipq_pop q = .done q1) ↔ (q.heap = [] ∧ q.closed ≠ 0)) ∧
    (∀ q q1 : vip_queue_t, vipq_pop q = .done q1 → q1 = q) ∧
    (∀ later : List vip_op,
      vipq_run (vipq_close (vipq_run vipq_init ops)) later =
        vipq_run (vipq_close (vipq_run vipq_init ops))
          (List.replicate (later.count .pop) .pop)) ∧
    (∀ k : Nat, k < (vipq_run vipq_init ops).heap.length →
      ∃ (t : vip_task_t) (q2 : vip_queue_t),
        vipq_pop (vipq_run (vipq_close (vipq_run vipq_init ops)) (List.replicate k .pop)) =
          .task t q2) ∧
    (vipq_pop_all (vipq_close (vipq_run vipq_init ops))
        (vipq_run vipq_init ops).heap.length).Perm (vipq_run vipq_init ops).heap ∧
    (vipq_pop_all (vipq_close (vipq_run vipq_init ops))
        (vipq_run vipq_init ops).heap.length).Pairwise task_le ∧
    (∃ q1, vipq_pop (vipq_run (vipq_close (vipq_run vipq_init ops))
        (List.replicate (vipq_run vipq_init ops).heap.length .pop)) = .done q1) := by
  have hh : is_heap (vipq_run vipq_init ops).heap := vipq_run_heap ops vipq_init is_heap_nil
  have hch : is_heap (vipq_close (vipq_run vipq_init ops)).heap := hh
  have hcc : (vipq_close (vipq_run vipq_init ops)).closed = 1 := rfl
  have hcl : (vipq_close (vipq_run vipq_init ops)).heap.length =
      (vipq_run vipq_init ops).heap.length := rfl
  obtain ⟨hpw, hperm⟩ := vipq_pop_all_spec (vipq_run vipq_init ops).heap.length
    (vipq_close (vipq_run vipq_init ops)) hch (Nat.le_refl _)
  refine ⟨fun q a p l hc => vipq_push_closed q a p l hc, vipq_pop_done_iff, vipq_pop_done_eq,
    fun later => vipq_run_after_close later _ hcc hch, ?_, hperm, hpw, ?_⟩
  · intro k hk
    obtain ⟨_, _, h3⟩ := vipq_run_pops k _ hch
    apply vipq_pop_nonempty
    intro hnil
    rw [hnil, hcl] at h3
    simp only [List.length_nil] at h3
    omega
  · obtain ⟨_, h2, h3⟩ := vipq_run_pops (vipq_run vipq_init ops).heap.length _ hch
    rw [vipq_pop_done_iff]
    refine ⟨List.eq_nil_of_length_eq_zero (by rw [h3, hcl]; omega), ?_⟩
    rw [h2, hcc]
    decide

set_option maxRecDepth 100000 in
theorem vipq_closed_queue_drains_witness :
    (vipq_run vipq_init vip_ops_closed).heap.length = 3 ∧
    (vipq_run vipq_init vip_ops_closed).closed = 1 ∧
    (vipq_pop_all (vipq_run vipq_init vip_ops_closed) 3).map (fun t => (t.priority, t.seq)) =
      [(80, 2), (5, 1), (5, 3)] ∧
    vipq_push (vipq_run vipq_init vip_ops_closed) 4 100 "B 30 9999 VIP=100" =
      vipq_run vipq_init vip_ops_closed ∧
    (∃ q1, vipq_pop (vipq_run (vipq_close (vipq_run vipq_init vip_ops_closed))
        (List.replicate (vipq_run vipq_init vip_ops_closed).heap.length .pop)) = .done q1) :=
  ⟨by decide, by decide, by decide,
   (vipq_closed_queue_drains vip_ops_closed).1 _ 4 100 "B 30 9999 VIP=100" (by decide),
   (vipq_closed_queue_drains vip_ops_closed).2.2.2.2.2.2.2⟩

/-! ## INVEST: the two locked sections -/

theorem bank_invest_debit_ok (b : bank_t) (acc_id password amount : Int) (cur : currency_t)
    (time_msec : Int) (i : Nat) (a : account_t)
    (hfound : bank_lock_account b acc_id = some (i, a)) (hpw : a.password = password)
    (hpos : 0 < amount) (ht : 0 < time_msec) (hmod : Int.tmod time_msec 10 = 0)
    (hbal : amount ≤ account_get_balance a cur) :
    (bank_invest_debit b acc_id password amount cur time_msec).rc = .BANK_OK ∧
    (bank_invest_debit b acc_id password amount cur time_msec).b =
      b.store i (account_sub a cur amount).2 ∧
    (bank_invest_debit b acc_id password amount cur time_msec).log = [] := by
  have hsub : (account_sub a cur amount).1 ≠ -1 := by
    rw [Ne, account_sub_fails_iff a cur amount hpos]; omega
  unfold bank_invest_debit
  rw [if_neg (by omega), if_neg (by simp [hmod]), hfound]
  simp only
  rw [if_neg (by simp [hpw]), if_neg hsub]
  exact ⟨rfl, rfl, rfl⟩

/-- INVEST with valid arguments, the correct password and a sufficient balance
(the floating-point value `(int)floor((double)amount * pow(1.03, steps))` is the
argument `final_raw`): the first locked section debits `amount` and logs
nothing, a BALANCE during the sleep reports the balance less `amount`, and when
`bank_lock_account` still finds the account after the sleep the second locked
section credits `final_raw`, or 0 when that is negative, and the call returns
OK. -/
theorem bank_invest_phases (b : bank_t) (atm_id acc_id password amount : Int)
    (cur : currency_t) (time_msec final_raw : Int) (during : bank_t → bank_t)
    (i : Nat) (a : account_t)
    (hfound : bank_lock_account b acc_id = some (i, a)) (hpw : a.password = password)
    (hpos : 0 < amount) (ht : 0 < time_msec) (hmod : Int.tmod time_msec 10 = 0)
    (hbal : amount ≤ account_get_balance a cur) (hint : account_get_balance a cur ≤ INT_MAX) :
    (bank_invest_debit b acc_id password amount cur time_msec).rc = .BANK_OK ∧
    (bank_invest_debit b acc_id password amount cur time_msec).b =
      b.store i (account_sub a cur amount).2 ∧
    account_get_balance (account_sub a cur amount).2 cur = account_get_balance a cur - amount ∧
    (∀ c, c ≠ cur →
      account_get_balance (account_sub a cur amount).2 c = account_get_balance a c) ∧
    (bank_balance (bank_invest_debit b acc_id password amount cur time_msec).b
        atm_id acc_id password).out =
      some (account_get_balance (account_sub a cur amount).2 .CUR_ILS,
            account_get_balance (account_sub a cur amount).2 .CUR_USD) ∧
    (bank_invest b atm_id acc_id password amount cur time_msec final_raw during).rc =
      .BANK_OK ∧
    (∀ (j : Nat) (acc2 : account_t),
      bank_lock_account
          (during (bank_invest_debit b acc_id password amount cur time_msec).b) acc_id =
        some (j, acc2) →
      (bank_invest b atm_id acc_id password amount cur time_msec final_raw during).b =
        (during (bank_invest_debit b acc_id password amount cur time_msec).b).store j
          (account_add acc2 cur (if final_raw < 0 then 0 else final_raw))) := by
  obtain ⟨hrc, hb, _⟩ :=
    bank_invest_debit_ok b acc_id password amount cur time_msec i a hfound hpw hpos ht hmod hbal
  have hsub : (account_sub a cur amount).1 ≠ -1 := by
    rw [Ne, account_sub_fails_iff a cur amount hpos]; omega
  obtain ⟨hid, hpw2, hcur, hoth⟩ := account_sub_ok_snd a cur amount hpos hint hsub
  have hlock := lock_after_store hfound hid
  refine ⟨hrc, hb, hcur, hoth, ?_, ?_, ?_⟩
  · rw [hb]
    unfold bank_balance
    rw [hlock]
    simp only
    rw [if_neg (by simp [hpw2, hpw])]
  · unfold bank_invest
    simp only
    rw [if_neg (by simp [hrc])]
    unfold bank_invest_credit
    simp only
    split <;> rfl
  · intro j acc2 hj
    unfold bank_invest
    simp only
    rw [if_neg (by simp [hrc])]
    unfold bank_invest_credit
    simp only
    rw [hj]

set_option maxRecDepth 100000 in
/-- The example of the specification, with 1343 for the floating-point value:
from (1000, 0), INVEST of 1000 ILS for 100 ms leaves (0, 0) during the sleep and
(1343, 0) at completion; 1343 is the floor of `1000 * 1.03^10` in exact
arithmetic. -/
theorem bank_invest_example :
    bank_invest_start.accounts = [⟨10, 7777, 1000, 0⟩] ∧
    (bank_invest_debit bank_invest_start 10 7777 1000 .CUR_ILS 100).b.accounts =
      [⟨10, 7777, 0, 0⟩] ∧
    (bank_invest bank_invest_start 1 10 7777 1000 .CUR_ILS 100 1343 id).rc = .BANK_OK ∧
    (bank_invest bank_invest_start 1 10 7777 1000 .CUR_ILS 100 1343 id).b.accounts =
      [⟨10, 7777, 1343, 0⟩] ∧
    ⌊(1000 : ℚ) * (103 / 100) ^ 10⌋ = 1343 := by
  refine ⟨by decide, by decide, by decide, by decide, ?_⟩
  rw [Int.floor_eq_iff]
  constructor <;> norm_num

/-! ## C24: INVEST on an account closed during the sleep -/

/-- C24: when `bank_lock_account` does not find the account after the sleep,
the second locked section of INVEST returns OK, leaves the whole bank
(accounts, `count`, bank totals) as it found it and hands no line to
`log_line`; so a call of `bank_invest` whose debit succeeded returns OK with
the bank exactly as the other threads left it during the sleep, and logs
nothing. -/
theorem bank_invest_account_gone (b : bank_t) (atm_id acc_id password amount : Int)
    (cur : currency_t) (time_msec final_raw : Int) (during : bank_t → bank_t)
    (hdebit : (bank_invest_debit b acc_id password amount cur time_msec).rc = .BANK_OK)
    (hgone : bank_lock_account
      (during (bank_invest_debit b acc_id password amount cur time_msec).b) acc_id = none) :
    bank_invest_credit (during (bank_invest_debit b acc_id password amount cur time_msec).b)
        acc_id cur final_raw =
      { rc := .BANK_OK, b := during (bank_invest_debit b acc_id password amount cur time_msec).b,
        log := [], out := none, ovf := false } ∧
    (bank_invest b atm_id acc_id password amount cur time_msec final_raw during).rc =
      .BANK_OK ∧
    (bank_invest b atm_id acc_id password amount cur time_msec final_raw during).b =
      during (bank_invest_debit b acc_id password amount cur time_msec).b ∧
    (bank_invest b atm_id acc_id password amount cur time_msec final_raw during).log = [] := by
  have hcredit : bank_invest_credit
      (during (bank_invest_debit b acc_id password amount cur time_msec).b) acc_id cur
        final_raw =
      { rc := .BANK_OK, b := during (bank_invest_debit b acc_id password amount cur time_msec).b,
        log := [], out := none, ovf := false } := by
    unfold bank_invest_credit
    simp only
    rw [hgone]
  have hinv : bank_invest b atm_id acc_id password amount cur time_msec final_raw during =
      bank_invest_credit (during (bank_invest_debit b acc_id password amount cur time_msec).b)
        acc_id cur final_raw := by
    unfold bank_invest
    simp only
    rw [if_neg (by simp [hdebit])]
  rw [hinv, hcredit]
  exact ⟨rfl, rfl, rfl, rfl⟩

set_option maxRecDepth 100000 in
theorem bank_invest_account_gone_witness :
    (bank_invest_debit bank_invest_start 10 7777 1000 .CUR_ILS 100).b.accounts =
      [⟨10, 7777, 0, 0⟩] ∧
    (close_during_sleep (bank_invest_debit bank_invest_start 10 7777 1000 .CUR_ILS 100).b).accounts
      = [] ∧
    (bank_invest bank_invest_start 1 10 7777 1000 .CUR_ILS 100 1343 close_during_sleep).rc =
      .BANK_OK ∧
    (bank_invest bank_invest_start 1 10 7777 1000 .CUR_ILS 100 1343 close_during_sleep).b =
      close_during_sleep (bank_invest_debit bank_invest_start 10 7777 1000 .CUR_ILS 100).b ∧
    (bank_invest bank_invest_start 1 10 7777 1000 .CUR_ILS 100 1343 close_during_sleep).log =
      [] :=
  have h := bank_invest_account_gone bank_invest_start 1 10 7777 1000 .CUR_ILS 100 1343
    close_during_sleep (by decide) (by decide)
  ⟨by decide, by decide, h.2.1, h.2.2.1, h.2.2.2⟩

/-! ## C25: the commission tick -/

theorem commission_percent_range (seed : Nat) :
    1 ≤ ((xorshift32 seed % 5 : Nat) : Int) + 1 ∧ ((xorshift32 seed % 5 : Nat) : Int) + 1 ≤ 5 := by
  have := Nat.mod_lt (xorshift32 seed) (show 0 < 5 by decide)
  omega

theorem commission_charge_exact (acc : account_t) (p : Int) (hp1 : 1 ≤ p) (hp5 : p ≤ 5)
    (hi : 0 ≤ acc.balance_ils) (hi5 : acc.balance_ils * p ≤ INT_MAX)
    (hu : 0 ≤ acc.balance_usd) (hu5 : acc.balance_usd * p ≤ INT_MAX) :
    (commission_charge acc p).2.1 = acc.balance_ils * p / 100 ∧
    (commission_charge acc p).2.2.1 = acc.balance_usd * p / 100 ∧
    (commission_charge acc p).1 =
      { id := acc.id, password := acc.password,
        balance_ils := acc.balance_ils - acc.balance_ils * p / 100,
        balance_usd := acc.balance_usd - acc.balance_usd * p / 100 } ∧
    0 ≤ acc.balance_ils * p / 100 ∧ acc.balance_ils * p / 100 ≤ acc.balance_ils ∧
    0 ≤ acc.balance_usd * p / 100 ∧ acc.balance_usd * p / 100 ≤ acc.balance_usd := by
  unfold INT_MAX at hi5 hu5
  have hwi : wrap_int (acc.balance_ils * p) = acc.balance_ils * p := by
    apply wrap_int_eq
    unfold is_int INT_MIN INT_MAX
    constructor
    · have : 0 ≤ acc.balance_ils * p := Int.mul_nonneg hi (by omega)
      omega
    · exact hi5
  have hwu : wrap_int (acc.balance_usd * p) = acc.balance_usd * p := by
    apply wrap_int_eq
    unfold is_int INT_MIN INT_MAX
    constructor
    · have : 0 ≤ acc.balance_usd * p := Int.mul_nonneg hu (by omega)
      omega
    · exact hu5
  have hti : Int.tdiv (acc.balance_ils * p) 100 = acc.balance_ils * p / 100 :=
    Int.tdiv_eq_ediv (Int.mul_nonneg hi (show (0 : Int) ≤ p by omega)) (by decide)
  have htu : Int.tdiv (acc.balance_usd * p) 100 = acc.balance_usd * p / 100 :=
    Int.tdiv_eq_ediv (Int.mul_nonneg hu (show (0 : Int) ≤ p by omega)) (by decide)
  have hbi : 0 ≤ acc.balance_ils * p / 100 ∧ acc.balance_ils * p / 100 ≤ acc.balance_ils := by
    interval_cases p <;> omega
  have hbu : 0 ≤ acc.balance_usd * p / 100 ∧ acc.balance_usd * p / 100 ≤ acc.balance_usd := by
    interval_cases p <;> omega
  have hmaxi : acc.balance_ils ≤ 2147483647 := by
    interval_cases p <;> omega
  have hmaxu : acc.balance_usd ≤ 2147483647 := by
    interval_cases p <;> omega
  refine ⟨?_, ?_, ?_, hbi.1, hbi.2, hbu.1, hbu.2⟩
  · unfold commission_charge account_get_balance
    simp only
    rw [hwi, hti]
  · unfold commission_charge account_get_balance
    simp only
    rw [hwu, htu]
  · unfold commission_charge account_get_balance
    simp only
    rw [hwi, hwu, hti, htu]
    generalize acc.balance_ils * p / 100 = ci at hbi ⊢
    generalize acc.balance_usd * p / 100 = cu at hbu ⊢
    cases acc with
    | mk aid apw ai au =>
      simp only at hbi hbu hmaxi hmaxu ⊢
      unfold account_sub wrap_int
      by_cases hci : ci > 0
      · by_cases hcu : cu > 0
        · simp only [hci, hcu, if_true, if_neg (show ¬ ci ≤ 0 by omega),
            if_neg (show ¬ cu ≤ 0 by omega), if_pos (show ai ≥ ci by omega),
            if_pos (show au ≥ cu by omega)]
          congr 1 <;> omega
        · simp only [hci, hcu, if_true, if_false, if_neg (show ¬ ci ≤ 0 by omega),
            if_pos (show ai ≥ ci by omega)]
          congr 1 <;> omega
      · by_cases hcu : cu > 0
        · simp only [hci, hcu, if_true, if_false, if_neg (show ¬ cu ≤ 0 by omega),
            if_pos (show au ≥ cu by omega)]
          congr 1 <;> omega
        · simp only [hci, hcu, if_false]
          congr 1 <;> omega

theorem entries_total_none (rest : List (Option account_t)) (cur : currency_t) :
    entries_total (none :: rest) cur = entries_total rest cur := by
  unfold entries_total
  rw [List.filterMap_cons_none rfl]

theorem entries_total_some (a : account_t) (rest : List (Option account_t)) (cur : currency_t) :
    entries_total (some a :: rest) cur = account_get_balance a cur + entries_total rest cur := by
  simp [entries_total]

theorem entries_total_nonneg (es : List (Option account_t)) (cur : currency_t)
    (h : ∀ a, some a ∈ es → 0 ≤ account_get_balance a cur) : 0 ≤ entries_total es cur := by
  induction es with
  | nil => simp [entries_total]
  | cons x rest ih =>
    have hrest := ih (fun a ha => h a (List.mem_cons_of_mem _ ha))
    cases x with
    | none => rw [entries_total_none]; exact hrest
    | some a =>
      rw [entries_total_some]
      have := h a (List.mem_cons_self _ _)
      omega

theorem commission_loop_cell (es : List (Option account_t)) :
    ∀ (seed : Nat) (bank_ils bank_usd : Int) (i : Nat),
      (commission_loop es seed bank_ils bank_usd).entries.length = es.length ∧
      (es[i]? = some none →
        (commission_loop es seed bank_ils bank_usd).entries[i]? = some none) ∧
      (∀ a, es[i]? = some (some a) → ∃ s : Nat,
        (commission_loop es seed bank_ils bank_usd).entries[i]? =
          some (some (commission_charge a (((xorshift32 s % 5 : Nat) : Int) + 1)).1)) := by
  induction es with
  | nil =>
    intro seed bi bu i
    refine ⟨rfl, ?_, ?_⟩
    · intro h; simp at h
    · intro a h; simp at h
  | cons x rest ih =>
    intro seed bi bu i
    cases x with
    | none =>
      simp only [commission_loop]
      obtain ⟨hl, _, _⟩ := ih seed bi bu 0
      refine ⟨by rw [List.length_cons, List.length_cons, hl], ?_, ?_⟩
      · intro h
        cases i with
        | zero => exact List.getElem?_cons_zero
        | succ i =>
          rw [List.getElem?_cons_succ] at h ⊢
          exact (ih seed bi bu i).2.1 h
      · intro a h
        cases i with
        | zero => simp at h
        | succ i =>
          rw [List.getElem?_cons_succ] at h ⊢
          exact (ih seed bi bu i).2.2 a h
    | some acc =>
      simp only [commission_loop]
      obtain ⟨hl, _, _⟩ := ih (xorshift32 seed)
        (wrap_int (bi + (commission_charge acc (((xorshift32 seed % 5 : Nat) : Int) + 1)).2.1))
        (wrap_int (bu + (commission_charge acc (((xorshift32 seed % 5 : Nat) : Int) + 1)).2.2.1))
        0
      refine ⟨by rw [List.length_cons, List.length_cons, hl], ?_, ?_⟩
      · intro h
        cases i with
        | zero => simp at h
        | succ i =>
          rw [List.getElem?_cons_succ] at h ⊢
          exact (ih _ _ _ i).2.1 h
      · intro a h
        cases i with
        | zero =>
          simp only [List.getElem?_cons_zero, Option.some.injEq] at h
          subst h
          exact ⟨seed, List.getElem?_cons_zero⟩
        | succ i =>
          rw [List.getElem?_cons_succ] at h ⊢
          exact (ih _ _ _ i).2.2 a h

theorem commission_loop_totals (es : List (Option account_t)) :
    ∀ (seed : Nat) (bank_ils bank_usd : Int),
      (∀ a, some a ∈ es → (0 ≤ a.balance_ils ∧ a.balance_ils * 5 ≤ INT_MAX) ∧
        (0 ≤ a.balance_usd ∧ a.balance_usd * 5 ≤ INT_MAX)) →
      0 ≤ bank_ils → 0 ≤ bank_usd →
      entries_total es .CUR_ILS + bank_ils ≤ INT_MAX →
      entries_total es .CUR_USD + bank_usd ≤ INT_MAX →
      entries_total (commission_loop es seed bank_ils bank_usd).entries .CUR_ILS +
          (commission_loop es seed bank_ils bank_usd).bank_ils =
        entries_total es .CUR_ILS + bank_ils ∧
      entries_total (commission_loop es seed bank_ils bank_usd).entries .CUR_USD +
          (commission_loop es seed bank_ils bank_usd).bank_usd =
        entries_total es .CUR_USD + bank_usd ∧
      bank_ils ≤ (commission_loop es seed bank_ils bank_usd).bank_ils ∧
      bank_usd ≤ (commission_loop es seed bank_ils bank_usd).bank_usd ∧
      (∀ a, some a ∈ (commission_loop es seed bank_ils bank_usd).entries →
        0 ≤ a.balance_ils ∧ 0 ≤ a.balance_usd) := by
  induction es with
  | nil =>
    intro seed bi bu _ _ _ _ _
    simp [commission_loop, entries_total]
  | cons x rest ih =>
    intro seed bi bu hgood hbi hbu hti htu
    have hrest : ∀ a, some a ∈ rest → (0 ≤ a.balance_ils ∧ a.balance_ils * 5 ≤ INT_MAX) ∧
        (0 ≤ a.balance_usd ∧ a.balance_usd * 5 ≤ INT_MAX) :=
      fun a ha => hgood a (List.mem_cons_of_mem _ ha)
    cases x with
    | none =>
      simp only [commission_loop]
      simp only [entries_total_none] at hti htu ⊢
      obtain ⟨h1, h2, h3, h4, h5⟩ := ih seed bi bu hrest hbi hbu hti htu
      refine ⟨h1, h2, h3, h4, ?_⟩
      intro a ha
      simp only [List.mem_cons] at ha
      rcases ha with ha | ha
      · cases ha
      · exact h5 a ha
    | some acc =>
      obtain ⟨⟨hai, hai5⟩, ⟨hau, hau5⟩⟩ := hgood acc (List.mem_cons_self _ _)
      obtain ⟨hp1, hp5⟩ := commission_percent_range seed
      have hri : 0 ≤ entries_total rest .CUR_ILS :=
        entries_total_nonneg rest _ (fun a ha => (hrest a ha).1.1)
      have hru : 0 ≤ entries_total rest .CUR_USD :=
        entries_total_nonneg rest _ (fun a ha => (hrest a ha).2.1)
      rw [entries_total_some] at hti htu
      simp only [account_get_balance] at hti htu
      generalize hpdef : ((xorshift32 seed % 5 : Nat) : Int) + 1 = p at hp1 hp5
      have hip : acc.balance_ils * p ≤ INT_MAX := by
        unfold INT_MAX at hai5 ⊢
        interval_cases p <;> omega
      have hup : acc.balance_usd * p ≤ INT_MAX := by
        unfold INT_MAX at hau5 ⊢
        interval_cases p <;> omega
      obtain ⟨hci, hcu, hacc, hci0, hcile, hcu0, hcule⟩ :=
        commission_charge_exact acc p hp1 hp5 hai hip hau hup
      simp only [commission_loop]
      rw [hpdef, hci, hcu, hacc]
      generalize acc.balance_ils * p / 100 = ci at hci0 hcile ⊢
      generalize acc.balance_usd * p / 100 = cu at hcu0 hcule ⊢
      have hwi : wrap_int (bi + ci) = bi + ci := by
        apply wrap_int_eq
        unfold is_int INT_MIN
        constructor <;> (unfold INT_MAX at *; omega)
      have hwu : wrap_int (bu + cu) = bu + cu := by
        apply wrap_int_eq
        unfold is_int INT_MIN
        constructor <;> (unfold INT_MAX at *; omega)
      rw [hwi, hwu]
      obtain ⟨h1, h2, h3, h4, h5⟩ := ih (xorshift32 seed) (bi + ci) (bu + cu) hrest
        (by omega) (by omega) (by omega) (by omega)
      simp only [entries_total_some, account_get_balance]
      refine ⟨by omega, by omega, by omega, by omega, ?_⟩
      intro a ha
      simp only [List.mem_cons, Option.some.injEq] at ha
      rcases ha with ha | ha
      · subst ha
        simp only
        omega
      · exact h5 a ha

/-- C25 (amended): the percentage drawn from any PRNG state lies in 1..5.  A
commission iteration keeps every empty slot empty and replaces the account of
every live slot by that account charged with such a percentage `p`.  When the
account's balances are at least 0 and `balance * p` does not exceed `INT_MAX`,
the charge in each currency is exactly `balance * p / 100` (truncated), lies
between 0 and the balance, and is subtracted from the balance, id and password
staying as they are.  When every live balance `x` has `0 <= x` and
`5 * x <= INT_MAX`, the bank totals are at least 0 and, per currency, the
balances plus the bank total do not exceed `INT_MAX`, then after the iteration
the sum of the balances plus the bank total is the same as before in each
currency, the bank totals have not decreased, and all balances are at least
0. -/
theorem commission_tick_effect :
    (∀ seed : Nat,
      1 ≤ ((xorshift32 seed % 5 : Nat) : Int) + 1 ∧ ((xorshift32 seed % 5 : Nat) : Int) + 1 ≤ 5) ∧
    (∀ (b : bank_t) (seed : Nat) (i : Nat),
      (bank_commission_iteration b seed).1.entries.length = b.entries.length ∧
      (b.entries[i]? = some none →
        (bank_commission_iteration b seed).1.entries[i]? = some none) ∧
      (∀ a, b.entries[i]? = some (some a) → ∃ s : Nat,
        (bank_commission_iteration b seed).1.entries[i]? =
          some (some (commission_charge a (((xorshift32 s % 5 : Nat) : Int) + 1)).1))) ∧
    (∀ (acc : account_t) (p : Int), 1 ≤ p → p ≤ 5 →
      0 ≤ acc.balance_ils → acc.balance_ils * p ≤ INT_MAX →
      0 ≤ acc.balance_usd → acc.balance_usd * p ≤ INT_MAX →
      (commission_charge acc p).2.1 = acc.balance_ils * p / 100 ∧
      (commission_charge acc p).2.2.1 = acc.balance_usd * p / 100 ∧
      (commission_charge acc p).1 =
        { id := acc.id, password := acc.password,
          balance_ils := acc.balance_ils - acc.balance_ils * p / 100,
          balance_usd := acc.balance_usd - acc.balance_usd * p / 100 } ∧
      0 ≤ acc.balance_ils * p / 100 ∧ acc.balance_ils * p / 100 ≤ acc.balance_ils ∧
      0 ≤ acc.balance_usd * p / 100 ∧ acc.balance_usd * p / 100 ≤ acc.balance_usd) ∧
    (∀ (b : bank_t) (seed : Nat),
      (∀ a ∈ b.accounts, (0 ≤ a.balance_ils ∧ a.balance_ils * 5 ≤ INT_MAX) ∧
        (0 ≤ a.balance_usd ∧ a.balance_usd * 5 ≤ INT_MAX)) →
      0 ≤ b.bank_ils → 0 ≤ b.bank_usd →
      entries_total b.entries .CUR_ILS + b.bank_ils ≤ INT_MAX →
      entries_total b.entries .CUR_USD + b.bank_usd ≤ INT_MAX →
      entries_total (bank_commission_iteration b seed).1.entries .CUR_ILS +
          (bank_commission_iteration b seed).1.bank_ils =
        entries_total b.entries .CUR_ILS + b.bank_ils ∧
      entries_total (bank_commission_iteration b seed).1.entries .CUR_USD +
          (bank_commission_iteration b seed).1.bank_usd =
        entries_total b.entries .CUR_USD + b.bank_usd ∧
      b.bank_ils ≤ (bank_commission_iteration b seed).1.bank_ils ∧
      b.bank_usd ≤ (bank_commission_iteration b seed).1.bank_usd ∧
      (∀ a ∈ (bank_commission_iteration b seed).1.accounts,
        0 ≤ a.balance_ils ∧ 0 ≤ a.balance_usd)) := by
  refine ⟨commission_percent_range, ?_, ?_, ?_⟩
  · intro b seed i
    exact commission_loop_cell b.entries seed b.bank_ils b.bank_usd i
  · intro acc p hp1 hp5 hi hi5 hu hu5
    exact commission_charge_exact acc p hp1 hp5 hi hi5 hu hu5
  · intro b seed hgood hbi hbu hti htu
    obtain ⟨h1, h2, h3, h4, h5⟩ := commission_loop_totals b.entries seed b.bank_ils b.bank_usd
      (fun a ha => hgood a ((mem_accounts_iff b a).mpr ha)) hbi hbu hti htu
    refine ⟨h1, h2, h3, h4, ?_⟩
    intro a ha
    exact h5 a ((mem_accounts_iff _ a).mp ha)

set_option maxRecDepth 1000000 in
theorem commission_tick_effect_witness :
    bank_commission_sample.accounts = [⟨10, 7777, 1000, 250⟩, ⟨20, 8888, 399, 40⟩] ∧
    (bank_commission_iteration bank_commission_sample 2).1.accounts =
      [⟨10, 7777, 960, 240⟩, ⟨20, 8888, 396, 40⟩] ∧
    (bank_commission_iteration bank_commission_sample 2).1.bank_ils = 43 ∧
    (bank_commission_iteration bank_commission_sample 2).1.bank_usd = 10 ∧
    entries_total (bank_commission_iteration bank_commission_sample 2).1.entries .CUR_ILS +
        (bank_commission_iteration bank_commission_sample 2).1.bank_ils =
      entries_total bank_commission_sample.entries .CUR_ILS + bank_commission_sample.bank_ils :=
  ⟨by decide, by decide, by decide, by decide,
   (commission_tick_effect.2.2.2 bank_commission_sample 2 (by decide) (by decide) (by decide)
      (by decide) (by decide)).1⟩

set_option maxRecDepth 1000000 in
/-- Counterexample to C25 as stated: one account holds 500000000 ILS and the
draw from PRNG state 1 is 5 percent.  The `int` product `500000000 * 5` wraps
to -1794967296, the commission is -17949672, the account keeps its balance and
the bank total of ILS drops from 0 to -17949672: the balance does not decrease,
balance plus bank total is not conserved, and the bank total is negative. -/
theorem commission_overflow_counterexample :
    bank_half_billion.accounts = [⟨10, 7777, 500000000, 0⟩] ∧
    bank_half_billion.bank_ils = 0 ∧
    ((xorshift32 1 % 5 : Nat) : Int) + 1 = 5 ∧
    (bank_commission_iteration bank_half_billion 1).1.accounts = [⟨10, 7777, 500000000, 0⟩] ∧
    (bank_commission_iteration bank_half_billion 1).1.bank_ils = -17949672 ∧
    (bank_commission_iteration bank_half_billion 1).2.2 =
      [log_line
        "Bank: commissions of %d %% were charged, bank gained %d ILS and %d USD from account %d"
        [.d 5, .d (-17949672), .d 0, .d 10]] := by
  decide

/-! ## C26: the order of the status array -/

theorem cmp_le_iff (x y : acc_status_t) (h : is_int (x.id - y.id)) :
    cmp_acc_status_by_id x y ≤ 0 ↔ x.id ≤ y.id := by
  unfold cmp_acc_status_by_id
  rw [wrap_int_eq h]
  omega

theorem orderedInsert_ids (a : acc_status_t) :
    ∀ l : List acc_status_t, l.Pairwise (fun x y => x.id ≤ y.id) →
      (∀ b ∈ l, is_int (a.id - b.id)) →
      (List.orderedInsert (fun x y => cmp_acc_status_by_id x y ≤ 0) a l).Pairwise
        (fun x y => x.id ≤ y.id) := by
  intro l
  induction l with
  | nil => intro _ _; simp
  | cons b rest ih =>
    intro hs hint
    rw [List.orderedInsert]
    have hab := cmp_le_iff a b (hint b (List.mem_cons_self _ _))
    rw [List.pairwise_cons] at hs
    split
    · rename_i hr
      have hle : a.id ≤ b.id := hab.mp hr
      rw [List.pairwise_cons]
      refine ⟨?_, List.pairwise_cons.mpr hs⟩
      intro x hx
      rw [List.mem_cons] at hx
      rcases hx with rfl | hx
      · exact hle
      · exact le_trans hle (hs.1 x hx)
    · rename_i hr
      have hlt : ¬ a.id ≤ b.id := fun h => hr (hab.mpr h)
      rw [List.pairwise_cons]
      refine ⟨?_, ih hs.2 (fun c hc => hint c (List.mem_cons_of_mem _ hc))⟩
      intro x hx
      have hx2 := (List.perm_orderedInsert _ a rest).subset hx
      rw [List.mem_cons] at hx2
      rcases hx2 with rfl | hx2
      · omega
      · exact hs.1 x hx2

theorem qsort_ids (l : List acc_status_t) :
    (∀ x ∈ l, ∀ y ∈ l, is_int (x.id - y.id)) →
      (qsort l cmp_acc_status_by_id).Pairwise (fun x y => x.id ≤ y.id) := by
  unfold qsort
  induction l with
  | nil => intro _; simp
  | cons a rest ih =>
    intro hint
    rw [List.insertionSort]
    apply orderedInsert_ids a _
      (ih (fun x hx y hy => hint x (List.mem_cons_of_mem _ hx) y (List.mem_cons_of_mem _ hy)))
    intro b hb
    have hb2 := (List.perm_insertionSort _ rest).subset hb
    exact hint a (List.mem_cons_self _ _) b (List.mem_cons_of_mem _ hb2)

/-- When the difference of any two live ids is a value of type `int` (for
instance when no id is negative), the live ids are pairwise distinct and
`count` is at least the number of live accounts, the array that the status
service collects and sorts is a permutation of the live accounts in strictly
ascending order of id. -/
theorem status_array_sorted (b : bank_t) (hcount : (b.accounts.length : Int) ≤ b.count)
    (hnodup : (b.accounts.map (fun a => a.id)).Nodup)
    (hint : ∀ x ∈ b.accounts, ∀ y ∈ b.accounts, is_int (x.id - y.id)) :
    (status_array b).Perm (b.accounts.map (fun a =>
      { id := a.id, password := a.password, ils := a.balance_ils, usd := a.balance_usd })) ∧
    (status_array b).Pairwise (fun x y => x.id < y.id) := by
  have hperm := status_array_perm b hcount
  refine ⟨hperm, ?_⟩
  have hall := collect_status_all b.entries 0 b.count (by simpa [bank_t.accounts] using hcount)
  have hmem : ∀ x ∈ collect_status b.entries 0 b.count, ∃ a ∈ b.accounts, x.id = a.id := by
    intro x hx
    rw [hall, List.mem_map] at hx
    obtain ⟨a, ha, rfl⟩ := hx
    exact ⟨a, ha, rfl⟩
  have hint2 : ∀ x ∈ collect_status b.entries 0 b.count,
      ∀ y ∈ collect_status b.entries 0 b.count, is_int (x.id - y.id) := by
    intro x hx y hy
    obtain ⟨a, ha, hxa⟩ := hmem x hx
    obtain ⟨c, hc, hyc⟩ := hmem y hy
    rw [hxa, hyc]
    exact hint a ha c hc
  have hle : (status_array b).Pairwise (fun x y => x.id ≤ y.id) := by
    unfold status_array
    simp only
    split
    · exact qsort_ids _ hint2
    · rename_i hlen
      cases hc : collect_status b.entries 0 b.count with
      | nil => exact List.Pairwise.nil
      | cons x rest =>
        rw [hc] at hlen
        cases rest with
        | nil => exact List.pairwise_singleton _ _
        | cons y r => simp at hlen
  have hne : (status_array b).Pairwise (fun x y => x.id ≠ y.id) := by
    have h1 : ((status_array b).map (fun x => x.id)).Nodup := by
      have hp := hperm.map (fun x => x.id)
      rw [List.map_map] at hp
      exact hp.nodup_iff.mpr hnodup
    rw [List.Nodup, List.pairwise_map] at h1
    exact h1
  exact (hle.and hne).imp (fun h => lt_of_le_of_ne h.1 h.2)

set_option maxRecDepth 1000000 in
theorem status_array_sorted_witness :
    (status_array bank_three_ids).map (fun x => x.id) = [10, 20, 30] ∧
    (status_array bank_three_ids).Pairwise (fun x y => x.id < y.id) :=
  ⟨by decide, (status_array_sorted bank_three_ids (by decide) (by decide) (by decide)).2⟩

set_option maxRecDepth 1000000 in
/-- C26, the defect: the live accounts have the distinct `int` ids -2000000000
and 2000000000.  `cmp_acc_status_by_id` returns the `int` difference of the
ids, which wraps: it is 294967296 for (-2000000000, 2000000000) and -294967296
for (2000000000, -2000000000), the wrong sign both times.  The sorted status
array, and the snapshot that the status iteration stores, list 2000000000
before -2000000000: not in ascending order of id. -/
theorem status_sort_id_overflow :
    bank_far_ids.accounts = [⟨-2000000000, 1, 0, 0⟩, ⟨2000000000, 2, 0, 0⟩] ∧
    cmp_acc_status_by_id ⟨-2000000000, 1, 0, 0⟩ ⟨2000000000, 2, 0, 0⟩ = 294967296 ∧
    cmp_acc_status_by_id ⟨2000000000, 2, 0, 0⟩ ⟨-2000000000, 1, 0, 0⟩ = -294967296 ∧
    (status_array bank_far_ids).map (fun x => x.id) = [2000000000, -2000000000] ∧
    ((bank_status_iteration bank_far_ids).1.snapshots.getD 0 snapshot_zero).accs =
      [⟨2000000000, 2, 0, 0⟩, ⟨-2000000000, 1, 0, 0⟩] ∧
    ¬ (status_array bank_far_ids).Pairwise (fun x y => x.id < y.id) := by
  decide

/-! ## C27: account ids are unique -/

/-! ### The id list under writes to the entry array -/

theorem entry_ids_none (rest : List (Option account_t)) :
    entry_ids (none :: rest) = entry_ids rest := by
  simp [entry_ids]

theorem entry_ids_some (a : account_t) (rest : List (Option account_t)) :
    entry_ids (some a :: rest) = a.id :: entry_ids rest := by
  simp [entry_ids]

theorem entry_ids_accounts (b : bank_t) :
    b.accounts.map (fun a => a.id) = entry_ids b.entries := rfl

theorem mem_entry_ids_of_get {es : List (Option account_t)} {i : Nat} {a : account_t}
    (h : es[i]? = some (some a)) : a.id ∈ entry_ids es := by
  unfold entry_ids
  rw [List.mem_map]
  refine ⟨a, ?_, rfl⟩
  rw [List.mem_filterMap]
  exact ⟨some a, List.getElem?_mem h, rfl⟩

theorem entry_ids_set_same (a1 : account_t) :
    ∀ (es : List (Option account_t)) (i : Nat) (a : account_t),
      es[i]? = some (some a) → a1.id = a.id → entry_ids (es.set i (some a1)) = entry_ids es := by
  intro es
  induction es with
  | nil => intro i a h _; simp at h
  | cons x rest ih =>
    intro i a h hid
    cases i with
    | zero =>
      simp only [List.getElem?_cons_zero, Option.some.injEq] at h
      subst h
      rw [List.set_cons_zero, entry_ids_some, entry_ids_some, hid]
    | succ i =>
      rw [List.getElem?_cons_succ] at h
      rw [List.set_cons_succ]
      cases x with
      | none => rw [entry_ids_none, entry_ids_none]; exact ih i a h hid
      | some y => rw [entry_ids_some, entry_ids_some, ih i a h hid]

theorem entry_ids_set_none :
    ∀ (es : List (Option account_t)) (i : Nat),
      (entry_ids (es.set i none)).Sublist (entry_ids es) := by
  intro es
  induction es with
  | nil => intro i; simp [entry_ids]
  | cons x rest ih =>
    intro i
    cases i with
    | zero =>
      rw [List.set_cons_zero, entry_ids_none]
      cases x with
      | none => rw [entry_ids_none]
      | some y => rw [entry_ids_some]; exact List.sublist_cons_self _ _
    | succ i =>
      rw [List.set_cons_succ]
      cases x with
      | none => rw [entry_ids_none, entry_ids_none]; exact ih i
      | some y => rw [entry_ids_some, entry_ids_some]; exact (ih i).cons₂ _

theorem entry_ids_set_free (acc : account_t) :
    ∀ (es : List (Option account_t)) (j : Nat), es[j]? = some none →
      (entry_ids (es.set j (some acc))).Perm (acc.id :: entry_ids es) := by
  intro es
  induction es with
  | nil => intro j h; simp at h
  | cons x rest ih =>
    intro j h
    cases j with
    | zero =>
      simp only [List.getElem?_cons_zero, Option.some.injEq] at h
      subst h
      rw [List.set_cons_zero, entry_ids_some, entry_ids_none]
    | succ j =>
      rw [List.getElem?_cons_succ] at h
      rw [List.set_cons_succ]
      cases x with
      | none => rw [entry_ids_none, entry_ids_none]; exact ih j h
      | some y =>
        rw [entry_ids_some, entry_ids_some]
        exact ((ih j h).cons _).trans (List.Perm.swap _ _ _)

theorem entry_ids_append_none (es : List (Option account_t)) (n : Nat) :
    entry_ids (es ++ List.replicate n none) = entry_ids es := by
  unfold entry_ids
  rw [List.filterMap_append]
  have : List.filterMap id (List.replicate n (none : Option account_t)) = [] := by
    induction n with
    | zero => rfl
    | succ n ih => rw [List.replicate_succ, List.filterMap_cons_none rfl, ih]
  rw [this, List.append_nil]

theorem entry_ids_inj :
    ∀ (es : List (Option account_t)), (entry_ids es).Nodup →
      ∀ (i j : Nat) (a c : account_t), es[i]? = some (some a) → es[j]? = some (some c) →
        a.id = c.id → i = j := by
  intro es
  induction es with
  | nil => intro _ i j a c h; simp at h
  | cons x rest ih =>
    intro hn i j a c hi hj hid
    cases x with
    | none =>
      rw [entry_ids_none] at hn
      cases i with
      | zero => simp at hi
      | succ i =>
        cases j with
        | zero => simp at hj
        | succ j =>
          rw [List.getElem?_cons_succ] at hi hj
          rw [ih hn i j a c hi hj hid]
    | some y =>
      rw [entry_ids_some, List.nodup_cons] at hn
      cases i with
      | zero =>
        cases j with
        | zero => rfl
        | succ j =>
          simp only [List.getElem?_cons_zero, Option.some.injEq] at hi
          rw [List.getElem?_cons_succ] at hj
          subst hi
          exact absurd (hid ▸ mem_entry_ids_of_get hj) hn.1
      | succ i =>
        cases j with
        | zero =>
          simp only [List.getElem?_cons_zero, Option.some.injEq] at hj
          rw [List.getElem?_cons_succ] at hi
          subst hj
          exact absurd (hid ▸ mem_entry_ids_of_get hi) hn.1
        | succ j =>
          rw [List.getElem?_cons_succ] at hi hj
          rw [ih hn.2 i j a c hi hj hid]

theorem account_sub_id (a : account_t) (cur : currency_t) (amount : Int) :
    (account_sub a cur amount).2.id = a.id := by
  unfold account_sub
  split
  · rfl
  · cases cur <;> simp only <;> split <;> rfl

theorem account_add_id (a : account_t) (cur : currency_t) (amount : Int) :
    (account_add a cur amount).id = a.id :=
  (account_add_fields a cur amount).1

theorem commission_charge_id (acc : account_t) (p : Int) :
    (commission_charge acc p).1.id = acc.id := by
  unfold commission_charge
  simp only
  split
  · split
    · rw [account_sub_id, account_sub_id]
    · rw [account_sub_id]
  · split
    · rw [account_sub_id]
    · rfl

/-! ### Account operations keep the ids distinct -/

theorem store_ids {b : bank_t} {i : Nat} {a a1 : account_t}
    (h : b.entries[i]? = some (some a)) (hid : a1.id = a.id) :
    (b.store i a1).entries.length = b.entries.length ∧
      entry_ids (b.store i a1).entries = entry_ids b.entries := by
  unfold bank_t.store
  exact ⟨List.length_set _ _ _, entry_ids_set_same a1 b.entries i a h hid⟩

theorem bank_deposit_ids (b : bank_t) (atm_id acc_id password : Int) (cur : currency_t)
    (amount : Int) :
    (bank_deposit b atm_id acc_id password cur amount).b.entries.length = b.entries.length ∧
    entry_ids (bank_deposit b atm_id acc_id password cur amount).b.entries =
      entry_ids b.entries := by
  unfold bank_deposit
  split
  · exact ⟨rfl, rfl⟩
  · cases hl : bank_lock_account b acc_id with
    | none => exact ⟨rfl, rfl⟩
    | some p =>
      obtain ⟨i, acc⟩ := p
      simp only
      split
      · exact ⟨rfl, rfl⟩
      · exact store_ids (scan_first_get hl).1 (account_add_id _ _ _)

theorem bank_withdraw_ids (b : bank_t) (atm_id acc_id password : Int) (cur : currency_t)
    (amount : Int) :
    (bank_withdraw b atm_id acc_id password cur amount).b.entries.length = b.entries.length ∧
    entry_ids (bank_withdraw b atm_id acc_id password cur amount).b.entries =
      entry_ids b.entries := by
  unfold bank_withdraw
  split
  · exact ⟨rfl, rfl⟩
  · cases hl : bank_lock_account b acc_id with
    | none => exact ⟨rfl, rfl⟩
    | some p =>
      obtain ⟨i, acc⟩ := p
      simp only
      split
      · exact ⟨rfl, rfl⟩
      · split <;> exact store_ids (scan_first_get hl).1 (account_sub_id _ _ _)

theorem bank_balance_ids (b : bank_t) (atm_id acc_id password : Int) :
    (bank_balance b atm_id acc_id password).b = b := by
  unfold bank_balance
  split
  · rfl
  · split <;> rfl

theorem bank_transfer_ids (b : bank_t) (atm_id src_id password dst_id : Int)
    (cur : currency_t) (amount : Int) :
    (bank_transfer b atm_id src_id password dst_id cur amount).b.entries.length =
      b.entries.length ∧
    entry_ids (bank_transfer b atm_id src_id password dst_id cur amount).b.entries =
      entry_ids b.entries := by
  unfold bank_transfer
  split
  · exact ⟨rfl, rfl⟩
  · split
    · exact ⟨rfl, rfl⟩
    · rename_i hne
      cases hs : scan_all b.entries src_id 0 none with
      | none => exact ⟨rfl, rfl⟩
      | some p =>
        obtain ⟨i, s⟩ := p
        cases hd : scan_all b.entries dst_id 0 none with
        | none => exact ⟨rfl, rfl⟩
        | some q =>
          obtain ⟨j, d⟩ := q
          obtain ⟨hsi, hsid⟩ := scan_all_zero hs
          obtain ⟨hdj, hdid⟩ := scan_all_zero hd
          simp only
          split
          · exact ⟨rfl, rfl⟩
          · split
            · exact store_ids hsi (account_sub_id _ _ _)
            · have hij : i ≠ j := by
                intro hij
                subst hij
                rw [hsi] at hdj
                simp only [Option.some.injEq] at hdj
                subst hdj
                exact hne (hsid.symm.trans hdid)
              obtain ⟨h1, h2⟩ := store_ids hsi (account_sub_id s cur amount)
              have hdj2 : (b.store i (account_sub s cur amount).2).entries[j]? =
                  some (some d) := by
                unfold bank_t.store
                simp only
                rw [List.getElem?_set_ne hij]
                exact hdj
              obtain ⟨h3, h4⟩ := store_ids hdj2 (account_add_id d cur amount)
              exact ⟨h3.trans h1, h4.trans h2⟩

theorem bank_exchange_ids (b : bank_t) (atm_id acc_id password : Int)
    (from_cur to_cur : currency_t) (amount_from : Int) :
    (bank_exchange b atm_id acc_id password from_cur to_cur amount_from).b.entries.length =
      b.entries.length ∧
    entry_ids (bank_exchange b atm_id acc_id password from_cur to_cur amount_from).b.entries =
      entry_ids b.entries := by
  unfold bank_exchange
  split
  · exact ⟨rfl, rfl⟩
  · split
    · exact ⟨rfl, rfl⟩
    · cases hl : bank_lock_account b acc_id with
      | none => exact ⟨rfl, rfl⟩
      | some p =>
        obtain ⟨i, acc⟩ := p
        simp only
        split
        · exact ⟨rfl, rfl⟩
        · split
          · exact store_ids (scan_first_get hl).1 (account_sub_id _ _ _)
          · exact store_ids (scan_first_get hl).1
              ((account_add_id _ _ _).trans (account_sub_id _ _ _))

theorem bank_invest_debit_ids (b : bank_t) (acc_id password amount : Int) (cur : currency_t)
    (time_msec : Int) :
    (bank_invest_debit b acc_id password amount cur time_msec).b.entries.length =
      b.entries.length ∧
    entry_ids (bank_invest_debit b acc_id password amount cur time_msec).b.entries =
      entry_ids b.entries := by
  unfold bank_invest_debit
  split
  · exact ⟨rfl, rfl⟩
  · split
    · exact ⟨rfl, rfl⟩
    · cases hl : bank_lock_account b acc_id with
      | none => exact ⟨rfl, rfl⟩
      | some p =>
        obtain ⟨i, acc⟩ := p
        simp only
        split
        · exact ⟨rfl, rfl⟩
        · split <;> exact store_ids (scan_first_get hl).1 (account_sub_id _ _ _)

theorem bank_invest_credit_ids (b : bank_t) (acc_id : Int) (cur : currency_t)
    (final_raw : Int) :
    (bank_invest_credit b acc_id cur final_raw).b.entries.length = b.entries.length ∧
    entry_ids (bank_invest_credit b acc_id cur final_raw).b.entries = entry_ids b.entries := by
  unfold bank_invest_credit
  cases hl : bank_lock_account b acc_id with
  | none => exact ⟨rfl, rfl⟩
  | some p =>
    obtain ⟨i, acc⟩ := p
    exact store_ids (scan_first_get hl).1 (account_add_id _ _ _)

theorem bank_close_ids (b : bank_t) (atm_id acc_id password : Int) :
    (bank_close b atm_id acc_id password).b.entries.length = b.entries.length ∧
    (entry_ids (bank_close b atm_id acc_id password).b.entries).Sublist
      (entry_ids b.entries) := by
  unfold bank_close
  split
  · exact ⟨rfl, List.Sublist.refl _⟩
  · split
    · exact ⟨rfl, List.Sublist.refl _⟩
    · exact ⟨List.length_set _ _ _, entry_ids_set_none _ _⟩

theorem bank_insert_account_ids (b : bank_t) (acc : account_t) (hlen : 0 < b.entries.length)
    (hn : (entry_ids b.entries).Nodup) :
    0 < (bank_insert_account b acc).2.entries.length ∧
    (entry_ids (bank_insert_account b acc).2.entries).Nodup := by
  unfold bank_insert_account
  cases hs : scan_first b.entries acc.id 0 with
  | some p => exact ⟨hlen, hn⟩
  | none =>
    have hfresh : acc.id ∉ entry_ids b.entries := by
      intro hmem
      unfold entry_ids at hmem
      rw [List.mem_map] at hmem
      obtain ⟨a, ha, haid⟩ := hmem
      rw [List.mem_filterMap] at ha
      obtain ⟨x, hx, hxa⟩ := ha
      simp only [id] at hxa
      subst hxa
      exact ((scan_first_none b.entries acc.id 0).mp hs) a hx haid
    simp only
    cases hf : first_free b.entries 0 with
    | some j =>
      simp only
      obtain ⟨_, hj⟩ := first_free_spec b.entries 0 j hf
      rw [Nat.sub_zero] at hj
      refine ⟨by rw [List.length_set]; exact hlen, ?_⟩
      rw [(entry_ids_set_free acc b.entries j hj).nodup_iff, List.nodup_cons]
      exact ⟨hfresh, hn⟩
    | none =>
      simp only
      refine ⟨by rw [List.length_set, List.length_append]; omega, ?_⟩
      have hj : (b.entries ++ List.replicate (b.entries.length * 2 - b.entries.length)
          (none : Option account_t))[b.entries.length]? = some none := by
        rw [List.getElem?_append_right (Nat.le_refl _), Nat.sub_self]
        rw [List.getElem?_replicate]
        rw [if_pos (by omega)]
      rw [(entry_ids_set_free acc _ _ hj).nodup_iff, List.nodup_cons, entry_ids_append_none]
      exact ⟨hfresh, hn⟩

theorem bank_open_ids (b : bank_t) (atm_id acc_id password init_ils init_usd : Int)
    (hlen : 0 < b.entries.length) (hn : (entry_ids b.entries).Nodup) :
    0 < (bank_open b atm_id acc_id password init_ils init_usd).b.entries.length ∧
    (entry_ids (bank_open b atm_id acc_id password init_ils init_usd).b.entries).Nodup := by
  unfold bank_open
  split
  · exact ⟨hlen, hn⟩
  · simp only
    split <;> exact bank_insert_account_ids b _ hlen hn

theorem commission_loop_ids (es : List (Option account_t)) :
    ∀ (seed : Nat) (bank_ils bank_usd : Int),
      entry_ids (commission_loop es seed bank_ils bank_usd).entries = entry_ids es := by
  induction es with
  | nil => intro seed bi bu; rfl
  | cons x rest ih =>
    intro seed bi bu
    cases x with
    | none =>
      simp only [commission_loop]
      rw [entry_ids_none, entry_ids_none, ih]
    | some acc =>
      simp only [commission_loop]
      rw [entry_ids_some, entry_ids_some, ih, commission_charge_id]

/-! ### Snapshots and rollbacks keep the ids distinct -/

theorem collect_status_ids (es : List (Option account_t)) :
    ∀ (k expected : Int),
      ((collect_status es k expected).map (fun x => x.id)).Sublist (entry_ids es) := by
  induction es with
  | nil => intro k expected; simp [collect_status, entry_ids]
  | cons x rest ih =>
    intro k expected
    unfold collect_status
    split
    · cases x with
      | none =>
        simp only
        rw [entry_ids_none]
        exact ih k expected
      | some acc =>
        simp only
        rw [entry_ids_some, List.map_cons]
        exact (ih (k + 1) expected).cons₂ _
    · exact List.nil_sublist _

theorem status_array_ids (b : bank_t) (hn : (entry_ids b.entries).Nodup) :
    ((status_array b).map (fun x => x.id)).Nodup := by
  have hc : ((collect_status b.entries 0 b.count).map (fun x => x.id)).Nodup :=
    hn.sublist (collect_status_ids b.entries 0 b.count)
  unfold status_array
  simp only
  split
  · unfold qsort
    exact ((List.perm_insertionSort _ _).map _).nodup_iff.mpr hc
  · exact hc

theorem snapshot_capture_ids (b : bank_t) (arr : List acc_status_t) (h : ids_inv b)
    (harr : (arr.map (fun x => x.id)).Nodup) : ids_inv (snapshot_capture b arr) := by
  refine ⟨h.1, h.2.1, ?_⟩
  intro s hs
  simp only [snapshot_capture] at hs
  rcases List.mem_or_eq_of_mem_set hs with h1 | h1
  · exact h.2.2 s h1
  · subst h1
    simp only
    rw [List.map_map]
    exact harr

theorem apply_loop_length (accs : List bank_acc_snapshot_t) :
    ∀ (es : List (Option account_t)) (count : Int) (inserted : Nat),
      (apply_loop accs es count inserted).1.length = es.length := by
  induction accs with
  | nil => intro es count inserted; rfl
  | cons s rest ih =>
    intro es count inserted
    unfold apply_loop
    split
    · rfl
    · simp only
      split
      · rw [ih, List.length_set]
      · rw [ih]

theorem snapshot_apply_ids (b : bank_t) (s : bank_snapshot_t) (h : ids_inv b)
    (hs : (s.accs.map (fun e => e.id)).Nodup) : ids_inv (snapshot_apply b s) := by
  refine ⟨?_, ?_, h.2.2⟩
  · unfold snapshot_apply
    simp only
    rw [apply_loop_length, List.length_append, List.length_replicate]
    have := h.1
    omega
  · have hacc := (snapshot_apply_result b s h.1).1
    rw [← entry_ids_accounts, hacc, List.map_map]
    exact hs

theorem process_rollbacks_loop_ids (reqs : List rollback_req) :
    ∀ b : bank_t, ids_inv b → ids_inv (process_rollbacks_loop reqs b).1 := by
  induction reqs with
  | nil => intro b h; exact h
  | cons req rest ih =>
    intro b h
    unfold process_rollbacks_loop
    split
    · exact ih b h
    · simp only
      apply ih
      apply snapshot_apply_ids b _ h
      simp only
      rw [List.getD_eq_getElem?_getD]
      cases hg : b.snapshots[(rollback_idx b req.iterations_back).toNat]? with
      | none => simp [snapshot_zero]
      | some s0 =>
        simp only [Option.getD_some]
        exact h.2.2 s0 (List.getElem?_mem hg)

theorem bank_status_iteration_ids (b : bank_t) (h : ids_inv b) :
    ids_inv (bank_status_iteration b).1 := by
  rw [bank_status_iteration_eq]
  simp only
  unfold bank_process_rollbacks
  apply process_rollbacks_loop_ids
  have hcap := snapshot_capture_ids b (status_array b) h (status_array_ids b h.2.1)
  obtain ⟨h1, _, _, _, _, _, h7, _⟩ :=
    close_loop_ring (List.range' 1 b.atm_count.toNat) (snapshot_capture b (status_array b))
  refine ⟨?_, ?_, ?_⟩
  · simp only
    rw [h7]; exact hcap.1
  · simp only
    rw [h7]; exact hcap.2.1
  · simp only
    rw [h1]; exact hcap.2.2

theorem bank_close_atm_request_entries (b : bank_t) (s t : Int) :
    (bank_close_atm_request b s t).b.entries = b.entries := by
  unfold bank_close_atm_request
  split
  · rfl
  · split <;> rfl

theorem bank_rollback_entries (b : bank_t) (a k : Int) :
    (bank_rollback b a k).b.entries = b.entries := by
  unfold bank_rollback
  split <;> rfl

theorem engine_step_ids (b : bank_t) (op : engine_op) (h : ids_inv b) :
    ids_inv (engine_step b op).b := by
  by_cases hop : op = .status_tick
  · subst hop
    exact bank_status_iteration_ids b h
  · have hring := (engine_step_same_ring b op hop).2.2.1
    have hsn : ∀ s ∈ (engine_step b op).b.snapshots, (s.accs.map (fun e => e.id)).Nodup := by
      rw [hring]; exact h.2.2
    have keep : ((engine_step b op).b.entries.length = b.entries.length ∧
        entry_ids (engine_step b op).b.entries = entry_ids b.entries) →
        ids_inv (engine_step b op).b := by
      rintro ⟨h1, h2⟩
      exact ⟨by rw [h1]; exact h.1, by rw [h2]; exact h.2.1, hsn⟩
    cases op with
    | open_account a i p x y =>
      obtain ⟨h1, h2⟩ := bank_open_ids b a i p x y h.1 h.2.1
      exact ⟨h1, h2, hsn⟩
    | close_account a i p =>
      obtain ⟨h1, h2⟩ := bank_close_ids b a i p
      exact ⟨by show 0 < (bank_close b a i p).b.entries.length; rw [h1]; exact h.1,
        h.2.1.sublist h2, hsn⟩
    | deposit a i p c m => exact keep (bank_deposit_ids b a i p c m)
    | withdraw a i p c m => exact keep (bank_withdraw_ids b a i p c m)
    | balance a i p =>
      have hb : (engine_step b (.balance a i p)).b = b := bank_balance_ids b a i p
      exact keep (by rw [hb]; exact ⟨rfl, rfl⟩)
    | transfer a i p j c m => exact keep (bank_transfer_ids b a i p j c m)
    | exchange a i p f t m => exact keep (bank_exchange_ids b a i p f t m)
    | invest_debit i p m c t => exact keep (bank_invest_debit_ids b i p m c t)
    | invest_credit i c f => exact keep (bank_invest_credit_ids b i c f)
    | close_atm s t =>
      have hb : (engine_step b (.close_atm s t)).b.entries = b.entries :=
        bank_close_atm_request_entries b s t
      exact keep (by rw [hb]; exact ⟨rfl, rfl⟩)
    | rollback a k =>
      have hb : (engine_step b (.rollback a k)).b.entries = b.entries :=
        bank_rollback_entries b a k
      exact keep (by rw [hb]; exact ⟨rfl, rfl⟩)
    | status_tick => exact absurd rfl hop
    | commission_tick seed =>
      apply keep
      exact ⟨(commission_loop_cell b.entries seed b.bank_ils b.bank_usd 0).1,
        commission_loop_ids b.entries seed b.bank_ils b.bank_usd⟩

theorem engine_run_ids (ops : List engine_op) :
    ∀ b : bank_t, ids_inv b → ids_inv (engine_run b ops).1 := by
  induction ops with
  | nil => intro b h; exact h
  | cons op rest ih =>
    intro b h
    simp only [engine_run]
    exact ih _ (engine_step_ids b op h)

theorem bank_init_state_ids (atm_count : Int) : ids_inv (bank_init_state atm_count) := by
  refine ⟨by simp [bank_init_state], ?_, ?_⟩
  · have : entry_ids (bank_init_state atm_count).entries = [] := by
      have := entry_ids_append_none [] 128
      simpa [bank_init_state] using this
    rw [this]
    exact List.nodup_nil
  · intro s hs
    simp only [bank_init_state] at hs
    rw [List.eq_of_mem_replicate hs]
    exact List.nodup_nil

/-- C27: in every state reached from a freshly initialised bank by any finite
sequence of engine steps (OPEN, CLOSE, DEPOSIT, WITHDRAW, BALANCE, TRANSFER,
EXCHANGE, the debit and the credit of INVEST, agent-close and rollback
requests, commission iterations, status iterations with their snapshot
capture and rollback applications), the ids of the live accounts are pairwise
distinct, that is, two slots holding accounts with the same id are the same
slot, and in every snapshot of the ring the ids of the entries are pairwise
distinct. -/
theorem account_ids_unique (atm_count : Int) (ops : List engine_op) :
    ((engine_run (bank_init_state atm_count) ops).1.accounts.map (fun a => a.id)).Nodup ∧
    (∀ (i j : Nat) (a c : account_t),
      (engine_run (bank_init_state atm_count) ops).1.entries[i]? = some (some a) →
      (engine_run (bank_init_state atm_count) ops).1.entries[j]? = some (some c) →
      a.id = c.id → i = j) ∧
    (∀ s ∈ (engine_run (bank_init_state atm_count) ops).1.snapshots,
      (s.accs.map (fun e => e.id)).Nodup) := by
  obtain ⟨_, h2, h3⟩ := engine_run_ids ops _ (bank_init_state_ids atm_count)
  exact ⟨h2, entry_ids_inj _ h2, h3⟩

set_option maxRecDepth 1000000 in
theorem account_ids_unique_witness :
    (bank_after ops_reopen).accounts = [⟨10, 2222, 7, 0⟩, ⟨20, 8888, 5, 5⟩] ∧
    ((bank_after ops_reopen).snapshots.take 3).map (fun s => s.accs.map (fun e => e.id)) =
      [[10, 20], [10, 20], [10, 20]] ∧
    ((bank_after ops_reopen).accounts.map (fun a => a.id)).Nodup :=
  ⟨by decide, by decide, (account_ids_unique 1 ops_reopen).1⟩

/-! ## C28: the log mode SUCCESS_ONLY -/

set_option maxRecDepth 100000 in
/-- C28, the defect: the thread-local log mode is written and never read, so
an operation that fails while the mode is `BANK_LOG_SUCCESS_ONLY` logs its
error line like in any other mode.  On a fresh bank DEPOSIT to the missing
account 99 returns ACCOUNT_NOT_FOUND and appends its error line, WITHDRAW from
account 10 with a wrong password returns BAD_PASSWORD and appends its error
line, and so does the first attempt of a PERSISTENT command. -/
theorem log_mode_success_only_ignored :
    (∀ (mode : bank_log_mode_t) (b : bank_t) (op : engine_op),
      bank_call mode b op = bank_call .BANK_LOG_ALL b op) ∧
    (bank_call .BANK_LOG_SUCCESS_ONLY (bank_init_state 1) (.deposit 1 99 1 .CUR_ILS 5)).rc =
      .BANK_ERR_ACCOUNT_NOT_FOUND ∧
    (bank_call .BANK_LOG_SUCCESS_ONLY (bank_init_state 1) (.deposit 1 99 1 .CUR_ILS 5)).log =
      [log_line "Error %d: Your transaction failed – account id %d does not exist"
        [.d 1, .d 99]] ∧
    (bank_call .BANK_LOG_SUCCESS_ONLY bank_two_accounts (.withdraw 1 10 1 .CUR_ILS 5)).rc =
      .BANK_ERR_BAD_PASSWORD ∧
    (bank_call .BANK_LOG_SUCCESS_ONLY bank_two_accounts (.withdraw 1 10 1 .CUR_ILS 5)).log =
      [log_line "Error %d: Your transaction failed – password for account id %d is incorrect"
        [.d 1, .d 10]] ∧
    (first_attempt .BANK_LOG_ALL true (bank_init_state 1) (.deposit 1 99 1 .CUR_ILS 5)).2.log =
      [log_line "Error %d: Your transaction failed – account id %d does not exist"
        [.d 1, .d 99]] ∧
    (bank_call .BANK_LOG_SUCCESS_ONLY bank_two_accounts (.deposit 1 10 7777 .CUR_ILS 5)).log =
      [log_line "%d: Account %d new balance is %d ILS and %d USD after %d %s was deposited"
        [.d 1, .d 10, .d 105, .d 0, .d 5, .s "ILS"]] := by
  refine ⟨fun _ _ _ => rfl, ?_, ?_, ?_, ?_, ?_, ?_⟩ <;> decide

/-! ## C29: how many lines an operation logs -/

theorem bank_open_log (b : bank_t) (atm_id acc_id password init_ils init_usd : Int) :
    (init_ils < 0 ∨ init_usd < 0 →
      (bank_open b atm_id acc_id password init_ils init_usd).rc = .BANK_ERR_ILLEGAL_AMOUNT ∧
      (bank_open b atm_id acc_id password init_ils init_usd).log = []) ∧
    (0 ≤ init_ils → 0 ≤ init_usd →
      (bank_open b atm_id acc_id password init_ils init_usd).log.length = 1) := by
  unfold bank_open
  constructor
  · intro h
    rw [if_pos (by omega)]
    exact ⟨rfl, rfl⟩
  · intro h1 h2
    rw [if_neg (by omega)]
    simp only
    split <;> rfl

theorem bank_close_log (b : bank_t) (atm_id acc_id password : Int) :
    (bank_close b atm_id acc_id password).log.length = 1 := by
  unfold bank_close
  split
  · rfl
  · split <;> rfl

theorem bank_balance_log (b : bank_t) (atm_id acc_id password : Int) :
    (bank_balance b atm_id acc_id password).log.length = 1 := by
  unfold bank_balance
  split
  · rfl
  · split <;> rfl

theorem bank_deposit_log (b : bank_t) (atm_id acc_id password : Int) (cur : currency_t)
    (amount : Int) :
    (amount ≤ 0 →
      (bank_deposit b atm_id acc_id password cur amount).rc = .BANK_ERR_ILLEGAL_AMOUNT ∧
      (bank_deposit b atm_id acc_id password cur amount).log = []) ∧
    (0 < amount → (bank_deposit b atm_id acc_id password cur amount).log.length = 1) := by
  unfold bank_deposit
  constructor
  · intro h
    rw [if_pos h]
    exact ⟨rfl, rfl⟩
  · intro h
    rw [if_neg (by omega)]
    split
    · rfl
    · split <;> rfl

theorem bank_withdraw_log (b : bank_t) (atm_id acc_id password : Int) (cur : currency_t)
    (amount : Int) :
    (amount ≤ 0 →
      (bank_withdraw b atm_id acc_id password cur amount).rc = .BANK_ERR_ILLEGAL_AMOUNT ∧
      (bank_withdraw b atm_id acc_id password cur amount).log = []) ∧
    (0 < amount → (bank_withdraw b atm_id acc_id password cur amount).log.length = 1) := by
  unfold bank_withdraw
  constructor
  · intro h
    rw [if_pos h]
    exact ⟨rfl, rfl⟩
  · intro h
    rw [if_neg (by omega)]
    split
    · rfl
    · split
      · rfl
      · simp only
        split <;> rfl

theorem bank_transfer_log (b : bank_t) (atm_id src_id password dst_id : Int)
    (cur : currency_t) (amount : Int) :
    (amount ≤ 0 →
      (bank_transfer b atm_id src_id password dst_id cur amount).rc =
        .BANK_ERR_ILLEGAL_AMOUNT ∧
      (bank_transfer b atm_id src_id password dst_id cur amount).log = []) ∧
    (0 < amount → src_id = dst_id →
      (bank_transfer b atm_id src_id password dst_id cur amount).rc = .BANK_ERR_SAME_ACCOUNT ∧
      (bank_transfer b atm_id src_id password dst_id cur amount).log = []) ∧
    (0 < amount → src_id ≠ dst_id →
      (bank_transfer b atm_id src_id password dst_id cur amount).log.length = 1) := by
  unfold bank_transfer
  refine ⟨?_, ?_, ?_⟩
  · intro h
    rw [if_pos h]
    exact ⟨rfl, rfl⟩
  · intro h hsd
    rw [if_neg (by omega), if_pos hsd]
    exact ⟨rfl, rfl⟩
  · intro h hsd
    rw [if_neg (by omega), if_neg hsd]
    split
    · rfl
    · split
      · rfl
      · split
        · rfl
        · simp only
          split <;> rfl

theorem bank_exchange_log (b : bank_t) (atm_id acc_id password : Int)
    (from_cur to_cur : currency_t) (amount_from : Int) :
    (amount_from ≤ 0 →
      (bank_exchange b atm_id acc_id password from_cur to_cur amount_from).rc =
        .BANK_ERR_ILLEGAL_AMOUNT ∧
      (bank_exchange b atm_id acc_id password from_cur to_cur amount_from).log = []) ∧
    (0 < amount_from → from_cur = to_cur →
      (bank_exchange b atm_id acc_id password from_cur to_cur amount_from).rc = .BANK_OK ∧
      (bank_exchange b atm_id acc_id password from_cur to_cur amount_from).log = []) ∧
    (0 < amount_from → from_cur ≠ to_cur →
      (bank_exchange b atm_id acc_id password from_cur to_cur amount_from).log.length = 1) := by
  unfold bank_exchange
  refine ⟨?_, ?_, ?_⟩
  · intro h
    rw [if_pos h]
    exact ⟨rfl, rfl⟩
  · intro h hsd
    rw [if_neg (by omega), if_pos hsd]
    exact ⟨rfl, rfl⟩
  · intro h hsd
    rw [if_neg (by omega), if_neg hsd]
    split
    · rfl
    · split
      · rfl
      · simp only
        split <;> rfl

theorem bank_invest_log (b : bank_t) (atm_id acc_id password amount : Int) (cur : currency_t)
    (time_msec final_raw : Int) (during : bank_t → bank_t) :
    (bank_invest b atm_id acc_id password amount cur time_msec final_raw during).log = [] := by
  have hd : (bank_invest_debit b acc_id password amount cur time_msec).log = [] := by
    unfold bank_invest_debit
    split
    · rfl
    · split
      · rfl
      · split
        · rfl
        · split
          · rfl
          · simp only
            split <;> rfl
  have hc : ∀ b2, (bank_invest_credit b2 acc_id cur final_raw).log = [] := by
    intro b2
    unfold bank_invest_credit
    simp only
    split <;> rfl
  unfold bank_invest
  simp only
  split
  · exact hd
  · exact hc _

/-- C29 (amended): whatever the log mode, CLOSE and BALANCE append exactly one
line for every input and outcome.  OPEN appends exactly one line unless an
initial balance is negative, DEPOSIT and WITHDRAW unless `amount <= 0`,
TRANSFER unless `amount <= 0` or the two ids are equal, EXCHANGE unless
`amount_from <= 0` or the two currencies are equal; in these cases (outcome
ILLEGAL_AMOUNT, SAME_ACCOUNT, or OK for the exchange that does nothing) no line
is appended.  INVEST appends no line for any input and outcome. -/
theorem bank_operations_log_lines :
    (∀ (b : bank_t) (atm_id acc_id password init_ils init_usd : Int),
      (init_ils < 0 ∨ init_usd < 0 →
        (bank_open b atm_id acc_id password init_ils init_usd).rc = .BANK_ERR_ILLEGAL_AMOUNT ∧
        (bank_open b atm_id acc_id password init_ils init_usd).log = []) ∧
      (0 ≤ init_ils → 0 ≤ init_usd →
        (bank_open b atm_id acc_id password init_ils init_usd).log.length = 1)) ∧
    (∀ (b : bank_t) (atm_id acc_id password : Int),
      (bank_close b atm_id acc_id password).log.length = 1) ∧
    (∀ (b : bank_t) (atm_id acc_id password : Int),
      (bank_balance b atm_id acc_id password).log.length = 1) ∧
    (∀ (b : bank_t) (atm_id acc_id password : Int) (cur : currency_t) (amount : Int),
      (amount ≤ 0 →
        (bank_deposit b atm_id acc_id password cur amount).rc = .BANK_ERR_ILLEGAL_AMOUNT ∧
        (bank_deposit b atm_id acc_id password cur amount).log = []) ∧
      (0 < amount → (bank_deposit b atm_id acc_id password cur amount).log.length = 1)) ∧
    (∀ (b : bank_t) (atm_id acc_id password : Int) (cur : currency_t) (amount : Int),
      (amount ≤ 0 →
        (bank_withdraw b atm_id acc_id password cur amount).rc = .BANK_ERR_ILLEGAL_AMOUNT ∧
        (bank_withdraw b atm_id acc_id password cur amount).log = []) ∧
      (0 < amount → (bank_withdraw b atm_id acc_id password cur amount).log.length = 1)) ∧
    (∀ (b : bank_t) (atm_id src_id password dst_id : Int) (cur : currency_t) (amount : Int),
      (amount ≤ 0 →
        (bank_transfer b atm_id src_id password dst_id cur amount).rc =
          .BANK_ERR_ILLEGAL_AMOUNT ∧
        (bank_transfer b atm_id src_id password dst_id cur amount).log = []) ∧
      (0 < amount → src_id = dst_id →
        (bank_transfer b atm_id src_id password dst_id cur amount).rc =
          .BANK_ERR_SAME_ACCOUNT ∧
        (bank_transfer b atm_id src_id password dst_id cur amount).log = []) ∧
      (0 < amount → src_id ≠ dst_id →
        (bank_transfer b atm_id src_id password dst_id cur amount).log.length = 1)) ∧
    (∀ (b : bank_t) (atm_id acc_id password : Int) (from_cur to_cur : currency_t)
        (amount_from : Int),
      (amount_from ≤ 0 →
        (bank_exchange b atm_id acc_id password from_cur to_cur amount_from).rc =
          .BANK_ERR_ILLEGAL_AMOUNT ∧
        (bank_exchange b atm_id acc_id password from_cur to_cur amount_from).log = []) ∧
      (0 < amount_from → from_cur = to_cur →
        (bank_exchange b atm_id acc_id password from_cur to_cur amount_from).rc = .BANK_OK ∧
        (bank_exchange b atm_id acc_id password from_cur to_cur amount_from).log = []) ∧
      (0 < amount_from → from_cur ≠ to_cur →
        (bank_exchange b atm_id acc_id password from_cur to_cur amount_from).log.length = 1)) ∧
    (∀ (b : bank_t) (atm_id acc_id password amount : Int) (cur : currency_t)
        (time_msec final_raw : Int) (during : bank_t → bank_t),
      (bank_invest b atm_id acc_id password amount cur time_msec final_raw during).log = []) :=
  ⟨bank_open_log, bank_close_log, bank_balance_log, bank_deposit_log, bank_withdraw_log,
   bank_transfer_log, bank_exchange_log, bank_invest_log⟩

set_option maxRecDepth 100000 in
theorem bank_operations_log_lines_witness :
    (bank_deposit bank_two_accounts 1 10 7777 .CUR_ILS 5).log.length = 1 ∧
    (bank_deposit bank_two_accounts 1 99 7777 .CUR_ILS 5).rc = .BANK_ERR_ACCOUNT_NOT_FOUND ∧
    (bank_deposit bank_two_accounts 1 99 7777 .CUR_ILS 5).log.length = 1 ∧
    (bank_transfer bank_two_accounts 1 10 1 20 .CUR_ILS 5).rc = .BANK_ERR_BAD_PASSWORD ∧
    (bank_transfer bank_two_accounts 1 10 1 20 .CUR_ILS 5).log.length = 1 :=
  ⟨(bank_operations_log_lines.2.2.2.1 bank_two_accounts 1 10 7777 .CUR_ILS 5).2 (by decide),
   by decide,
   (bank_operations_log_lines.2.2.2.1 bank_two_accounts 1 99 7777 .CUR_ILS 5).2 (by decide),
   by decide,
   (bank_operations_log_lines.2.2.2.2.2.1 bank_two_accounts 1 10 1 20 .CUR_ILS 5).2.2
     (by decide) (by decide)⟩

set_option maxRecDepth 100000 in
/-- Counterexample to C29 as stated: DEPOSIT of amount 0 (ILLEGAL_AMOUNT),
TRANSFER from account 10 to itself (SAME_ACCOUNT), EXCHANGE from ILS to ILS
(OK) and a successful INVEST (OK) each append no line to the log. -/
theorem bank_operations_log_counterexample :
    (bank_deposit bank_two_accounts 1 10 7777 .CUR_ILS 0).rc = .BANK_ERR_ILLEGAL_AMOUNT ∧
    (bank_deposit bank_two_accounts 1 10 7777 .CUR_ILS 0).log = [] ∧
    (bank_transfer bank_two_accounts 1 10 7777 10 .CUR_ILS 5).rc = .BANK_ERR_SAME_ACCOUNT ∧
    (bank_transfer bank_two_accounts 1 10 7777 10 .CUR_ILS 5).log = [] ∧
    (bank_exchange bank_two_accounts 1 10 7777 .CUR_ILS .CUR_ILS 5).rc = .BANK_OK ∧
    (bank_exchange bank_two_accounts 1 10 7777 .CUR_ILS .CUR_ILS 5).log = [] ∧
    (bank_invest bank_two_accounts 1 10 7777 50 .CUR_ILS 100 67 id).rc = .BANK_OK ∧
    (bank_invest bank_two_accounts 1 10 7777 50 .CUR_ILS 100 67 id).log = [] ∧
    (bank_invest bank_two_accounts 1 10 7777 50 .CUR_ILS 100 67 id).b.accounts =
      [⟨10, 7777, 117, 0⟩, ⟨20, 8888, 0, 0⟩] := by
  decide

/-! ## C30: the reader-writer lock -/

theorem count_pc_set (x a : rw_pc) :
    ∀ (l : List rw_pc) (n : Nat) (b : rw_pc), l[n]? = some b →
      List.count x (l.set n a) + (if b = x then 1 else 0) =
        List.count x l + (if a = x then 1 else 0) := by
  intro l
  induction l with
  | nil => intro n b hb; simp at hb
  | cons c rest ih =>
    intro n b hb
    cases n with
    | zero =>
      simp only [List.getElem?_cons_zero, Option.some.injEq] at hb
      subst hb
      simp only [List.set_cons_zero, List.count_cons, beq_iff_eq]
      omega
    | succ n =>
      simp only [List.getElem?_cons_succ] at hb
      have := ih n b hb
      simp only [List.set_cons_succ, List.count_cons]
      omega

theorem rw_inv_init (n : Nat) : rw_inv (rw_init n) := by
  have h : ∀ x : rw_pc, x ≠ .idle → List.count x (List.replicate n rw_pc.idle) = 0 := by
    intro x hx
    induction n with
    | zero => rfl
    | succ n ih =>
      rw [List.replicate_succ, List.count_cons_of_ne (fun he => hx he)]
      exact ih
  unfold rw_inv rw_init rwlock_init
  simp only
  rw [h .reading (by decide), h .waiting (by decide), h .writing (by decide)]
  exact ⟨rfl, rfl, rfl, by omega, by omega⟩

theorem rw_step_inv (s s2 : rw_state) (t : Nat) (act : rw_act) (h : rw_inv s)
    (hstep : rw_step s t act = some s2) : rw_inv s2 := by
  obtain ⟨hr, hw, ha, h1, hx⟩ := h
  unfold rw_step at hstep
  cases hpc : s.pcs[t]? with
  | none => rw [hpc] at hstep; cases act <;> simp at hstep
  | some pc =>
    rw [hpc] at hstep
    have cr := fun a => count_pc_set .reading a s.pcs t pc hpc
    have cw := fun a => count_pc_set .waiting a s.pcs t pc hpc
    have ca := fun a => count_pc_set .writing a s.pcs t pc hpc
    cases pc <;> cases act <;> simp only at hstep <;>
      first
      | (cases hstep; done)
      | skip
    · -- idle, rdlock
      split at hstep
      · cases hstep
      · rename_i hg
        injection hstep with hs
        subst hs
        have r := cr .reading
        have w := cw .reading
        have a := ca .reading
        simp only [if_true, if_false, reduceCtorEq] at r w a
        unfold rw_inv
        simp only
        refine ⟨by omega, by omega, by omega, by omega, ?_⟩
        intro hone
        exfalso
        apply hg
        left
        omega
    · -- idle, wrlock_enqueue
      injection hstep with hs
      subst hs
      have r := cr .waiting
      have w := cw .waiting
      have a := ca .waiting
      simp only [if_true, if_false, reduceCtorEq] at r w a
      unfold rw_inv
      simp only
      exact ⟨by omega, by omega, by omega, by omega, by omega⟩
    · -- reading, rdunlock
      injection hstep with hs
      subst hs
      have r := cr .idle
      have w := cw .idle
      have a := ca .idle
      simp only [if_true, if_false, reduceCtorEq] at r w a
      unfold rw_inv
      simp only
      exact ⟨by omega, by omega, by omega, by omega, by omega⟩
    · -- waiting, wrlock_acquire
      split at hstep
      · cases hstep
      · rename_i hg
        injection hstep with hs
        subst hs
        have r := cr .writing
        have w := cw .writing
        have a := ca .writing
        simp only [if_true, if_false, reduceCtorEq] at r w a
        unfold rw_inv
        simp only
        have hna : s.l.writer_active = 0 := by
          by_contra hne
          exact hg (Or.inl hne)
        have hnr : ¬ s.l.readers > 0 := fun hgt => hg (Or.inr hgt)
        exact ⟨by omega, by omega, by omega, by omega, by omega⟩
    · -- writing, wrunlock
      injection hstep with hs
      subst hs
      have r := cr .idle
      have w := cw .idle
      have a := ca .idle
      simp only [if_true, if_false, reduceCtorEq] at r w a
      unfold rw_inv
      simp only
      exact ⟨by omega, by omega, by omega, by omega, by omega⟩

theorem rw_run_inv (evs : List (Nat × rw_act)) :
    ∀ s : rw_state, rw_inv s → rw_inv (rw_run s evs) := by
  induction evs with
  | nil => intro s h; exact h
  | cons e rest ih =>
    intro s h
    unfold rw_run
    rw [List.foldl_cons]
    apply ih
    cases hstep : rw_step s e.1 e.2 with
    | none => exact h
    | some s2 => exact rw_step_inv s s2 e.1 e.2 h hstep

/-- C30: in every state reached from the initialised lock `(0, 0, 0)` by any
schedule of any number of threads taking the atomic sections of
`rwlock_rdlock` (entered only when `writer_active = 0` and
`writers_waiting = 0`), `rwlock_rdunlock` (by a reader holding the lock),
`rwlock_wrlock` (the enqueue, and the admission only when `writer_active = 0`
and `readers = 0`) and `rwlock_wrunlock` (by the writer holding the lock):
`writer_active` is 0 or 1, `writer_active = 1` implies `readers = 0`,
`readers >= 0` and `writers_waiting >= 0`; moreover the three counters are the
numbers of threads reading, writing and waiting. -/
theorem rwlock_invariant (n : Nat) (evs : List (Nat × rw_act)) :
    ((rw_run (rw_init n) evs).l.writer_active = 0 ∨
      (rw_run (rw_init n) evs).l.writer_active = 1) ∧
    ((rw_run (rw_init n) evs).l.writer_active = 1 → (rw_run (rw_init n) evs).l.readers = 0) ∧
    0 ≤ (rw_run (rw_init n) evs).l.readers ∧
    0 ≤ (rw_run (rw_init n) evs).l.writers_waiting ∧
    (rw_run (rw_init n) evs).l.readers = ((rw_run (rw_init n) evs).pcs.count .reading : Int) ∧
    (rw_run (rw_init n) evs).l.writer_active =
      ((rw_run (rw_init n) evs).pcs.count .writing : Int) ∧
    (rw_run (rw_init n) evs).l.writers_waiting =
      ((rw_run (rw_init n) evs).pcs.count .waiting : Int) := by
  obtain ⟨hr, hw, ha, h1, hx⟩ := rw_run_inv evs (rw_init n) (rw_inv_init n)
  refine ⟨by omega, ?_, by omega, by omega, hr, ha, hw⟩
  intro hone
  have := hx (by omega)
  omega

theorem rwlock_invariant_witness :
    rw_run (rw_init 3) (rw_schedule.take 4) =
      { l := { readers := 2, writer_active := 0, writers_waiting := 1 },
        pcs := [.reading, .reading, .waiting] } ∧
    rw_run (rw_init 3) rw_schedule =
      { l := { readers := 0, writer_active := 1, writers_waiting := 0 },
        pcs := [.idle, .idle, .writing] } ∧
    ((rw_run (rw_init 3) rw_schedule).l.writer_active = 1 →
      (rw_run (rw_init 3) rw_schedule).l.readers = 0) :=
  ⟨by decide, by decide, (rwlock_invariant 3 rw_schedule).2.1⟩

/-! ## C35: head and count of the snapshot ring -/

theorem bank_status_iteration_push (b : bank_t) :
    (bank_status_iteration b).1.snapshots =
      (snapshot_capture b (status_array b)).snapshots ∧
    (bank_status_iteration b).1.snap_capacity = b.snap_capacity ∧
    (bank_status_iteration b).1.snap_head = Int.tmod (b.snap_head + 1) b.snap_capacity ∧
    (bank_status_iteration b).1.snap_count =
      (if b.snap_count < b.snap_capacity then b.snap_count + 1 else b.snap_count) := by
  rw [bank_status_iteration_eq]
  simp only
  unfold bank_process_rollbacks
  obtain ⟨h1, h2, h3, h4, _⟩ :=
    close_loop_ring (List.range' 1 b.atm_count.toNat) (snapshot_capture b (status_array b))
  obtain ⟨⟨_, _, g3, g4, g5, g6⟩, _, _⟩ := process_rollbacks_loop_frame
    (close_loop (List.range' 1 b.atm_count.toNat) (snapshot_capture b (status_array b))).1.rb_queue
    { (close_loop (List.range' 1 b.atm_count.toNat)
        (snapshot_capture b (status_array b))).1 with rb_queue := [] }
  simp only at g3 g4 g5 g6
  refine ⟨by rw [g3, h1], by rw [g4, h2]; rfl, by rw [g5, h3]; rfl, by rw [g6, h4]; rfl⟩

theorem engine_step_ring_counters (b : bank_t) (op : engine_op) (n : Nat)
    (hcap : b.snap_capacity = 120) (hhead : b.snap_head = ((n % 120 : Nat) : Int))
    (hcount : b.snap_count = ((min n 120 : Nat) : Int)) :
    (engine_step b op).b.snap_capacity = 120 ∧
    (engine_step b op).b.snap_head =
      (((n + (if op = .status_tick then 1 else 0)) % 120 : Nat) : Int) ∧
    (engine_step b op).b.snap_count =
      ((min (n + (if op = .status_tick then 1 else 0)) 120 : Nat) : Int) := by
  by_cases hop : op = .status_tick
  · subst hop
    obtain ⟨_, h2, h3, h4⟩ := bank_status_iteration_push b
    rw [if_pos rfl]
    refine ⟨h2.trans hcap, ?_, ?_⟩
    · show (bank_status_iteration b).1.snap_head = _
      rw [h3, hcap, hhead]
      rw [Int.tmod_eq_emod (by omega) (by omega)]
      omega
    · show (bank_status_iteration b).1.snap_count = _
      rw [h4, hcap, hcount]
      split <;> omega
  · obtain ⟨_, _, _, h4, h5, h6⟩ := engine_step_same_ring b op hop
    rw [if_neg hop, Nat.add_zero]
    exact ⟨h4.trans hcap, h5.trans hhead, h6.trans hcount⟩

theorem engine_run_ring_counters (ops : List engine_op) :
    ∀ (b : bank_t) (n : Nat), b.snap_capacity = 120 →
      b.snap_head = ((n % 120 : Nat) : Int) → b.snap_count = ((min n 120 : Nat) : Int) →
      (engine_run b ops).1.snap_capacity = 120 ∧
      (engine_run b ops).1.snap_head = (((n + ops.count .status_tick) % 120 : Nat) : Int) ∧
      (engine_run b ops).1.snap_count = ((min (n + ops.count .status_tick) 120 : Nat) : Int) := by
  induction ops with
  | nil => intro b n h1 h2 h3; exact ⟨h1, h2, h3⟩
  | cons op rest ih =>
    intro b n h1 h2 h3
    obtain ⟨g1, g2, g3⟩ := engine_step_ring_counters b op n h1 h2 h3
    have := ih (engine_step b op).b _ g1 g2 g3
    simp only [engine_run]
    have hc : n + (if op = .status_tick then 1 else 0) + rest.count .status_tick =
        n + (op :: rest).count .status_tick := by
      rw [List.count_cons]
      by_cases hop : op = .status_tick
      · subst hop; simp; omega
      · have : ¬ (op == engine_op.status_tick) = true := by simpa using hop
        simp [hop, this]
    rw [hc] at this
    exact this

theorem snapshot_capture_full (b : bank_t) (arr : List acc_status_t)
    (hist : List bank_snapshot_t) (h : ring_holds b hist) (hfull : b.snap_count = 120) :
    (snapshot_capture b arr).snapshots =
      b.snapshots.set b.snap_head.toNat (captured_snapshot b arr) ∧
    b.snapshots[b.snap_head.toNat]? = hist[119]? ∧
    (∀ i : Nat, i ≠ b.snap_head.toNat →
      (snapshot_capture b arr).snapshots[i]? = b.snapshots[i]?) ∧
    (snapshot_capture b arr).snapshots[b.snap_head.toNat]? = some (captured_snapshot b arr) ∧
    (snapshot_capture b arr).snap_count = 120 := by
  obtain ⟨hcap, hlen, h0, h120, hcount, hslots⟩ := h
  have hset : (snapshot_capture b arr).snapshots =
      b.snapshots.set b.snap_head.toNat (captured_snapshot b arr) := rfl
  refine ⟨hset, ?_, ?_, ?_, ?_⟩
  · have := hslots 119 (by rw [hfull]; decide)
    have hidx : ((b.snap_head - 1 - ((119 : Nat) : Int)) % 120).toNat = b.snap_head.toNat := by
      omega
    rw [hidx] at this
    exact this
  · intro i hi
    rw [hset, List.getElem?_set_ne (fun he => hi he.symm)]
  · rw [hset, List.getElem?_set_self (by omega)]
  · show (if b.snap_count < b.snap_capacity then b.snap_count + 1 else b.snap_count) = 120
    rw [hcap, hfull]
    rfl

/-- C35: from the ring of a freshly initialised bank (head 0, count 0,
capacity 120), after any run of engine steps containing `n` status
iterations, each of which pushes one snapshot, `snap_head = n mod 120` and
`snap_count = min(n, 120)`, so `0 <= snap_head < 120` and
`0 <= snap_count <= 120`.  Once the ring is full, the next push writes the
slot `snap_head`, which held the oldest of the 120 stored snapshots, and
leaves every other slot as it was. -/
theorem ring_head_and_count (atm_count : Int) (ops : List engine_op) :
    (engine_run (bank_init_state atm_count) ops).1.snap_head =
      ((ops.count .status_tick % 120 : Nat) : Int) ∧
    (engine_run (bank_init_state atm_count) ops).1.snap_count =
      ((min (ops.count .status_tick) 120 : Nat) : Int) ∧
    (0 ≤ (engine_run (bank_init_state atm_count) ops).1.snap_head ∧
      (engine_run (bank_init_state atm_count) ops).1.snap_head < 120) ∧
    (0 ≤ (engine_run (bank_init_state atm_count) ops).1.snap_count ∧
      (engine_run (bank_init_state atm_count) ops).1.snap_count ≤ 120) ∧
    ((engine_run (bank_init_state atm_count) ops).1.snap_count = 120 →
      ∀ arr : List acc_status_t,
        (run_history (bank_init_state atm_count) ops []).length ≥ 120 ∧
        (engine_run (bank_init_state atm_count) ops).1.snapshots[
            (engine_run (bank_init_state atm_count) ops).1.snap_head.toNat]? =
          (run_history (bank_init_state atm_count) ops [])[119]? ∧
        (snapshot_capture (engine_run (bank_init_state atm_count) ops).1 arr).snapshots[
            (engine_run (bank_init_state atm_count) ops).1.snap_head.toNat]? =
          some (captured_snapshot (engine_run (bank_init_state atm_count) ops).1 arr) ∧
        (∀ i : Nat, i ≠ (engine_run (bank_init_state atm_count) ops).1.snap_head.toNat →
          (snapshot_capture (engine_run (bank_init_state atm_count) ops).1 arr).snapshots[i]? =
            (engine_run (bank_init_state atm_count) ops).1.snapshots[i]?) ∧
        (snapshot_capture (engine_run (bank_init_state atm_count) ops).1 arr).snap_count =
          120) := by
  obtain ⟨_, h2, h3⟩ := engine_run_ring_counters ops (bank_init_state atm_count) 0 rfl rfl rfl
  rw [Nat.zero_add] at h2 h3
  have hring := engine_run_ring ops (bank_init_state atm_count) [] (ring_holds_init atm_count)
  refine ⟨h2, h3, by omega, by omega, ?_⟩
  intro hfull arr
  obtain ⟨g1, g2, g3, g4, g5⟩ := snapshot_capture_full _ arr _ hring hfull
  refine ⟨?_, g2, g4, g3, g5⟩
  have := hring.2.2.2.2.1
  rw [hfull] at this
  omega

theorem ring_head_and_count_witness :
    (engine_run (bank_init_state 1) (List.replicate 120 .status_tick)).1.snap_head = 0 ∧
    (engine_run (bank_init_state 1) (List.replicate 120 .status_tick)).1.snap_count = 120 ∧
    (engine_run (bank_init_state 1) (List.replicate 125 .status_tick)).1.snap_head = 5 ∧
    (engine_run (bank_init_state 1) (List.replicate 125 .status_tick)).1.snap_count = 120 := by
  have h1 := ring_head_and_count 1 (List.replicate 120 .status_tick)
  have h2 := ring_head_and_count 1 (List.replicate 125 .status_tick)
  rw [List.count_replicate_self] at h1 h2
  exact ⟨h1.1, h1.2.1, h2.1, h2.2.1⟩

/-! ## C39: a rollback reads a written slot -/

theorem rollback_slot_written (b : bank_t) (hist : List bank_snapshot_t) (k : Int)
    (h : ring_holds b hist) (h1 : 1 ≤ k) (hk : k ≤ b.snap_count - 1) :
    rollback_idx b k = (b.snap_head - 1 - k) % 120 ∧
    0 ≤ rollback_idx b k ∧ rollback_idx b k < 120 ∧
    (rollback_idx b k).toNat < b.snapshots.length ∧
    ∃ s, hist[k.toNat]? = some s ∧ b.snapshots[(rollback_idx b k).toNat]? = some s := by
  obtain ⟨hcap, hlen, h0, h120, hcount, hslots⟩ := h
  have hidx := rollback_idx_eq b k hcap
  have hlt : k.toNat < hist.length := by
    have : b.snap_count ≤ (hist.length : Int) := by rw [hcount]; exact min_le_left _ _
    omega
  have hslot := hslots k.toNat (by omega)
  have hk2 : ((k.toNat : Nat) : Int) = k := by omega
  rw [hk2, ← hidx] at hslot
  refine ⟨hidx, by rw [hidx]; omega, by rw [hidx]; omega, by rw [hidx, hlen]; omega, ?_⟩
  refine ⟨hist[k.toNat], List.getElem?_eq_getElem hlt, ?_⟩
  rw [hslot, List.getElem?_eq_getElem hlt]

/-- C39: in every state reached from a freshly initialised bank by engine
steps (`snap_head` in 0..119, `snap_count` the number of pushes capped at 120)
and for every `k` with `1 <= k <= snap_count - 1`, the slot index that
`bank_process_rollbacks` computes, `(snap_head - 1 - k) mod 120` made
non-negative, lies in 0..119, is a slot of the ring array, and that slot holds
a snapshot written by an earlier push (entry `k` of the push history, most
recent first). -/
theorem rollback_reads_written_slot (atm_count : Int) (ops : List engine_op) (k : Int)
    (h1 : 1 ≤ k) (hk : k ≤ (engine_run (bank_init_state atm_count) ops).1.snap_count - 1) :
    rollback_idx (engine_run (bank_init_state atm_count) ops).1 k =
      ((engine_run (bank_init_state atm_count) ops).1.snap_head - 1 - k) % 120 ∧
    0 ≤ rollback_idx (engine_run (bank_init_state atm_count) ops).1 k ∧
    rollback_idx (engine_run (bank_init_state atm_count) ops).1 k < 120 ∧
    (rollback_idx (engine_run (bank_init_state atm_count) ops).1 k).toNat <
      (engine_run (bank_init_state atm_count) ops).1.snapshots.length ∧
    ∃ s, (run_history (bank_init_state atm_count) ops [])[k.toNat]? = some s ∧
      (engine_run (bank_init_state atm_count) ops).1.snapshots[
        (rollback_idx (engine_run (bank_init_state atm_count) ops).1 k).toNat]? = some s :=
  rollback_slot_written _ _ k
    (engine_run_ring ops (bank_init_state atm_count) [] (ring_holds_init atm_count)) h1 hk

set_option maxRecDepth 1000000 in
theorem rollback_reads_written_slot_witness :
    (bank_after ops_three_ticks).snap_count = 3 ∧
    rollback_idx (bank_after ops_three_ticks) 2 = 0 ∧
    (bank_after ops_three_ticks).snapshots[0]? = some ⟨0, 0, [⟨10, 7777, 100, 0⟩], 1⟩ ∧
    ∃ s, (run_history (bank_init_state 1) ops_three_ticks [])[(2 : Int).toNat]? = some s ∧
      (engine_run (bank_init_state 1) ops_three_ticks).1.snapshots[
        (rollback_idx (engine_run (bank_init_state 1) ops_three_ticks).1 2).toNat]? = some s :=
  ⟨by decide, by decide, by decide,
   (rollback_reads_written_slot 1 ops_three_ticks 2 (by decide) (by decide)).2.2.2.2⟩

/-! ## C40: a rollback request with k = 120 -/

/-- C40: ROLLBACK with `k = 120` returns OK and appends the request to the
queue.  In every state reached from a freshly initialised bank by engine
steps `snap_count` is at most 120, so `bank_process_rollbacks` drops that
request: processing it is processing the rest of the queue, and processing it
alone leaves the bank as it is and logs nothing.  A request that is applied has
`k <= 119`; and after 120 status iterations a request with `k = 119` is
applied. -/
theorem rollback_120_dropped (atm_count : Int) (ops : List engine_op) :
    (∀ (b : bank_t) (atm_id : Int),
      (bank_rollback b atm_id 120).rc = .BANK_OK ∧
      (bank_rollback b atm_id 120).b.rb_queue =
        b.rb_queue ++ [{ atm_id := atm_id, iterations_back := 120 }]) ∧
    (engine_run (bank_init_state atm_count) ops).1.snap_count ≤ 120 ∧
    (∀ (atm_id : Int) (rest : List rollback_req),
      process_rollbacks_loop ({ atm_id := atm_id, iterations_back := 120 } :: rest)
          (engine_run (bank_init_state atm_count) ops).1 =
        process_rollbacks_loop rest (engine_run (bank_init_state atm_count) ops).1) ∧
    (∀ atm_id : Int,
      process_rollbacks_loop [{ atm_id := atm_id, iterations_back := 120 }]
          (engine_run (bank_init_state atm_count) ops).1 =
        ((engine_run (bank_init_state atm_count) ops).1, [])) ∧
    (∀ req : rollback_req,
      ¬ (req.iterations_back ≤ 0 ∨
          req.iterations_back ≥ (engine_run (bank_init_state atm_count) ops).1.snap_count) →
      req.iterations_back ≤ 119) ∧
    (∀ (atm_id : Int) (rest : List rollback_req),
      (engine_run (bank_init_state atm_count) ops).1.snap_count = 120 →
      process_rollbacks_loop ({ atm_id := atm_id, iterations_back := 119 } :: rest)
          (engine_run (bank_init_state atm_count) ops).1 =
        ((process_rollbacks_loop rest
            (snapshot_apply (engine_run (bank_init_state atm_count) ops).1
              (rollback_copy (engine_run (bank_init_state atm_count) ops).1 119))).1,
         log_rollback { atm_id := atm_id, iterations_back := 119 } ::
          (process_rollbacks_loop rest
            (snapshot_apply (engine_run (bank_init_state atm_count) ops).1
              (rollback_copy (engine_run (bank_init_state atm_count) ops).1 119))).2)) := by
  have hcount : (engine_run (bank_init_state atm_count) ops).1.snap_count ≤ 120 := by
    obtain ⟨_, _, h3⟩ := engine_run_ring_counters ops (bank_init_state atm_count) 0 rfl rfl rfl
    omega
  refine ⟨?_, hcount, ?_, ?_, ?_, ?_⟩
  · intro b atm_id
    unfold bank_rollback
    rw [if_neg (by decide)]
    exact ⟨rfl, rfl⟩
  · intro atm_id rest
    exact (process_rollbacks_loop_cons _ _ rest).2 (Or.inr (by simp only; omega))
  · intro atm_id
    rw [(process_rollbacks_loop_cons _ _ []).2 (Or.inr (by simp only; omega))]
    rfl
  · intro req hreq
    omega
  · intro atm_id rest hfull
    exact (process_rollbacks_loop_cons _ _ rest).1 (by simp only; omega)

theorem rollback_120_dropped_witness :
    (engine_run (bank_init_state 1) (List.replicate 120 .status_tick)).1.snap_count = 120 ∧
    process_rollbacks_loop [{ atm_id := 1, iterations_back := 120 }]
        (engine_run (bank_init_state 1) (List.replicate 120 .status_tick)).1 =
      ((engine_run (bank_init_state 1) (List.replicate 120 .status_tick)).1, []) ∧
    (process_rollbacks_loop [{ atm_id := 1, iterations_back := 119 }]
        (engine_run (bank_init_state 1) (List.replicate 120 .status_tick)).1).2 =
      [log_rollback { atm_id := 1, iterations_back := 119 }] := by
  have h := rollback_120_dropped 1 (List.replicate 120 .status_tick)
  have hfull : (engine_run (bank_init_state 1) (List.replicate 120 .status_tick)).1.snap_count =
      120 := by
    obtain ⟨_, _, h3⟩ := engine_run_ring_counters (List.replicate 120 .status_tick)
      (bank_init_state 1) 0 rfl rfl rfl
    rw [List.count_replicate_self] at h3
    exact h3
  refine ⟨hfull, h.2.2.2.1 1, ?_⟩
  rw [h.2.2.2.2.2 1 [] hfull]
  rfl

/-! ## C37: growth of the account map -/

theorem first_free_none_iff (es : List (Option account_t)) :
    ∀ k : Nat, first_free es k = none ↔ ∀ e ∈ es, e ≠ none := by
  induction es with
  | nil => intro k; simp [first_free]
  | cons x rest ih =>
    intro k
    cases x with
    | none => simp [first_free]
    | some a => simp [first_free, ih (k + 1)]

theorem accounts_length_ids (es : List (Option account_t)) :
    (es.filterMap id).length = (entry_ids es).length := by
  unfold entry_ids
  rw [List.length_map]

theorem bank_insert_account_full (b : bank_t) (acc : account_t)
    (hcap : 0 < b.entries.length) (hfull : ∀ e ∈ b.entries, e ≠ none)
    (hnew : ∀ x, some x ∈ b.entries → x.id ≠ acc.id) :
    (bank_insert_account b acc).1 = 0 ∧
    (bank_insert_account b acc).2.entries.length = 2 * b.entries.length ∧
    (bank_insert_account b acc).2.entries[b.entries.length]? = some (some acc) ∧
    (∀ k : Nat, k < b.entries.length →
      (bank_insert_account b acc).2.entries[k]? = b.entries[k]?) ∧
    (∀ k : Nat, b.entries.length < k → k < 2 * b.entries.length →
      (bank_insert_account b acc).2.entries[k]? = some none) ∧
    (bank_insert_account b acc).2.count = b.count + 1 ∧
    (bank_insert_account b acc).2.accounts = b.accounts ++ [acc] := by
  have hs : scan_first b.entries acc.id 0 = none := (scan_first_none _ _ 0).mpr hnew
  have hf : first_free b.entries 0 = none := (first_free_none_iff _ 0).mpr hfull
  have hres : bank_insert_account b acc =
      (0, { b with
        entries := (b.entries ++ List.replicate (b.entries.length * 2 - b.entries.length)
          none).set b.entries.length (some acc),
        count := b.count + 1 }) := by
    unfold bank_insert_account
    rw [hs]
    simp only
    rw [hf]
  rw [hres]
  simp only
  have hrep : b.entries.length * 2 - b.entries.length = b.entries.length := by omega
  rw [hrep]
  refine ⟨trivial, ?_, ?_, ?_, ?_, trivial, ?_⟩
  · rw [List.length_set, List.length_append, List.length_replicate]; omega
  · rw [List.getElem?_set_self (by rw [List.length_append, List.length_replicate]; omega)]
  · intro k hk
    rw [List.getElem?_set_ne (by omega), List.getElem?_append_left hk]
  · intro k hk1 hk2
    rw [List.getElem?_set_ne (by omega), List.getElem?_append_right (by omega),
      List.getElem?_replicate, if_pos (by omega)]
  · unfold bank_t.accounts
    simp only
    obtain ⟨r, hr⟩ : ∃ r, b.entries.length = r + 1 := ⟨b.entries.length - 1, by omega⟩
    have hsplit : (b.entries ++ List.replicate b.entries.length none).set b.entries.length
        (some acc) = b.entries ++ (some acc :: List.replicate r none) := by
      rw [List.set_append_right _ _ (Nat.le_refl _), Nat.sub_self]
      congr 1
      conv => lhs; rw [hr, List.replicate_succ, List.set_cons_zero]
    have hnil : ∀ n : Nat, List.filterMap id (List.replicate n (none : Option account_t)) = [] := by
      intro n
      induction n with
      | zero => rfl
      | succ n ih => rw [List.replicate_succ, List.filterMap_cons_none rfl]; exact ih
    rw [hsplit, List.filterMap_append]
    simp [hnil]

theorem bank_insert_account_free (b : bank_t) (acc : account_t) (j : Nat)
    (hfree : first_free b.entries 0 = some j)
    (hnew : ∀ x, some x ∈ b.entries → x.id ≠ acc.id) :
    (bank_insert_account b acc).1 = 0 ∧
    (bank_insert_account b acc).2.entries.length = b.entries.length ∧
    b.entries[j]? = some none ∧
    (bank_insert_account b acc).2.entries[j]? = some (some acc) ∧
    (∀ k : Nat, k ≠ j → (bank_insert_account b acc).2.entries[k]? = b.entries[k]?) ∧
    (bank_insert_account b acc).2.count = b.count + 1 ∧
    (bank_insert_account b acc).2.accounts.length = b.accounts.length + 1 := by
  have hs : scan_first b.entries acc.id 0 = none := (scan_first_none _ _ 0).mpr hnew
  obtain ⟨_, hj⟩ := first_free_spec b.entries 0 j hfree
  rw [Nat.sub_zero] at hj
  have hjl : j < b.entries.length := by
    by_contra hcon
    rw [List.getElem?_eq_none (by omega)] at hj
    cases hj
  have hres : bank_insert_account b acc =
      (0, { b with entries := b.entries.set j (some acc), count := b.count + 1 }) := by
    unfold bank_insert_account
    rw [hs]
    simp only
    rw [hfree]
  rw [hres]
  simp only
  refine ⟨trivial, List.length_set _ _ _, hj, List.getElem?_set_self hjl, ?_, trivial, ?_⟩
  · intro k hk
    rw [List.getElem?_set_ne (fun he => hk he.symm)]
  · unfold bank_t.accounts
    simp only
    rw [accounts_length_ids, accounts_length_ids,
      (entry_ids_set_free acc b.entries j hj).length_eq, List.length_cons]

theorem accounts_length_set_none :
    ∀ (es : List (Option account_t)) (i : Nat) (a : account_t), es[i]? = some (some a) →
      ((es.set i none).filterMap id).length + 1 = (es.filterMap id).length := by
  intro es
  induction es with
  | nil => intro i a h; simp at h
  | cons x rest ih =>
    intro i a h
    cases i with
    | zero =>
      simp only [List.getElem?_cons_zero, Option.some.injEq] at h
      subst h
      simp
    | succ i =>
      rw [List.getElem?_cons_succ] at h
      rw [List.set_cons_succ]
      cases x with
      | none => simpa using ih i a h
      | some y =>
        have := ih i a h
        simp only [List.filterMap_cons_some (show id (some y) = some y from rfl),
          List.length_cons]
        omega

theorem accounts_length_of_ids {b b2 : bank_t} (h : entry_ids b2.entries = entry_ids b.entries) :
    b2.accounts.length = b.accounts.length := by
  unfold bank_t.accounts
  rw [accounts_length_ids, accounts_length_ids, h]

theorem store_count (b : bank_t) (i : Nat) (a : account_t) : (b.store i a).count = b.count := rfl

theorem bank_deposit_count (b : bank_t) (atm_id acc_id password : Int) (cur : currency_t)
    (amount : Int) : (bank_deposit b atm_id acc_id password cur amount).b.count = b.count := by
  unfold bank_deposit
  split
  · rfl
  · split
    · rfl
    · simp only
      split <;> rfl

theorem bank_withdraw_count (b : bank_t) (atm_id acc_id password : Int) (cur : currency_t)
    (amount : Int) : (bank_withdraw b atm_id acc_id password cur amount).b.count = b.count := by
  unfold bank_withdraw
  split
  · rfl
  · split
    · rfl
    · simp only
      split
      · rfl
      · split <;> rfl

theorem bank_transfer_count (b : bank_t) (atm_id src_id password dst_id : Int)
    (cur : currency_t) (amount : Int) :
    (bank_transfer b atm_id src_id password dst_id cur amount).b.count = b.count := by
  unfold bank_transfer
  split
  · rfl
  · split
    · rfl
    · split
      · rfl
      · split
        · rfl
        · simp only
          split
          · rfl
          · split <;> rfl

theorem bank_exchange_count (b : bank_t) (atm_id acc_id password : Int)
    (from_cur to_cur : currency_t) (amount_from : Int) :
    (bank_exchange b atm_id acc_id password from_cur to_cur amount_from).b.count = b.count := by
  unfold bank_exchange
  split
  · rfl
  · split
    · rfl
    · split
      · rfl
      · simp only
        split
        · rfl
        · split <;> rfl

theorem bank_invest_debit_count (b : bank_t) (acc_id password amount : Int) (cur : currency_t)
    (time_msec : Int) :
    (bank_invest_debit b acc_id password amount cur time_msec).b.count = b.count := by
  unfold bank_invest_debit
  split
  · rfl
  · split
    · rfl
    · split
      · rfl
      · simp only
        split
        · rfl
        · split <;> rfl

theorem bank_invest_credit_count (b : bank_t) (acc_id : Int) (cur : currency_t)
    (final_raw : Int) : (bank_invest_credit b acc_id cur final_raw).b.count = b.count := by
  unfold bank_invest_credit
  simp only
  split <;> rfl

theorem bank_close_count_inv (b : bank_t) (atm_id acc_id password : Int) (h : count_inv b) :
    count_inv (bank_close b atm_id acc_id password).b := by
  unfold bank_close
  cases hs : scan_first b.entries acc_id 0 with
  | none => exact h
  | some p =>
    obtain ⟨idx, acc⟩ := p
    simp only
    split
    · exact h
    · refine ⟨by simp only; rw [List.length_set]; exact h.1, ?_⟩
      have hl := accounts_length_set_none b.entries idx acc (scan_first_get hs).1
      have hc := h.2
      unfold bank_t.accounts at hc ⊢
      simp only
      omega

theorem bank_insert_account_count_inv (b : bank_t) (acc : account_t) (h : count_inv b) :
    count_inv (bank_insert_account b acc).2 := by
  cases hs : scan_first b.entries acc.id 0 with
  | some p =>
    have : bank_insert_account b acc = (-1, b) := by
      unfold bank_insert_account
      rw [hs]
    rw [this]
    exact h
  | none =>
    have hnew := (scan_first_none _ _ 0).mp hs
    cases hf : first_free b.entries 0 with
    | some j =>
      obtain ⟨_, h2, _, _, _, h6, h7⟩ := bank_insert_account_free b acc j hf hnew
      exact ⟨by rw [h2]; exact h.1, by rw [h6, h7, h.2]; push_cast; rfl⟩
    | none =>
      obtain ⟨_, h2, _, _, _, h6, h7⟩ :=
        bank_insert_account_full b acc h.1 ((first_free_none_iff _ 0).mp hf) hnew
      refine ⟨by rw [h2]; have := h.1; omega, ?_⟩
      rw [h6, h7, h.2, List.length_append, List.length_singleton]
      push_cast
      rfl

theorem bank_open_count_inv (b : bank_t) (atm_id acc_id password init_ils init_usd : Int)
    (h : count_inv b) : count_inv (bank_open b atm_id acc_id password init_ils init_usd).b := by
  unfold bank_open
  split
  · exact h
  · simp only
    split <;> exact bank_insert_account_count_inv b _ h

theorem snapshot_apply_count_inv (b : bank_t) (s : bank_snapshot_t) (h : count_inv b) :
    count_inv (snapshot_apply b s) := by
  obtain ⟨h1, h2, _, _⟩ := snapshot_apply_result b s h.1
  refine ⟨?_, ?_⟩
  · unfold snapshot_apply
    simp only
    rw [apply_loop_length, List.length_append, List.length_replicate]
    have := h.1
    omega
  · rw [h1, h2, List.length_map]

theorem process_rollbacks_loop_count_inv (reqs : List rollback_req) :
    ∀ b : bank_t, count_inv b → count_inv (process_rollbacks_loop reqs b).1 := by
  induction reqs with
  | nil => intro b h; exact h
  | cons req rest ih =>
    intro b h
    unfold process_rollbacks_loop
    split
    · exact ih b h
    · simp only
      exact ih _ (snapshot_apply_count_inv b _ h)

theorem bank_status_iteration_count_inv (b : bank_t) (h : count_inv b) :
    count_inv (bank_status_iteration b).1 := by
  rw [bank_status_iteration_eq]
  simp only
  unfold bank_process_rollbacks
  apply process_rollbacks_loop_count_inv
  obtain ⟨_, _, _, _, _, _, h7, _, _, h10⟩ :=
    close_loop_ring (List.range' 1 b.atm_count.toNat) (snapshot_capture b (status_array b))
  unfold count_inv bank_t.accounts
  simp only
  rw [h7, h10]
  exact h

theorem engine_step_count_inv (b : bank_t) (op : engine_op) (h : count_inv b) :
    count_inv (engine_step b op).b := by
  have keep : ((engine_step b op).b.entries.length = b.entries.length ∧
      entry_ids (engine_step b op).b.entries = entry_ids b.entries) →
      (engine_step b op).b.count = b.count → count_inv (engine_step b op).b := by
    rintro ⟨h1, h2⟩ h3
    exact ⟨by rw [h1]; exact h.1, by rw [h3, accounts_length_of_ids h2]; exact h.2⟩
  cases op with
  | open_account a i p x y => exact bank_open_count_inv b a i p x y h
  | close_account a i p => exact bank_close_count_inv b a i p h
  | deposit a i p c m => exact keep (bank_deposit_ids b a i p c m) (bank_deposit_count b a i p c m)
  | withdraw a i p c m =>
    exact keep (bank_withdraw_ids b a i p c m) (bank_withdraw_count b a i p c m)
  | balance a i p =>
    have hb : (engine_step b (.balance a i p)).b = b := bank_balance_ids b a i p
    rw [hb]; exact h
  | transfer a i p j c m =>
    exact keep (bank_transfer_ids b a i p j c m) (bank_transfer_count b a i p j c m)
  | exchange a i p f t m =>
    exact keep (bank_exchange_ids b a i p f t m) (bank_exchange_count b a i p f t m)
  | invest_debit i p m c t =>
    exact keep (bank_invest_debit_ids b i p m c t) (bank_invest_debit_count b i p m c t)
  | invest_credit i c f =>
    exact keep (bank_invest_credit_ids b i c f) (bank_invest_credit_count b i c f)
  | close_atm s t =>
    have hb : (engine_step b (.close_atm s t)).b.entries = b.entries :=
      bank_close_atm_request_entries b s t
    have hc : (engine_step b (.close_atm s t)).b.count = b.count := by
      show (bank_close_atm_request b s t).b.count = b.count
      unfold bank_close_atm_request
      split
      · rfl
      · split <;> rfl
    exact keep (by rw [hb]; exact ⟨rfl, rfl⟩) hc
  | rollback a k =>
    have hb : (engine_step b (.rollback a k)).b.entries = b.entries :=
      bank_rollback_entries b a k
    have hc : (engine_step b (.rollback a k)).b.count = b.count := by
      show (bank_rollback b a k).b.count = b.count
      unfold bank_rollback
      split <;> rfl
    exact keep (by rw [hb]; exact ⟨rfl, rfl⟩) hc
  | status_tick => exact bank_status_iteration_count_inv b h
  | commission_tick seed =>
    exact keep ⟨(commission_loop_cell b.entries seed b.bank_ils b.bank_usd 0).1,
      commission_loop_ids b.entries seed b.bank_ils b.bank_usd⟩ rfl

theorem engine_run_count_inv (ops : List engine_op) :
    ∀ b : bank_t, count_inv b → count_inv (engine_run b ops).1 := by
  induction ops with
  | nil => intro b h; exact h
  | cons op rest ih =>
    intro b h
    simp only [engine_run]
    exact ih _ (engine_step_count_inv b op h)

theorem bank_init_state_count_inv (atm_count : Int) : count_inv (bank_init_state atm_count) := by
  refine ⟨by simp [bank_init_state], ?_⟩
  have : (bank_init_state atm_count).accounts = [] := by
    simp [bank_t.accounts, bank_init_state]
  rw [this]
  rfl

/-- C38: in every state reached from a freshly initialised bank by engine
steps (OPEN, CLOSE, rollback applications inside status iterations, and every
other step), `count` is the number of occupied slots of the entry array and is
at most the capacity; so the collection loop of the status service, which
stops when `k` reaches `count`, records every live account, in slot order, and
ends with `k = count`. -/
theorem count_is_live_accounts (atm_count : Int) (ops : List engine_op) :
    (engine_run (bank_init_state atm_count) ops).1.count =
      ((engine_run (bank_init_state atm_count) ops).1.accounts.length : Int) ∧
    (engine_run (bank_init_state atm_count) ops).1.count ≤
      ((engine_run (bank_init_state atm_count) ops).1.capacity : Int) ∧
    collect_status (engine_run (bank_init_state atm_count) ops).1.entries 0
        (engine_run (bank_init_state atm_count) ops).1.count =
      (engine_run (bank_init_state atm_count) ops).1.accounts.map (fun a =>
        { id := a.id, password := a.password, ils := a.balance_ils, usd := a.balance_usd }) ∧
    ((collect_status (engine_run (bank_init_state atm_count) ops).1.entries 0
        (engine_run (bank_init_state atm_count) ops).1.count).length : Int) =
      (engine_run (bank_init_state atm_count) ops).1.count := by
  obtain ⟨_, hc⟩ := engine_run_count_inv ops _ (bank_init_state_count_inv atm_count)
  have hall := collect_status_all (engine_run (bank_init_state atm_count) ops).1.entries 0
    (engine_run (bank_init_state atm_count) ops).1.count
    (by rw [hc]; simp [bank_t.accounts])
  refine ⟨hc, ?_, hall, ?_⟩
  · rw [hc]
    unfold bank_t.accounts bank_t.capacity
    exact_mod_cast List.length_filterMap_le _ _
  · rw [hall, List.length_map, hc]
    rfl

set_option maxRecDepth 1000000 in
theorem count_is_live_accounts_witness :
    (bank_after ops_reopen).count = 2 ∧
    (bank_after ops_reopen).accounts.length = 2 ∧
    (bank_after ops_reopen).count = ((bank_after ops_reopen).accounts.length : Int) :=
  ⟨by decide, by decide, (count_is_live_accounts 1 ops_reopen).1⟩

/-! ## C36: the close step of the status service -/

theorem arr_get_set_nat (arr : List Int) (t i : Nat) (v : Int) (ht : t < arr.length) :
    arr_get (arr_set arr (t : Int) v) (i : Int) = if i = t then v else arr_get arr (i : Int) := by
  rw [arr_get_set]
  simp only [Int.toNat_ofNat]
  by_cases h : i = t
  · subst h
    rw [if_pos ⟨rfl, ht⟩, if_pos rfl]
  · rw [if_neg (fun hc => h hc.1.symm), if_neg h]

theorem arr_set_length (arr : List Int) (t v : Int) : (arr_set arr t v).length = arr.length := by
  unfold arr_set
  exact List.length_set _ _ _

theorem close_loop_spec (targets : List Nat) :
    ∀ b : bank_t, targets.Nodup →
      (∀ t ∈ targets, t < b.atm_closed.length ∧ t < b.atm_close_req.length) →
      (∀ t ∈ targets, arr_get b.atm_close_req (t : Int) ≠ 0 →
        arr_get b.atm_closed (t : Int) = 0) →
      (∀ i : Nat, arr_get (close_loop targets b).1.atm_closed (i : Int) =
        if i ∈ targets ∧ arr_get b.atm_close_req (i : Int) ≠ 0 then 1
        else arr_get b.atm_closed (i : Int)) ∧
      (∀ i : Nat, arr_get (close_loop targets b).1.atm_close_req (i : Int) =
        if i ∈ targets then 0 else arr_get b.atm_close_req (i : Int)) ∧
      (close_loop targets b).2 =
        (targets.filter (fun t : Nat => decide (arr_get b.atm_close_req (t : Int) ≠ 0))).map
          (fun t : Nat => log_atm_closed (arr_get b.atm_close_req (t : Int)) t) ∧
      (close_loop targets b).1.atm_closed.length = b.atm_closed.length ∧
      (close_loop targets b).1.atm_close_req.length = b.atm_close_req.length := by
  induction targets with
  | nil =>
    intro b _ _ _
    refine ⟨fun i => ?_, fun i => ?_, rfl, rfl, rfl⟩
    · simp [close_loop]
    · simp [close_loop]
  | cons t rest ih =>
    intro b hnd hlen hpend
    rw [List.nodup_cons] at hnd
    obtain ⟨htc, htr⟩ := hlen t (List.mem_cons_self _ _)
    by_cases hsrc : arr_get b.atm_close_req (t : Int) ≠ 0
    · have hcl : arr_get b.atm_closed (t : Int) = 0 := hpend t (List.mem_cons_self _ _) hsrc
      obtain ⟨b1, hb1⟩ : ∃ b1 : bank_t, b1 =
          { b with atm_closed := arr_set b.atm_closed (t : Int) 1,
                   atm_close_req := arr_set b.atm_close_req (t : Int) 0 } := ⟨_, rfl⟩
      have hstep : close_loop (t :: rest) b =
          ((close_loop rest b1).1,
           log_atm_closed (arr_get b.atm_close_req (t : Int)) t :: (close_loop rest b1).2) := by
        rw [hb1]
        conv => lhs; unfold close_loop
        simp only
        rw [if_pos ⟨hsrc, hcl⟩]
        rfl
      have hc1 : ∀ i : Nat, arr_get b1.atm_closed (i : Int) =
          if i = t then 1 else arr_get b.atm_closed (i : Int) := by
        intro i; rw [hb1]; exact arr_get_set_nat _ t i 1 htc
      have hr1 : ∀ i : Nat, arr_get b1.atm_close_req (i : Int) =
          if i = t then 0 else arr_get b.atm_close_req (i : Int) := by
        intro i; rw [hb1]; exact arr_get_set_nat _ t i 0 htr
      have hl1 : b1.atm_closed.length = b.atm_closed.length := by
        rw [hb1]; exact arr_set_length _ _ _
      have hl2 : b1.atm_close_req.length = b.atm_close_req.length := by
        rw [hb1]; exact arr_set_length _ _ _
      have hne : ∀ x ∈ rest, x ≠ t := fun x hx he => hnd.1 (he ▸ hx)
      obtain ⟨g1, g2, g3, g4, g5⟩ := ih b1 hnd.2
        (fun x hx => by
          rw [hl1, hl2]; exact hlen x (List.mem_cons_of_mem _ hx))
        (fun x hx hp => by
          rw [hc1, if_neg (hne x hx)]
          rw [hr1, if_neg (hne x hx)] at hp
          exact hpend x (List.mem_cons_of_mem _ hx) hp)
      rw [hstep]
      refine ⟨?_, ?_, ?_, by rw [g4, hl1], by rw [g5, hl2]⟩
      · intro i
        simp only
        rw [g1 i, hc1 i, hr1 i]
        by_cases hit : i = t
        · subst hit
          rw [if_neg (fun hc => hnd.1 hc.1), if_pos rfl,
            if_pos ⟨List.mem_cons_self _ _, hsrc⟩]
        · simp only [hit, if_false, List.mem_cons, false_or]
      · intro i
        simp only
        rw [g2 i, hr1 i]
        by_cases hit : i = t
        · subst hit
          rw [if_neg hnd.1, if_pos rfl, if_pos (List.mem_cons_self _ _)]
        · simp only [hit, if_false, List.mem_cons, false_or]
      · simp only
        rw [g3, List.filter_cons_of_pos (by simpa using hsrc), List.map_cons]
        congr 1
        have hf : rest.filter (fun x : Nat => decide (arr_get b1.atm_close_req (x : Int) ≠ 0)) =
            rest.filter (fun x : Nat => decide (arr_get b.atm_close_req (x : Int) ≠ 0)) := by
          apply List.filter_congr
          intro x hx
          rw [hr1, if_neg (hne x hx)]
        rw [hf]
        apply List.map_congr_left
        intro x hx
        have hx2 := List.mem_of_mem_filter hx
        rw [hr1, if_neg (hne x hx2)]
    · have hzero : arr_get b.atm_close_req (t : Int) = 0 := by
        by_contra hc; exact hsrc hc
      have hstep : close_loop (t :: rest) b = close_loop rest b := by
        conv => lhs; unfold close_loop
        simp only
        rw [if_neg (fun hc => hsrc hc.1)]
      obtain ⟨g1, g2, g3, g4, g5⟩ := ih b hnd.2
        (fun x hx => hlen x (List.mem_cons_of_mem _ hx))
        (fun x hx hp => hpend x (List.mem_cons_of_mem _ hx) hp)
      rw [hstep]
      refine ⟨?_, ?_, ?_, g4, g5⟩
      · intro i
        rw [g1 i]
        by_cases hit : i = t
        · subst hit
          rw [if_neg (fun hc => hnd.1 hc.1), if_neg (fun hc => hc.2 hzero)]
        · simp only [List.mem_cons, hit, false_or]
      · intro i
        rw [g2 i]
        by_cases hit : i = t
        · subst hit
          rw [if_neg hnd.1, if_pos (List.mem_cons_self _ _), hzero]
        · simp only [List.mem_cons, hit, false_or]
      · rw [g3, List.filter_cons_of_neg (by simpa using hzero)]

theorem agent_inv_init (atm_count : Int) : agent_inv (bank_init_state atm_count) := by
  refine ⟨by simp [bank_init_state], by simp [bank_init_state], fun i => ?_⟩
  have h1 : arr_get (bank_init_state atm_count).atm_closed (i : Int) = 0 := by
    simp only [arr_get, bank_init_state, List.getD_eq_getElem?_getD, List.getElem?_replicate]
    split <;> rfl
  exact ⟨Or.inl h1, fun _ => h1⟩

theorem bank_close_atm_request_agent_inv (b : bank_t) (s t : Int) (h : agent_inv b) :
    agent_inv (bank_close_atm_request b s t).b := by
  obtain ⟨hl1, hl2, hall⟩ := h
  unfold bank_close_atm_request
  split
  · exact ⟨hl1, hl2, hall⟩
  · split
    · exact ⟨hl1, hl2, hall⟩
    · rename_i hr hg
      simp only [not_or, not_not] at hg
      refine ⟨hl1, ?_, fun i => ⟨(hall i).1, ?_⟩⟩
      · simp only
        rw [arr_set_length]
        exact hl2
      · simp only
        rw [arr_get_set]
        split
        · rename_i hti
          intro _
          have : (i : Int) = t := by
            have := hti.1
            simp only [Int.toNat_ofNat] at this
            omega
          rw [this]
          exact hg.1
        · exact (hall i).2

theorem agent_inv_congr {b b2 : bank_t} (h1 : b2.atm_count = b.atm_count)
    (h2 : b2.atm_closed = b.atm_closed) (h3 : b2.atm_close_req = b.atm_close_req)
    (h : agent_inv b) : agent_inv b2 := by
  unfold agent_inv at h ⊢
  rw [h1, h2, h3]
  exact h

theorem range_targets_mem (n t : Nat) : t ∈ List.range' 1 n ↔ 1 ≤ t ∧ t ≤ n := by
  rw [List.mem_range'_1]
  omega

theorem close_step_spec (b : bank_t) (arr : List acc_status_t) (h : agent_inv b) :
    (∀ i : Nat, arr_get (close_loop (List.range' 1 b.atm_count.toNat)
        (snapshot_capture b arr)).1.atm_closed (i : Int) =
      if (1 ≤ i ∧ i ≤ b.atm_count.toNat) ∧ arr_get b.atm_close_req (i : Int) ≠ 0 then 1
      else arr_get b.atm_closed (i : Int)) ∧
    (∀ i : Nat, arr_get (close_loop (List.range' 1 b.atm_count.toNat)
        (snapshot_capture b arr)).1.atm_close_req (i : Int) =
      if 1 ≤ i ∧ i ≤ b.atm_count.toNat then 0 else arr_get b.atm_close_req (i : Int)) ∧
    (close_loop (List.range' 1 b.atm_count.toNat) (snapshot_capture b arr)).2 =
      ((List.range' 1 b.atm_count.toNat).filter
        (fun t : Nat => decide (arr_get b.atm_close_req (t : Int) ≠ 0))).map
        (fun t : Nat => log_atm_closed (arr_get b.atm_close_req (t : Int)) t) ∧
    (close_loop (List.range' 1 b.atm_count.toNat)
        (snapshot_capture b arr)).1.atm_closed.length = b.atm_closed.length ∧
    (close_loop (List.range' 1 b.atm_count.toNat)
        (snapshot_capture b arr)).1.atm_close_req.length = b.atm_close_req.length := by
  obtain ⟨hl1, hl2, hall⟩ := h
  have hc : (snapshot_capture b arr).atm_closed = b.atm_closed := rfl
  have hr : (snapshot_capture b arr).atm_close_req = b.atm_close_req := rfl
  obtain ⟨g1, g2, g3, g4, g5⟩ := close_loop_spec (List.range' 1 b.atm_count.toNat)
    (snapshot_capture b arr) (List.nodup_range' _ _)
    (fun t ht => by
      rw [hc, hr, hl1, hl2]
      rw [range_targets_mem] at ht
      omega)
    (fun t _ hp => by
      rw [hc]
      rw [hr] at hp
      exact (hall t).2 hp)
  rw [hc] at g1 g4
  rw [hr] at g1 g2 g3 g5
  refine ⟨fun i => ?_, fun i => ?_, g3, g4, g5⟩
  · rw [g1 i]
    simp only [range_targets_mem]
  · rw [g2 i]
    simp only [range_targets_mem]

theorem bank_status_iteration_agents (b : bank_t) :
    (bank_status_iteration b).1.atm_closed =
      (close_loop (List.range' 1 b.atm_count.toNat)
        (snapshot_capture b (status_array b))).1.atm_closed ∧
    (bank_status_iteration b).1.atm_close_req =
      (close_loop (List.range' 1 b.atm_count.toNat)
        (snapshot_capture b (status_array b))).1.atm_close_req ∧
    (bank_status_iteration b).1.atm_count = b.atm_count := by
  rw [bank_status_iteration_eq]
  simp only
  unfold bank_process_rollbacks
  have hframe := process_rollbacks_loop_frame
    (close_loop (List.range' 1 b.atm_count.toNat)
      (snapshot_capture b (status_array b))).1.rb_queue
    { (close_loop (List.range' 1 b.atm_count.toNat)
      (snapshot_capture b (status_array b))).1 with rb_queue := [] }
  refine ⟨hframe.1.2.1, hframe.2.1, ?_⟩
  rw [hframe.1.1]
  exact (close_loop_ring _ (snapshot_capture b (status_array b))).2.2.2.2.1

theorem bank_status_iteration_agent_inv (b : bank_t) (h : agent_inv b) :
    agent_inv (bank_status_iteration b).1 := by
  obtain ⟨e1, e2, e3⟩ := bank_status_iteration_agents b
  obtain ⟨g1, g2, _, g4, g5⟩ := close_step_spec b (status_array b) h
  obtain ⟨hl1, hl2, hall⟩ := h
  unfold agent_inv
  rw [e1, e2, e3, g4, g5]
  refine ⟨hl1, hl2, fun i => ⟨?_, ?_⟩⟩
  · rw [g1 i]
    split
    · exact Or.inr rfl
    · exact (hall i).1
  · rw [g1 i, g2 i]
    intro hp
    by_cases hin : 1 ≤ i ∧ i ≤ b.atm_count.toNat
    · rw [if_pos hin] at hp
      exact absurd rfl hp
    · rw [if_neg hin] at hp
      rw [if_neg (fun hc => hin hc.1)]
      exact (hall i).2 hp

theorem engine_step_agent_inv (b : bank_t) (op : engine_op) (h : agent_inv b) :
    agent_inv (engine_step b op).b := by
  cases op with
  | open_account a i p x y =>
    have f := bank_open_frame b a i p x y
    exact agent_inv_congr f.1.1 f.1.2.1 f.2.1 h
  | close_account a i p =>
    have f := bank_close_frame b a i p
    exact agent_inv_congr f.1.1 f.1.2.1 f.2.1 h
  | deposit a i p c m =>
    have f := bank_deposit_frame b a i p c m
    exact agent_inv_congr f.1.1 f.1.2.1 f.2.1 h
  | withdraw a i p c m =>
    have f := bank_withdraw_frame b a i p c m
    exact agent_inv_congr f.1.1 f.1.2.1 f.2.1 h
  | balance a i p =>
    have f := bank_balance_frame b a i p
    exact agent_inv_congr f.1.1 f.1.2.1 f.2.1 h
  | transfer a i p j c m =>
    have f := bank_transfer_frame b a i p j c m
    exact agent_inv_congr f.1.1 f.1.2.1 f.2.1 h
  | exchange a i p f t m =>
    have f := bank_exchange_frame b a i p f t m
    exact agent_inv_congr f.1.1 f.1.2.1 f.2.1 h
  | invest_debit i p m c t =>
    have f := bank_invest_debit_frame b i p m c t
    exact agent_inv_congr f.1.1 f.1.2.1 f.2.1 h
  | invest_credit i c f =>
    have f := bank_invest_credit_frame b i c f
    exact agent_inv_congr f.1.1 f.1.2.1 f.2.1 h
  | close_atm s t => exact bank_close_atm_request_agent_inv b s t h
  | rollback a k =>
    have f := bank_rollback_frame b a k
    exact agent_inv_congr f.1.1 f.1.2.1 f.2 h
  | status_tick => exact bank_status_iteration_agent_inv b h
  | commission_tick seed =>
    have f := bank_commission_iteration_frame b seed
    exact agent_inv_congr f.1.1 f.1.2.1 f.2.1 h

theorem engine_run_agent_inv (ops : List engine_op) :
    ∀ b : bank_t, agent_inv b → agent_inv (engine_run b ops).1 := by
  induction ops with
  | nil => intro b h; exact h
  | cons op rest ih =>
    intro b h
    simp only [engine_run]
    exact ih _ (engine_step_agent_inv b op h)

/-- C36: in every state `b` reached from a freshly initialised bank by engine
steps, the invariant `agent_inv` holds (both arrays have `atm_count + 1` cells,
closed flags are 0 or 1, a pending close implies the agent is not yet closed),
and the status iteration run on `b` does the following to the agents.  Every
target `1 <= t <= atm_count` with `atm_close_req[t] != 0` has
`atm_closed[t] = 1` afterwards; `atm_close_req[t] = 0` afterwards for every
target; the log of the iteration starts with exactly one line
"Bank: ATM %d closed %d successfully" per target that had a pending close, in
increasing target order, carrying the stored requestor and the target, followed
by the lines of the rollback processing; and the closed flag of every other
agent index is unchanged. -/
theorem close_step_effect (atm_count : Int) (ops : List engine_op) :
    agent_inv (engine_run (bank_init_state atm_count) ops).1 ∧
    (∀ t : Nat, 1 ≤ t → t ≤ (engine_run (bank_init_state atm_count) ops).1.atm_count.toNat →
      arr_get (engine_run (bank_init_state atm_count) ops).1.atm_close_req (t : Int) ≠ 0 →
      arr_get (bank_status_iteration
        (engine_run (bank_init_state atm_count) ops).1).1.atm_closed (t : Int) = 1) ∧
    (∀ t : Nat, 1 ≤ t → t ≤ (engine_run (bank_init_state atm_count) ops).1.atm_count.toNat →
      arr_get (bank_status_iteration
        (engine_run (bank_init_state atm_count) ops).1).1.atm_close_req (t : Int) = 0) ∧
    (∃ rest : List log_rec,
      (bank_status_iteration (engine_run (bank_init_state atm_count) ops).1).2 =
      ((List.range' 1 (engine_run (bank_init_state atm_count) ops).1.atm_count.toNat).filter
        (fun t : Nat => decide
          (arr_get (engine_run (bank_init_state atm_count) ops).1.atm_close_req
            (t : Int) ≠ 0))).map
        (fun t : Nat => log_atm_closed
          (arr_get (engine_run (bank_init_state atm_count) ops).1.atm_close_req (t : Int)) t)
      ++ rest ∧
      rest = (bank_process_rollbacks
        (close_loop
          (List.range' 1 (engine_run (bank_init_state atm_count) ops).1.atm_count.toNat)
          (snapshot_capture (engine_run (bank_init_state atm_count) ops).1
            (status_array (engine_run (bank_init_state atm_count) ops).1))).1).2) ∧
    (∀ i : Nat,
      ¬ ((1 ≤ i ∧ i ≤ (engine_run (bank_init_state atm_count) ops).1.atm_count.toNat) ∧
        arr_get (engine_run (bank_init_state atm_count) ops).1.atm_close_req (i : Int) ≠ 0) →
      arr_get (bank_status_iteration
        (engine_run (bank_init_state atm_count) ops).1).1.atm_closed (i : Int) =
      arr_get (engine_run (bank_init_state atm_count) ops).1.atm_closed (i : Int)) := by
  have hinv := engine_run_agent_inv ops _ (agent_inv_init atm_count)
  obtain ⟨e1, e2, _⟩ := bank_status_iteration_agents
    (engine_run (bank_init_state atm_count) ops).1
  obtain ⟨g1, g2, g3, _, _⟩ := close_step_spec (engine_run (bank_init_state atm_count) ops).1
    (status_array (engine_run (bank_init_state atm_count) ops).1) hinv
  refine ⟨hinv, ?_, ?_, ?_, ?_⟩
  · intro t h1 h2 hp
    rw [e1, g1 t, if_pos ⟨⟨h1, h2⟩, hp⟩]
  · intro t h1 h2
    rw [e2, g2 t, if_pos ⟨h1, h2⟩]
  · refine ⟨_, ?_, rfl⟩
    rw [← g3]
    rw [bank_status_iteration_eq]
  · intro i hn
    rw [e1, g1 i, if_neg hn]

set_option maxRecDepth 1000000 in
/-- C36, a concrete run: four agents; agent 3 is closed by an earlier status
iteration, then agents 2 and 4 get pending closes from agents 1 and 2 and a
request for the closed agent 3 is refused.  The next status iteration closes 2
and 4, clears both requests and logs the two lines. -/
theorem close_step_effect_witness :
    (engine_run (bank_init_state 4) ops_close_agents).1.atm_closed = [0, 0, 0, 1, 0] ∧
    (engine_run (bank_init_state 4) ops_close_agents).1.atm_close_req = [0, 0, 1, 0, 2] ∧
    arr_get (bank_status_iteration
      (engine_run (bank_init_state 4) ops_close_agents).1).1.atm_closed ((4 : Nat) : Int) = 1 ∧
    arr_get (bank_status_iteration
      (engine_run (bank_init_state 4) ops_close_agents).1).1.atm_close_req ((2 : Nat) : Int) = 0 ∧
    (bank_status_iteration (engine_run (bank_init_state 4) ops_close_agents).1).1.atm_closed =
      [0, 0, 1, 1, 1] ∧
    (bank_status_iteration (engine_run (bank_init_state 4) ops_close_agents).1).1.atm_close_req =
      [0, 0, 0, 0, 0] ∧
    (bank_status_iteration (engine_run (bank_init_state 4) ops_close_agents).1).2 =
      [log_atm_closed 1 2, log_atm_closed 2 4] :=
  ⟨by decide, by decide,
   (close_step_effect 4 ops_close_agents).2.1 4 (by decide) (by decide) (by decide),
   (close_step_effect 4 ops_close_agents).2.2.1 2 (by decide) (by decide),
   by decide, by decide, by decide⟩

/-! ## C31: stripping the trailing flags -/

theorem strip_flags_loop_append (xs ys : List (List Char)) :
    ∀ (n : Nat) (p v : Int), n ≤ xs.length →
      strip_flags_loop (xs ++ ys) n p v = strip_flags_loop xs n p v := by
  intro n
  induction n with
  | zero => intro p v _; rfl
  | succ n ih =>
    intro p v hn
    have hget : (xs ++ ys).getD n [] = xs.getD n [] := by
      rw [List.getD_eq_getElem?_getD, List.getD_eq_getElem?_getD,
        List.getElem?_append_left (by omega)]
    unfold strip_flags_loop
    rw [hget, ih 1 v (by omega)]
    simp only [ih _ _ (Nat.le_of_succ_le hn)]

theorem strip_flags_loop_snoc (xs : List (List Char)) (t : List Char) (p v : Int) :
    strip_flags_loop (xs ++ [t]) (xs.length + 1) p v =
      if strcmp_eq t str_PERSISTENT then strip_flags_loop xs xs.length 1 v
      else if strncmp_eq t str_VIP 4 then
        if atoi (t.drop 4) < 1 ∨ atoi (t.drop 4) > 100 then none
        else strip_flags_loop xs xs.length p (atoi (t.drop 4))
      else some (xs.length + 1, p, v) := by
  have hget : (xs ++ [t]).getD xs.length [] = t := by
    rw [List.getD_eq_getElem?_getD, List.getElem?_append_right (Nat.le_refl _)]
    simp
  conv => lhs; unfold strip_flags_loop
  simp only [hget, strip_flags_loop_append xs [t] xs.length _ _ (Nat.le_refl _)]

theorem strip_flags_loop_base (base : List (List Char)) (p v : Int)
    (hbase : ∀ t, base.getLast? = some t → t ≠ str_PERSISTENT ∧ t.take 4 ≠ str_VIP) :
    strip_flags_loop base base.length p v = some (base.length, p, v) := by
  rcases List.eq_nil_or_concat base with h | ⟨xs, t, h⟩
  · subst h; rfl
  · subst h
    obtain ⟨h1, h2⟩ := hbase t (by simp)
    rw [List.concat_eq_append, List.length_append, List.length_singleton,
      strip_flags_loop_snoc]
    have e1 : strcmp_eq t str_PERSISTENT = false := by
      simp [strcmp_eq, h1]
    have e2 : strncmp_eq t str_VIP 4 = false := by
      have : str_VIP.take 4 = str_VIP := rfl
      simp [strncmp_eq, this, h2]
    rw [e1, e2]
    rfl

theorem strip_PERSISTENT (xs : List (List Char)) (p v : Int) :
    strip_flags_loop (xs ++ [str_PERSISTENT]) (xs.length + 1) p v =
      strip_flags_loop xs xs.length 1 v := by
  rw [strip_flags_loop_snoc]
  have e1 : strcmp_eq str_PERSISTENT str_PERSISTENT = true := by simp [strcmp_eq]
  rw [e1]
  rfl

theorem strip_vip_token (xs : List (List Char)) (s : List Char) (p v k : Int)
    (hs : atoi s = k) (h1 : 1 ≤ k) (h2 : k ≤ 100) :
    strip_flags_loop (xs ++ [vip_token s]) (xs.length + 1) p v =
      strip_flags_loop xs xs.length p k := by
  rw [strip_flags_loop_snoc]
  have e1 : strcmp_eq (vip_token s) str_PERSISTENT = false := by
    simp [strcmp_eq, vip_token, str_VIP, str_PERSISTENT]
  have e2 : strncmp_eq (vip_token s) str_VIP 4 = true := by
    simp [strncmp_eq, vip_token, str_VIP]
  have e3 : (vip_token s).drop 4 = s := by
    simp [vip_token, str_VIP]
  rw [e1, e2, e3, hs]
  simp only [Bool.false_eq_true, if_false, if_true]
  rw [if_neg (by omega)]

set_option maxRecDepth 100000 in
theorem atoi_decimal (n : Nat) (h1 : 1 ≤ n) (h2 : n ≤ 100) : atoi (decimal n) = (n : Int) := by
  interval_cases n <;> decide

theorem vip_token_ne_PERSISTENT (s : List Char) : vip_token s ≠ str_PERSISTENT := by
  simp [vip_token, str_VIP, str_PERSISTENT]

/-- C31: let the last token of `base` (if any) be neither "PERSISTENT" nor
start with "VIP=", let `s` be a string with `atoi s = k` and `1 <= k <= 100`
(the decimal numeral of every such `k` is one), and let `flags` be one of
`[]`, `[PERSISTENT]`, `[VIP=s]`, `[PERSISTENT, VIP=s]`, `[VIP=s, PERSISTENT]`.
Then `strip_flags` on `base ++ flags` returns the length of `base`, with
`persistent = 1` exactly when PERSISTENT is among the flags (0 otherwise) and
`vip_prio = k` when the VIP token is among them (0 otherwise); the two orders
of the pair give the same result; and `strip_flags` applied again with the
returned `ntok`, or to `base` itself, returns the same length with both flags
0. -/
theorem strip_flags_effect (base flags : List (List Char)) (s : List Char) (k : Int)
    (hbase : ∀ t, base.getLast? = some t → t ≠ str_PERSISTENT ∧ t.take 4 ≠ str_VIP)
    (hs : atoi s = k) (h1 : 1 ≤ k) (h2 : k ≤ 100)
    (hflags : flags = [] ∨ flags = [str_PERSISTENT] ∨ flags = [vip_token s] ∨
      flags = [str_PERSISTENT, vip_token s] ∨ flags = [vip_token s, str_PERSISTENT]) :
    strip_flags (base ++ flags) (base ++ flags).length =
      some (base.length, (if str_PERSISTENT ∈ flags then 1 else 0),
        (if vip_token s ∈ flags then k else 0)) ∧
    strip_flags (base ++ [str_PERSISTENT, vip_token s]) (base.length + 2) =
      strip_flags (base ++ [vip_token s, str_PERSISTENT]) (base.length + 2) ∧
    strip_flags (base ++ flags) base.length = some (base.length, 0, 0) ∧
    strip_flags base base.length = some (base.length, 0, 0) ∧
    (∀ n : Nat, 1 ≤ n → n ≤ 100 → atoi (decimal n) = (n : Int)) := by
  have hne := vip_token_ne_PERSISTENT s
  have hb : ∀ p v : Int, strip_flags_loop base base.length p v = some (base.length, p, v) :=
    fun p v => strip_flags_loop_base base p v hbase
  have hP : ∀ p v : Int, strip_flags_loop (base ++ [str_PERSISTENT]) (base.length + 1) p v =
      some (base.length, 1, v) := fun p v => by rw [strip_PERSISTENT, hb]
  have hV : ∀ p v : Int, strip_flags_loop (base ++ [vip_token s]) (base.length + 1) p v =
      some (base.length, p, k) := fun p v => by rw [strip_vip_token _ s p v k hs h1 h2, hb]
  have hPV : strip_flags (base ++ [str_PERSISTENT, vip_token s]) (base.length + 2) =
      some (base.length, 1, k) := by
    have e : base ++ [str_PERSISTENT, vip_token s] =
        (base ++ [str_PERSISTENT]) ++ [vip_token s] := by simp
    have l : base.length + 2 = (base ++ [str_PERSISTENT]).length + 1 := by simp
    rw [strip_flags, e, l, strip_vip_token _ s 0 0 k hs h1 h2]
    rw [List.length_append, List.length_singleton, hP]
  have hVP : strip_flags (base ++ [vip_token s, str_PERSISTENT]) (base.length + 2) =
      some (base.length, 1, k) := by
    have e : base ++ [vip_token s, str_PERSISTENT] =
        (base ++ [vip_token s]) ++ [str_PERSISTENT] := by simp
    have l : base.length + 2 = (base ++ [vip_token s]).length + 1 := by simp
    rw [strip_flags, e, l, strip_PERSISTENT]
    rw [List.length_append, List.length_singleton, hV]
  refine ⟨?_, by rw [hPV, hVP], ?_, hb 0 0, atoi_decimal⟩
  · rcases hflags with h | h | h | h | h <;> subst h
    · simp only [List.append_nil, List.not_mem_nil, if_false]
      exact hb 0 0
    · rw [List.length_append, List.length_singleton]
      simp only [List.mem_singleton, if_true, hne, if_false]
      exact hP 0 0
    · rw [List.length_append, List.length_singleton]
      simp only [List.mem_singleton, if_true, hne.symm, if_false]
      exact hV 0 0
    · have l : (base ++ [str_PERSISTENT, vip_token s]).length = base.length + 2 := by simp
      rw [l, hPV]
      simp
    · have l : (base ++ [vip_token s, str_PERSISTENT]).length = base.length + 2 := by simp
      rw [l, hVP]
      simp
  · rw [strip_flags, strip_flags_loop_append base flags base.length 0 0 (Nat.le_refl _)]
    exact hb 0 0

set_option maxRecDepth 100000 in
/-- C31, a concrete line: `D 12 34 50 VIP=7 PERSISTENT` has four base tokens;
both flags are recognised and the priority is 7. -/
theorem strip_flags_effect_witness :
    atoi ['7'] = 7 ∧
    strip_flags ([['D'], ['1', '2'], ['3', '4'], ['5', '0']] ++
        [vip_token ['7'], str_PERSISTENT]) 6 = some (4, 1, 7) ∧
    strip_flags ([['D'], ['1', '2'], ['3', '4'], ['5', '0']] ++
        [vip_token ['7'], str_PERSISTENT]) 4 = some (4, 0, 0) :=
  ⟨by decide,
   (strip_flags_effect [['D'], ['1', '2'], ['3', '4'], ['5', '0']]
      [vip_token ['7'], str_PERSISTENT] ['7'] 7 (by decide) (by decide) (by decide)
      (by decide) (by decide)).1,
   (strip_flags_effect [['D'], ['1', '2'], ['3', '4'], ['5', '0']]
      [vip_token ['7'], str_PERSISTENT] ['7'] 7 (by decide) (by decide) (by decide)
      (by decide) (by decide)).2.2.1⟩

/-! ## C32: concurrent deposits to one account -/

theorem split_at_index {α : Type} (l : List α) (t : Nat) (x : α) (h : l[t]? = some x) :
    ∃ pre post : List α, l = pre ++ x :: post ∧ pre.length = t ∧
      ∀ y : α, l.set t y = pre ++ y :: post := by
  induction l generalizing t with
  | nil => simp at h
  | cons a rest ih =>
    cases t with
    | zero =>
      simp only [List.getElem?_cons_zero, Option.some.injEq] at h
      subst h
      exact ⟨[], rest, rfl, rfl, fun y => rfl⟩
    | succ n =>
      simp only [List.getElem?_cons_succ] at h
      obtain ⟨pre, post, e1, e2, e3⟩ := ih n h
      refine ⟨a :: pre, post, by rw [e1]; rfl, by simp [e2], fun y => ?_⟩
      simp only [List.set_cons_succ, e3, List.cons_append]

theorem dep_sum_split (f : dep_thread → Nat) (pre post : List dep_thread) (x : dep_thread) :
    dep_sum f (pre ++ x :: post) = dep_sum f pre + f x + dep_sum f post := by
  simp [dep_sum, Nat.add_assoc]

theorem dep_sum_zero (f : dep_thread → Nat) (l : List dep_thread) (h : dep_sum f l = 0) :
    ∀ th ∈ l, f th = 0 := by
  induction l with
  | nil => intro th hth; cases hth
  | cons a rest ih =>
    intro th hth
    have hs : dep_sum f (a :: rest) = f a + dep_sum f rest := by simp [dep_sum]
    rw [hs] at h
    rcases List.mem_cons.mp hth with e | e
    · subst e; omega
    · exact ih (by omega) th e

theorem wrap_int_add_wrap (x y : Int) : wrap_int (wrap_int x + y) = wrap_int (x + y) := by
  unfold wrap_int
  omega

theorem wrap_int_small (x : Int) (h0 : 0 ≤ x) (h1 : x ≤ 2147483647) : wrap_int x = x := by
  unfold wrap_int
  omega

theorem dep_writer_loaded (th : dep_thread) (h : dep_writer th = 0) : th.pc ≠ .loaded := by
  intro hc
  unfold dep_writer at h
  rw [hc] at h
  cases h

/-- The invariant is kept when thread `t` is replaced by `th2` and nothing
else changes but the listed fields. -/
theorem dep_inv_update (acc_id password : Int) (k : Nat) (s s2 : dep_state)
    (pre post : List dep_thread) (th th2 : dep_thread)
    (hs : s.threads = pre ++ th :: post) (hs2 : s2.threads = pre ++ th2 :: post)
    (hinv : dep_inv acc_id password k s)
    (hmap : s2.accounts_lock.writer_active = 0 ∧ s2.accounts_lock.writers_waiting = 0)
    (hread : s2.acc_lock.readers = 0)
    (hw : s2.acc_lock.writer_active =
      ((dep_sum dep_writer pre + dep_writer th2 + dep_sum dep_writer post : Nat) : Int))
    (hw1 : dep_sum dep_writer pre + dep_writer th2 + dep_sum dep_writer post ≤ 1)
    (hid : s2.acc.id = s.acc.id ∧ s2.acc.password = s.acc.password)
    (hbal : s2.acc.balance_ils =
      wrap_int ((dep_sum (dep_done k) pre + dep_done k th2 + dep_sum (dep_done k) post : Nat) : Int))
    (hth : th2.todo ≤ k ∧ (th2.pc ≠ .start → 0 < th2.todo) ∧
      (th2.pc = .loaded → th2.reg = s2.acc.balance_ils))
    (hothers : s2.acc.balance_ils = s.acc.balance_ils ∨
      (∀ x ∈ pre, x.pc ≠ .loaded) ∧ (∀ x ∈ post, x.pc ≠ .loaded)) :
    dep_inv acc_id password k s2 := by
  obtain ⟨_, _, _, _, _, i6, i7, _, i9⟩ := hinv
  refine ⟨hmap.1, hmap.2, hread, ?_, ?_, hid.1.trans i6, hid.2.trans i7, ?_, ?_⟩
  · rw [hs2, dep_sum_split]; exact hw
  · rw [hs2, dep_sum_split]; exact hw1
  · rw [hs2, dep_sum_split]; exact hbal
  · intro x hx
    rw [hs2] at hx
    rcases List.mem_append.mp hx with hx | hx
    · have hx0 := i9 x (by rw [hs]; exact List.mem_append_left _ hx)
      refine ⟨hx0.1, hx0.2.1, fun hl => ?_⟩
      rcases hothers with e | e
      · rw [e]; exact hx0.2.2 hl
      · exact absurd hl (e.1 x hx)
    · rcases List.mem_cons.mp hx with hx | hx
      · subst hx; exact hth
      · have hx0 := i9 x (by
          rw [hs]; exact List.mem_append_right _ (List.mem_cons_of_mem _ hx))
        refine ⟨hx0.1, hx0.2.1, fun hl => ?_⟩
        rcases hothers with e | e
        · rw [e]; exact hx0.2.2 hl
        · exact absurd hl (e.2 x hx)

theorem dep_step_inv (acc_id password : Int) (k : Nat) (s s2 : dep_state) (t : Nat)
    (hinv : dep_inv acc_id password k s)
    (hstep : dep_step acc_id password 1 s t = some s2) :
    dep_inv acc_id password k s2 ∧
    dep_sum dep_left s2.threads + 1 = dep_sum dep_left s.threads := by
  have hinv0 := hinv
  obtain ⟨i1, i2, i3, i4, i5, i6, i7, i8, i9⟩ := hinv
  unfold dep_step at hstep
  cases hth : s.threads[t]? with
  | none => rw [hth] at hstep; cases hstep
  | some th =>
    rw [hth] at hstep
    obtain ⟨pre, post, hs, _, hset⟩ := split_at_index s.threads t th hth
    have hthm : th ∈ s.threads := List.getElem?_mem hth
    obtain ⟨t1, t2, t3⟩ := i9 th hthm
    have hsumw := dep_sum_split dep_writer pre post th
    have hsumd := dep_sum_split (dep_done k) pre post th
    have hsuml := dep_sum_split dep_left pre post th
    rw [← hs] at hsumw hsumd hsuml
    have hno : dep_writer th = 1 →
        (∀ x ∈ pre, x.pc ≠ .loaded) ∧ (∀ x ∈ post, x.pc ≠ .loaded) := by
      intro hw
      have h0 : dep_sum dep_writer pre = 0 := by omega
      have h1 : dep_sum dep_writer post = 0 := by omega
      exact ⟨fun x hx => dep_writer_loaded x (dep_sum_zero _ _ h0 x hx),
             fun x hx => dep_writer_loaded x (dep_sum_zero _ _ h1 x hx)⟩
    cases hpc : th.pc with
    | start =>
      simp only [hpc] at hstep
      by_cases htodo : th.todo = 0
      · rw [if_pos htodo] at hstep; cases hstep
      · rw [if_neg htodo, if_neg (by decide),
          if_neg (by rw [i1, i2]; decide)] at hstep
        cases hstep
        have hw : dep_writer th = 0 := by simp [dep_writer, hpc]
        have hd : dep_done k th = k - th.todo := by simp [dep_done, hpc]
        have hl : dep_left th = 7 * th.todo := by simp [dep_left, hpc, dep_progress]
        refine ⟨dep_inv_update acc_id password k s _ pre post th { th with pc := .map_read }
          hs (hset _) hinv0 ⟨i1, i2⟩ i3 ?_ ?_ ⟨rfl, rfl⟩ ?_
          ⟨t1, fun _ => Nat.pos_of_ne_zero htodo, ?_⟩
          (Or.inl rfl), ?_⟩
        · simp only [dep_writer]; rw [i4, hsumw, hw]
        · simp only [dep_writer]; omega
        · simp only [dep_done]; rw [i8, hsumd, hd]; simp
        · intro hc; cases hc
        · simp only [hset]
          rw [dep_sum_split, hsuml, hl]
          simp only [dep_left, dep_progress]
          omega
    | map_read =>
      simp only [hpc] at hstep
      rw [if_neg (by rw [i6]; exact fun hc => hc rfl)] at hstep
      cases hstep
      have hw : dep_writer th = 0 := by simp [dep_writer, hpc]
      have hd : dep_done k th = k - th.todo := by simp [dep_done, hpc]
      have hl : dep_left th = 7 * th.todo - 1 := by simp [dep_left, hpc, dep_progress]
      have hpos := t2 (by rw [hpc]; decide)
      refine ⟨dep_inv_update acc_id password k s _ pre post th { th with pc := .acc_waiting }
        hs (hset _) hinv0 ⟨i1, i2⟩ i3 ?_ ?_ ⟨rfl, rfl⟩ ?_ ⟨t1, fun _ => hpos, ?_⟩
        (Or.inl rfl), ?_⟩
      · simp only [dep_writer]; rw [i4, hsumw, hw]
      · simp only [dep_writer]; omega
      · simp only [dep_done]; rw [i8, hsumd, hd]; simp
      · intro hc; cases hc
      · simp only [hset]
        rw [dep_sum_split, hsuml, hl]
        simp only [dep_left, dep_progress]
        omega
    | acc_waiting =>
      simp only [hpc] at hstep
      by_cases hg : s.acc_lock.writer_active ≠ 0 ∨ s.acc_lock.readers > 0
      · rw [if_pos hg] at hstep; cases hstep
      · rw [if_neg hg] at hstep
        cases hstep
        have hw : dep_writer th = 0 := by simp [dep_writer, hpc]
        have hd : dep_done k th = k - th.todo := by simp [dep_done, hpc]
        have hl : dep_left th = 7 * th.todo - 2 := by simp [dep_left, hpc, dep_progress]
        have hpos := t2 (by rw [hpc]; decide)
        have hfree : dep_sum dep_writer s.threads = 0 := by
          have : s.acc_lock.writer_active = 0 := by
            by_contra hc; exact hg (Or.inl hc)
          rw [i4] at this
          exact_mod_cast this
        refine ⟨dep_inv_update acc_id password k s _ pre post th
          { th with pc := .acc_write_map }
          hs (hset _) hinv0 ⟨i1, i2⟩ i3 ?_ ?_ ⟨rfl, rfl⟩ ?_ ⟨t1, fun _ => hpos, ?_⟩
          (Or.inl rfl), ?_⟩
        · simp only [dep_writer]
          have h0 : dep_sum dep_writer pre = 0 := by omega
          have h1 : dep_sum dep_writer post = 0 := by omega
          rw [h0, h1]; rfl
        · simp only [dep_writer]; omega
        · simp only [dep_done]; rw [i8, hsumd, hd]; simp
        · intro hc; cases hc
        · simp only [hset]
          rw [dep_sum_split, hsuml, hl]
          simp only [dep_left, dep_progress]
          omega
    | acc_write_map =>
      simp only [hpc] at hstep
      cases hstep
      have hw : dep_writer th = 1 := by simp [dep_writer, hpc]
      have hd : dep_done k th = k - th.todo := by simp [dep_done, hpc]
      have hl : dep_left th = 7 * th.todo - 3 := by simp [dep_left, hpc, dep_progress]
      have hpos := t2 (by rw [hpc]; decide)
      refine ⟨dep_inv_update acc_id password k s _ pre post th { th with pc := .locked }
        hs (hset _) hinv0 ⟨i1, i2⟩ i3 ?_ ?_ ⟨rfl, rfl⟩ ?_ ⟨t1, fun _ => hpos, ?_⟩
        (Or.inl rfl), ?_⟩
      · simp only [dep_writer]; rw [i4, hsumw, hw]
      · simp only [dep_writer]; omega
      · simp only [dep_done]; rw [i8, hsumd, hd]; simp
      · intro hc; cases hc
      · simp only [hset]
        rw [dep_sum_split, hsuml, hl]
        simp only [dep_left, dep_progress]
        omega
    | locked =>
      simp only [hpc] at hstep
      rw [if_neg (by rw [i7]; exact fun hc => hc rfl)] at hstep
      cases hstep
      have hw : dep_writer th = 1 := by simp [dep_writer, hpc]
      have hd : dep_done k th = k - th.todo := by simp [dep_done, hpc]
      have hl : dep_left th = 7 * th.todo - 4 := by simp [dep_left, hpc, dep_progress]
      have hpos := t2 (by rw [hpc]; decide)
      refine ⟨dep_inv_update acc_id password k s _ pre post th
        { th with pc := .loaded, reg := s.acc.balance_ils }
        hs (hset _) hinv0 ⟨i1, i2⟩ i3 ?_ ?_ ⟨rfl, rfl⟩ ?_ ⟨t1, fun _ => hpos, fun _ => rfl⟩
        (Or.inl rfl), ?_⟩
      · simp only [dep_writer]; rw [i4, hsumw, hw]
      · simp only [dep_writer]; omega
      · simp only [dep_done]; rw [i8, hsumd, hd]; simp
      · simp only [hset]
        rw [dep_sum_split, hsuml, hl]
        simp only [dep_left, dep_progress]
        omega
    | loaded =>
      simp only [hpc] at hstep
      cases hstep
      have hw : dep_writer th = 1 := by simp [dep_writer, hpc]
      have hd : dep_done k th = k - th.todo := by simp [dep_done, hpc]
      have hl : dep_left th = 7 * th.todo - 5 := by simp [dep_left, hpc, dep_progress]
      have hpos := t2 (by rw [hpc]; decide)
      have hreg := t3 hpc
      refine ⟨dep_inv_update acc_id password k s _ pre post th { th with pc := .stored }
        hs (hset _) hinv0 ⟨i1, i2⟩ i3 ?_ ?_ ⟨rfl, rfl⟩ ?_ ⟨t1, fun _ => hpos, ?_⟩
        (Or.inr (hno hw)), ?_⟩
      · simp only [dep_writer]; rw [i4, hsumw, hw]
      · simp only [dep_writer]; omega
      · simp only [dep_done]
        rw [hreg, i8, wrap_int_add_wrap, hsumd, hd]
        congr 1
        simp only [if_true]
        push_cast
        omega
      · intro hc; cases hc
      · simp only [hset]
        rw [dep_sum_split, hsuml, hl]
        simp only [dep_left, dep_progress]
        omega
    | stored =>
      simp only [hpc] at hstep
      cases hstep
      have hw : dep_writer th = 1 := by simp [dep_writer, hpc]
      have hd : dep_done k th = k - th.todo + 1 := by simp [dep_done, hpc]
      have hl : dep_left th = 7 * th.todo - 6 := by simp [dep_left, hpc, dep_progress]
      have hpos := t2 (by rw [hpc]; decide)
      refine ⟨dep_inv_update acc_id password k s _ pre post th
        { th with pc := .start, todo := th.todo - 1 }
        hs (hset _) hinv0 ⟨i1, i2⟩ i3 ?_ ?_ ⟨rfl, rfl⟩ ?_
        ⟨by simp only; omega, fun hc => absurd rfl hc, ?_⟩
        (Or.inl rfl), ?_⟩
      · simp only [dep_writer]
        have h0 : dep_sum dep_writer pre = 0 := by omega
        have h1 : dep_sum dep_writer post = 0 := by omega
        rw [h0, h1]; rfl
      · simp only [dep_writer]; omega
      · simp only [dep_done]
        rw [i8, hsumd, hd]
        congr 1
        rw [if_neg (by decide)]
        congr 1
        omega
      · intro hc; cases hc
      · simp only [hset]
        rw [dep_sum_split, hsuml, hl]
        simp only [dep_left, dep_progress]
        omega

theorem dep_sum_replicate (f : dep_thread → Nat) (n : Nat) (th : dep_thread) :
    dep_sum f (List.replicate n th) = n * f th := by
  induction n with
  | zero => simp [dep_sum]
  | succ m ih =>
    have : dep_sum f (List.replicate (m + 1) th) = f th + dep_sum f (List.replicate m th) := by
      simp [dep_sum, List.replicate_succ]
    rw [this, ih, Nat.succ_mul, Nat.add_comm]

theorem dep_init_inv (n k : Nat) (acc_id password usd : Int) :
    dep_inv acc_id password k (dep_init n k acc_id password usd) := by
  have hw : dep_sum dep_writer (List.replicate n ⟨.start, k, 0⟩) = 0 := by
    rw [dep_sum_replicate]; simp [dep_writer]
  have hd : dep_sum (dep_done k) (List.replicate n ⟨.start, k, 0⟩) = 0 := by
    rw [dep_sum_replicate]; simp [dep_done]
  refine ⟨rfl, rfl, rfl, ?_, ?_, rfl, rfl, ?_, ?_⟩
  · simp only [dep_init]; rw [hw]; rfl
  · simp only [dep_init]; rw [hw]; exact Nat.zero_le _
  · simp only [dep_init]; rw [hd]; rfl
  · intro th hth
    simp only [dep_init] at hth
    have := List.eq_of_mem_replicate hth
    subst this
    exact ⟨Nat.le_refl _, fun hc => absurd rfl hc, fun hc => by cases hc⟩

theorem dep_step_length (acc_id password amount : Int) (s s2 : dep_state) (t : Nat)
    (hstep : dep_step acc_id password amount s t = some s2) :
    s2.threads.length = s.threads.length := by
  unfold dep_step at hstep
  cases hth : s.threads[t]? with
  | none => rw [hth] at hstep; cases hstep
  | some th =>
    rw [hth] at hstep
    cases hpc : th.pc <;> simp only [hpc] at hstep <;>
      (repeat' split at hstep) <;>
      first
        | (cases hstep; done)
        | (cases hstep; exact List.length_set _ _ _)

theorem dep_run_inv (acc_id password : Int) (k : Nat) (sched : List Nat) :
    ∀ s : dep_state, dep_inv acc_id password k s →
      dep_inv acc_id password k (dep_run acc_id password 1 s sched) ∧
      (dep_run acc_id password 1 s sched).threads.length = s.threads.length := by
  induction sched with
  | nil => intro s h; exact ⟨h, rfl⟩
  | cons t rest ih =>
    intro s h
    unfold dep_run
    cases hstep : dep_step acc_id password 1 s t with
    | none => exact ih s h
    | some s2 =>
      simp only [Option.getD_some]
      obtain ⟨g1, g2⟩ := ih s2 (dep_step_inv acc_id password k s s2 t h hstep).1
      exact ⟨g1, g2.trans (dep_step_length _ _ _ s s2 t hstep)⟩

theorem dep_sum_const (f : dep_thread → Nat) (c : Nat) (l : List dep_thread)
    (h : ∀ th ∈ l, f th = c) : dep_sum f l = l.length * c := by
  induction l with
  | nil => simp [dep_sum]
  | cons a rest ih =>
    have hs : dep_sum f (a :: rest) = f a + dep_sum f rest := by simp [dep_sum]
    rw [hs, h a (List.mem_cons_self _ _), ih (fun th hth => h th (List.mem_cons_of_mem _ hth)),
      List.length_cons, Nat.succ_mul, Nat.add_comm]

theorem dep_finished_balance (acc_id password : Int) (k : Nat) (s : dep_state)
    (hinv : dep_inv acc_id password k s) (hfin : dep_finished s) :
    s.acc.balance_ils = wrap_int ((s.threads.length * k : Nat) : Int) := by
  rw [hinv.2.2.2.2.2.2.2.1]
  rw [dep_sum_const (dep_done k) k s.threads (fun th hth => by
    obtain ⟨h1, h2⟩ := hfin th hth
    simp [dep_done, h1, h2])]

theorem dep_sum_pos (f : dep_thread → Nat) (l : List dep_thread) (h : dep_sum f l ≠ 0) :
    ∃ th ∈ l, f th ≠ 0 := by
  by_contra hc
  apply h
  rw [dep_sum_const f 0 l (fun th hth => by
    by_contra hne
    exact hc ⟨th, hth, hne⟩)]
  simp

theorem mem_index {α : Type} (l : List α) (x : α) (h : x ∈ l) :
    ∃ t, t < l.length ∧ l[t]? = some x := by
  obtain ⟨t, ht, e⟩ := List.getElem_of_mem h
  exact ⟨t, ht, by rw [List.getElem?_eq_getElem ht, e]⟩

theorem dep_writer_enabled (acc_id password : Int) (k : Nat) (s : dep_state) (t : Nat)
    (th : dep_thread) (hinv : dep_inv acc_id password k s) (hth : s.threads[t]? = some th)
    (hw : dep_writer th ≠ 0) : (dep_step acc_id password 1 s t).isSome = true := by
  obtain ⟨_, _, _, _, _, _, i7, _, _⟩ := hinv
  unfold dep_step
  rw [hth]
  cases hpc : th.pc <;> simp only [hpc] <;>
    first
      | (exfalso; apply hw; simp [dep_writer, hpc]; done)
      | rfl
      | (rw [if_neg (by rw [i7]; exact fun hc => hc rfl)]; rfl)

theorem dep_progress_possible (acc_id password : Int) (k : Nat) (s : dep_state)
    (hinv : dep_inv acc_id password k s) (hfin : ¬ dep_finished s) :
    ∃ t, t < s.threads.length ∧ (dep_step acc_id password 1 s t).isSome = true := by
  have hinv0 := hinv
  obtain ⟨i1, i2, i3, i4, _, i6, i7, _, _⟩ := hinv
  by_cases hw : dep_sum dep_writer s.threads = 0
  · unfold dep_finished at hfin
    push_neg at hfin
    obtain ⟨th, hmem, hth⟩ := hfin
    obtain ⟨t, ht, hget⟩ := mem_index s.threads th hmem
    refine ⟨t, ht, ?_⟩
    have hwa : s.acc_lock.writer_active = 0 := by rw [i4, hw]; rfl
    unfold dep_step
    rw [hget]
    cases hpc : th.pc with
    | start =>
      simp only [hpc]
      rw [if_neg (hth hpc), if_neg (by decide), if_neg (by rw [i1, i2]; decide)]
      rfl
    | map_read =>
      simp only [hpc]
      rw [if_neg (by rw [i6]; exact fun hc => hc rfl)]
      rfl
    | acc_waiting =>
      simp only [hpc]
      rw [if_neg (by rw [hwa, i3]; decide)]
      rfl
    | acc_write_map => simp only [hpc]; rfl
    | locked =>
      simp only [hpc]
      rw [if_neg (by rw [i7]; exact fun hc => hc rfl)]
      rfl
    | loaded => simp only [hpc]; rfl
    | stored => simp only [hpc]; rfl
  · obtain ⟨th, hmem, hth⟩ := dep_sum_pos dep_writer s.threads hw
    obtain ⟨t, ht, hget⟩ := mem_index s.threads th hmem
    exact ⟨t, ht, dep_writer_enabled acc_id password k s t th hinv0 hget hth⟩

theorem dep_left_zero_finished (acc_id password : Int) (k : Nat) (s : dep_state)
    (hinv : dep_inv acc_id password k s) :
    dep_finished s ↔ dep_sum dep_left s.threads = 0 := by
  constructor
  · intro hfin
    rw [dep_sum_const dep_left 0 s.threads (fun th hth => by
      obtain ⟨h1, h2⟩ := hfin th hth
      simp [dep_left, h2])]
    simp
  · intro h0 th hth
    have hl := dep_sum_zero dep_left s.threads h0 th hth
    have hpos := (hinv.2.2.2.2.2.2.2.2 th hth).2.1
    unfold dep_left at hl
    cases hpc : th.pc with
    | start =>
      rw [hpc] at hl
      simp only [dep_progress] at hl
      exact ⟨rfl, by omega⟩
    | _ =>
      have hp := hpos (by rw [hpc]; decide)
      rw [hpc] at hl
      simp only [dep_progress] at hl
      omega

theorem dep_completion (acc_id password : Int) (k : Nat) :
    ∀ (m : Nat) (s : dep_state), dep_inv acc_id password k s →
      dep_sum dep_left s.threads = m →
      ∃ more : List Nat, more.length = m ∧
        dep_finished (dep_run acc_id password 1 s more) := by
  intro m
  induction m with
  | zero =>
    intro s hinv h0
    exact ⟨[], rfl, (dep_left_zero_finished acc_id password k s hinv).mpr h0⟩
  | succ m ih =>
    intro s hinv hm
    have hnf : ¬ dep_finished s := by
      intro hc
      have := (dep_left_zero_finished acc_id password k s hinv).mp hc
      omega
    obtain ⟨t, _, hen⟩ := dep_progress_possible acc_id password k s hinv hnf
    obtain ⟨s2, hs2⟩ := Option.isSome_iff_exists.mp hen
    obtain ⟨g1, g2⟩ := dep_step_inv acc_id password k s s2 t hinv hs2
    obtain ⟨more, hlen, hfin⟩ := ih s2 g1 (by omega)
    refine ⟨t :: more, by simp [hlen], ?_⟩
    unfold dep_run
    rw [hs2]
    exact hfin

theorem dep_init_left (n k : Nat) (acc_id password usd : Int) :
    dep_sum dep_left (dep_init n k acc_id password usd).threads = 7 * n * k := by
  simp only [dep_init]
  rw [dep_sum_replicate]
  simp only [dep_left, dep_progress]
  rw [Nat.sub_zero, Nat.mul_comm 7 n, Nat.mul_assoc]

theorem dep_init_length (n k : Nat) (acc_id password usd : Int) :
    (dep_init n k acc_id password usd).threads.length = n := by
  simp [dep_init]

/-- C32 (amended): `n` threads each make `k` calls of `bank_deposit` with
amount 1 ILS and the correct password on the same account, which starts with
ILS balance 0; the steps of a thread are the atomic sections of the lock
functions, the load and the store of the balance.  For every interleaving
`sched`: the invariant `dep_inv` holds in the state reached; if every thread
has returned, the ILS balance is the `int` value of `n * k`, which is exactly
`n * k` when `n * k <= INT_MAX`; if not every thread has returned, some thread
can take a step (no deadlock); the run can be completed, in exactly as many
steps as the threads have sections left; every step that is taken lowers that
number by one, and it starts at `7 * n * k`. -/
theorem concurrent_deposits_balance (n k : Nat) (acc_id password usd : Int)
    (sched : List Nat) :
    dep_inv acc_id password k
      (dep_run acc_id password 1 (dep_init n k acc_id password usd) sched) ∧
    (dep_finished (dep_run acc_id password 1 (dep_init n k acc_id password usd) sched) →
      (dep_run acc_id password 1 (dep_init n k acc_id password usd) sched).acc.balance_ils =
        wrap_int ((n : Int) * (k : Int)) ∧
      ((n : Int) * (k : Int) ≤ INT_MAX →
        (dep_run acc_id password 1 (dep_init n k acc_id password usd) sched).acc.balance_ils =
          (n : Int) * (k : Int))) ∧
    (¬ dep_finished (dep_run acc_id password 1 (dep_init n k acc_id password usd) sched) →
      ∃ t, t < n ∧ (dep_step acc_id password 1
        (dep_run acc_id password 1 (dep_init n k acc_id password usd) sched) t).isSome = true) ∧
    (∃ more : List Nat,
      more.length = dep_sum dep_left
        (dep_run acc_id password 1 (dep_init n k acc_id password usd) sched).threads ∧
      dep_finished (dep_run acc_id password 1
        (dep_run acc_id password 1 (dep_init n k acc_id password usd) sched) more)) ∧
    (∀ (t : Nat) (s2 : dep_state),
      dep_step acc_id password 1
        (dep_run acc_id password 1 (dep_init n k acc_id password usd) sched) t = some s2 →
      dep_sum dep_left s2.threads + 1 = dep_sum dep_left
        (dep_run acc_id password 1 (dep_init n k acc_id password usd) sched).threads) ∧
    dep_sum dep_left (dep_init n k acc_id password usd).threads = 7 * n * k := by
  obtain ⟨hinv, hlen⟩ := dep_run_inv acc_id password k sched _
    (dep_init_inv n k acc_id password usd)
  rw [dep_init_length] at hlen
  refine ⟨hinv, ?_, ?_, ?_, ?_, dep_init_left n k acc_id password usd⟩
  · intro hfin
    have hb := dep_finished_balance acc_id password k _ hinv hfin
    rw [hlen] at hb
    have hb2 : (dep_run acc_id password 1 (dep_init n k acc_id password usd)
        sched).acc.balance_ils = wrap_int ((n : Int) * (k : Int)) := by
      rw [hb]; push_cast; rfl
    refine ⟨hb2, fun hle => ?_⟩
    rw [hb2]
    exact wrap_int_small _ (Int.mul_nonneg (Int.ofNat_nonneg n) (Int.ofNat_nonneg k)) hle
  · intro hnf
    obtain ⟨t, ht, hen⟩ := dep_progress_possible acc_id password k _ hinv hnf
    exact ⟨t, by rw [← hlen]; exact ht, hen⟩
  · exact dep_completion acc_id password k _ _ hinv rfl
  · intro t s2 hstep
    exact (dep_step_inv acc_id password k _ s2 t hinv hstep).2

set_option maxRecDepth 100000 in
/-- C32, a concrete interleaving of two threads with one deposit each: thread
0 is held back while thread 1 holds the account's lock; both deposits arrive. -/
theorem concurrent_deposits_balance_witness :
    dep_finished (dep_run 7 1234 1 (dep_init 2 1 7 1234 0) dep_schedule) ∧
    (dep_run 7 1234 1 (dep_init 2 1 7 1234 0) dep_schedule).acc.balance_ils =
      ((2 : Nat) : Int) * ((1 : Nat) : Int) ∧
    (dep_run 7 1234 1 (dep_init 2 1 7 1234 0) dep_schedule).acc.balance_ils = 2 ∧
    (dep_step 7 1234 1 (dep_run 7 1234 1 (dep_init 2 1 7 1234 0) (dep_schedule.take 5)) 0) =
      none :=
  ⟨by decide,
   ((concurrent_deposits_balance 2 1 7 1234 0 dep_schedule).2.1 (by decide)).2 (by decide),
   by decide, by decide⟩

theorem dep_complete_run (n k : Nat) (acc_id password usd : Int) :
    ∃ sched : List Nat,
      dep_finished (dep_run acc_id password 1 (dep_init n k acc_id password usd) sched) ∧
      (dep_run acc_id password 1 (dep_init n k acc_id password usd) sched).acc.balance_ils =
        wrap_int ((n : Int) * (k : Int)) := by
  have hinv := dep_init_inv n k acc_id password usd
  obtain ⟨sched, _, hfin⟩ := dep_completion acc_id password k _ _ hinv rfl
  obtain ⟨hinv2, hlen⟩ := dep_run_inv acc_id password k sched _ hinv
  have hb := dep_finished_balance acc_id password k _ hinv2 hfin
  rw [hlen, dep_init_length] at hb
  refine ⟨sched, hfin, ?_⟩
  rw [hb]; push_cast; rfl

/-- C32 as stated fails on the code: one thread with `2^31` deposits of 1 ILS
can finish, and then the balance is `INT_MIN`, not `2^31`: the sum does not
fit the type `int` of the balance. -/
theorem concurrent_deposits_overflow :
    ∃ sched : List Nat,
      dep_finished (dep_run 7 1234 1 (dep_init 1 2147483648 7 1234 0) sched) ∧
      (dep_run 7 1234 1 (dep_init 1 2147483648 7 1234 0) sched).acc.balance_ils =
        -2147483648 ∧
      (dep_run 7 1234 1 (dep_init 1 2147483648 7 1234 0) sched).acc.balance_ils ≠
        ((1 : Nat) : Int) * ((2147483648 : Nat) : Int) := by
  obtain ⟨sched, hfin, hb⟩ := dep_complete_run 1 2147483648 7 1234 0
  have hv : wrap_int (((1 : Nat) : Int) * ((2147483648 : Nat) : Int)) = -2147483648 := by
    decide
  rw [hv] at hb
  refine ⟨sched, hfin, hb, ?_⟩
  rw [hb]
  decide

/-! ## C21: the sequence counter at the end of `long long` -/

theorem wrap_ll_add_wrap (x y : Int) : wrap_ll (wrap_ll x + y) = wrap_ll (x + y) := by
  unfold wrap_ll
  omega

theorem vipq_run_append (q : vip_queue_t) (a b : List vip_op) :
    vipq_run q (a ++ b) = vipq_run (vipq_run q a) b := by
  unfold vipq_run
  rw [List.foldl_append]

theorem vipq_push_pop_empty (cap : Nat) (seq : Int) (a p : Int) (l : String) (hcap : 0 < cap) :
    vipq_run { heap := [], cap := cap, next_seq := seq, closed := 0 } [.push a p l, .pop] =
      { heap := [], cap := cap, next_seq := wrap_ll (seq + 1), closed := 0 } := by
  have hc : ¬ (0 = cap) := by omega
  simp [vipq_run, vipq_step, vipq_push, vipq_pop, vipq_sift_up, hc]

theorem vipq_push_pop_replicate (cap : Nat) (a p : Int) (l : String) (hcap : 0 < cap)
    (n : Nat) : ∀ seq : Int,
    vipq_run { heap := [], cap := cap, next_seq := seq, closed := 0 }
        (List.replicate n [vip_op.push a p l, vip_op.pop]).flatten =
      { heap := [], cap := cap, next_seq := wrap_ll (seq + (n : Int)), closed := 0 } ∨
    (n = 0 ∧ vipq_run { heap := [], cap := cap, next_seq := seq, closed := 0 }
        (List.replicate n [vip_op.push a p l, vip_op.pop]).flatten =
      { heap := [], cap := cap, next_seq := seq, closed := 0 }) := by
  induction n with
  | zero => intro seq; exact Or.inr ⟨rfl, rfl⟩
  | succ m ih =>
    intro seq
    left
    rw [List.replicate_succ, List.flatten_cons, vipq_run_append,
      vipq_push_pop_empty cap seq a p l hcap]
    rcases ih (wrap_ll (seq + 1)) with h | ⟨hm, h⟩
    · rw [h, wrap_ll_add_wrap]
      congr 2
      push_cast
      omega
    · rw [h, hm]
      congr 2

theorem vipq_run_ops_wrap :
    vipq_run vipq_init vip_ops_wrap =
      { heap := [], cap := 64, next_seq := 9223372036854775807, closed := 0 } := by
  have h := vipq_push_pop_replicate 64 1 5 "B 10 7777 VIP=5" (by decide)
    9223372036854775806 1
  rcases h with h | ⟨h0, _⟩
  · unfold vip_ops_wrap vipq_init
    rw [h]
    congr 1
  · exact absurd h0 (by decide)

set_option maxRecDepth 100000 in
/-- C21 as stated fails on the code: after `LLONG_MAX - 1` pushes, each
followed by a pop, `next_seq` is `LLONG_MAX`.  The next push (agent 1) gets
`seq = LLONG_MAX` and the push after it (agent 2, same priority) gets
`seq = LLONG_MIN`, not the next number; the first pop then returns the task of
agent 2 although it was pushed after the task of agent 1. -/
theorem vip_seq_wrap_counterexample :
    vipq_run vipq_init vip_ops_wrap =
      { heap := [], cap := 64, next_seq := 9223372036854775807, closed := 0 } ∧
    (vipq_run vipq_init (vip_ops_wrap ++ [.push 1 5 "first", .push 2 5 "second"])).heap =
      [{ priority := 5, seq := -9223372036854775808, atm_id := 2, line := "second" },
       { priority := 5, seq := 9223372036854775807, atm_id := 1, line := "first" }] ∧
    vipq_pop (vipq_run vipq_init (vip_ops_wrap ++ [.push 1 5 "first", .push 2 5 "second"])) =
      .task { priority := 5, seq := -9223372036854775808, atm_id := 2, line := "second" }
        { heap := [{ priority := 5, seq := 9223372036854775807, atm_id := 1, line := "first" }],
          cap := 64, next_seq := -9223372036854775807, closed := 0 } := by
  refine ⟨vipq_run_ops_wrap, ?_, ?_⟩
  · rw [vipq_run_append, vipq_run_ops_wrap]
    decide
  · rw [vipq_run_append, vipq_run_ops_wrap]
    decide

/-! ## C33: best fit in `customMalloc` -/

theorem getElem?_snoc_cases (pre : List Block) (it c : Block) (k : Nat)
    (h : (pre ++ [it])[k]? = some c) :
    pre[k]? = some c ∨ (k = pre.length ∧ c = it) := by
  by_cases hk : k < pre.length
  · rw [List.getElem?_append_left hk] at h
    exact Or.inl h
  · rw [List.getElem?_append_right (by omega)] at h
    by_cases hk2 : k = pre.length
    · subst hk2
      simp at h
      exact Or.inr ⟨rfl, h.symm⟩
    · have : k - pre.length ≠ 0 := by omega
      obtain ⟨m, hm⟩ := Nat.exists_eq_succ_of_ne_zero this
      rw [hm] at h
      simp at h

theorem getElem?_lt_of_some {α : Type} (l : List α) (k : Nat) (c : α)
    (h : l[k]? = some c) : k < l.length := by
  by_contra hc
  rw [List.getElem?_eq_none (by omega)] at h
  cases h

theorem is_best_fit_keep (pre : List Block) (need j : Nat) (b it : Block)
    (h : is_best_fit pre need j b)
    (hit : ¬ (it.free = true ∧ it.size ≥ need) ∨ ¬ it.size < b.size) :
    is_best_fit (pre ++ [it]) need j b := by
  obtain ⟨h1, h2, h3, h4⟩ := h
  have hj := getElem?_lt_of_some pre j b h1
  refine ⟨by rw [List.getElem?_append_left hj]; exact h1, h2, h3, ?_⟩
  intro k c hk hc hn
  rcases getElem?_snoc_cases pre it c k hk with hk | ⟨hk, hci⟩
  · exact h4 k c hk hc hn
  · subst hci
    rcases hit with hit | hit
    · exact absurd ⟨hc, hn⟩ hit
    · exact ⟨by omega, fun _ => by omega⟩

theorem is_best_fit_new (pre : List Block) (need : Nat) (it : Block)
    (hfree : it.free = true) (hsize : need ≤ it.size)
    (hpre : ∀ (k : Nat) (c : Block), pre[k]? = some c → c.free = true → need ≤ c.size →
      it.size < c.size) :
    is_best_fit (pre ++ [it]) need pre.length it := by
  refine ⟨by simp, hfree, hsize, ?_⟩
  intro k c hk hc hn
  rcases getElem?_snoc_cases pre it c k hk with hk | ⟨hk, hci⟩
  · have := hpre k c hk hc hn
    exact ⟨by omega, fun he => by omega⟩
  · subst hci
    exact ⟨Nat.le_refl _, fun _ => by omega⟩

theorem find_best_fit_loop_spec (need : Nat) :
    ∀ (blocks pre : List Block) (best : Option (Nat × Block)),
      (best = none → ∀ c ∈ pre, ¬ (c.free = true ∧ need ≤ c.size)) →
      (∀ j b, best = some (j, b) → is_best_fit pre need j b) →
      (find_best_fit_loop need blocks pre.length best = none →
        ∀ c ∈ pre ++ blocks, ¬ (c.free = true ∧ need ≤ c.size)) ∧
      (∀ j b, find_best_fit_loop need blocks pre.length best = some (j, b) →
        is_best_fit (pre ++ blocks) need j b) := by
  intro blocks
  induction blocks with
  | nil =>
    intro pre best h1 h2
    simp only [find_best_fit_loop, List.append_nil]
    exact ⟨h1, h2⟩
  | cons it rest ih =>
    intro pre best h1 h2
    have hlen : (pre ++ [it]).length = pre.length + 1 := by simp
    have happ : pre ++ it :: rest = (pre ++ [it]) ++ rest := by simp
    rw [happ]
    unfold find_best_fit_loop
    by_cases hfit : it.free = true ∧ it.size ≥ need
    · rw [if_pos hfit]
      cases hbest : best with
      | none =>
        simp only
        rw [← hlen]
        apply ih
        · intro hc; cases hc
        · intro j b hjb
          simp only [Option.some.injEq, Prod.mk.injEq] at hjb
          obtain ⟨e1, e2⟩ := hjb
          subst e1 e2
          apply is_best_fit_new pre need it hfit.1 hfit.2
          intro k c hk hc hn
          exact absurd ⟨hc, hn⟩ (h1 hbest c (List.getElem?_mem hk))
      | some bb =>
        obtain ⟨j0, b0⟩ := bb
        have hb0 := h2 j0 b0 hbest
        simp only
        by_cases hlt : it.size < b0.size
        · rw [if_pos hlt, ← hlen]
          apply ih
          · intro hc; cases hc
          · intro j b hjb
            simp only [Option.some.injEq, Prod.mk.injEq] at hjb
            obtain ⟨e1, e2⟩ := hjb
            subst e1 e2
            apply is_best_fit_new pre need it hfit.1 hfit.2
            intro k c hk hc hn
            have := (hb0.2.2.2 k c hk hc hn).1
            omega
        · rw [if_neg hlt, ← hlen]
          apply ih
          · intro hc; cases hc
          · intro j b hjb
            simp only [Option.some.injEq, Prod.mk.injEq] at hjb
            obtain ⟨e1, e2⟩ := hjb
            subst e1 e2
            exact is_best_fit_keep pre need _ _ it hb0 (Or.inr hlt)
    · rw [if_neg hfit, ← hlen]
      apply ih
      · intro hb c hc
        rw [List.mem_append, List.mem_singleton] at hc
        rcases hc with hc | hc
        · exact h1 hb c hc
        · subst hc
          exact fun hh => hfit ⟨hh.1, hh.2⟩
      · intro j b hjb
        exact is_best_fit_keep pre need j b it (h2 j b hjb) (Or.inl hfit)

theorem find_best_fit_spec (blocks : List Block) (need : Nat) :
    (find_best_fit blocks need = none →
      ∀ c ∈ blocks, ¬ (c.free = true ∧ need ≤ c.size)) ∧
    (∀ j b, find_best_fit blocks need = some (j, b) → is_best_fit blocks need j b) := by
  have h := find_best_fit_loop_spec need blocks [] none
    (fun _ c hc => by cases hc) (fun j b hc => by cases hc)
  simpa [find_best_fit] using h

theorem to_intptr_small (x : Nat) (h : x < 9223372036854775808) : to_intptr x = (x : Int) := by
  have hx : x % SIZE_MOD = x := Nat.mod_eq_of_lt (by unfold SIZE_MOD; omega)
  unfold to_intptr
  rw [hx, if_pos h]

theorem sbrk_ordinary (h : heap_t) (inc : Nat) (hpos : 0 < inc)
    (hmax : h.brk + inc ≤ h.brk_max) (hlim : h.brk_max < SIZE_MOD) :
    sbrk h (inc : Int) = some (h.brk + inc) := by
  unfold sbrk
  rw [if_neg (by omega), if_pos (by omega), if_neg (by unfold SIZE_MOD at hlim ⊢; omega),
    if_neg (by omega)]
  congr 1

set_option maxRecDepth 100000 in
/-- Requests whose sum with the header leaves the range of `intptr_t` or wraps:
`2^63` bytes make `sbrk` fail; `2^64 - 100` bytes give the increment -76, the
break is lowered and the block is written at the old break; `2^64 - 24` bytes
give the increment 0, and on the empty heap, whose break maps no page, the
store into the header faults. -/
theorem customMalloc_wrapping_requests :
    customMalloc heap_three_free 9223372036854775808 = none ∧
    customMalloc heap_three_free 18446744073709551516 =
      some ({ blockList := heap_three_free.blockList ++ [⟨4664, 18446744073709551516, false⟩],
              brk := 4588, brk_min := 4096, brk_max := 1000000 }, 4688) ∧
    customMalloc (heap_empty 4096 1000000) 18446744073709551592 = none ∧
    customMalloc heap_three_free 18446744073709551592 =
      some ({ blockList := heap_three_free.blockList ++ [⟨4664, 18446744073709551592, false⟩],
              brk := 4664, brk_min := 4096, brk_max := 1000000 }, 4688) := by
  decide

/-! ## C34: coalescing of free blocks -/

set_option maxRecDepth 100000 in
/-- C34 fails on the code: from the empty heap, three allocations of 100
bytes, the release of the second block and the reallocation of the first to 4
bytes leave the block list `used 4, free 72, free 100, used 100`: the
remainder that `customRealloc` splits off the shrunk block stands right before
the free second block and is not merged with it.  Before the reallocation no
two consecutive blocks are free, and the reallocation is one that splits its
block. -/
theorem realloc_shrink_adjacent_free :
    alloc_run (heap_empty 4096 1000000) calls_realloc_shrink =
      some { blockList :=
               [⟨4096, 4, false⟩, ⟨4124, 72, true⟩, ⟨4220, 100, true⟩, ⟨4344, 100, false⟩],
             brk := 4468, brk_min := 4096, brk_max := 1000000 } ∧
    (alloc_run (heap_empty 4096 1000000) calls_realloc_shrink).map
      (fun h => has_adjacent_free h.blockList) = some true ∧
    (alloc_run (heap_empty 4096 1000000) (calls_realloc_shrink.take 4)).map
      (fun h => has_adjacent_free h.blockList) = some false ∧
    (alloc_run (heap_empty 4096 1000000) (calls_realloc_shrink.take 4)).map
      (fun h => realloc_splits h 4120 4) = some true := by
  decide

/-! ## Allocator: runs of `customMalloc` and `customFree` keep free blocks apart -/

theorem chain_no_adjacent_free (l : List Block) (h : List.Chain' block_link l) :
    has_adjacent_free l = false := by
  induction l with
  | nil => rfl
  | cons a rest ih =>
    cases rest with
    | nil => rfl
    | cons b rest2 =>
      rw [List.chain'_cons] at h
      unfold has_adjacent_free
      rw [ih h.2, Bool.or_false]
      have := h.1.2
      cases ha : a.free <;> cases hb : b.free <;> simp_all

theorem chain_snoc (l : List Block) (a : Block) :
    List.Chain' block_link (l ++ [a]) ↔
      List.Chain' block_link l ∧ ∀ x, l.getLast? = some x → block_link x a := by
  rw [List.chain'_append]
  constructor
  · intro ⟨h1, _, h3⟩
    exact ⟨h1, fun x hx => h3 x hx a rfl⟩
  · intro ⟨h1, h2⟩
    refine ⟨h1, List.chain'_singleton a, fun x hx y hy => ?_⟩
    simp only [List.head?_cons, Option.mem_def, Option.some.injEq] at hy
    subst hy
    exact h2 x hx

theorem chain_head (a : Block) (l : List Block) :
    List.Chain' block_link (a :: l) ↔
      (∀ y, l.head? = some y → block_link a y) ∧ List.Chain' block_link l := by
  rw [List.chain'_cons']
  rfl

theorem getLast?_append_cons (pre post : List Block) (x : Block) :
    (pre ++ x :: post).getLast? = (x :: post).getLast? := by
  rw [List.getLast?_append]
  cases h : (x :: post).getLast? with
  | none => simp at h
  | some y => rfl

theorem getLast?_cons_some (x : Block) (post : List Block) :
    ∃ y, (x :: post).getLast? = some y ∧ y ∈ x :: post := by
  cases h : (x :: post).getLast? with
  | none => simp at h
  | some y => exact ⟨y, rfl, List.mem_of_getLast?_eq_some h⟩

/-- The first loop of `coalesce_around` on a freed block `cur`: at most the
next block is merged, and the result is linked. -/
theorem coalesce_next_spec (cur : Block) (post : List Block) (m : Nat)
    (hchain : List.Chain' block_link (cur :: post))
    (hbound : ∀ x ∈ cur :: post, block_end x ≤ m) (hm : m < 9223372036854775808) :
    (coalesce_next { cur with free := true } post).1.addr = cur.addr ∧
    (coalesce_next { cur with free := true } post).1.free = true ∧
    List.Chain' block_link
      ((coalesce_next { cur with free := true } post).1 ::
       (coalesce_next { cur with free := true } post).2) ∧
    ((coalesce_next { cur with free := true } post).1 ::
       (coalesce_next { cur with free := true } post).2).getLast?.map block_end =
      (cur :: post).getLast?.map block_end ∧
    (∀ x ∈ (coalesce_next { cur with free := true } post).1 ::
       (coalesce_next { cur with free := true } post).2, block_end x ≤ m) := by
  cases post with
  | nil =>
    have hstep : coalesce_next { cur with free := true } [] =
        ({ cur with free := true }, []) := rfl
    rw [hstep]
    refine ⟨rfl, rfl, List.chain'_singleton _, rfl, ?_⟩
    intro x hx
    rw [List.mem_singleton] at hx
    subst hx
    exact hbound cur (List.mem_cons_self _ _)
  | cons nxt rest =>
    rw [List.chain'_cons] at hchain
    obtain ⟨⟨hadj, hfree⟩, hrest⟩ := hchain
    have hbn := hbound nxt (List.mem_cons_of_mem _ (List.mem_cons_self _ _))
    by_cases hnf : nxt.free = true
    · have hbc := hbound cur (List.mem_cons_self _ _)
      have hcond : nxt.free = true ∧ are_adjacent { cur with free := true } nxt = true := by
        refine ⟨hnf, ?_⟩
        simp only [are_adjacent, decide_eq_true_eq]
        rw [Nat.mod_eq_of_lt (by unfold block_end at hbc; unfold SIZE_MOD; omega)]
        exact hadj
      have hsize : (cur.size + (sizeof_Block + nxt.size)) % SIZE_MOD =
          cur.size + (sizeof_Block + nxt.size) := by
        unfold block_end at hbn hadj
        unfold SIZE_MOD
        omega
      have hstep : coalesce_next { cur with free := true } (nxt :: rest) =
          coalesce_next ⟨cur.addr, cur.size + (sizeof_Block + nxt.size), true⟩ rest := by
        conv => lhs; unfold coalesce_next
        rw [if_pos hcond]
        simp only [hsize]
      have hend : block_end ⟨cur.addr, cur.size + (sizeof_Block + nxt.size), true⟩ =
          block_end nxt := by
        unfold block_end at hadj ⊢
        simp only
        omega
      have hstop : coalesce_next ⟨cur.addr, cur.size + (sizeof_Block + nxt.size), true⟩ rest =
          (⟨cur.addr, cur.size + (sizeof_Block + nxt.size), true⟩, rest) := by
        cases rest with
        | nil => rfl
        | cons r rest2 =>
          rw [List.chain'_cons] at hrest
          have hr : ¬ r.free = true := fun hc => hrest.1.2 ⟨hnf, hc⟩
          unfold coalesce_next
          rw [if_neg (fun hc => hr hc.1)]
      rw [hstep, hstop]
      refine ⟨rfl, rfl, ?_, ?_, ?_⟩
      · rw [chain_head]
        rw [chain_head] at hrest
        refine ⟨fun y hy => ?_, hrest.2⟩
        have := hrest.1 y hy
        exact ⟨by rw [hend]; exact this.1, fun hc => this.2 ⟨hnf, hc.2⟩⟩
      · cases rest with
        | nil => simp [hend]
        | cons r rest2 => simp [List.getLast?_cons_cons]
      · intro x hx
        rcases List.mem_cons.mp hx with hx | hx
        · subst hx; rw [hend]; exact hbn
        · exact hbound x (List.mem_cons_of_mem _ (List.mem_cons_of_mem _ hx))
    · have hstep : coalesce_next { cur with free := true } (nxt :: rest) =
          ({ cur with free := true }, nxt :: rest) := by
        conv => lhs; unfold coalesce_next
        rw [if_neg (fun hc => hnf hc.1)]
      rw [hstep]
      refine ⟨rfl, rfl, ?_, ?_, ?_⟩
      · rw [List.chain'_cons]
        exact ⟨⟨hadj, fun hc => hnf hc.2⟩, hrest⟩
      · simp [List.getLast?_cons_cons]
      · intro x hx
        rcases List.mem_cons.mp hx with hx | hx
        · subst hx; exact hbound cur (List.mem_cons_self _ _)
        · exact hbound x (List.mem_cons_of_mem _ hx)

theorem coalesce_next_stop (b : Block) (l : List Block)
    (h : ∀ y, l.head? = some y → ¬ y.free = true) : coalesce_next b l = (b, l) := by
  cases l with
  | nil => rfl
  | cons r rest =>
    unfold coalesce_next
    rw [if_neg (fun hc => h r rfl hc.1)]

/-- The function `coalesce_around` on a list that was linked before the block
at position `pre.length` was marked free: the result is linked, ends where the
list ended, and keeps the bound on the block ends. -/
theorem coalesce_around_spec (pre post : List Block) (cur : Block) (m : Nat)
    (hchain : List.Chain' block_link (pre ++ cur :: post))
    (hbound : ∀ x ∈ pre ++ cur :: post, block_end x ≤ m) (hm : m < 9223372036854775808) :
    List.Chain' block_link
      (coalesce_around (pre ++ { cur with free := true } :: post) pre.length) ∧
    (coalesce_around (pre ++ { cur with free := true } :: post) pre.length).getLast?.map
      block_end = (pre ++ cur :: post).getLast?.map block_end ∧
    (∀ x ∈ coalesce_around (pre ++ { cur with free := true } :: post) pre.length,
      block_end x ≤ m) := by
  rw [List.chain'_split] at hchain
  obtain ⟨hpre, hpost⟩ := hchain
  obtain ⟨c1, c2, c3, c4, c5⟩ := coalesce_next_spec cur post m hpost
    (fun x hx => hbound x (List.mem_append_right _ hx)) hm
  have hget : (pre ++ { cur with free := true } :: post)[pre.length]? =
      some { cur with free := true } := by
    rw [List.getElem?_append_right (Nat.le_refl _)]
    simp
  have htake : (pre ++ { cur with free := true } :: post).take pre.length = pre := by
    rw [List.take_append_of_le_length (Nat.le_refl _), List.take_length]
  have hdrop : (pre ++ { cur with free := true } :: post).drop (pre.length + 1) = post := by
    rw [List.drop_append]
    rfl
  have hlast : (pre ++ cur :: post).getLast?.map block_end =
      (cur :: post).getLast?.map block_end := by
    rw [getLast?_append_cons]
  unfold coalesce_around
  rw [hget]
  simp only [htake, hdrop]
  rw [hlast]
  cases hp : pre.getLast? with
  | none =>
    have hnil : pre = [] := List.getLast?_eq_none_iff.mp hp
    subst hnil
    simp only [List.nil_append]
    exact ⟨c3, c4, c5⟩
  | some prev =>
    have hpre_eq : pre.dropLast ++ [prev] = pre := List.dropLast_append_getLast? prev hp
    rw [chain_snoc] at hpre
    obtain ⟨hprechain, hlink⟩ := hpre
    have hpl := hlink prev hp
    have hprevmem : prev ∈ pre := List.mem_of_getLast?_eq_some hp
    simp only
    by_cases hpf : prev.free = true
    · have hbp := hbound prev (List.mem_append_left _ hprevmem)
      have hadj : are_adjacent prev (coalesce_next { cur with free := true } post).1 = true := by
        simp only [are_adjacent, decide_eq_true_eq]
        rw [c1, Nat.mod_eq_of_lt (by unfold block_end at hbp; unfold SIZE_MOD; omega)]
        exact hpl.1
      rw [if_pos ⟨hpf, hadj⟩]
      have hr1 := c5 _ (List.mem_cons_self _ _)
      have hsize : (prev.size + (sizeof_Block +
          (coalesce_next { cur with free := true } post).1.size)) % SIZE_MOD =
          prev.size + (sizeof_Block +
            (coalesce_next { cur with free := true } post).1.size) := by
        have := hpl.1
        unfold block_end at hr1 this
        rw [c1] at hr1
        unfold SIZE_MOD
        omega
      rw [hsize]
      have hhead : ∀ y, (coalesce_next { cur with free := true } post).2.head? = some y →
          ¬ y.free = true := by
        intro y hy hc
        rw [chain_head] at c3
        exact (c3.1 y hy).2 ⟨c2, hc⟩
      rw [coalesce_next_stop _ _ hhead]
      simp only
      have hend : block_end { prev with size := prev.size + (sizeof_Block +
          (coalesce_next { cur with free := true } post).1.size) } =
          block_end (coalesce_next { cur with free := true } post).1 := by
        have := hpl.1
        unfold block_end at this ⊢
        simp only
        rw [c1]
        omega
      refine ⟨?_, ?_, ?_⟩
      · rw [List.chain'_split]
        constructor
        · rw [chain_snoc]
          rw [← hpre_eq, chain_snoc] at hprechain
          refine ⟨hprechain.1, fun x hx => ?_⟩
          exact hprechain.2 x hx
        · rw [chain_head]
          rw [chain_head] at c3
          refine ⟨fun y hy => ?_, c3.2⟩
          have := c3.1 y hy
          exact ⟨by rw [hend]; exact this.1, fun hc => this.2 ⟨c2, hc.2⟩⟩
      · rw [getLast?_append_cons, ← c4]
        cases (coalesce_next { cur with free := true } post).2 with
        | nil => simp [hend]
        | cons r rest2 => simp [List.getLast?_cons_cons]
      · intro x hx
        rcases List.mem_append.mp hx with hx | hx
        · exact hbound x (List.mem_append_left _ (List.mem_of_mem_dropLast hx))
        · rcases List.mem_cons.mp hx with hx | hx
          · subst hx; rw [hend]; exact hr1
          · exact c5 x (List.mem_cons_of_mem _ hx)
    · rw [if_neg (fun hc => hpf hc.1)]
      refine ⟨?_, ?_, ?_⟩
      · rw [List.chain'_split]
        refine ⟨?_, c3⟩
        rw [chain_snoc]
        refine ⟨hprechain, fun x hx => ?_⟩
        rw [hp] at hx
        cases hx
        exact ⟨by rw [c1]; exact hpl.1, fun hc => hpf hc.1⟩
      · rw [getLast?_append_cons, ← c4]
      · intro x hx
        rcases List.mem_append.mp hx with hx | hx
        · exact hbound x (List.mem_append_left _ hx)
        · exact c5 x hx

theorem try_shrink_heap_loop_spec (rev_blocks : List Block) :
    ∀ brk : Nat, List.Chain' (flip block_link) rev_blocks →
      (∀ x, rev_blocks.head? = some x → block_end x = brk) →
      List.Chain' (flip block_link) (try_shrink_heap_loop rev_blocks brk).1 ∧
      (∀ x, (try_shrink_heap_loop rev_blocks brk).1.head? = some x →
        block_end x = (try_shrink_heap_loop rev_blocks brk).2) ∧
      (∀ x ∈ (try_shrink_heap_loop rev_blocks brk).1, x ∈ rev_blocks) := by
  induction rev_blocks with
  | nil =>
    intro brk _ _
    refine ⟨List.chain'_nil, fun x hx => ?_, fun x hx => hx⟩
    simp [try_shrink_heap_loop] at hx
  | cons last rest ih =>
    intro brk hchain hhead
    unfold try_shrink_heap_loop
    by_cases hf : last.free = false
    · rw [if_pos hf]
      exact ⟨hchain, hhead, fun x hx => hx⟩
    · rw [if_neg hf]
      by_cases he : (last.addr + sizeof_Block + last.size) % SIZE_MOD ≠ brk
      · rw [if_pos he]
        exact ⟨hchain, hhead, fun x hx => hx⟩
      · rw [if_neg he]
        rw [List.chain'_cons'] at hchain
        obtain ⟨g1, g2, g3⟩ := ih last.addr hchain.2
          (fun x hx => (hchain.1 x hx).1)
        exact ⟨g1, g2, fun x hx => List.mem_cons_of_mem _ (g3 x hx)⟩

theorem try_shrink_heap_wf (h : heap_t) (hwf : heap_wf h) : heap_wf (try_shrink_heap h) := by
  obtain ⟨w1, w2, w3, w4⟩ := hwf
  obtain ⟨g1, g2, g3⟩ := try_shrink_heap_loop_spec h.blockList.reverse h.brk
    (List.chain'_reverse.mpr (by
      have : flip (flip block_link) = block_link := rfl
      rw [this]; exact w1))
    (fun x hx => by
      rw [List.head?_reverse] at hx
      exact w2 x hx)
  unfold try_shrink_heap
  refine ⟨?_, ?_, ?_, w4⟩
  · simp only
    exact List.chain'_reverse.mpr g1
  · intro last hlast
    simp only at hlast ⊢
    rw [List.getLast?_reverse] at hlast
    exact g2 last hlast
  · intro b hb
    simp only at hb ⊢
    exact w3 b (List.mem_reverse.mp (g3 b (List.mem_reverse.mp hb)))

theorem customFree_wf (h : heap_t) (ptr : Nat) (hwf : heap_wf h) :
    heap_wf (customFree h ptr) := by
  unfold customFree
  split
  · exact hwf
  · split
    · exact hwf
    · rename_i i _
      split
      · exact hwf
      · rename_i cur hcur
        obtain ⟨w1, w2, w3, w4⟩ := hwf
        obtain ⟨pre, post, e1, e2, e3⟩ := split_at_index h.blockList i cur hcur
        apply try_shrink_heap_wf
        rw [e3, ← e2]
        rw [e1] at w1 w2 w3
        obtain ⟨g1, g2, g3⟩ := coalesce_around_spec pre post cur h.brk_max w1 w3 w4
        refine ⟨g1, ?_, g3, w4⟩
        intro last hlast
        simp only at hlast ⊢
        rw [hlast] at g2
        cases hl : (pre ++ cur :: post).getLast? with
        | none => rw [hl] at g2; cases g2
        | some l0 =>
          rw [hl] at g2
          simp only [Option.map_some', Option.some.injEq] at g2
          rw [g2]
          exact w2 l0 hl

theorem split_block_if_worth_at (pre post : List Block) (b : Block) (need : Nat) :
    split_block_if_worth (pre ++ b :: post) pre.length need =
      if b.size ≥ (need + (sizeof_Block + 4)) % SIZE_MOD then
        pre ++ { b with size := need } ::
          { addr := (b.addr + sizeof_Block + need) % SIZE_MOD,
            size := (((b.size : Int) - (need : Int) - (sizeof_Block : Int)) %
              (SIZE_MOD : Int)).toNat,
            free := true } :: post
      else pre ++ b :: post := by
  have hget : (pre ++ b :: post)[pre.length]? = some b := by
    rw [List.getElem?_append_right (Nat.le_refl _)]
    simp
  have htake : (pre ++ b :: post).take pre.length = pre := by
    rw [List.take_append_of_le_length (Nat.le_refl _), List.take_length]
  have hdrop : (pre ++ b :: post).drop (pre.length + 1) = post := by
    rw [List.drop_append]
    rfl
  unfold split_block_if_worth
  rw [hget]
  simp only [htake, hdrop]

/-- Splitting a used block of a linked list whose successor is not free keeps
the list linked. -/
theorem split_used_wf (pre post : List Block) (b : Block) (need m : Nat)
    (hchain : List.Chain' block_link (pre ++ b :: post))
    (hbound : ∀ x ∈ pre ++ b :: post, block_end x ≤ m) (hm : m < 9223372036854775808)
    (hneed : need ≤ b.size)
    (hnext : ∀ y, post.head? = some y → ¬ y.free = true) :
    List.Chain' block_link
      (split_block_if_worth (pre ++ { b with free := false } :: post) pre.length need) ∧
    (split_block_if_worth (pre ++ { b with free := false } :: post) pre.length
      need).getLast?.map block_end = (pre ++ b :: post).getLast?.map block_end ∧
    (∀ x ∈ split_block_if_worth (pre ++ { b with free := false } :: post) pre.length need,
      block_end x ≤ m) := by
  have hb := hbound b (List.mem_append_right _ (List.mem_cons_self _ _))
  rw [List.chain'_split] at hchain
  obtain ⟨hpre, hpost⟩ := hchain
  rw [chain_snoc] at hpre
  rw [chain_head] at hpost
  rw [split_block_if_worth_at]
  have hmod : (need + (sizeof_Block + 4)) % SIZE_MOD = need + (sizeof_Block + 4) := by
    unfold block_end at hb
    unfold SIZE_MOD sizeof_Block
    unfold sizeof_Block at hb
    omega
  rw [hmod]
  by_cases hc : b.size ≥ need + (sizeof_Block + 4)
  · rw [if_pos hc]
    have hsz : (((b.size : Int) - (need : Int) - (sizeof_Block : Int)) %
        (SIZE_MOD : Int)).toNat = b.size - need - sizeof_Block := by
      unfold block_end at hb
      unfold SIZE_MOD sizeof_Block
      unfold sizeof_Block at hb hc
      simp only [ge_iff_le] at hc
      omega
    have haddr : (b.addr + sizeof_Block + need) % SIZE_MOD = b.addr + sizeof_Block + need := by
      unfold block_end at hb
      unfold SIZE_MOD
      omega
    simp only [hsz, haddr]
    have hend : block_end ⟨b.addr + sizeof_Block + need, b.size - need - sizeof_Block, true⟩ =
        block_end b := by
      unfold block_end
      simp only
      unfold sizeof_Block at hc ⊢
      simp only [ge_iff_le] at hc
      omega
    refine ⟨?_, ?_, ?_⟩
    · rw [List.chain'_split]
      constructor
      · rw [chain_snoc]
        refine ⟨hpre.1, fun x hx => ?_⟩
        have := hpre.2 x hx
        exact ⟨this.1, fun hc2 => by cases hc2.2⟩
      · rw [List.chain'_cons]
        constructor
        · exact ⟨rfl, fun hc2 => by cases hc2.1⟩
        · rw [chain_head]
          refine ⟨fun y hy => ?_, hpost.2⟩
          exact ⟨by rw [hend]; exact (hpost.1 y hy).1, fun hc2 => hnext y hy hc2.2⟩
    · rw [getLast?_append_cons, getLast?_append_cons, List.getLast?_cons_cons]
      cases post with
      | nil => simp [hend]
      | cons r rest2 => simp [List.getLast?_cons_cons]
    · intro x hx
      rcases List.mem_append.mp hx with hx | hx
      · exact hbound x (List.mem_append_left _ hx)
      · rcases List.mem_cons.mp hx with hx | hx
        · subst hx
          unfold block_end at hb ⊢
          simp only
          omega
        · rcases List.mem_cons.mp hx with hx | hx
          · subst hx; rw [hend]; exact hb
          · exact hbound x (List.mem_append_right _ (List.mem_cons_of_mem _ hx))
  · rw [if_neg hc]
    refine ⟨?_, ?_, ?_⟩
    · rw [List.chain'_split]
      constructor
      · rw [chain_snoc]
        refine ⟨hpre.1, fun x hx => ?_⟩
        have := hpre.2 x hx
        exact ⟨this.1, fun hc2 => by cases hc2.2⟩
      · rw [chain_head]
        refine ⟨fun y hy => ?_, hpost.2⟩
        exact ⟨(hpost.1 y hy).1, fun hc2 => by cases hc2.1⟩
    · rw [getLast?_append_cons, getLast?_append_cons]
      cases post with
      | nil => rfl
      | cons r rest2 => simp [List.getLast?_cons_cons]
    · intro x hx
      rcases List.mem_append.mp hx with hx | hx
      · exact hbound x (List.mem_append_left _ hx)
      · rcases List.mem_cons.mp hx with hx | hx
        · subst hx; exact hb
        · exact hbound x (List.mem_append_right _ (List.mem_cons_of_mem _ hx))

theorem align4_le (size : Nat) : align4 size ≤ size + 3 := by
  unfold align4
  split
  · omega
  · have := Nat.mod_le ((size - 1) / 4 * 4 + 4) SIZE_MOD
    omega

theorem customMalloc_wf (h : heap_t) (size : Nat) (r : heap_t × Nat) (hwf : heap_wf h)
    (hsane : size ≤ 4611686018427387904)
    (hcall : customMalloc h size = some r) : heap_wf r.1 := by
  obtain ⟨w1, w2, w3, w4⟩ := hwf
  unfold customMalloc at hcall
  by_cases hz : size = 0
  · rw [if_pos hz] at hcall
    cases hcall
    exact ⟨w1, w2, w3, w4⟩
  · rw [if_neg hz] at hcall
    cases hf : find_best_fit h.blockList (align4 size) with
    | some jb =>
      obtain ⟨j, b⟩ := jb
      simp only [hf, Option.some.injEq] at hcall
      subst hcall
      obtain ⟨b1, b2, b3, _⟩ := (find_best_fit_spec h.blockList (align4 size)).2 j b hf
      obtain ⟨pre, post, e1, e2, e3⟩ := split_at_index h.blockList j b b1
      simp only
      rw [e3, ← e2]
      rw [e1] at w1 w2 w3
      have hnext : ∀ y, post.head? = some y → ¬ y.free = true := by
        intro y hy hc
        have := (List.chain'_split.mp w1).2
        rw [chain_head] at this
        exact (this.1 y hy).2 ⟨b2, hc⟩
      obtain ⟨g1, g2, g3⟩ := split_used_wf pre post b (align4 size) h.brk_max w1 w3 w4 b3 hnext
      refine ⟨g1, ?_, g3, w4⟩
      intro last hlast
      simp only at hlast ⊢
      rw [hlast] at g2
      cases hl : (pre ++ b :: post).getLast? with
      | none => rw [hl] at g2; cases g2
      | some l0 =>
        rw [hl] at g2
        simp only [Option.map_some', Option.some.injEq] at g2
        rw [g2]
        exact w2 l0 hl
    | none =>
      simp only [hf] at hcall
      have ha := align4_le size
      have hsmall : sizeof_Block + align4 size < 9223372036854775808 := by
        unfold sizeof_Block; omega
      unfold malloc_from_sbrk at hcall
      rw [to_intptr_small _ hsmall] at hcall
      by_cases hmax : h.brk + (sizeof_Block + align4 size) ≤ h.brk_max
      · rw [sbrk_ordinary h (sizeof_Block + align4 size) (by unfold sizeof_Block; omega) hmax
          (by unfold SIZE_MOD; omega)] at hcall
        simp only at hcall
        split at hcall
        · cases hcall
        · simp only [Option.some.injEq] at hcall
          subst hcall
          refine ⟨?_, ?_, ?_, w4⟩
          · simp only
            rw [chain_snoc]
            exact ⟨w1, fun x hx => ⟨w2 x hx, fun hc => by cases hc.2⟩⟩
          · intro last hlast
            simp only [List.getLast?_concat, Option.some.injEq] at hlast
            subst hlast
            simp only [block_end]
            omega
          · intro x hx
            simp only at hx
            rcases List.mem_append.mp hx with hx | hx
            · exact w3 x hx
            · rw [List.mem_singleton] at hx
              subst hx
              simp only [block_end]
              omega
      · have hfail : sbrk h ((sizeof_Block + align4 size : Nat) : Int) = none := by
          unfold sbrk
          rw [if_neg (by unfold sizeof_Block; omega), if_pos (by unfold sizeof_Block; omega)]
          split
          · rfl
          · rw [if_pos (by omega)]
        rw [hfail] at hcall
        cases hcall

theorem customMalloc_then_free_wf (h : heap_t) (ptr size : Nat) (r : heap_t × Nat)
    (hwf : heap_wf h) (hsane : size ≤ 4611686018427387904)
    (hcall : (match customMalloc h size with
      | none => none
      | some r => if r.2 = 0 then some (r.1, 0) else some (customFree r.1 ptr, r.2)) = some r) :
    heap_wf r.1 := by
  cases hm : customMalloc h size with
  | none => rw [hm] at hcall; cases hcall
  | some r1 =>
    rw [hm] at hcall
    simp only at hcall
    have hw1 := customMalloc_wf h size r1 hwf hsane hm
    split at hcall
    · cases hcall
      exact hw1
    · cases hcall
      exact customFree_wf r1.1 ptr hw1

theorem customRealloc_wf (h : heap_t) (ptr size : Nat) (r : heap_t × Nat) (hwf : heap_wf h)
    (hsane : size ≤ 4611686018427387904)
    (hns : realloc_splits h ptr size = false)
    (hcall : customRealloc h ptr size = some r) : heap_wf r.1 := by
  unfold customRealloc at hcall
  unfold realloc_splits at hns
  by_cases hp : ptr = 0
  · rw [if_pos hp] at hcall
    exact customMalloc_wf h size r hwf hsane hcall
  · rw [if_neg hp] at hcall hns
    by_cases hz : size = 0
    · rw [if_pos hz] at hcall
      cases hcall
      exact customFree_wf h ptr hwf
    · rw [if_neg hz] at hcall hns
      cases hfind : find_block_by_payload h.blockList ptr with
      | none =>
        simp only [hfind] at hcall
        cases hcall
        exact hwf
      | some i =>
        simp only [hfind] at hcall hns
        cases hget : h.blockList[i]? with
        | none =>
          simp only [hget] at hcall
          cases hcall
          exact hwf
        | some b =>
          simp only [hget] at hcall hns
          rw [decide_eq_false_iff_not] at hns
          by_cases hle : align4 size ≤ b.size
          · rw [if_pos hle] at hcall
            by_cases heq : align4 size = b.size
            · rw [if_pos heq] at hcall
              cases hcall
              exact hwf
            · rw [if_neg heq] at hcall
              have hnc : ¬ b.size ≥ (align4 size + (sizeof_Block + 4)) % SIZE_MOD :=
                fun hc => hns ⟨by omega, hc⟩
              have hsame : split_block_if_worth h.blockList i (align4 size) = h.blockList := by
                unfold split_block_if_worth
                rw [hget]
                simp only
                rw [if_neg hnc]
              rw [hsame] at hcall
              have hsz : (h.blockList.getD i b).size ≠ align4 size := by
                rw [List.getD_eq_getElem?_getD, hget]
                exact fun hc => heq hc.symm
              rw [if_neg hsz] at hcall
              exact customMalloc_then_free_wf h ptr size r hwf hsane hcall
          · rw [if_neg hle] at hcall
            exact customMalloc_then_free_wf h ptr size r hwf hsane hcall

theorem alloc_run_wf (cs : List alloc_call) :
    ∀ h h2 : heap_t, heap_wf h → (∀ c ∈ cs, c.sane = true) → run_without_split h cs →
      alloc_run h cs = some h2 → heap_wf h2 := by
  induction cs with
  | nil =>
    intro h h2 hwf _ _ hrun
    simp only [alloc_run, Option.some.injEq] at hrun
    subst hrun
    exact hwf
  | cons c rest ih =>
    intro h h2 hwf hsane hns hrun
    have hsc := hsane c (List.mem_cons_self _ _)
    unfold alloc_run at hrun
    unfold run_without_split at hns
    cases hstep : alloc_step h c with
    | none => rw [hstep] at hrun; cases hrun
    | some h1 =>
      rw [hstep] at hrun hns
      simp only at hrun hns
      refine ih h1 h2 ?_ (fun c2 hc2 => hsane c2 (List.mem_cons_of_mem _ hc2)) hns.2 hrun
      cases c with
      | malloc size =>
        simp only [alloc_step, Option.map_eq_some'] at hstep
        obtain ⟨r, hr, e⟩ := hstep
        subst e
        exact customMalloc_wf h size r hwf (by simpa [alloc_call.sane] using hsc) hr
      | free ptr =>
        simp only [alloc_step, Option.some.injEq] at hstep
        subst hstep
        exact customFree_wf h ptr hwf
      | realloc ptr size =>
        simp only [alloc_step, Option.map_eq_some'] at hstep
        obtain ⟨r, hr, e⟩ := hstep
        subst e
        exact customRealloc_wf h ptr size r hwf (by simpa [alloc_call.sane] using hsc) hns.1 hr

theorem heap_empty_wf (start brk_max : Nat) (hm : brk_max < 9223372036854775808) :
    heap_wf (heap_empty start brk_max) := by
  refine ⟨List.chain'_nil, fun last hl => ?_, fun b hb => ?_, hm⟩
  · simp [heap_empty] at hl
  · simp [heap_empty] at hb

theorem run_without_split_of_no_realloc (cs : List alloc_call) :
    ∀ h : heap_t, (∀ c ∈ cs, c.no_realloc = true) → run_without_split h cs := by
  induction cs with
  | nil => intro h _; trivial
  | cons c rest ih =>
    intro h hall
    unfold run_without_split
    constructor
    · cases c with
      | malloc size => trivial
      | free ptr => trivial
      | realloc ptr size =>
        have := hall _ (List.mem_cons_self _ _)
        cases this
    · cases alloc_step h c with
      | none => trivial
      | some h1 => exact ih h1 (fun c2 hc2 => hall c2 (List.mem_cons_of_mem _ hc2))

/-- Runs with requests of at most `2^62` bytes that never split a block in
`customRealloc`, in particular all such runs of `customMalloc` and
`customFree` only, keep the heap well-formed from the empty heap on (the
highest break being an address below `2^63`): the blocks are contiguous up to
the break and no two consecutive blocks are both free. -/
theorem alloc_run_coalesced (start brk_max : Nat) (cs : List alloc_call) (h : heap_t)
    (hm : brk_max < 9223372036854775808) (hsane : ∀ c ∈ cs, c.sane = true)
    (hns : run_without_split (heap_empty start brk_max) cs ∨ ∀ c ∈ cs, c.no_realloc = true)
    (hrun : alloc_run (heap_empty start brk_max) cs = some h) :
    heap_wf h ∧ has_adjacent_free h.blockList = false := by
  have hns2 : run_without_split (heap_empty start brk_max) cs := by
    rcases hns with hns | hns
    · exact hns
    · exact run_without_split_of_no_realloc cs _ hns
  have hwf := alloc_run_wf cs _ h (heap_empty_wf start brk_max hm) hsane hns2 hrun
  exact ⟨hwf, chain_no_adjacent_free _ hwf.1⟩

set_option maxRecDepth 100000 in
theorem alloc_run_coalesced_example :
    alloc_run (heap_empty 4096 1000000) [.malloc 100, .malloc 100, .free 4120, .free 4244] =
      some (heap_empty 4096 1000000) ∧
    has_adjacent_free heap_three_free.blockList = false :=
  ⟨by decide,
   (alloc_run_coalesced 4096 1000000
      [.malloc 200, .malloc 8, .malloc 100, .malloc 8, .malloc 100, .malloc 8,
       .free 4120, .free 4376, .free 4532] heap_three_free (by decide) (by decide)
      (Or.inr (by decide)) (by decide)).2⟩

end Bank
